import Mathlib

/-! # The registry: identifiers, API deployment handlers, tools and the worker pool

A shallow embedding of `server/registry/names/common.go`,
`server/registry/actions_deployments.go`, `cmd/registry/core/tasks.go`,
`cmd/registry/core/complexity.go`, `cmd/registry/cmd/delete/delete.go` and the
rules of `cmd/registry/plugins/registry-lint-openapi-sample/main.go`, with the
paginated listing, the filter engine and the parsers of names that the
specification describes and with the handlers as sequences of steps that run
at the same time, followed by the theorems that settle the properties of their
specification.

Go strings are embedded as Lean strings, that is, as the strings that are
valid UTF-8.  A Go string that is not valid UTF-8 decodes to runes that
include U+FFFD, which no character class below contains.
-/

set_option autoImplicit false

/-! ## The packages `strings` and `unicode` -/

namespace strings

/-- Go `len(s)`: the number of bytes of the string. -/
def len (s : String) : Nat := s.utf8ByteSize

/-- Go `strings.HasPrefix`. -/
def HasPrefix (s pre : String) : Bool := pre.data.isPrefixOf s.data

/-- Go `strings.HasSuffix`. -/
def HasSuffix (s suf : String) : Bool := suf.data.isSuffixOf s.data

end strings

namespace unicode

/-- Go `unicode.MaxASCII`. -/
def MaxASCII : Nat := 0x7F

/-- Go `unicode.ToLower`.  Runes up to `MaxASCII` are handled by the
function itself; the others are looked up in the table `unicode.CaseRanges`
of the Go library, which is the parameter `caseRanges` (the lower-case
mapping that the table gives to a rune). -/
def ToLower (caseRanges : Char → Char) (r : Char) : Char :=
  if r.toNat ≤ MaxASCII then
    if 'A'.toNat ≤ r.toNat ∧ r.toNat ≤ 'Z'.toNat then
      Char.ofNat (r.toNat + ('a'.toNat - 'A'.toNat))
    else r
  else caseRanges r

end unicode

namespace strings

/-- Go `strings.ToLower`: every rune of the string is mapped through
`unicode.ToLower` (the ASCII fast path of the library computes the same
string). -/
def ToLower (caseRanges : Char → Char) (s : String) : String :=
  String.mk (s.data.map (unicode.ToLower caseRanges))

end strings

/-! ## The package `regexp`, as far as the patterns of the sources need it -/

namespace regexp

/-- One instruction of a compiled pattern: the operators `^`, `$`,
a character class `[...]` given by its rune ranges (a literal rune is the
class of that rune, `.` the class of all runes but the newline), and the
repeated classes `[...]+` and `[...]*`. -/
inductive Op where
  | beginText
  | endText
  | charClass (ranges : List (Char × Char))
  | plus (ranges : List (Char × Char))
  | star (ranges : List (Char × Char))
  deriving Repr

/-- A compiled regular expression: the source text of the pattern (what
`Regexp.String` returns) and the sequence of operators it was parsed to. -/
structure Regexp where
  expr : String
  prog : List Op
  deriving Repr

/-- Whether the rune lies in one of the ranges of a character class. -/
def inClass (ranges : List (Char × Char)) (c : Char) : Bool :=
  ranges.any (fun r => decide (r.1.toNat ≤ c.toNat) && decide (c.toNat ≤ r.2.toNat))

/-- The repetition `[...]+` at the head of the input: one rune of the class,
then either the rest of the pattern (`k`) or a further repetition. -/
def matchPlus (ranges : List (Char × Char)) (k : List Char → Bool) : List Char → Bool
  | [] => false
  | c :: s => inClass ranges c && (k s || matchPlus ranges k s)

/-- The repetition `[...]*` at the head of the input: either the rest of the
pattern (`k`), or one rune of the class and a further repetition. -/
def matchStar (ranges : List (Char × Char)) (k : Bool → List Char → Bool) :
    Bool → List Char → Bool
  | atStart, [] => k atStart []
  | atStart, c :: s => k atStart (c :: s) || (inClass ranges c && matchStar ranges k false s)

/-- Match the pattern at the head of the input; `atStart` tells whether the
head of the input is the beginning of the text. -/
def matchHere : List Op → Bool → List Char → Bool
  | [], _, _ => true
  | Op.beginText :: re, atStart, s => atStart && matchHere re atStart s
  | Op.endText :: re, atStart, s => s.isEmpty && matchHere re atStart s
  | Op.charClass _ :: _, _, [] => false
  | Op.charClass ranges :: re, _, c :: s => inClass ranges c && matchHere re false s
  | Op.plus ranges :: re, _, s => matchPlus ranges (matchHere re false) s
  | Op.star ranges :: re, atStart, s => matchStar ranges (matchHere re) atStart s

/-- Try the pattern at every position of the input, leftmost first. -/
def search (re : List Op) : Bool → List Char → Bool
  | atStart, [] => matchHere re atStart []
  | atStart, c :: s => matchHere re atStart (c :: s) || search re false s

/-- Go `(*Regexp).MatchString`: whether the string contains a match. -/
def Regexp.MatchString (re : Regexp) (s : String) : Bool :=
  search re.prog true s.data

end regexp

/-! ## Error values -/

deriving instance DecidableEq for Except

/-- An argument of a `fmt` format string. -/
inductive FmtArg where
  | str (s : String)
  | int (n : Int)
  | nil
  | paths (mask : Option (List String))
  deriving DecidableEq, Repr

/-- The text of a Go `error`: either a given string, or what `fmt` prints
for a format string and its arguments. -/
inductive ErrorText where
  | plain (s : String)
  | sprintf (format : String) (args : List FmtArg)
  deriving DecidableEq, Repr

namespace fmt

/-- Go `fmt.Errorf`. -/
def Errorf (format : String) (args : List FmtArg) : ErrorText :=
  ErrorText.sprintf format args

end fmt

/-! ## `server/registry/names/common.go` -/

namespace names

/-- The format of a resource identifier, the constant `identifier`. -/
def identifier : String := "([A-Za-z0-9-.]+)"

/-- The format of a custom revision tag, the constant `revisionTag`. -/
def revisionTag : String := "([a-z0-9-]+)"

/-- The class `[a-z0-9-.]`: the ranges `a-z` and `0-9` and the two literal
runes `-` and `.` (a `-` that follows a complete range is a literal). -/
def customIdentifierClass : List (Char × Char) :=
  [('a', 'z'), ('0', '9'), ('-', '-'), ('.', '.')]

/-- The format of a custom resource identifier,
`regexp.MustCompile("^[a-z0-9-.]+$")`. -/
def customIdentifier : regexp.Regexp :=
  { expr := "^[a-z0-9-.]+$"
    prog := [regexp.Op.beginText, regexp.Op.plus customIdentifierClass, regexp.Op.endText] }

/-- The function `validateID` returns an error if the provided ID is invalid.
`uuidParses s` tells whether `uuid.Parse(s)` of the library
`github.com/google/uuid` returns a nil error. -/
def validateID (uuidParses : String → Bool) (id : String) : Except ErrorText Unit :=
  if !customIdentifier.MatchString id then
    Except.error (fmt.Errorf "invalid identifier %q: must match %q"
      [FmtArg.str id, FmtArg.str customIdentifier.expr])
  else if uuidParses id then
    Except.error (fmt.Errorf "invalid identifier %q: must not match UUID format" [FmtArg.str id])
  else if strings.len id > 80 then
    Except.error (fmt.Errorf "invalid identifier %q: must be 80 characters or less" [FmtArg.str id])
  else if strings.HasPrefix id "-" || strings.HasPrefix id "." then
    Except.error (fmt.Errorf "invalid identifier %q: must begin with a number or letter"
      [FmtArg.str id])
  else if strings.HasSuffix id "-" || strings.HasSuffix id "." then
    Except.error (fmt.Errorf "invalid identifier %q: must end with a number or letter"
      [FmtArg.str id])
  else
    Except.ok ()

/-- The function `normalize` is the operation for normalizing resource names
and identifiers: `strings.ToLower(identifier)`. -/
def normalize (caseRanges : Char → Char) (identifier : String) : String :=
  strings.ToLower caseRanges identifier

/-- Location is included in resource names immediately following the
project_id. -/
def Location : String := "global"

end names

/-! ## gRPC status errors -/

namespace codes

/-- The gRPC status codes, `google.golang.org/grpc/codes`. -/
inductive Code where
  | OK | Canceled | Unknown | InvalidArgument | DeadlineExceeded | NotFound | AlreadyExists
  | PermissionDenied | ResourceExhausted | FailedPrecondition | Aborted | OutOfRange
  | Unimplemented | Internal | Unavailable | DataLoss | Unauthenticated
  deriving DecidableEq, Repr

end codes

namespace status

/-- A non-nil Go `error` that travels through the handlers: its status code
(`Unknown` for an error that is no gRPC status) and its text. -/
structure Status where
  code : codes.Code
  message : ErrorText
  deriving DecidableEq, Repr

/-- Go `status.Error(c, msg)`. -/
def Error (c : codes.Code) (msg : String) : Status :=
  { code := c, message := ErrorText.plain msg }

/-- Go `status.Errorf(c, format, args...)`. -/
def Errorf (c : codes.Code) (format : String) (args : List FmtArg) : Status :=
  { code := c, message := fmt.Errorf format args }

/-- Go `status.Code(err)` for a non-nil error. -/
def Code (err : Status) : codes.Code := err.code

end status

/-! ## Resource names, requests and storage records -/

namespace names

/-- Api represents a resource name for an API. -/
structure Api where
  ProjectID : String
  ApiID : String
  deriving DecidableEq, Repr

/-- Deployment represents a resource name for an API deployment. -/
structure Deployment where
  ProjectID : String
  ApiID : String
  DeploymentID : String
  deriving DecidableEq, Repr

/-- DeploymentRevision represents a resource name for an API deployment
revision; its fields are those of the literal in `deploymentTagsByRevision`. -/
structure DeploymentRevision where
  ProjectID : String
  ApiID : String
  DeploymentID : String
  RevisionID : String
  deriving DecidableEq, Repr

/-- Modelled from the spec: `names/api.go` is not among the sources.  The
deployment with the given ID under this API (an API owns its deployments). -/
def Api.Deployment (a : Api) (id : String) : Deployment :=
  { ProjectID := a.ProjectID, ApiID := a.ApiID, DeploymentID := id }

/-- Modelled from the spec: `names/deployment.go` is not among the sources.
The parent API of a deployment. -/
def Deployment.Api (d : Deployment) : Api :=
  { ProjectID := d.ProjectID, ApiID := d.ApiID }

/-- Modelled from the spec: `names/deployment.go` is not among the sources.
The revision of this deployment with the given revision ID. -/
def Deployment.Revision (d : Deployment) (id : String) : DeploymentRevision :=
  { ProjectID := d.ProjectID, ApiID := d.ApiID, DeploymentID := d.DeploymentID, RevisionID := id }

/-- Modelled from the spec: `names/deployment_revision.go` is not among the
sources.  The deployment that a revision belongs to. -/
def DeploymentRevision.Deployment (r : DeploymentRevision) : Deployment :=
  { ProjectID := r.ProjectID, ApiID := r.ApiID, DeploymentID := r.DeploymentID }

end names

namespace fieldmaskpb

/-- The message `google.protobuf.FieldMask`. -/
structure FieldMask where
  Paths : List String
  deriving DecidableEq, Repr

end fieldmaskpb

namespace rpc

/-- The kinds of change notification, `rpc.Notification_ChangeType`. -/
inductive Notification_ChangeType where
  | CREATED | UPDATED | DELETED
  deriving DecidableEq, Repr

/-- The request of `CreateApiDeployment`; `Body` stands for
`rpc.ApiDeployment` and `none` for a nil pointer. -/
structure CreateApiDeploymentRequest (Body : Type) where
  Parent : String
  ApiDeploymentId : String
  ApiDeployment : Option Body

/-- The request of `DeleteApiDeployment`. -/
structure DeleteApiDeploymentRequest where
  Name : String

/-- The request of `GetApiDeployment`. -/
structure GetApiDeploymentRequest where
  Name : String

/-- The request of `ListApiDeployments`; `PageSize` is an `int32`. -/
structure ListApiDeploymentsRequest where
  Parent : String
  PageSize : Int
  PageToken : String
  Filter : String

/-- The response of `ListApiDeployments`. -/
structure ListApiDeploymentsResponse (Body : Type) where
  ApiDeployments : List Body
  NextPageToken : String
  deriving DecidableEq, Repr

/-- The request of `UpdateApiDeployment`. -/
structure UpdateApiDeploymentRequest (Body : Type) where
  ApiDeployment : Option Body
  UpdateMask : Option fieldmaskpb.FieldMask
  AllowMissing : Bool

end rpc

namespace models

/-- The record `models.DeploymentRevisionTag`, with the fields that the
handlers read. -/
structure DeploymentRevisionTag where
  ProjectID : String
  ApiID : String
  DeploymentID : String
  RevisionID : String
  Tag : String
  deriving DecidableEq, Repr

end models

namespace storage

/-- The options `storage.PageOptions` of a listing; `Size` is an `int32`. -/
structure PageOptions where
  Size : Int
  Filter : String
  Token : String
  deriving DecidableEq, Repr

/-- The result `storage.DeploymentList` of a listing; `Model` stands for
`models.Deployment`. -/
structure DeploymentList (Model : Type) where
  Deployments : List Model
  Token : String
  deriving DecidableEq, Repr

end storage

/-! ## What the handlers call but the sources do not define

The handlers of `actions_deployments.go` call into the packages `names`,
`models` and `storage` and into other files of the server.  Those functions
are the fields of `Env`; `Store` is the content of the database, `Body` the
message `rpc.ApiDeployment` and `Model` the record `models.Deployment`.  Where
such a function returns a Go `error`, the field returns the text of the error
(`err.Error()`), or a `status.Status` when the handler passes the error on.

A storage call that returns an error leaves the store as it was: the store is
transactional.  The clock and the generator of revision IDs that
`models.NewDeployment` and `Update` read are fixed by the environment. -/

/-- The functions that the handlers call and that are defined outside
`actions_deployments.go`. -/
structure Env (Store Body Model : Type) where
  /-- The function `names.ParseApi` -/
  ParseApi : String → Except String names.Api
  /-- The function `names.ParseDeployment` -/
  ParseDeployment : String → Except String names.Deployment
  /-- The function `names.ParseDeploymentRevision` -/
  ParseDeploymentRevision : String → Except String names.DeploymentRevision
  /-- The function `names.Deployment.Validate` -/
  Validate : names.Deployment → Except String Unit
  /-- The function `names.Deployment.String` -/
  DeploymentString : names.Deployment → String
  /-- The function `names.DeploymentRevision.String` -/
  DeploymentRevisionString : names.DeploymentRevision → String
  /-- The function `rpc.ApiDeployment.GetName` -/
  GetName : Body → String
  /-- The function `models.NewDeployment` -/
  NewDeployment : names.Deployment → Body → Except String Model
  /-- The function `models.ValidateMask` -/
  ValidateMask : Body → Option fieldmaskpb.FieldMask → Except String Unit
  /-- The function `models.ExpandMask` -/
  ExpandMask : Body → Option fieldmaskpb.FieldMask → List String
  /-- The function `models.Deployment.Update`, which returns the updated record -/
  Update : Model → Body → List String → Except String Model
  /-- The function `models.Deployment.BasicMessage` -/
  BasicMessage : Model → String → List String → Except String Body
  /-- The field `RevisionID` of `models.Deployment`. -/
  RevisionID : Model → String
  /-- The function `models.Deployment.RevisionName` -/
  RevisionName : Model → String
  /-- The function `models.Deployment.Name` -/
  Name : Model → String
  /-- The function `isNotFound`, applied to an error that may be nil (`none`) -/
  isNotFound : Option status.Status → Bool
  /-- The function `RegistryServer.getStorageClient` -/
  getStorageClient : Store → Except String Unit
  /-- The function `storage.Client.GetDeployment` -/
  GetDeployment : Store → names.Deployment → Except status.Status Model
  /-- The function `storage.Client.GetDeploymentRevision` -/
  GetDeploymentRevision : Store → names.DeploymentRevision → Except status.Status Model
  /-- The function `storage.Client.GetApi`; the record it returns is not used -/
  GetApi : Store → names.Api → Except status.Status Unit
  /-- The function `storage.Client.ListDeployments` -/
  ListDeployments : Store → names.Api → storage.PageOptions →
    Except status.Status (storage.DeploymentList Model)
  /-- The function `storage.Client.GetDeploymentTags` -/
  GetDeploymentTags : Store → names.Deployment →
    Except status.Status (List models.DeploymentRevisionTag)
  /-- The function `storage.Client.SaveDeploymentRevision` -/
  SaveDeploymentRevision : Store → Model → Except status.Status Store
  /-- The function `storage.Client.DeleteDeployment` -/
  DeleteDeployment : Store → names.Deployment → Except status.Status Store

/-- What a handler does to the world outside it, in the order it happens:
the storage client it acquires and closes, the storage calls it issues (the
two that write carry whether they succeeded), the notification it emits and
its use of `updateDeploymentMutex`. -/
inductive Event (Model : Type) where
  | getStorageClient
  | Close
  | GetDeployment (name : names.Deployment)
  | GetDeploymentRevision (name : names.DeploymentRevision)
  | GetApi (name : names.Api)
  | ListDeployments (parent : names.Api) (opts : storage.PageOptions)
  | GetDeploymentTags (name : names.Deployment)
  | SaveDeploymentRevision (deployment : Model) (ok : Bool)
  | DeleteDeployment (name : names.Deployment) (ok : Bool)
  | notify (change : rpc.Notification_ChangeType) (name : String)
  | Lock
  | Unlock
  deriving DecidableEq, Repr

/-- The state the handlers run in: the content of the store and the events
so far. -/
structure World (Store Model : Type) where
  store : Store
  trace : List (Event Model)
  deriving DecidableEq, Repr

namespace World

variable {Store Model : Type}

/-- The world with the given store and no event yet. -/
def start (store : Store) : World Store Model := { store := store, trace := [] }

/-- Record an event. -/
def emit (w : World Store Model) (e : Event Model) : World Store Model :=
  { w with trace := w.trace ++ [e] }

end World

/-- The revisions that were saved: the deployments of the calls of
`SaveDeploymentRevision` that returned no error. -/
def savedRevisions {Model : Type} : List (Event Model) → List Model
  | [] => []
  | Event.SaveDeploymentRevision d true :: t => d :: savedRevisions t
  | _ :: t => savedRevisions t

/-- The notifications that were emitted. -/
def notifications {Model : Type} :
    List (Event Model) → List (rpc.Notification_ChangeType × String)
  | [] => []
  | Event.notify change name :: t => (change, name) :: notifications t
  | _ :: t => notifications t

/-- The options of the calls of `ListDeployments`. -/
def listingCalls {Model : Type} : List (Event Model) → List (names.Api × storage.PageOptions)
  | [] => []
  | Event.ListDeployments parent opts :: t => (parent, opts) :: listingCalls t
  | _ :: t => listingCalls t

/-- Whether the event is a call of a method of the storage client other than
`Close`. -/
def Event.isStorageCall {Model : Type} : Event Model → Bool
  | Event.GetDeployment _ => true
  | Event.GetDeploymentRevision _ => true
  | Event.GetApi _ => true
  | Event.ListDeployments _ _ => true
  | Event.GetDeploymentTags _ => true
  | Event.SaveDeploymentRevision _ _ => true
  | Event.DeleteDeployment _ _ => true
  | _ => false

/-! ## `server/registry/actions_deployments.go` -/

section handlers

variable {Store Body Model : Type}

/-- The opening of every handler that uses the store:
`db, err := s.getStorageClient(ctx)`, the return of `Unavailable` when that
fails, and `defer db.Close()` around the rest of the handler. -/
def withStorageClient {α : Type} (env : Env Store Body Model) (w : World Store Model)
    (rest : World Store Model → Except status.Status α × World Store Model) :
    Except status.Status α × World Store Model :=
  match env.getStorageClient w.store with
  | Except.error err => (Except.error (status.Error codes.Code.Unavailable err), w)
  | Except.ok () =>
    let r := rest (w.emit Event.getStorageClient)
    (r.1, r.2.emit Event.Close)

/-- The method `createDeployment` of the server. -/
def createDeployment (env : Env Store Body Model) (w : World Store Model)
    (name : names.Deployment) (body : Body) : Except status.Status Body × World Store Model :=
  withStorageClient env w fun w =>
    let w := w.emit (Event.GetDeployment name)
    match env.GetDeployment w.store name with
    | Except.ok _ =>
      (Except.error (status.Errorf codes.Code.AlreadyExists "API deployment %q already exists"
        [FmtArg.str (env.DeploymentString name)]), w)
    | Except.error err =>
      if !env.isNotFound (some err) then (Except.error err, w)
      else
        match env.Validate name with
        | Except.error err => (Except.error (status.Error codes.Code.InvalidArgument err), w)
        | Except.ok () =>
          -- Creation should only succeed when the parent exists.
          let w := w.emit (Event.GetApi name.Api)
          match env.GetApi w.store name.Api with
          | Except.error err => (Except.error err, w)
          | Except.ok () =>
            match env.NewDeployment name body with
            | Except.error err =>
              (Except.error (status.Error codes.Code.InvalidArgument err), w)
            | Except.ok deployment =>
              match env.SaveDeploymentRevision w.store deployment with
              | Except.error err =>
                (Except.error err, w.emit (Event.SaveDeploymentRevision deployment false))
              | Except.ok store =>
                let w : World Store Model :=
                  { store := store
                    trace := w.trace ++ [Event.SaveDeploymentRevision deployment true] }
                match env.BasicMessage deployment (env.DeploymentString name) [] with
                | Except.error err =>
                  (Except.error (status.Error codes.Code.Internal err), w)
                | Except.ok message =>
                  (Except.ok message,
                    w.emit (Event.notify rpc.Notification_ChangeType.CREATED
                      (env.RevisionName deployment)))

/-- CreateApiDeployment handles the corresponding API request. -/
def CreateApiDeployment (env : Env Store Body Model) (w : World Store Model)
    (req : rpc.CreateApiDeploymentRequest Body) :
    Except status.Status Body × World Store Model :=
  match env.ParseApi req.Parent with
  | Except.error err => (Except.error (status.Error codes.Code.InvalidArgument err), w)
  | Except.ok parent =>
    match req.ApiDeployment with
    | none =>
      (Except.error (status.Errorf codes.Code.InvalidArgument
        "invalid api_deployment %+v: body must be provided" [FmtArg.nil]), w)
    | some body => createDeployment env w (parent.Deployment req.ApiDeploymentId) body

/-- DeleteApiDeployment handles the corresponding API request. -/
def DeleteApiDeployment (env : Env Store Body Model) (w : World Store Model)
    (req : rpc.DeleteApiDeploymentRequest) : Except status.Status Unit × World Store Model :=
  withStorageClient env w fun w =>
    match env.ParseDeployment req.Name with
    | Except.error err => (Except.error (status.Error codes.Code.InvalidArgument err), w)
    | Except.ok name =>
      -- Deletion should only succeed on API deployments that currently exist.
      let w := w.emit (Event.GetDeployment name)
      match env.GetDeployment w.store name with
      | Except.error err => (Except.error err, w)
      | Except.ok _ =>
        match env.DeleteDeployment w.store name with
        | Except.error err => (Except.error err, w.emit (Event.DeleteDeployment name false))
        | Except.ok store =>
          let w : World Store Model :=
            { store := store, trace := w.trace ++ [Event.DeleteDeployment name true] }
          (Except.ok (),
            w.emit (Event.notify rpc.Notification_ChangeType.DELETED (env.DeploymentString name)))

/-- The loop of `deploymentRevisionTags`: the tags of the revision with the
given ID are appended, in order, to `tags`. -/
def revisionTagsLoop (revisionID : String) :
    List models.DeploymentRevisionTag → List String → List String
  | [], tags => tags
  | tag :: rest, tags =>
    if tag.RevisionID = revisionID then revisionTagsLoop revisionID rest (tags ++ [tag.Tag])
    else revisionTagsLoop revisionID rest tags

/-- The function `deploymentRevisionTags`. -/
def deploymentRevisionTags (env : Env Store Body Model) (w : World Store Model)
    (name : names.DeploymentRevision) : Except status.Status (List String) × World Store Model :=
  let w := w.emit (Event.GetDeploymentTags name.Deployment)
  match env.GetDeploymentTags w.store name.Deployment with
  | Except.error err => (Except.error err, w)
  | Except.ok allTags => (Except.ok (revisionTagsLoop name.RevisionID allTags []), w)

/-- Go `m[key]` on a `map[string][]string`, kept as a list of entries with
distinct keys: the value of the key, or nil. -/
def mapIndex (m : List (String × List String)) (key : String) : List String :=
  match m with
  | [] => []
  | (k, v) :: rest => if k = key then v else mapIndex rest key

/-- Go `m[key] = value` on a `map[string][]string`. -/
def mapAssign (m : List (String × List String)) (key : String) (value : List String) :
    List (String × List String) :=
  match m with
  | [] => [(key, value)]
  | (k, v) :: rest => if k = key then (k, value) :: rest else (k, v) :: mapAssign rest key value

/-- The loop of `deploymentTagsByRevision`. -/
def tagsByRevisionLoop (env : Env Store Body Model) :
    List models.DeploymentRevisionTag → List (String × List String) →
      List (String × List String)
  | [], revTags => revTags
  | tag :: rest, revTags =>
    let rev := env.DeploymentRevisionString
      { ProjectID := tag.ProjectID, ApiID := tag.ApiID,
        DeploymentID := tag.DeploymentID, RevisionID := tag.RevisionID }
    tagsByRevisionLoop env rest (mapAssign revTags rev (mapIndex revTags rev ++ [tag.Tag]))

/-- The function `deploymentTagsByRevision`. -/
def deploymentTagsByRevision (env : Env Store Body Model)
    (tags : List models.DeploymentRevisionTag) : List (String × List String) :=
  tagsByRevisionLoop env tags []

/-- The method `getApiDeployment` of the server. -/
def getApiDeployment (env : Env Store Body Model) (w : World Store Model)
    (name : names.Deployment) : Except status.Status Body × World Store Model :=
  withStorageClient env w fun w =>
    let w := w.emit (Event.GetDeployment name)
    match env.GetDeployment w.store name with
    | Except.error err => (Except.error err, w)
    | Except.ok deployment =>
      match deploymentRevisionTags env w (name.Revision (env.RevisionID deployment)) with
      | (Except.error err, w) => (Except.error err, w)
      | (Except.ok tags, w) =>
        match env.BasicMessage deployment (env.DeploymentString name) tags with
        | Except.error err => (Except.error (status.Error codes.Code.Internal err), w)
        | Except.ok message => (Except.ok message, w)

/-- The method `getApiDeploymentRevision` of the server. -/
def getApiDeploymentRevision (env : Env Store Body Model) (w : World Store Model)
    (name : names.DeploymentRevision) : Except status.Status Body × World Store Model :=
  withStorageClient env w fun w =>
    let w := w.emit (Event.GetDeploymentRevision name)
    match env.GetDeploymentRevision w.store name with
    | Except.error err => (Except.error err, w)
    | Except.ok revision =>
      match deploymentRevisionTags env w name with
      | (Except.error err, w) => (Except.error err, w)
      | (Except.ok tags, w) =>
        match env.BasicMessage revision (env.DeploymentRevisionString name) tags with
        | Except.error err => (Except.error (status.Error codes.Code.Internal err), w)
        | Except.ok message => (Except.ok message, w)

/-- GetApiDeployment handles the corresponding API request. -/
def GetApiDeployment (env : Env Store Body Model) (w : World Store Model)
    (req : rpc.GetApiDeploymentRequest) : Except status.Status Body × World Store Model :=
  match env.ParseDeployment req.Name with
  | Except.ok name => getApiDeployment env w name
  | Except.error _ =>
    match env.ParseDeploymentRevision req.Name with
    | Except.ok name => getApiDeploymentRevision env w name
    | Except.error _ =>
      (Except.error (status.Errorf codes.Code.InvalidArgument
        "invalid resource name %q, must be an API deployment or revision"
        [FmtArg.str req.Name]), w)

/-- The loop that fills `response.ApiDeployments`: the basic message of every
listed deployment with the tags of its revision, up to the first failure. -/
def listMessages (env : Env Store Body Model) (tagsByRev : List (String × List String)) :
    List Model → Except String (List Body)
  | [] => Except.ok []
  | deployment :: rest =>
    match env.BasicMessage deployment (env.Name deployment)
        (mapIndex tagsByRev (env.RevisionName deployment)) with
    | Except.error err => Except.error err
    | Except.ok message =>
      match listMessages env tagsByRev rest with
      | Except.error err => Except.error err
      | Except.ok messages => Except.ok (message :: messages)

/-- ListApiDeployments handles the corresponding API request. -/
def ListApiDeployments (env : Env Store Body Model) (w : World Store Model)
    (req : rpc.ListApiDeploymentsRequest) :
    Except status.Status (rpc.ListApiDeploymentsResponse Body) × World Store Model :=
  withStorageClient env w fun w =>
    if req.PageSize < 0 then
      (Except.error (status.Errorf codes.Code.InvalidArgument
        "invalid page_size %d: must not be negative" [FmtArg.int req.PageSize]), w)
    else
      -- the assignments to `req.PageSize`; the other fields of `req` stay as they are
      let pageSize : Int :=
        if req.PageSize > 1000 then 1000
        else if req.PageSize = 0 then 50
        else req.PageSize
      match env.ParseApi req.Parent with
      | Except.error err => (Except.error (status.Error codes.Code.InvalidArgument err), w)
      | Except.ok parent =>
        let opts : storage.PageOptions :=
          { Size := pageSize, Filter := req.Filter, Token := req.PageToken }
        let w := w.emit (Event.ListDeployments parent opts)
        match env.ListDeployments w.store parent opts with
        | Except.error err => (Except.error err, w)
        | Except.ok listing =>
          let w := w.emit (Event.GetDeploymentTags (parent.Deployment "-"))
          match env.GetDeploymentTags w.store (parent.Deployment "-") with
          | Except.error err => (Except.error err, w)
          | Except.ok tags =>
            let tagsByRev := deploymentTagsByRevision env tags
            match listMessages env tagsByRev listing.Deployments with
            | Except.error err => (Except.error (status.Error codes.Code.Internal err), w)
            | Except.ok messages =>
              (Except.ok { ApiDeployments := messages, NextPageToken := listing.Token }, w)

/-- The use of `updateDeploymentMutex` in `UpdateApiDeployment`: when
`allow_missing` is set, `Lock()` before and `defer Unlock()` around the rest of
the handler. -/
def withUpdateDeploymentMutex {α : Type} (allowMissing : Bool) (w : World Store Model)
    (rest : World Store Model → Except status.Status α × World Store Model) :
    Except status.Status α × World Store Model :=
  if allowMissing then
    let r := rest (w.emit Event.Lock)
    (r.1, r.2.emit Event.Unlock)
  else rest w

/-- UpdateApiDeployment handles the corresponding API request. -/
def UpdateApiDeployment (env : Env Store Body Model) (w : World Store Model)
    (req : rpc.UpdateApiDeploymentRequest Body) :
    Except status.Status Body × World Store Model :=
  withStorageClient env w fun w =>
    match req.ApiDeployment with
    | none =>
      (Except.error (status.Errorf codes.Code.InvalidArgument
        "invalid api_deployment %+v: body must be provided" [FmtArg.nil]), w)
    | some body =>
      match env.ValidateMask body req.UpdateMask with
      | Except.error err =>
        (Except.error (status.Errorf codes.Code.InvalidArgument "invalid update_mask %v: %s"
          [FmtArg.paths (req.UpdateMask.map fun m => m.Paths), FmtArg.str err]), w)
      | Except.ok () =>
        match env.ParseDeployment (env.GetName body) with
        | Except.error err => (Except.error (status.Error codes.Code.InvalidArgument err), w)
        | Except.ok name =>
          withUpdateDeploymentMutex req.AllowMissing w fun w =>
            let w := w.emit (Event.GetDeployment name)
            let found := env.GetDeployment w.store name
            let err : Option status.Status :=
              match found with
              | Except.ok _ => none
              | Except.error err => some err
            if req.AllowMissing && env.isNotFound err then createDeployment env w name body
            else
              match found with
              | Except.error err => (Except.error err, w)
              | Except.ok deployment =>
                -- Apply the update to the deployment - possibly changing the revision ID.
                let maskExpansion := env.ExpandMask body req.UpdateMask
                match env.Update deployment body maskExpansion with
                | Except.error err => (Except.error (status.Error codes.Code.Internal err), w)
                | Except.ok deployment =>
                  -- Save the updated/current deployment.
                  match env.SaveDeploymentRevision w.store deployment with
                  | Except.error err =>
                    (Except.error err, w.emit (Event.SaveDeploymentRevision deployment false))
                  | Except.ok store =>
                    let w : World Store Model :=
                      { store := store
                        trace := w.trace ++ [Event.SaveDeploymentRevision deployment true] }
                    match deploymentRevisionTags env w
                        (name.Revision (env.RevisionID deployment)) with
                    | (Except.error err, w) => (Except.error err, w)
                    | (Except.ok tags, w) =>
                      match env.BasicMessage deployment (env.DeploymentString name) tags with
                      | Except.error err =>
                        (Except.error (status.Error codes.Code.Internal err), w)
                      | Except.ok message =>
                        (Except.ok message,
                          w.emit (Event.notify rpc.Notification_ChangeType.UPDATED
                            (env.RevisionName deployment)))

end handlers

/-- A UUID oracle for strings that `uuid.Parse` rejects for their length alone:
it accepts nothing.  The library accepts only strings of 32, 36, 38 or 45
bytes. -/
def uuidRejectsAll : String → Bool := fun _ => false

namespace uuid

/-- Whether the byte is a hexadecimal digit, as the table `xvalues` of the
library `github.com/google/uuid` has it. -/
def isHexDigit (c : Char) : Bool :=
  ('0' ≤ c && c ≤ '9') || ('a' ≤ c && c ≤ 'f') || ('A' ≤ c && c ≤ 'F')

/-- Whether the first 36 bytes have the form
`xxxxxxxx-xxxx-xxxx-xxxx-xxxxxxxxxxxx`: `-` at the places 8, 13, 18 and 23 and
hexadecimal digits at the other places. -/
def isStandardForm (s : List Char) : Bool :=
  (List.range 36).all fun i =>
    match s.get? i with
    | none => false
    | some c => if i = 8 ∨ i = 13 ∨ i = 18 ∨ i = 23 then c = '-' else isHexDigit c

/-- The lower case of an ASCII letter. -/
def lowerASCII (c : Char) : Char :=
  if 'A' ≤ c ∧ c ≤ 'Z' then Char.ofNat (c.toNat + 32) else c

/-- Whether `uuid.Parse(s)` of the library `github.com/google/uuid` returns a
nil error.  The library goes by the length of the string in bytes: 36 bytes
must have the standard form; 45 bytes must be `urn:uuid:`, in any case, and the
standard form; of 38 bytes the first and the last are not looked at and the
others must have the standard form; 32 bytes must be hexadecimal digits; every
other length is an error.  In each case a rune outside ASCII puts a byte that
is no digit, no `-` and no letter where one is looked for, so a string with
such a rune is rejected, and for the other strings bytes and runes are the
same. -/
def parses (s : String) : Bool :=
  if s.data.any (fun c => 128 ≤ c.toNat) then false
  else
    match s.data.length with
    | 36 => isStandardForm s.data
    | 45 => (s.data.take 9).map lowerASCII = "urn:uuid:".data && isStandardForm (s.data.drop 9)
    | 38 => isStandardForm (s.data.drop 1)
    | 32 => s.data.all isHexDigit
    | _ => false

end uuid

/-- The rows of `unicode.CaseRanges` for the Latin-1 letters: the runes
U+00C0 to U+00D6 and U+00D8 to U+00DE have their lower case 32 places further
on; every other rune is mapped to itself. -/
def latin1CaseRanges (r : Char) : Char :=
  if (0xC0 ≤ r.toNat ∧ r.toNat ≤ 0xD6) ∨ (0xD8 ≤ r.toNat ∧ r.toNat ≤ 0xDE) then
    Char.ofNat (r.toNat + 32)
  else r

/-! ## A registry in memory

A small instance of `Env`, on which the handlers can be run: the names have
the form `projects/P/locations/global/apis/A/deployments/D` and
`...deployments/D@R` of the server's tests, and the store is a list of
revisions, the most recent first. -/

namespace memory

/-- The message `rpc.ApiDeployment`, with four of its fields. -/
structure ApiDeployment where
  Name : String
  Description : String
  RevisionId : String
  RevisionTags : List String
  deriving DecidableEq, Repr

/-- The record `models.Deployment`, with five of its fields. -/
structure Deployment where
  ProjectID : String
  ApiID : String
  DeploymentID : String
  RevisionID : String
  Description : String
  deriving DecidableEq, Repr

/-- The content of the database, and whether it can be reached. -/
structure Store where
  available : Bool
  apis : List names.Api
  deployments : List Deployment
  tags : List models.DeploymentRevisionTag
  deriving DecidableEq, Repr

/-- The pieces of a text between the occurrences of a separator. -/
def splitOn (sep : Char) : List Char → List (List Char)
  | [] => [[]]
  | c :: cs =>
    match splitOn sep cs with
    | [] => [[c]]
    | seg :: segs => if c = sep then [] :: seg :: segs else (c :: seg) :: segs

/-- The segments of a resource name. -/
def segments (name : String) : List String := (splitOn '/' name.data).map String.mk

/-- Whether the whole text matches `[A-Za-z0-9-.]+`, the constant `identifier`
of the package `names`. -/
def isIdentifier (s : String) : Bool :=
  regexp.search [regexp.Op.beginText,
    regexp.Op.plus [('A', 'Z'), ('a', 'z'), ('0', '9'), ('-', '-'), ('.', '.')],
    regexp.Op.endText] true s.data

/-- Whether the whole text matches `[a-z0-9-]+`, the constant `revisionTag` of
the package `names`. -/
def isRevisionTag (s : String) : Bool :=
  regexp.search [regexp.Op.beginText,
    regexp.Op.plus [('a', 'z'), ('0', '9'), ('-', '-')], regexp.Op.endText] true s.data

/-- The lower case of a name that has ASCII letters only. -/
def lower (s : String) : String := names.normalize (fun r => r) s

/-- Modelled from the spec: `names.ParseApi` is not among the sources.  The
name must have the shape `projects/P/locations/global/apis/A`, whole and with
identifiers for `P` and `A`; parsing fails closed. -/
def ParseApi (name : String) : Except String names.Api :=
  match segments name with
  | ["projects", p, "locations", "global", "apis", a] =>
    if isIdentifier p && isIdentifier a then Except.ok { ProjectID := p, ApiID := a }
    else Except.error "invalid API name"
  | _ => Except.error "invalid API name"

/-- Modelled from the spec: `names.ParseDeployment` is not among the sources.
The name must have the shape `projects/P/locations/global/apis/A/deployments/D`;
a name with a revision suffix `@R` is no deployment name. -/
def ParseDeployment (name : String) : Except String names.Deployment :=
  match segments name with
  | ["projects", p, "locations", "global", "apis", a, "deployments", d] =>
    if isIdentifier p && isIdentifier a && isIdentifier d then
      Except.ok { ProjectID := p, ApiID := a, DeploymentID := d }
    else Except.error "invalid deployment name"
  | _ => Except.error "invalid deployment name"

/-- Modelled from the spec: `names.ParseDeploymentRevision` is not among the
sources.  The name must have the shape
`projects/P/locations/global/apis/A/deployments/D@R`. -/
def ParseDeploymentRevision (name : String) : Except String names.DeploymentRevision :=
  match segments name with
  | ["projects", p, "locations", "global", "apis", a, "deployments", dr] =>
    match (splitOn '@' dr.data).map String.mk with
    | [d, r] =>
      if isIdentifier p && isIdentifier a && isIdentifier d && isRevisionTag r then
        Except.ok { ProjectID := p, ApiID := a, DeploymentID := d, RevisionID := r }
      else Except.error "invalid deployment revision name"
    | _ => Except.error "invalid deployment revision name"
  | _ => Except.error "invalid deployment revision name"

/-- Modelled from the spec: `names.Api.String` is not among the sources.  The
name of the API, normalized to lower case. -/
def ApiString (n : names.Api) : String :=
  lower ("projects/" ++ n.ProjectID ++ "/locations/" ++ names.Location ++ "/apis/" ++ n.ApiID)

/-- Modelled from the spec: `names.Deployment.String` is not among the
sources.  The name of the deployment as the tests write it, normalized to lower
case. -/
def DeploymentString (n : names.Deployment) : String :=
  lower ("projects/" ++ n.ProjectID ++ "/locations/" ++ names.Location ++ "/apis/" ++ n.ApiID
    ++ "/deployments/" ++ n.DeploymentID)

/-- Modelled from the spec: `names.DeploymentRevision.String` is not among
the sources.  The revision-qualified name: the name of the deployment, `@` and
the revision ID, normalized to lower case. -/
def DeploymentRevisionString (n : names.DeploymentRevision) : String :=
  lower ("projects/" ++ n.ProjectID ++ "/locations/" ++ names.Location ++ "/apis/" ++ n.ApiID
    ++ "/deployments/" ++ n.DeploymentID ++ "@" ++ n.RevisionID)

/-- The resource name of a stored deployment. -/
def Deployment.name (d : Deployment) : names.Deployment :=
  { ProjectID := d.ProjectID, ApiID := d.ApiID, DeploymentID := d.DeploymentID }

/-- Whether a stored name lies in the scope of a requested one, in which `-`
stands for any identifier; names are compared in lower case. -/
def inScope (requested stored : String) : Bool :=
  requested = "-" || lower requested = lower stored

/-- Whether a stored deployment lies in the scope of a requested name. -/
def sameDeployment (n : names.Deployment) (d : Deployment) : Bool :=
  inScope n.ProjectID d.ProjectID && inScope n.ApiID d.ApiID
    && inScope n.DeploymentID d.DeploymentID

/-- The error of the store for a name that it does not hold. -/
def notFound (name : String) : status.Status :=
  status.Errorf codes.Code.NotFound "%q not found in database" [FmtArg.str name]

/-- Modelled from the spec: the packages `names`, `models` and `storage` and
the server's `getStorageClient`, `notify` and `isNotFound` are not among the
sources.  The registry in memory: names are compared in lower case, a lookup of
a name that is not stored fails with `NotFound`, a save puts the revision in
front, a deletion removes every revision of the deployment, every new
revision gets the ID `1a2b3c4d`, and the ID of a deployment is valid when
`validateID` accepts it, with `uuid.Parse` as `uuid.parses` has it. -/
def env : Env Store ApiDeployment Deployment where
  ParseApi := ParseApi
  ParseDeployment := ParseDeployment
  ParseDeploymentRevision := ParseDeploymentRevision
  Validate := fun n =>
    match names.validateID uuid.parses n.DeploymentID with
    | Except.ok () => Except.ok ()
    | Except.error _ => Except.error "invalid identifier"
  DeploymentString := DeploymentString
  DeploymentRevisionString := DeploymentRevisionString
  GetName := fun body => body.Name
  NewDeployment := fun n body =>
    Except.ok { ProjectID := n.ProjectID, ApiID := n.ApiID, DeploymentID := n.DeploymentID,
                RevisionID := "1a2b3c4d", Description := body.Description }
  ValidateMask := fun _ mask =>
    match mask with
    | none => Except.ok ()
    | some m =>
      if m.Paths.all (fun path => path = "*" || path = "description") then Except.ok ()
      else Except.error "unknown field"
  ExpandMask := fun _ mask =>
    match mask with
    | none => ["description"]
    | some m => if m.Paths.contains "*" then ["description"] else m.Paths
  Update := fun d body paths =>
    Except.ok (if paths.contains "description" then { d with Description := body.Description }
      else d)
  BasicMessage := fun d name tags =>
    Except.ok { Name := name, Description := d.Description, RevisionId := d.RevisionID,
                RevisionTags := tags }
  RevisionID := fun d => d.RevisionID
  RevisionName := fun d => DeploymentRevisionString (d.name.Revision d.RevisionID)
  Name := fun d => DeploymentString d.name
  isNotFound := fun err =>
    match err with
    | none => false
    | some e => status.Code e = codes.Code.NotFound
  getStorageClient := fun store =>
    if store.available then Except.ok () else Except.error "the database cannot be reached"
  GetDeployment := fun store n =>
    match store.deployments.find? (sameDeployment n) with
    | some d => Except.ok d
    | none => Except.error (notFound (DeploymentString n))
  GetDeploymentRevision := fun store n =>
    match store.deployments.find?
        (fun d => sameDeployment n.Deployment d && lower n.RevisionID = lower d.RevisionID) with
    | some d => Except.ok d
    | none => Except.error (notFound (DeploymentRevisionString n))
  GetApi := fun store n =>
    if store.apis.any (fun a => inScope n.ProjectID a.ProjectID && inScope n.ApiID a.ApiID)
    then Except.ok ()
    else Except.error (notFound (ApiString n))
  ListDeployments := fun store parent opts =>
    Except.ok
      { Deployments := (store.deployments.filter
          (sameDeployment (parent.Deployment "-"))).take opts.Size.toNat
        Token := "" }
  GetDeploymentTags := fun store n =>
    Except.ok (store.tags.filter fun t =>
      inScope n.ProjectID t.ProjectID && inScope n.ApiID t.ApiID
        && inScope n.DeploymentID t.DeploymentID)
  SaveDeploymentRevision := fun store d =>
    Except.ok { store with
      deployments := d :: store.deployments.filter
        (fun e => !(sameDeployment d.name e && e.RevisionID = d.RevisionID)) }
  DeleteDeployment := fun store n =>
    Except.ok { store with deployments := store.deployments.filter (fun d => !sameDeployment n d) }

/-- The name of the API of the tests. -/
def apiA : String := "projects/my-project/locations/global/apis/a"

/-- The name of the deployment of the tests. -/
def myDeployment : String :=
  "projects/my-project/locations/global/apis/a/deployments/my-deployment"

/-- The stored revision of that deployment. -/
def seed : Deployment :=
  { ProjectID := "my-project", ApiID := "a", DeploymentID := "my-deployment",
    RevisionID := "9f8e7d6c", Description := "" }

/-- A store that holds the API `a` and its deployment `my-deployment`. -/
def seeded : Store :=
  { available := true
    apis := [{ ProjectID := "my-project", ApiID := "a" }]
    deployments := [seed]
    tags := [] }

/-- A store that holds the API `a` and no deployment. -/
def seededApi : Store :=
  { available := true
    apis := [{ ProjectID := "my-project", ApiID := "a" }]
    deployments := []
    tags := [] }

/-- A store that cannot be reached. -/
def unreachable : Store := { seeded with available := false }

end memory

/-! ## Further stores and storage layers in memory -/

namespace memory

/-- A store in which the deployment `my-deployment` has three tags: `prod` and
`stable` on its stored revision `9f8e7d6c`, and `old` on a revision
`11111111`. -/
def tagged : Store :=
  { seeded with
    tags := [
      { ProjectID := "my-project", ApiID := "a", DeploymentID := "my-deployment",
        RevisionID := "9f8e7d6c", Tag := "prod" },
      { ProjectID := "my-project", ApiID := "a", DeploymentID := "my-deployment",
        RevisionID := "11111111", Tag := "old" },
      { ProjectID := "my-project", ApiID := "a", DeploymentID := "my-deployment",
        RevisionID := "9f8e7d6c", Tag := "stable" }] }

/-- An update of the deployment `my-deployment` to the given description, which
creates the deployment when it is missing. -/
def upsert (description : String) : rpc.UpdateApiDeploymentRequest ApiDeployment :=
  { ApiDeployment := some ⟨myDeployment, description, "", []⟩, UpdateMask := none,
    AllowMissing := true }

/-- The revision of `my-deployment` that the registry in memory creates for the
given description. -/
def revision (description : String) : Deployment :=
  { ProjectID := "my-project", ApiID := "a", DeploymentID := "my-deployment",
    RevisionID := "1a2b3c4d", Description := description }

/-- The store that holds the API `a` and the given revisions. -/
def holding (revisions : List Deployment) : Store :=
  { seededApi with deployments := revisions }

/-- The registry in memory with a storage layer whose query for tags fails,
as when the connection to the database is lost after a write. -/
def envTagsFail : Env Store ApiDeployment Deployment :=
  { env with
    GetDeploymentTags := fun _ _ =>
      Except.error (status.Error codes.Code.Internal "the connection was lost") }

/-- The registry in memory with a `BasicMessage` that fails, as when the stored
labels of the record cannot be decoded. -/
def envMessageFails : Env Store ApiDeployment Deployment :=
  { env with BasicMessage := fun _ _ _ => Except.error "the labels cannot be decoded" }

end memory

/-! ## `cmd/registry/core/tasks.go`

A task is run for its effects, which the embedding records as the list of the
tasks that were run.  Channels are the buffered channels of Go: a send on a
closed channel panics, a send on a full channel waits, and a receive from a
closed channel yields what is left in the buffer and then ends the `range`
loop. -/

namespace core

/-- Task is a generic interface for a runnable operation: what `String()`
returns, and what `Run(ctx)` returns in the execution at hand, a result that
may be nil and an error that may be nil. -/
structure Task (Result : Type) where
  Run : Option Result × Option String
  String : String
  deriving DecidableEq, Repr

/-- A buffered channel: the values in its buffer, the oldest first, the
capacity it was made with, and whether it has been closed. -/
structure Chan (α : Type) where
  buf : List α
  cap : Nat
  closed : Bool
  deriving DecidableEq, Repr

/-- What happens to a send: it goes through, it has to wait, or it panics. -/
inductive Sent (α : Type) where
  | ok (ch : Chan α)
  | waits
  | panics
  deriving DecidableEq, Repr

/-- Go `ch <- x`, with no goroutine receiving from the channel. -/
def Chan.send {α : Type} (ch : Chan α) (x : α) : Sent α :=
  if ch.closed then Sent.panics
  else if ch.buf.length < ch.cap then Sent.ok { ch with buf := ch.buf ++ [x] }
  else Sent.waits

/-- Go `close(ch)` of a channel that is open. -/
def Chan.close {α : Type} (ch : Chan α) : Chan α := { ch with closed := true }

/-- What the body of the loop of `worker` does with a task it has received:
it returns because the context is done, or it runs the task and then logs the
failure, or has a result to send, or has nothing to send. -/
inductive Handled (Result : Type) where
  | done
  | failed (err : String)
  | result (r : Result)
  | nothing
  deriving DecidableEq, Repr

/-- The `select` statement of `worker` for a received task; `ctxDone` tells
whether `ctx.Done()` is ready when the statement is reached. -/
def handle {Result : Type} (ctxDone : Bool) (task : Task Result) : Handled Result :=
  if ctxDone then Handled.done
  else
    match task.Run with
    | (_, some err) => Handled.failed err
    | (some r, none) => Handled.result r
    | (none, none) => Handled.nothing

/-- How the execution of a goroutine stands when it can go no further. -/
inductive Exit where
  | returned
  | waitsToReceive
  | waitsToSend
  | panicked
  deriving DecidableEq, Repr

/-- The execution of one `worker` on its own: the tasks it ran, in order, the
failures it logged (the error and the task), the channel of results as it
leaves it, and how it ends. -/
structure WorkerRun (Result : Type) where
  ran : List (Task Result)
  logged : List (String × String)
  results : Chan Result
  exit : Exit
  deriving DecidableEq, Repr

/-- The loop `for task := range taskQueue` of `worker`, from its iteration
number `i` on: `queue` is what is left in the buffer of the task queue,
`closed` whether the queue has been closed, and `ctxDone j` whether
`ctx.Done()` is ready in iteration `j`. -/
def workerLoop {Result : Type} (ctxDone : Nat → Bool) (closed : Bool) :
    Nat → List (Task Result) → WorkerRun Result → WorkerRun Result
  | _, [], run => { run with exit := if closed then Exit.returned else Exit.waitsToReceive }
  | i, task :: queue, run =>
    match handle (ctxDone i) task with
    | Handled.done => { run with exit := Exit.returned }
    | Handled.failed err =>
      workerLoop ctxDone closed (i + 1) queue
        { run with ran := run.ran ++ [task], logged := run.logged ++ [(err, task.String)] }
    | Handled.result r =>
      match run.results.send r with
      | Sent.ok ch =>
        workerLoop ctxDone closed (i + 1) queue
          { run with ran := run.ran ++ [task], results := ch }
      | Sent.waits => { run with ran := run.ran ++ [task], exit := Exit.waitsToSend }
      | Sent.panics => { run with ran := run.ran ++ [task], exit := Exit.panicked }
    | Handled.nothing =>
      workerLoop ctxDone closed (i + 1) queue { run with ran := run.ran ++ [task] }

/-- The function `worker`, run on its own on a task queue and a channel of
results. -/
def worker {Result : Type} (ctxDone : Nat → Bool) (taskQueue : Chan (Task Result))
    (results : Chan Result) : WorkerRun Result :=
  workerLoop ctxDone taskQueue.closed 0 taskQueue.buf
    { ran := [], logged := [], results := results, exit := Exit.returned }

/-- The results that the tasks have for the channel of results: the non-nil
results of the tasks that returned no error, in the order of the tasks. -/
def delivered {Result : Type} (tasks : List (Task Result)) : List Result :=
  tasks.filterMap fun task =>
    match task.Run with
    | (some r, none) => some r
    | _ => none

/-- The failures that are logged for the tasks: the error and the task, for
every task that returned an error, in the order of the tasks. -/
def failures {Result : Type} (tasks : List (Task Result)) : List (String × String) :=
  tasks.filterMap fun task =>
    match task.Run with
    | (_, some err) => some (err, task.String)
    | _ => none

/-- Where a `worker` goroutine of the pool stands: at the receive of the `range`
loop, at the send of a result, or past its return. -/
inductive WorkerAt (Result : Type) where
  | receive
  | send (r : Result)
  | returned
  deriving DecidableEq, Repr

/-- The pool that `WorkerPool` sets up, with its client: the two channels, the
goroutines of the workers, the counter of the wait group, the tasks that were
run, whether the context is done, how many statements of the wait function have
been executed, and whether a goroutine has panicked. -/
structure Pool (Result : Type) where
  taskQueue : Chan (Task Result)
  results : Chan Result
  workers : List (WorkerAt Result)
  wg : Nat
  ran : List (Task Result)
  ctxDone : Bool
  waited : Nat
  panicked : Bool
  deriving DecidableEq, Repr

/-- The function `WorkerPool`: two channels of capacity 1024 and `n` workers,
each counted in the wait group. -/
def WorkerPool (Result : Type) (n : Nat) : Pool Result :=
  { taskQueue := { buf := [], cap := 1024, closed := false }
    results := { buf := [], cap := 1024, closed := false }
    workers := List.replicate n WorkerAt.receive
    wg := n
    ran := []
    ctxDone := false
    waited := 0
    panicked := false }

/-- The moves of the goroutines: the client sends a task to the task queue, the
context is cancelled, the wait function executes its next statement, or the
worker with the given number goes on to its next channel operation. -/
inductive Move (Result : Type) where
  | submit (task : Task Result)
  | cancel
  | wait
  | worker (i : Nat)
  deriving DecidableEq, Repr

/-- The next statement of the wait function: `close(taskQueue)`, then
`close(results)`, then `wg.Wait()`, which returns once the counter is zero. -/
def Pool.wait {Result : Type} (p : Pool Result) : Option (Pool Result) :=
  match p.waited with
  | 0 => some { p with taskQueue := p.taskQueue.close, waited := 1 }
  | 1 => some { p with results := p.results.close, waited := 2 }
  | 2 => if p.wg = 0 then some { p with waited := 3 } else none
  | _ => none

/-- The next channel operation of the worker with number `i`, with what it
does up to the operation after it; `wg.Done()` is deferred, so it is executed
when the worker returns and when it panics. -/
def Pool.work {Result : Type} (p : Pool Result) (i : Nat) : Option (Pool Result) :=
  match p.workers.get? i with
  | none => none
  | some WorkerAt.returned => none
  | some WorkerAt.receive =>
    match p.taskQueue.buf with
    | [] =>
      if p.taskQueue.closed then
        some { p with workers := p.workers.set i WorkerAt.returned, wg := p.wg - 1 }
      else none
    | task :: queue =>
      let p := { p with taskQueue := { p.taskQueue with buf := queue } }
      match handle p.ctxDone task with
      | Handled.done =>
        some { p with workers := p.workers.set i WorkerAt.returned, wg := p.wg - 1 }
      | Handled.failed _ => some { p with ran := p.ran ++ [task] }
      | Handled.result r =>
        some { p with ran := p.ran ++ [task], workers := p.workers.set i (WorkerAt.send r) }
      | Handled.nothing => some { p with ran := p.ran ++ [task] }
  | some (WorkerAt.send r) =>
    match p.results.send r with
    | Sent.ok ch => some { p with results := ch, workers := p.workers.set i WorkerAt.receive }
    | Sent.waits => none
    | Sent.panics =>
      some { p with workers := p.workers.set i WorkerAt.returned, wg := p.wg - 1,
                    panicked := true }

/-- One move of the pool, or `none` when the goroutine has to wait.  A panic
ends the program, but not at once: the goroutine that panics runs its deferred
calls, and until the program has ended the other goroutines can still move, so
that `wg.Wait()` may return after a panic. -/
def Pool.step {Result : Type} (p : Pool Result) (move : Move Result) : Option (Pool Result) :=
  match move with
  | Move.submit task =>
    match p.taskQueue.send task with
    | Sent.ok ch => some { p with taskQueue := ch }
    | Sent.waits => none
    | Sent.panics => some { p with panicked := true }
  | Move.cancel => some { p with ctxDone := true }
  | Move.wait => p.wait
  | Move.worker i => p.work i

/-- The pool after a sequence of moves, when each of them can be made. -/
def Pool.run {Result : Type} (p : Pool Result) : List (Move Result) → Option (Pool Result)
  | [] => some p
  | move :: moves =>
    match p.step move with
    | none => none
    | some q => q.run moves

/-- A task that returns the given number as its result. -/
def counts (name : String) (n : Nat) : Task Nat :=
  { Run := (some n, none), String := "count versions " ++ name }

/-- A task that fails. -/
def fails (name : String) : Task Nat :=
  { Run := (none, some "rpc error"), String := "count versions " ++ name }

/-- A task that returns a result together with an error. -/
def failsWith (name : String) (n : Nat) : Task Nat :=
  { Run := (some n, some "rpc error"), String := "count versions " ++ name }

/-- A task that returns neither a result nor an error. -/
def deletes (name : String) : Task Nat :=
  { Run := (none, none), String := "delete " ++ name }

end core

/-! ## Tags grouped by revision -/

/-- The revision name that `deploymentTagsByRevision` builds for a tag. -/
def revisionOfTag (tag : models.DeploymentRevisionTag) : names.DeploymentRevision :=
  { ProjectID := tag.ProjectID, ApiID := tag.ApiID,
    DeploymentID := tag.DeploymentID, RevisionID := tag.RevisionID }

/-- The number of tag strings in all groups of a map from revision names to
tags. -/
def groupSizes (m : List (String × List String)) : Nat :=
  (m.map fun entry => entry.2.length).sum

/-! ## `GenerateID` and the library `github.com/google/uuid` -/

namespace hex

/-- The table `hextable` of `encoding/hex`. -/
def hextable : List Char := "0123456789abcdef".data

/-- Go `hex.Encode`: two runes of `hextable` for every byte, `hextable[v>>4]`
and `hextable[v&0x0f]`. -/
def Encode (src : List (Fin 256)) : List Char :=
  src.flatMap fun v => [hextable.getD (v.val / 16) '0', hextable.getD (v.val % 16) '0']

end hex

namespace uuid

/-- The type `uuid.UUID`, an array of 16 bytes. -/
structure UUID where
  bytes : List (Fin 256)
  size : bytes.length = 16

/-- The function `UUID.String` of the library: the form
`xxxxxxxx-xxxx-xxxx-xxxx-xxxxxxxxxxxx`, which `encodeHex` writes from the bytes
0 to 3, 4 to 5, 6 to 7, 8 to 9 and 10 to 15. -/
def UUID.String (u : UUID) : String :=
  String.mk (hex.Encode (u.bytes.take 4) ++ '-' :: hex.Encode ((u.bytes.drop 4).take 2)
    ++ '-' :: hex.Encode ((u.bytes.drop 6).take 2) ++ '-' :: hex.Encode ((u.bytes.drop 8).take 2)
    ++ '-' :: hex.Encode (u.bytes.drop 10))

end uuid

namespace names

/-- GenerateID generates a random resource ID: `uuid.New().String()[:8]`,
where `u` is the UUID that `uuid.New()` returned.  The string of a UUID
consists of one-byte runes, so its first 8 bytes are its first 8 runes. -/
def GenerateID (u : uuid.UUID) : String :=
  String.mk (u.String.data.take 8)

end names

/-- A UUID for closed statements, `6ba7b810-9dad-11d1-80b4-00c04fd430c8`. -/
def uuidOfDNS : uuid.UUID :=
  { bytes := [0x6b, 0xa7, 0xb8, 0x10, 0x9d, 0xad, 0x11, 0xd1, 0x80, 0xb4, 0x00, 0xc0, 0x4f, 0xd4,
      0x30, 0xc8]
    size := rfl }

/-! ## `cmd/registry/cmd/delete/delete.go`

The command parses the name it is given, lists the resources that the name
selects and sends one delete task per listed resource to the task queue.  The
parsers of the package `names` and the listing functions of the package `core`
are not among the sources; they are the fields of `delete.Env`.  A listing
function calls its handler once per resource it lists, in order, and returns an
error or nil: the field gives the names of the listed resources and the error. -/

namespace delete

/-- The struct `deleteTask`, without its client. -/
structure deleteTask where
  resourceName : String
  resourceKind : String
  deriving DecidableEq, Repr

/-- The method `deleteTask.String`. -/
def deleteTask.String (task : deleteTask) : String := "delete " ++ task.resourceName

/-- The functions that `delete.go` calls in the packages `names` and `core`;
`Version`, `Spec` and `Artifact` are the types `names.Version`, `names.Spec` and
`names.Artifact`. -/
structure Env (Version Spec Artifact : Type) where
  /-- The function `names.ParseApi` -/
  ParseApi : String → Except String names.Api
  /-- The function `names.ParseVersion` -/
  ParseVersion : String → Except String Version
  /-- The function `names.ParseSpec` -/
  ParseSpec : String → Except String Spec
  /-- The function `names.ParseArtifact` -/
  ParseArtifact : String → Except String Artifact
  /-- The function `core.ListAPIs`, for a name and a filter -/
  ListAPIs : names.Api → String → List String × Option ErrorText
  /-- The function `core.ListVersions` -/
  ListVersions : Version → String → List String × Option ErrorText
  /-- The function `core.ListSpecs` -/
  ListSpecs : Spec → String → List String × Option ErrorText
  /-- The function `core.ListArtifacts`; the flag is its argument `getContents` -/
  ListArtifacts : Artifact → String → Bool → List String × Option ErrorText

/-- A call of a listing function, which reads the registry. -/
inductive Read (Version Spec Artifact : Type) where
  | ListAPIs (api : names.Api) (filter : String)
  | ListVersions (version : Version) (filter : String)
  | ListSpecs (spec : Spec) (filter : String)
  | ListArtifacts (artifact : Artifact) (filter : String) (getContents : Bool)
  deriving DecidableEq, Repr

/-- What a run of the command returns and does: the error it returns (`none`
for nil), the listing calls it issued and the tasks it sent to `taskQueue`, in
order. -/
structure Outcome (Version Spec Artifact : Type) where
  err : Option ErrorText
  reads : List (Read Version Spec Artifact)
  taskQueue : List deleteTask
  deriving DecidableEq, Repr

section commands

variable {Version Spec Artifact : Type}

/-- The function `deleteAPIs`. -/
def deleteAPIs (env : Env Version Spec Artifact) (api : names.Api) (filterFlag : String) :
    Outcome Version Spec Artifact :=
  let listed := env.ListAPIs api filterFlag
  { err := listed.2
    reads := [Read.ListAPIs api filterFlag]
    taskQueue := listed.1.map fun name => { resourceName := name, resourceKind := "api" } }

/-- The function `deleteVersions`. -/
def deleteVersions (env : Env Version Spec Artifact) (version : Version) (filterFlag : String) :
    Outcome Version Spec Artifact :=
  let listed := env.ListVersions version filterFlag
  { err := listed.2
    reads := [Read.ListVersions version filterFlag]
    taskQueue := listed.1.map fun name => { resourceName := name, resourceKind := "version" } }

/-- The function `deleteSpecs`. -/
def deleteSpecs (env : Env Version Spec Artifact) (spec : Spec) (filterFlag : String) :
    Outcome Version Spec Artifact :=
  let listed := env.ListSpecs spec filterFlag
  { err := listed.2
    reads := [Read.ListSpecs spec filterFlag]
    taskQueue := listed.1.map fun name => { resourceName := name, resourceKind := "spec" } }

/-- The function `deleteArtifacts`. -/
def deleteArtifacts (env : Env Version Spec Artifact) (artifact : Artifact)
    (filterFlag : String) : Outcome Version Spec Artifact :=
  let listed := env.ListArtifacts artifact filterFlag false
  { err := listed.2
    reads := [Read.ListArtifacts artifact filterFlag false]
    taskQueue := listed.1.map fun name => { resourceName := name, resourceKind := "artifact" } }

/-- The function `matchAndHandleDeleteCmd`. -/
def matchAndHandleDeleteCmd (env : Env Version Spec Artifact) (name : String)
    (filter : String) : Outcome Version Spec Artifact :=
  match env.ParseApi name with
  | Except.ok api => deleteAPIs env api filter
  | Except.error _ =>
    match env.ParseVersion name with
    | Except.ok version => deleteVersions env version filter
    | Except.error _ =>
      match env.ParseSpec name with
      | Except.ok spec => deleteSpecs env spec filter
      | Except.error _ =>
        match env.ParseArtifact name with
        | Except.ok artifact => deleteArtifacts env artifact filter
        | Except.error _ =>
          { err := some (fmt.Errorf ("unsupported resource name: see the 'apg registry delete-' "
              ++ "subcommands for alternatives") [])
            reads := []
            taskQueue := [] }

end commands

end delete

/-! ## `cmd/registry/plugins/registry-lint-openapi-sample/main.go` -/

/-- Go `int32(n)` of an `int`: the value of the low 32 bits, in two's
complement. -/
def int32 (n : Int) : Int := (n + 2 ^ 31) % 2 ^ 32 - 2 ^ 31

namespace rpc

/-- The message `rpc.LintPosition`; its fields are `int32`. -/
structure LintPosition where
  LineNumber : Int
  ColumnNumber : Int
  deriving DecidableEq, Repr

/-- The message `rpc.LintLocation`. -/
structure LintLocation where
  StartPosition : LintPosition
  EndPosition : LintPosition
  deriving DecidableEq, Repr

/-- The message `rpc.LintProblem`, with the fields that the plugin sets. -/
structure LintProblem where
  Message : String
  RuleId : String
  Suggestion : String
  Location : LintLocation
  deriving DecidableEq, Repr

end rpc

namespace lint

/-- The struct `DescriptionField`; its numbers are of the type `int`. -/
structure DescriptionField where
  StartLineNumber : Int
  StartColumnNumber : Int
  EndLineNumber : Int
  EndColumnNumber : Int
  Description : String
  deriving DecidableEq, Repr

/-- The constant `descriptionLessThan1000CharsRuleId`. -/
def descriptionLessThan1000CharsRuleId : String := "description-less-than-1000-chars"

/-- The constant `descriptionContainsNoTagsRuleId`. -/
def descriptionContainsNoTagsRuleId : String := "description-contains-no-tags"

/-- The location that both rules give to a problem: the start and the end of
the description, converted to `int32`. -/
def location (description : DescriptionField) : rpc.LintLocation :=
  { StartPosition :=
      { LineNumber := int32 description.StartLineNumber
        ColumnNumber := int32 description.StartColumnNumber }
    EndPosition :=
      { LineNumber := int32 description.EndLineNumber
        ColumnNumber := int32 description.EndColumnNumber } }

/-- The function `enforceDescriptionLessThan1000Chars`; `len` is the number of
bytes of the description. -/
def enforceDescriptionLessThan1000Chars :
    List DescriptionField → List rpc.LintProblem
  | [] => []
  | description :: rest =>
    if strings.len description.Description ≥ 1000 then
      { Message := "Description field should be less than 1000 chars."
        RuleId := descriptionLessThan1000CharsRuleId
        Suggestion := "Ensure that your description field is less than 1000 chars in length."
        Location := location description } :: enforceDescriptionLessThan1000Chars rest
    else enforceDescriptionLessThan1000Chars rest

/-- The class of `.`: every rune but the newline. -/
def anyCharNotNL : List (Char × Char) :=
  [(Char.ofNat 0, Char.ofNat 9), (Char.ofNat 11, Char.ofNat 0x10FFFF)]

/-- The class `[^>]`: every rune but `>`, the newline included. -/
def notGreaterThan : List (Char × Char) :=
  [(Char.ofNat 0, '='), ('?', Char.ofNat 0x10FFFF)]

/-- What `regexp.Compile(".*<[^>]*>.*")` returns, with a nil error: the
pattern is well formed, so the branch `continue` of the rule is never taken. -/
def tagPattern : regexp.Regexp :=
  { expr := ".*<[^>]*>.*"
    prog := [regexp.Op.star anyCharNotNL, regexp.Op.charClass [('<', '<')],
      regexp.Op.star notGreaterThan, regexp.Op.charClass [('>', '>')],
      regexp.Op.star anyCharNotNL] }

/-- The function `enforceDescriptionContainsNoTagsRuleId`. -/
def enforceDescriptionContainsNoTagsRuleId :
    List DescriptionField → List rpc.LintProblem
  | [] => []
  | description :: rest =>
    if tagPattern.MatchString description.Description then
      { Message := "Description field should not contain any tags."
        RuleId := descriptionContainsNoTagsRuleId
        Suggestion :=
          "Ensure that your description field does not contain any tags (regex <[^>]*>)"
        Location := location description } :: enforceDescriptionContainsNoTagsRuleId rest
    else enforceDescriptionContainsNoTagsRuleId rest

/-- A description of 500 runes `é`, each of two bytes, on line 3. -/
def accented : DescriptionField :=
  { StartLineNumber := 3, StartColumnNumber := 16, EndLineNumber := 4, EndColumnNumber := 0
    Description := String.mk (List.replicate 500 'é') }

/-- Three descriptions: one with a tag that spans two lines, one without a
tag, one with a closing tag. -/
def descriptions : List DescriptionField :=
  [{ StartLineNumber := 3, StartColumnNumber := 16, EndLineNumber := 5, EndColumnNumber := 2
     Description := "See <a\nhref=x> here" },
   { StartLineNumber := 7, StartColumnNumber := 16, EndLineNumber := 8, EndColumnNumber := 2
     Description := "a > b and b < c" },
   { StartLineNumber := 9, StartColumnNumber := 16, EndLineNumber := 10, EndColumnNumber := 0
     Description := "bold</b>" }]

end lint

/-! ## `cmd/registry/core/complexity.go`

The documents are those of the library gnostic, with the fields that the
summarizers read.  A pointer that a summarizer tests against nil is an
`Option`; a slice is a list, the nil slice being the empty list.  A pointer that
a summarizer dereferences without a test (`document.Paths`, the value of a
named schema or path or method) is the value itself: the documents in which it
is nil are outside the embedding.  The counters are `int32`, and `++` wraps. -/

namespace metrics

/-- The message `metrics.Complexity`; its fields are `int32`, and the zero
value `Complexity{}` has every counter at 0. -/
structure Complexity where
  PathCount : Int := 0
  GetCount : Int := 0
  PostCount : Int := 0
  PutCount : Int := 0
  DeleteCount : Int := 0
  SchemaCount : Int := 0
  SchemaPropertyCount : Int := 0
  deriving DecidableEq, Repr

end metrics

namespace openapi_v2

/-- The message `openapi_v2.Schema`: its field `Properties`, a pointer to the
named schemas `Properties.AdditionalProperties`. -/
inductive Schema where
  | mk (Properties : Option (List (String × Schema)))

/-- The message `openapi_v2.PathItem`: whether each of the operations `Get`,
`Post`, `Put` and `Delete` is there (the pointer is not nil). -/
structure PathItem where
  Get : Bool
  Post : Bool
  Put : Bool
  Delete : Bool
  deriving DecidableEq, Repr

/-- The message `openapi_v2.Document`: the named schemas
`Definitions.AdditionalProperties` behind the pointer `Definitions`, and the
named path items `Paths.Path`. -/
structure Document where
  Definitions : Option (List (String × Schema))
  Paths : List (String × PathItem)

end openapi_v2

namespace openapi_v3

/-- The message `openapi_v3.SchemaOrReference`: a reference, for which
`GetSchema()` returns nil, or a schema with its field `Properties`. -/
inductive SchemaOrReference where
  | reference
  | schema (Properties : Option (List (String × SchemaOrReference)))

/-- The message `openapi_v3.PathItem`: whether each of the operations `Get`,
`Post`, `Put` and `Delete` is there. -/
structure PathItem where
  Get : Bool
  Post : Bool
  Put : Bool
  Delete : Bool
  deriving DecidableEq, Repr

/-- The message `openapi_v3.Components`: the named schemas
`Schemas.AdditionalProperties` behind the pointer `Schemas`. -/
structure Components where
  Schemas : Option (List (String × SchemaOrReference))

/-- The message `openapi_v3.Document`. -/
structure Document where
  Components : Option Components
  Paths : List (String × PathItem)

end openapi_v3

namespace discovery

/-- A pointer to the message `discovery.Schema`, which `summarizeDiscoverySchema`
tests against nil: the nil pointer, or the message with its field
`Properties`. -/
inductive Schema where
  | nil
  | mk (Properties : Option (List (String × Schema)))

/-- The message `discovery.Method`. -/
structure Method where
  HttpMethod : String
  deriving DecidableEq, Repr

/-- The message `discovery.Resource`: the named resources and the named
methods behind its pointers `Resources` and `Methods`. -/
inductive Resource where
  | mk (Resources : Option (List (String × Resource))) (Methods : Option (List (String × Method)))

/-- The message `discovery.Document`. -/
structure Document where
  Schemas : Option (List (String × Schema))
  Resources : Option (List (String × Resource))
  Methods : Option (List (String × Method))

end discovery

namespace core

/-- Go `n++` on an `int32`. -/
def increment (n : Int) : Int := int32 (n + 1)

/-- The body of the loop over the paths of a document, the same in
`SummarizeOpenAPIv2Document` and `SummarizeOpenAPIv3Document`: the path is
counted, and so is each operation that it has. -/
def summarizePathItem (summary : metrics.Complexity) (get post put delete : Bool) :
    metrics.Complexity :=
  let summary := { summary with PathCount := increment summary.PathCount }
  let summary := if get then { summary with GetCount := increment summary.GetCount } else summary
  let summary :=
    if post then { summary with PostCount := increment summary.PostCount } else summary
  let summary := if put then { summary with PutCount := increment summary.PutCount } else summary
  if delete then { summary with DeleteCount := increment summary.DeleteCount } else summary

mutual

/-- The function `summarizeOpenAPIv2Schema`. -/
def summarizeOpenAPIv2Schema (summary : metrics.Complexity) :
    openapi_v2.Schema → metrics.Complexity
  | .mk none => { summary with SchemaCount := increment summary.SchemaCount }
  | .mk (some properties) =>
    summarizeOpenAPIv2Properties { summary with SchemaCount := increment summary.SchemaCount }
      properties

/-- The loop of `summarizeOpenAPIv2Schema` over the properties of a schema. -/
def summarizeOpenAPIv2Properties (summary : metrics.Complexity) :
    List (String × openapi_v2.Schema) → metrics.Complexity
  | [] => summary
  | (_, value) :: rest =>
    summarizeOpenAPIv2Properties
      (summarizeOpenAPIv2Schema
        { summary with SchemaPropertyCount := increment summary.SchemaPropertyCount } value)
      rest

end

/-- The function `SummarizeOpenAPIv2Document`. -/
def SummarizeOpenAPIv2Document (document : openapi_v2.Document) : metrics.Complexity :=
  let summary : metrics.Complexity := {}
  let summary :=
    match document.Definitions with
    | none => summary
    | some definitions =>
      definitions.foldl (fun summary pair => summarizeOpenAPIv2Schema summary pair.2) summary
  document.Paths.foldl
    (fun summary pair =>
      summarizePathItem summary pair.2.Get pair.2.Post pair.2.Put pair.2.Delete)
    summary

mutual

/-- The function `summarizeOpenAPIv3Schema`. -/
def summarizeOpenAPIv3Schema (summary : metrics.Complexity) :
    openapi_v3.SchemaOrReference → metrics.Complexity
  | .reference => { summary with SchemaCount := increment summary.SchemaCount }
  | .schema none => { summary with SchemaCount := increment summary.SchemaCount }
  | .schema (some properties) =>
    summarizeOpenAPIv3Properties { summary with SchemaCount := increment summary.SchemaCount }
      properties

/-- The loop of `summarizeOpenAPIv3Schema` over the properties of a schema. -/
def summarizeOpenAPIv3Properties (summary : metrics.Complexity) :
    List (String × openapi_v3.SchemaOrReference) → metrics.Complexity
  | [] => summary
  | (_, value) :: rest =>
    summarizeOpenAPIv3Properties
      (summarizeOpenAPIv3Schema
        { summary with SchemaPropertyCount := increment summary.SchemaPropertyCount } value)
      rest

end

/-- The function `SummarizeOpenAPIv3Document`. -/
def SummarizeOpenAPIv3Document (document : openapi_v3.Document) : metrics.Complexity :=
  let summary : metrics.Complexity := {}
  let summary :=
    match document.Components with
    | none => summary
    | some components =>
      match components.Schemas with
      | none => summary
      | some schemas =>
        schemas.foldl (fun summary pair => summarizeOpenAPIv3Schema summary pair.2) summary
  document.Paths.foldl
    (fun summary pair =>
      summarizePathItem summary pair.2.Get pair.2.Post pair.2.Put pair.2.Delete)
    summary

mutual

/-- The function `summarizeDiscoverySchema`. -/
def summarizeDiscoverySchema (summary : metrics.Complexity) :
    discovery.Schema → metrics.Complexity
  | .nil => { summary with SchemaCount := increment summary.SchemaCount }
  | .mk none => { summary with SchemaCount := increment summary.SchemaCount }
  | .mk (some properties) =>
    summarizeDiscoveryProperties { summary with SchemaCount := increment summary.SchemaCount }
      properties

/-- The loop of `summarizeDiscoverySchema` over the properties of a schema. -/
def summarizeDiscoveryProperties (summary : metrics.Complexity) :
    List (String × discovery.Schema) → metrics.Complexity
  | [] => summary
  | (_, value) :: rest =>
    summarizeDiscoveryProperties
      (summarizeDiscoverySchema
        { summary with SchemaPropertyCount := increment summary.SchemaPropertyCount } value)
      rest

end

/-- The body of the loop over methods, the same in `SummarizeDiscoveryDocument`
and `summarizeDiscoveryResource`: the method is counted as a path, and the
`switch` counts it under its HTTP method. -/
def summarizeMethod (summary : metrics.Complexity) (v : discovery.Method) :
    metrics.Complexity :=
  let summary := { summary with PathCount := increment summary.PathCount }
  if v.HttpMethod = "GET" then { summary with GetCount := increment summary.GetCount }
  else if v.HttpMethod = "POST" then { summary with PostCount := increment summary.PostCount }
  else if v.HttpMethod = "PUT" then { summary with PutCount := increment summary.PutCount }
  else if v.HttpMethod = "DELETE" then
    { summary with DeleteCount := increment summary.DeleteCount }
  else summary

/-- The loop over the named methods. -/
def summarizeMethods (summary : metrics.Complexity) (methods : List (String × discovery.Method)) :
    metrics.Complexity :=
  methods.foldl (fun summary pair => summarizeMethod summary pair.2) summary

mutual

/-- The function `summarizeDiscoveryResource`. -/
def summarizeDiscoveryResource (summary : metrics.Complexity) :
    discovery.Resource → metrics.Complexity
  | .mk resources methods =>
    let summary :=
      match resources with
      | none => summary
      | some resources => summarizeDiscoveryResources summary resources
    match methods with
    | none => summary
    | some methods => summarizeMethods summary methods

/-- The loop of `summarizeDiscoveryResource` over the resources of a
resource. -/
def summarizeDiscoveryResources (summary : metrics.Complexity) :
    List (String × discovery.Resource) → metrics.Complexity
  | [] => summary
  | (_, value) :: rest =>
    summarizeDiscoveryResources (summarizeDiscoveryResource summary value) rest

end

/-- The function `SummarizeDiscoveryDocument`. -/
def SummarizeDiscoveryDocument (document : discovery.Document) : metrics.Complexity :=
  let summary : metrics.Complexity := {}
  let summary :=
    match document.Schemas with
    | none => summary
    | some schemas =>
      schemas.foldl (fun summary pair => summarizeDiscoverySchema summary pair.2) summary
  let summary :=
    match document.Resources with
    | none => summary
    | some resources =>
      resources.foldl (fun summary pair => summarizeDiscoveryResource summary pair.2) summary
  match document.Methods with
  | none => summary
  | some methods => summarizeMethods summary methods

end core

/-! ## What the summaries are compared with

The numbers of schema nodes and of property entries of a schema tree, and the
numbers of methods of a tree of resources, counted without a machine
integer. -/

namespace openapi_v2

mutual

/-- The number of schemas in the tree of a schema: the schema and the schemas
reachable through properties. -/
def Schema.nodes : Schema → Nat
  | .mk none => 1
  | .mk (some properties) => 1 + nodesOf properties

/-- The number of schemas in the trees of a list of named schemas. -/
def nodesOf : List (String × Schema) → Nat
  | [] => 0
  | (_, value) :: rest => value.nodes + nodesOf rest

end

mutual

/-- The number of property entries in the tree of a schema. -/
def Schema.entries : Schema → Nat
  | .mk none => 0
  | .mk (some properties) => entriesOf properties

/-- The number of property entries of a list of properties: the entries of
the list and those in the trees of their schemas. -/
def entriesOf : List (String × Schema) → Nat
  | [] => 0
  | (_, value) :: rest => 1 + value.entries + entriesOf rest

end

/-- The top-level schema definitions of a document. -/
def Document.definitions (document : Document) : List (String × Schema) :=
  document.Definitions.getD []

/-- The number of schemas of a document: those in the trees of its
definitions. -/
def Document.schemaNodes (document : Document) : Nat :=
  (document.definitions.map fun pair => pair.2.nodes).sum

/-- The number of property entries of a document. -/
def Document.propertyEntries (document : Document) : Nat :=
  (document.definitions.map fun pair => pair.2.entries).sum

end openapi_v2

namespace openapi_v3

mutual

/-- The number of schemas in the tree of a schema or reference. -/
def SchemaOrReference.nodes : SchemaOrReference → Nat
  | .reference => 1
  | .schema none => 1
  | .schema (some properties) => 1 + nodesOf properties

/-- The number of schemas in the trees of a list of named schemas. -/
def nodesOf : List (String × SchemaOrReference) → Nat
  | [] => 0
  | (_, value) :: rest => value.nodes + nodesOf rest

end

mutual

/-- The number of property entries in the tree of a schema or reference. -/
def SchemaOrReference.entries : SchemaOrReference → Nat
  | .reference => 0
  | .schema none => 0
  | .schema (some properties) => entriesOf properties

/-- The number of property entries of a list of properties. -/
def entriesOf : List (String × SchemaOrReference) → Nat
  | [] => 0
  | (_, value) :: rest => 1 + value.entries + entriesOf rest

end

/-- The top-level schema definitions of a document. -/
def Document.definitions (document : Document) : List (String × SchemaOrReference) :=
  match document.Components with
  | none => []
  | some components => components.Schemas.getD []

/-- The number of schemas of a document. -/
def Document.schemaNodes (document : Document) : Nat :=
  (document.definitions.map fun pair => pair.2.nodes).sum

/-- The number of property entries of a document. -/
def Document.propertyEntries (document : Document) : Nat :=
  (document.definitions.map fun pair => pair.2.entries).sum

end openapi_v3

namespace discovery

mutual

/-- The number of schemas in the tree of a schema; a nil pointer counts as
one, as `summarizeDiscoverySchema` counts it. -/
def Schema.nodes : Schema → Nat
  | .nil => 1
  | .mk none => 1
  | .mk (some properties) => 1 + nodesOf properties

/-- The number of schemas in the trees of a list of named schemas. -/
def nodesOf : List (String × Schema) → Nat
  | [] => 0
  | (_, value) :: rest => value.nodes + nodesOf rest

end

mutual

/-- The number of property entries in the tree of a schema. -/
def Schema.entries : Schema → Nat
  | .nil => 0
  | .mk none => 0
  | .mk (some properties) => entriesOf properties

/-- The number of property entries of a list of properties. -/
def entriesOf : List (String × Schema) → Nat
  | [] => 0
  | (_, value) :: rest => 1 + value.entries + entriesOf rest

end

/-- The number of the named methods with the given HTTP method. -/
def withMethod (httpMethod : String) (methods : List (String × Method)) : Nat :=
  methods.countP fun pair => pair.2.HttpMethod = httpMethod

mutual

/-- The sum, over the lists of methods in the tree of a resource, of a number
that is taken of each list: its length, or how many of its methods have a
given HTTP method. -/
def Resource.methods (number : List (String × Method) → Nat) : Resource → Nat
  | .mk resources methods =>
    (match resources with
      | none => 0
      | some resources => methodsOf number resources) +
    (match methods with
      | none => 0
      | some methods => number methods)

/-- The same sum over the trees of a list of named resources. -/
def methodsOf (number : List (String × Method) → Nat) : List (String × Resource) → Nat
  | [] => 0
  | (_, value) :: rest => value.methods number + methodsOf number rest

end

/-- The top-level schema definitions of a document. -/
def Document.definitions (document : Document) : List (String × Schema) :=
  document.Schemas.getD []

/-- The number of schemas of a document. -/
def Document.schemaNodes (document : Document) : Nat :=
  (document.definitions.map fun pair => pair.2.nodes).sum

/-- The number of property entries of a document. -/
def Document.propertyEntries (document : Document) : Nat :=
  (document.definitions.map fun pair => pair.2.entries).sum

/-- The sum of a number of each list of methods of a document: the lists in
the trees of its resources, and its own list. -/
def Document.methods (number : List (String × Method) → Nat) (document : Document) : Nat :=
  methodsOf number (document.Resources.getD []) + number (document.Methods.getD [])

end discovery

/-- An OpenAPI v2 document with two definitions, of four and of one schema,
and two paths. -/
def petstoreV2 : openapi_v2.Document :=
  { Definitions := some
      [("Pet", .mk (some [("id", .mk none), ("owner", .mk (some [("name", .mk none)]))])),
        ("Error", .mk none)]
    Paths := [("/pets", ⟨true, true, false, false⟩), ("/pets/{id}", ⟨true, false, true, true⟩)] }

/-- An OpenAPI v3 document with two definitions, one of them a reference, and
one path. -/
def petstoreV3 : openapi_v3.Document :=
  { Components := some
      { Schemas := some
          [("Pet", .schema (some [("id", .schema none), ("owner", .reference)])),
            ("Error", .reference)] }
    Paths := [("/pets", ⟨true, true, false, false⟩)] }

/-- A Discovery document with two schemas, a resource with a nested resource,
and four methods, one of them a `PATCH`. -/
def petstoreDiscovery : discovery.Document :=
  { Schemas := some [("Pet", .mk (some [("id", .nil), ("name", .mk none)])), ("Error", .nil)]
    Resources := some
      [("pets", .mk (some [("toys", .mk none (some [("list", ⟨"GET"⟩)]))])
        (some [("patch", ⟨"PATCH"⟩), ("delete", ⟨"DELETE"⟩)]))]
    Methods := some [("create", ⟨"POST"⟩)] }

namespace metrics

/-- The summary counts the schemas consistently: `SchemaCount` is the number
of schemas, `SchemaPropertyCount` the number of property entries, and the
first is the second plus the number of top-level definitions. -/
def Complexity.countsSchemas (summary : Complexity) (nodes entries definitions : Nat) : Prop :=
  summary.SchemaCount = nodes ∧ summary.SchemaPropertyCount = entries ∧
    summary.SchemaCount = summary.SchemaPropertyCount + definitions

instance (summary : Complexity) (nodes entries definitions : Nat) :
    Decidable (summary.countsSchemas nodes entries definitions) := by
  unfold Complexity.countsSchemas
  infer_instance

/-- The summary counts the paths consistently: `PathCount` is the number of
paths, and none of `GetCount`, `PostCount`, `PutCount` and `DeleteCount`
exceeds it. -/
def Complexity.countsPaths (summary : Complexity) (paths : Nat) : Prop :=
  summary.PathCount = paths ∧ summary.GetCount ≤ summary.PathCount ∧
    summary.PostCount ≤ summary.PathCount ∧ summary.PutCount ≤ summary.PathCount ∧
    summary.DeleteCount ≤ summary.PathCount

instance (summary : Complexity) (paths : Nat) : Decidable (summary.countsPaths paths) := by
  unfold Complexity.countsPaths
  infer_instance

end metrics

/-! ## Paginated listing

The listing of the package `storage` is not among the sources; the handler
`ListApiDeployments` passes its page and its token on.  The listing below is
the one that the specification of the paginated listing service describes,
over the stable order in which the store holds the records. -/

namespace storage

/-- Modelled from the spec: the listing of the package `storage` is not among
the sources.  One page fetch: the scan goes through the records from the
cursor `offset` on, passes over the records that the filter does not match and
puts the matching ones on the page, until the page holds `size` records and a
further match is met, or the collection is exhausted.  In the first case the
cursor of the next page is the position of that match, where the scan left
off; in the second there is no next page, so that no token is left dangling
when every match has been delivered. -/
def scanPage {α : Type} (isMatch : α → Bool) : Nat → List α → Nat → List α × Option Nat
  | _, [], _ => ([], none)
  | size, record :: rest, offset =>
    if !isMatch record then scanPage isMatch size rest (offset + 1)
    else
      match size with
      | 0 => ([], some offset)
      | size + 1 =>
        let page := scanPage isMatch size rest (offset + 1)
        (record :: page.1, page.2)

/-- Modelled from the spec: the page token is opaque to the caller and encodes
the point at which the scan resumes.  Here it is the cursor, written as `@`
and one `+` per record before it; the empty token stands for no further
page. -/
def encodeToken (offset : Nat) : String := String.mk ('@' :: List.replicate offset '+')

/-- Modelled from the spec: the cursor of a page token; the empty token of a
first request is the start of the collection, and a token of another form
cannot be parsed. -/
def decodeToken (token : String) : Option Nat :=
  match token.data with
  | [] => some 0
  | c :: rest => if c = '@' && rest.all (fun x => x = '+') then some rest.length else none

/-- Modelled from the spec: the listing of a collection, given in its stable
order, for the options of a request.  An invalid filter and a token that cannot
be parsed are client errors. -/
def listPage {α : Type} (compile : String → Except String (α → Bool)) (collection : List α)
    (opts : PageOptions) : Except status.Status (DeploymentList α) :=
  match compile opts.Filter with
  | Except.error err => Except.error (status.Error codes.Code.InvalidArgument err)
  | Except.ok isMatch =>
    match decodeToken opts.Token with
    | none => Except.error (status.Error codes.Code.InvalidArgument "invalid page token")
    | some offset =>
      let page := scanPage isMatch opts.Size.toNat (collection.drop offset) offset
      Except.ok
        { Deployments := page.1
          Token :=
            match page.2 with
            | none => ""
            | some next => encodeToken next }

end storage

namespace memory

/-- Whether two stored revisions are revisions of the same deployment: names
are compared in lower case. -/
def sameResource (a b : Deployment) : Bool :=
  lower a.ProjectID = lower b.ProjectID && lower a.ApiID = lower b.ApiID
    && lower a.DeploymentID = lower b.DeploymentID

/-- The current revision of every deployment among the stored revisions, the
most recent first: a revision is kept when no revision of its deployment was
seen before it. -/
def currentRevisions : List Deployment → List Deployment → List Deployment
  | _, [] => []
  | seen, d :: rest =>
    if seen.any (fun s => sameResource s d) then currentRevisions seen rest
    else d :: currentRevisions (d :: seen) rest

/-- Modelled from the spec: the collection that a listing under a parent goes
through, in its stable order: the deployments in the scope of the parent, each
with its current revision and no other. -/
def collection (store : Store) (parent : names.Api) : List Deployment :=
  currentRevisions [] (store.deployments.filter (sameDeployment (parent.Deployment "-")))

/-- Modelled from the spec: whether the parent of a listing exists.  The API is
looked up, or, when the listing is across the APIs of a project, the project;
the store in memory knows a project by the APIs it holds.  A listing across all
projects has no parent to look up. -/
def parentExists (store : Store) (parent : names.Api) : Bool :=
  parent.ProjectID = "-" ||
    store.apis.any fun a =>
      inScope parent.ProjectID a.ProjectID && inScope parent.ApiID a.ApiID

/-- The registry in memory with the paginated listing of the specification;
`compile` is the compiler of filter expressions.  A listing under a parent
that does not exist fails with `NotFound`. -/
def envPaged (compile : String → Except String (Deployment → Bool)) :
    Env Store ApiDeployment Deployment :=
  { env with
    ListDeployments := fun store parent opts =>
      if parentExists store parent then
        storage.listPage compile (collection store parent) opts
      else Except.error (notFound (ApiString parent)) }

/-- The message that a listing of the registry in memory returns for a stored
deployment under a parent. -/
def listed (store : Store) (parent : names.Api) (d : Deployment) : ApiDeployment :=
  { Name := DeploymentString d.name
    Description := d.Description
    RevisionId := d.RevisionID
    RevisionTags :=
      mapIndex
        (deploymentTagsByRevision env
          (store.tags.filter fun t =>
            inScope parent.ProjectID t.ProjectID && inScope parent.ApiID t.ApiID
              && inScope "-" t.DeploymentID))
        (DeploymentRevisionString (d.name.Revision d.RevisionID)) }

/-- A compiler of filters for closed statements: the empty filter matches
every deployment, and any other text is the description to match. -/
def byDescription (filter : String) : Except String (Deployment → Bool) :=
  Except.ok fun d => filter = "" || d.Description = filter

/-- A store with five deployments of the API `a`, of which the second and
the fourth have the description `match`; the second deployment has an older
revision as well, which matches too. -/
def five : Store :=
  holding
    [{ seed with DeploymentID := "d1", Description := "other" },
      { seed with DeploymentID := "d2", Description := "match" },
      { seed with DeploymentID := "d3", Description := "other" },
      { seed with DeploymentID := "d2", RevisionID := "0a0a0a0a", Description := "match" },
      { seed with DeploymentID := "d4", Description := "match" },
      { seed with DeploymentID := "d5", Description := "other" }]

end memory

/-- A client that lists a parent to the end: it calls `ListApiDeployments`
with the page token it has, keeps the deployments of the response, and goes on
with the `next_page_token` of the response until that token is empty.  `fuel`
bounds the number of calls; the result is `none` when a call fails or the
calls are used up. -/
def listToTheEnd {Store Body Model : Type} (env : Env Store Body Model) (store : Store)
    (parent filter : String) (pageSize : Int) : Nat → String → Option (List Body)
  | 0, _ => none
  | fuel + 1, pageToken =>
    match (ListApiDeployments env (World.start store)
        { Parent := parent, PageSize := pageSize, PageToken := pageToken, Filter := filter }).1 with
    | Except.error _ => none
    | Except.ok response =>
      if response.NextPageToken = "" then some response.ApiDeployments
      else
        (listToTheEnd env store parent filter pageSize fuel response.NextPageToken).map
          fun more => response.ApiDeployments ++ more

/-! ## The shapes of resource names

The parsers of the package `names` are not among the sources.  They are
modelled as the specification describes them: a name is parsed whole, against
one shape, and parsing fails closed.  The handler and the command are compared
with dispatchers that try the shapes in the order of the specification, the
most specific first. -/

namespace names

/-- Modelled from the spec: `names/version.go` is not among the sources.  The
resource name of a version of an API. -/
structure Version where
  ProjectID : String
  ApiID : String
  VersionID : String
  deriving DecidableEq, Repr

/-- Modelled from the spec: `names/spec.go` is not among the sources.  The
resource name of a spec of a version. -/
structure Spec where
  ProjectID : String
  ApiID : String
  VersionID : String
  SpecID : String
  deriving DecidableEq, Repr

/-- Modelled from the spec: `names/artifact.go` is not among the sources.  The
resource name of an artifact, which is attached to a project, an API, a version
or a spec; the identifiers below its parent are empty. -/
structure Artifact where
  ProjectID : String
  ApiID : String
  VersionID : String
  SpecID : String
  ArtifactID : String
  deriving DecidableEq, Repr

end names

/-- The dispatch of `GetApiDeployment` in the order of the specification: the
revision-qualified name is tried before the bare name of a deployment. -/
def GetApiDeployment_mostSpecificFirst {Store Body Model : Type} (env : Env Store Body Model)
    (w : World Store Model) (req : rpc.GetApiDeploymentRequest) :
    Except status.Status Body × World Store Model :=
  match env.ParseDeploymentRevision req.Name with
  | Except.ok name => getApiDeploymentRevision env w name
  | Except.error _ =>
    match env.ParseDeployment req.Name with
    | Except.ok name => getApiDeployment env w name
    | Except.error _ =>
      (Except.error (status.Errorf codes.Code.InvalidArgument
        "invalid resource name %q, must be an API deployment or revision"
        [FmtArg.str req.Name]), w)

namespace delete

/-- The dispatch of `matchAndHandleDeleteCmd` in the order of the
specification: the name of an artifact is tried first, then that of a spec, of
a version and of an API. -/
def matchAndHandleDeleteCmd_mostSpecificFirst {Version Spec Artifact : Type}
    (env : Env Version Spec Artifact) (name : String) (filter : String) :
    Outcome Version Spec Artifact :=
  match env.ParseArtifact name with
  | Except.ok artifact => deleteArtifacts env artifact filter
  | Except.error _ =>
    match env.ParseSpec name with
    | Except.ok spec => deleteSpecs env spec filter
    | Except.error _ =>
      match env.ParseVersion name with
      | Except.ok version => deleteVersions env version filter
      | Except.error _ =>
        match env.ParseApi name with
        | Except.ok api => deleteAPIs env api filter
        | Except.error _ =>
          { err := some (fmt.Errorf ("unsupported resource name: see the 'apg registry delete-' "
              ++ "subcommands for alternatives") [])
            reads := []
            taskQueue := [] }

end delete

namespace memory

/-- The segments of a name against a shape, in which `some keyword` stands for
a segment that is the keyword and `none` for a segment that is an identifier:
the identifiers of the name, when the name has the shape. -/
def matchSegments : List (Option String) → List String → Option (List String)
  | [], [] => some []
  | some keyword :: shape, segment :: rest =>
    if segment = keyword then matchSegments shape rest else none
  | none :: shape, segment :: rest =>
    if isIdentifier segment then (matchSegments shape rest).map fun ids => segment :: ids
    else none
  | _, _ => none

/-- The shape `projects/P/locations/global/apis/A` of the name of an API. -/
def apiShape : List (Option String) :=
  [some "projects", none, some "locations", some "global", some "apis", none]

/-- The shape of the name of a version, `.../apis/A/versions/V`. -/
def versionShape : List (Option String) := apiShape ++ [some "versions", none]

/-- The shape of the name of a spec, `.../versions/V/specs/S`. -/
def specShape : List (Option String) := versionShape ++ [some "specs", none]

/-- The shape `projects/P/locations/global` of the name of a project. -/
def projectShape : List (Option String) :=
  [some "projects", none, some "locations", some "global"]

/-- Modelled from the spec: `names.ParseVersion` is not among the sources. -/
def ParseVersion (name : String) : Except String names.Version :=
  match matchSegments versionShape (segments name) with
  | some [p, a, v] => Except.ok { ProjectID := p, ApiID := a, VersionID := v }
  | _ => Except.error "invalid version name"

/-- Modelled from the spec: `names.ParseSpec` is not among the sources.  A
name with a revision suffix `@R` is no spec name. -/
def ParseSpec (name : String) : Except String names.Spec :=
  match matchSegments specShape (segments name) with
  | some [p, a, v, s] => Except.ok { ProjectID := p, ApiID := a, VersionID := v, SpecID := s }
  | _ => Except.error "invalid spec name"

/-- Modelled from the spec: `names.ParseArtifact` is not among the sources.
The name of an artifact is the name of a project, an API, a version or a spec,
followed by `artifacts/X`. -/
def ParseArtifact (name : String) : Except String names.Artifact :=
  match matchSegments (projectShape ++ [some "artifacts", none]) (segments name) with
  | some [p, x] =>
    Except.ok { ProjectID := p, ApiID := "", VersionID := "", SpecID := "", ArtifactID := x }
  | _ =>
    match matchSegments (apiShape ++ [some "artifacts", none]) (segments name) with
    | some [p, a, x] =>
      Except.ok { ProjectID := p, ApiID := a, VersionID := "", SpecID := "", ArtifactID := x }
    | _ =>
      match matchSegments (versionShape ++ [some "artifacts", none]) (segments name) with
      | some [p, a, v, x] =>
        Except.ok { ProjectID := p, ApiID := a, VersionID := v, SpecID := "", ArtifactID := x }
      | _ =>
        match matchSegments (specShape ++ [some "artifacts", none]) (segments name) with
        | some [p, a, v, s, x] =>
          Except.ok
            { ProjectID := p, ApiID := a, VersionID := v, SpecID := s, ArtifactID := x }
        | _ => Except.error "invalid artifact name"

/-- An environment of the handlers with the parsers of names as they are
modelled here. -/
def withNames {Store Body Model : Type} (env : Env Store Body Model) : Env Store Body Model :=
  { env with
    ParseApi := ParseApi
    ParseDeployment := ParseDeployment
    ParseDeploymentRevision := ParseDeploymentRevision }

/-- An environment of the delete command with the parsers of names as they are
modelled here. -/
def withDeleteNames (cmd : delete.Env names.Version names.Spec names.Artifact) :
    delete.Env names.Version names.Spec names.Artifact :=
  { cmd with
    ParseApi := ParseApi
    ParseVersion := ParseVersion
    ParseSpec := ParseSpec
    ParseArtifact := ParseArtifact }

/-- The store with two revisions of `my-deployment`: `1a2b3c4d`, the current
one, and the older `9f8e7d6c`. -/
def revised : Store :=
  holding [revision "current", seed]

/-- The name of the older revision of `my-deployment`. -/
def myDeploymentRevision : String :=
  "projects/my-project/locations/global/apis/a/deployments/my-deployment@9f8e7d6c"

/-- A command line in memory: a listing function lists the one resource that
the name selects, under a name that tells its kind. -/
def deleteEnv : delete.Env names.Version names.Spec names.Artifact where
  ParseApi := ParseApi
  ParseVersion := ParseVersion
  ParseSpec := ParseSpec
  ParseArtifact := ParseArtifact
  ListAPIs := fun api _ => ([ApiString api], none)
  ListVersions := fun version _ =>
    ([lower (ApiString ⟨version.ProjectID, version.ApiID⟩ ++ "/versions/" ++ version.VersionID)],
      none)
  ListSpecs := fun spec _ =>
    ([lower (ApiString ⟨spec.ProjectID, spec.ApiID⟩ ++ "/versions/" ++ spec.VersionID
        ++ "/specs/" ++ spec.SpecID)], none)
  ListArtifacts := fun artifact _ _ => ([lower ("artifacts/" ++ artifact.ArtifactID)], none)

/-- The name of a version of the API of the tests. -/
def myVersion : String := "projects/my-project/locations/global/apis/a/versions/v1"

/-- The name of an artifact of that version. -/
def myArtifact : String :=
  "projects/my-project/locations/global/apis/a/versions/v1/artifacts/complexity"

end memory

/-! ## The filter expression engine

The package `filtering` is not among the sources, only its test is.  The
engine below is the one that the specification describes: a filter is compiled
from the text of an expression against the declared fields, and a compiled
filter is matched against records.  The text is split into tokens and the
tokens are parsed by the grammar that the specification lists; identifiers,
string literals and the words `in`, `true`, `false` and `null` are written as
in the expression language that the package builds on. -/

namespace time

/-- The number of days from 1 January 1970 to a day of the Gregorian
calendar, for a year from 1 on. -/
def daysFromCivil (year month day : Nat) : Int :=
  let y : Nat := if month ≤ 2 then year - 1 else year
  let era : Nat := y / 400
  let yoe : Nat := y % 400
  let mp : Nat := (month + 9) % 12
  let doy : Nat := (153 * mp + 2) / 5 + day - 1
  let doe : Nat := yoe * 365 + yoe / 4 - yoe / 100 + doy
  ((era * 146097 + doe : Nat) : Int) - 719468

/-- The seconds since 1970 of `time.Date(year, month, day, hour, min, sec, 0,
time.UTC)`. -/
def Date (year month day hour min sec : Nat) : Int :=
  daysFromCivil year month day * 86400 + ((hour * 3600 + min * 60 + sec : Nat) : Int)

/-- The number that a list of decimal digits writes. -/
def number (digits : List Char) : Nat :=
  digits.foldl (fun n c => n * 10 + (c.toNat - 48)) 0

/-- Modelled from the spec: the time that a text of the form
`2006-01-02T15:04:05Z` writes, in seconds since 1970; other forms of RFC 3339
are not read. -/
def parseRFC3339 (s : String) : Option Int :=
  match s.data with
  | [y1, y2, y3, y4, a, m1, m2, b, d1, d2, t, h1, h2, c, n1, n2, d, s1, s2, z] =>
    if a = '-' && b = '-' && t = 'T' && c = ':' && d = ':' && z = 'Z'
        && [y1, y2, y3, y4, m1, m2, d1, d2, h1, h2, n1, n2, s1, s2].all
          (fun r => '0' ≤ r && r ≤ '9') then
      let year := number [y1, y2, y3, y4]
      let month := number [m1, m2]
      let day := number [d1, d2]
      let hour := number [h1, h2]
      let min := number [n1, n2]
      let sec := number [s1, s2]
      if 1 ≤ year && 1 ≤ month && month ≤ 12 && 1 ≤ day && day ≤ 31 && hour < 24 && min < 60
          && sec < 60 then
        some (Date year month day hour min sec)
      else none
    else none
  | _ => none

end time

namespace filtering

/-- The type of a field: `String`, `Int`, `Timestamp` or `StringMap`. -/
inductive FieldType where
  | String
  | Int
  | Timestamp
  | StringMap
  deriving DecidableEq, Repr

/-- The struct `Field` of the test: the name and the type of a field (the
field `Type` of the struct is `Typ` here). -/
structure Field where
  Name : String
  Typ : FieldType
  deriving DecidableEq, Repr

/-- A value of a record, `interface{}` in the test: a string, an integer, a
time (in seconds since 1970) or a `map[string]string`. -/
inductive Value where
  | string (s : String)
  | int (n : Int)
  | timestamp (seconds : Int)
  | stringMap (entries : List (String × String))
  deriving DecidableEq, Repr

/-- Go `m[key]` with its `ok` flag, for a map that is kept as a list of
entries: the value of the first entry with the key. -/
def get {β : Type} (m : List (String × β)) (key : String) : Option β :=
  match m with
  | [] => none
  | (k, v) :: rest => if k = key then some v else get rest key

/-- The operators `==`, `!=`, `<`, `>`, `<=` and `>=`. -/
inductive Comparison where
  | eq | ne | lt | gt | le | ge
  deriving DecidableEq, Repr

/-- Modelled from the spec: an expression that yields a string, which is a
field of type `String` or the value access `map["key"]` or `map.key` on a field
of type `StringMap`. -/
inductive Text where
  | field (name : String)
  | entry (map key : String)
  deriving DecidableEq, Repr

/-- Modelled from the spec: the supported expression grammar.  Comparisons of
a declared field with a literal of its type; the membership tests
`has(map.key)` and `"key" in map`; the string operations
`text.contains("substr")` and `"elem" in text.split("sep")`; and the boolean
composition with `!`, `&&` and `||`. -/
inductive Expr where
  | compareText (op : Comparison) (text : Text) (literal : String)
  | compareInt (op : Comparison) (field : String) (literal : Int)
  | compareTimestamp (op : Comparison) (field : String) (seconds : Int)
  | has (map key : String)
  | inKeys (key map : String)
  | contains (text : Text) (substr : String)
  | inSplit (elem : String) (text : Text) (sep : String)
  | not (e : Expr)
  | and (l r : Expr)
  | or (l r : Expr)
  deriving DecidableEq, Repr

/-- A token of the text of an expression. -/
inductive Token where
  | ident (name : String)
  | keyword (word : String)
  | string (value : String)
  | int (value : Nat)
  | lparen
  | rparen
  | lbracket
  | rbracket
  | dot
  | minus
  | not
  | cmp (op : Comparison)
  | and
  | or
  deriving DecidableEq, Repr

/-- What the tokenizer is reading: nothing, an identifier, a number, a string
literal, the rune after a backslash in a string literal, or an operator of
which it has read the first rune; or it has failed. -/
inductive Mode where
  | start
  | ident (runes : List Char)
  | number (value : Nat)
  | string (runes : List Char)
  | escape (runes : List Char)
  | operator (first : Char)
  | failed
  deriving DecidableEq, Repr

/-- The tokenizer: the tokens read so far and what is being read. -/
structure Lexer where
  tokens : List Token
  mode : Mode
  deriving DecidableEq, Repr

/-- The double quote. -/
def quote : Char := Char.ofNat 34

/-- The backslash. -/
def backslash : Char := Char.ofNat 92

/-- The line feed. -/
def lineFeed : Char := Char.ofNat 10

/-- The carriage return. -/
def carriageReturn : Char := Char.ofNat 13

/-- A rune that starts an identifier: a letter or `_`. -/
def isLetter (c : Char) : Bool :=
  ('a' ≤ c && c ≤ 'z') || ('A' ≤ c && c ≤ 'Z') || c = '_'

/-- A decimal digit. -/
def isDigit (c : Char) : Bool := '0' ≤ c && c ≤ '9'

/-- White space between tokens. -/
def isSpace (c : Char) : Bool :=
  c = ' ' || c = Char.ofNat 9 || c = lineFeed || c = carriageReturn

/-- The words that are tokens of their own and no identifiers. -/
def keywords : List String := ["in", "true", "false", "null"]

/-- The token of a word: a keyword or an identifier. -/
def word (runes : List Char) : Token :=
  if String.mk runes ∈ keywords then Token.keyword (String.mk runes)
  else Token.ident (String.mk runes)

/-- The tokenizer reads a rune where no token is begun. -/
def Lexer.startRune (tokens : List Token) (c : Char) : Lexer :=
  if isSpace c then { tokens := tokens, mode := Mode.start }
  else if isLetter c then { tokens := tokens, mode := Mode.ident [c] }
  else if isDigit c then { tokens := tokens, mode := Mode.number (c.toNat - 48) }
  else if c = quote then { tokens := tokens, mode := Mode.string [] }
  else if c = '=' || c = '!' || c = '<' || c = '>' || c = '&' || c = '|' then
    { tokens := tokens, mode := Mode.operator c }
  else if c = '(' then { tokens := tokens ++ [Token.lparen], mode := Mode.start }
  else if c = ')' then { tokens := tokens ++ [Token.rparen], mode := Mode.start }
  else if c = '[' then { tokens := tokens ++ [Token.lbracket], mode := Mode.start }
  else if c = ']' then { tokens := tokens ++ [Token.rbracket], mode := Mode.start }
  else if c = '.' then { tokens := tokens ++ [Token.dot], mode := Mode.start }
  else if c = '-' then { tokens := tokens ++ [Token.minus], mode := Mode.start }
  else { tokens := tokens, mode := Mode.failed }

/-- The operator of two runes that ends with `=`. -/
def withEquals (first : Char) : Option Token :=
  if first = '=' then some (Token.cmp Comparison.eq)
  else if first = '!' then some (Token.cmp Comparison.ne)
  else if first = '<' then some (Token.cmp Comparison.le)
  else if first = '>' then some (Token.cmp Comparison.ge)
  else none

/-- The operator of one rune. -/
def alone (first : Char) : Option Token :=
  if first = '!' then some Token.not
  else if first = '<' then some (Token.cmp Comparison.lt)
  else if first = '>' then some (Token.cmp Comparison.gt)
  else none

/-- The tokenizer reads a rune. -/
def Lexer.step (l : Lexer) (c : Char) : Lexer :=
  match l.mode with
  | Mode.start => Lexer.startRune l.tokens c
  | Mode.ident runes =>
    if isLetter c || isDigit c then { tokens := l.tokens, mode := Mode.ident (runes ++ [c]) }
    else Lexer.startRune (l.tokens ++ [word runes]) c
  | Mode.number value =>
    if isDigit c then { tokens := l.tokens, mode := Mode.number (value * 10 + (c.toNat - 48)) }
    else if isLetter c then { tokens := l.tokens, mode := Mode.failed }
    else Lexer.startRune (l.tokens ++ [Token.int value]) c
  | Mode.string runes =>
    if c = quote then
      { tokens := l.tokens ++ [Token.string (String.mk runes)], mode := Mode.start }
    else if c = backslash then { tokens := l.tokens, mode := Mode.escape runes }
    else if c = lineFeed || c = carriageReturn then { tokens := l.tokens, mode := Mode.failed }
    else { tokens := l.tokens, mode := Mode.string (runes ++ [c]) }
  | Mode.escape runes =>
    if c = quote || c = backslash then { tokens := l.tokens, mode := Mode.string (runes ++ [c]) }
    else if c = 'n' then { tokens := l.tokens, mode := Mode.string (runes ++ [lineFeed]) }
    else if c = 'r' then
      { tokens := l.tokens, mode := Mode.string (runes ++ [carriageReturn]) }
    else if c = 't' then { tokens := l.tokens, mode := Mode.string (runes ++ [Char.ofNat 9]) }
    else { tokens := l.tokens, mode := Mode.failed }
  | Mode.operator first =>
    if c = '=' then
      match withEquals first with
      | some token => { tokens := l.tokens ++ [token], mode := Mode.start }
      | none => { tokens := l.tokens, mode := Mode.failed }
    else if first = '&' then
      if c = '&' then { tokens := l.tokens ++ [Token.and], mode := Mode.start }
      else { tokens := l.tokens, mode := Mode.failed }
    else if first = '|' then
      if c = '|' then { tokens := l.tokens ++ [Token.or], mode := Mode.start }
      else { tokens := l.tokens, mode := Mode.failed }
    else
      match alone first with
      | some token => Lexer.startRune (l.tokens ++ [token]) c
      | none => { tokens := l.tokens, mode := Mode.failed }
  | Mode.failed => l

/-- The tokens at the end of the text, if the text ends where a token can
end. -/
def Lexer.finish (l : Lexer) : Option (List Token) :=
  match l.mode with
  | Mode.start => some l.tokens
  | Mode.ident runes => some (l.tokens ++ [word runes])
  | Mode.number value => some (l.tokens ++ [Token.int value])
  | Mode.operator first =>
    match alone first with
    | some token => some (l.tokens ++ [token])
    | none => none
  | _ => none

/-- Modelled from the spec: the tokens of the text of an expression. -/
def lex (filter : String) : Option (List Token) :=
  (filter.data.foldl Lexer.step { tokens := [], mode := Mode.start }).finish

/-- Modelled from the spec: a string-valued expression at the head of the
tokens: a field, or the value access `map.key` or `map["key"]`.  A name that is
followed by `(` is the name of a method and no key. -/
def parseText : List Token → Option (Text × List Token)
  | Token.ident field :: Token.dot :: Token.ident method :: Token.lparen :: rest =>
    some (Text.field field, Token.dot :: Token.ident method :: Token.lparen :: rest)
  | Token.ident map :: Token.dot :: Token.ident key :: rest => some (Text.entry map key, rest)
  | Token.ident map :: Token.lbracket :: Token.string key :: Token.rbracket :: rest =>
    some (Text.entry map key, rest)
  | Token.ident field :: rest => some (Text.field field, rest)
  | _ => none

/-- Modelled from the spec: a test at the head of the tokens: `has(map.key)`,
`"key" in map`, `"elem" in text.split("sep")`, `text.contains("substr")`, or
the comparison of a string-valued expression with a string literal or of a
field with an integer or with `timestamp("...")`. -/
def parseTest : List Token → Option (Expr × List Token)
  | Token.ident name :: Token.lparen :: Token.ident map :: Token.dot :: Token.ident key ::
      Token.rparen :: rest =>
    if name = "has" then some (Expr.has map key, rest) else none
  | Token.string elem :: Token.keyword w :: rest =>
    if w = "in" then
      match parseText rest with
      | some (text, Token.dot :: Token.ident method :: Token.lparen :: Token.string sep ::
          Token.rparen :: rest2) =>
        if method = "split" then some (Expr.inSplit elem text sep, rest2) else none
      | some (Text.field map, rest2) => some (Expr.inKeys elem map, rest2)
      | _ => none
    else none
  | tokens =>
    match parseText tokens with
    | some (text, Token.dot :: Token.ident method :: Token.lparen :: Token.string substr ::
        Token.rparen :: rest) =>
      if method = "contains" then some (Expr.contains text substr, rest) else none
    | some (text, Token.cmp op :: Token.string literal :: rest) =>
      some (Expr.compareText op text literal, rest)
    | some (Text.field field, Token.cmp op :: Token.int n :: rest) =>
      some (Expr.compareInt op field n, rest)
    | some (Text.field field, Token.cmp op :: Token.minus :: Token.int n :: rest) =>
      some (Expr.compareInt op field (-(n : Int)), rest)
    | some (Text.field field, Token.cmp op :: Token.ident name :: Token.lparen ::
        Token.string literal :: Token.rparen :: rest) =>
      if name = "timestamp" then
        match time.parseRFC3339 literal with
        | some seconds => some (Expr.compareTimestamp op field seconds, rest)
        | none => none
      else none
    | _ => none

mutual

/-- Modelled from the spec: a disjunction at the head of the tokens. -/
def parseOr : Nat → List Token → Option (Expr × List Token)
  | 0, _ => none
  | fuel + 1, tokens =>
    match parseAnd fuel tokens with
    | some (l, Token.or :: rest) =>
      match parseOr fuel rest with
      | some (r, rest2) => some (Expr.or l r, rest2)
      | none => none
    | other => other

/-- Modelled from the spec: a conjunction at the head of the tokens. -/
def parseAnd : Nat → List Token → Option (Expr × List Token)
  | 0, _ => none
  | fuel + 1, tokens =>
    match parseUnary fuel tokens with
    | some (l, Token.and :: rest) =>
      match parseAnd fuel rest with
      | some (r, rest2) => some (Expr.and l r, rest2)
      | none => none
    | other => other

/-- Modelled from the spec: a negation, an expression in parentheses or a
test at the head of the tokens. -/
def parseUnary : Nat → List Token → Option (Expr × List Token)
  | 0, _ => none
  | fuel + 1, Token.not :: rest =>
    match parseUnary fuel rest with
    | some (e, rest2) => some (Expr.not e, rest2)
    | none => none
  | fuel + 1, Token.lparen :: rest =>
    match parseOr fuel rest with
    | some (e, Token.rparen :: rest2) => some (e, rest2)
    | _ => none
  | _ + 1, tokens => parseTest tokens

end

/-- Modelled from the spec: the expression that a text writes.  Every call of
the parser reads a token or goes one level down in the grammar, which has three
levels, so three calls for every token are enough. -/
def parse (filter : String) : Except String Expr :=
  match lex filter with
  | none => Except.error "syntax error"
  | some tokens =>
    match parseOr (3 * tokens.length + 3) tokens with
    | some (e, []) => Except.ok e
    | _ => Except.error "syntax error"

/-- The declared type of a field, if the field is declared. -/
def typeOf (fields : List Field) (name : String) : Option FieldType :=
  match fields with
  | [] => none
  | f :: rest => if f.Name = name then some f.Typ else typeOf rest name

/-- Modelled from the spec: a string-valued expression is well formed when
its field is declared with the type it is used at. -/
def Text.check (fields : List Field) : Text → Bool
  | Text.field name => typeOf fields name = some FieldType.String
  | Text.entry map _ => typeOf fields map = some FieldType.StringMap

/-- Modelled from the spec: the checks of compilation.  A reference to an
undeclared field and a mismatch between the type of a field and its use are
errors. -/
def Expr.check (fields : List Field) : Expr → Bool
  | Expr.compareText _ text _ => text.check fields
  | Expr.compareInt _ field _ => typeOf fields field = some FieldType.Int
  | Expr.compareTimestamp _ field _ => typeOf fields field = some FieldType.Timestamp
  | Expr.has map _ => typeOf fields map = some FieldType.StringMap
  | Expr.inKeys _ map => typeOf fields map = some FieldType.StringMap
  | Expr.contains text _ => text.check fields
  | Expr.inSplit _ text _ => text.check fields
  | Expr.not e => e.check fields
  | Expr.and l r => l.check fields && r.check fields
  | Expr.or l r => l.check fields && r.check fields

/-- The entries of a field of type `StringMap` in a record; a record without
the field has none. -/
def entriesOf (record : List (String × Value)) (map : String) : List (String × String) :=
  match get record map with
  | some (Value.stringMap entries) => entries
  | _ => []

/-- Modelled from the spec: the string that a string-valued expression yields
on a record; an absent field or key yields the empty string. -/
def Text.eval (record : List (String × Value)) : Text → String
  | Text.field name =>
    match get record name with
    | some (Value.string s) => s
    | _ => ""
  | Text.entry map key => (get (entriesOf record map) key).getD ""

/-- The outcome of a comparison of two integers. -/
def Comparison.holds (op : Comparison) (a b : Int) : Bool :=
  match op with
  | Comparison.eq => a = b
  | Comparison.ne => a ≠ b
  | Comparison.lt => a < b
  | Comparison.gt => a > b
  | Comparison.le => a ≤ b
  | Comparison.ge => a ≥ b

/-- The outcome of a comparison of two strings, in the order of their
runes. -/
def Comparison.holdsText (op : Comparison) (a b : String) : Bool :=
  match op with
  | Comparison.eq => a = b
  | Comparison.ne => a ≠ b
  | Comparison.lt => a < b
  | Comparison.gt => b < a
  | Comparison.le => !(b < a)
  | Comparison.ge => !(a < b)

/-- Whether the text has the given runes as a substring. -/
def hasSubstring (sub : List Char) : List Char → Bool
  | [] => sub.isEmpty
  | c :: s => sub.isPrefixOf (c :: s) || hasSubstring sub s

/-- The pieces of a text between the occurrences of a separator that is not
empty; `skip` runes of a separator are still to be passed over, and `piece` is
the piece so far. -/
def splitBy (sep : List Char) : Nat → List Char → List Char → List (List Char)
  | _, piece, [] => [piece]
  | skip + 1, piece, _ :: s => splitBy sep skip piece s
  | 0, piece, c :: s =>
    if sep.isPrefixOf (c :: s) then piece :: splitBy sep (sep.length - 1) [] s
    else splitBy sep 0 (piece ++ [c]) s

/-- Modelled from the spec: the value of an expression on a record.  An
absent field behaves as an empty one: a number is 0 and a map has no key. -/
def Expr.eval (record : List (String × Value)) : Expr → Bool
  | Expr.compareText op text literal => op.holdsText (text.eval record) literal
  | Expr.compareInt op field literal =>
    match get record field with
    | some (Value.int n) => op.holds n literal
    | _ => op.holds 0 literal
  | Expr.compareTimestamp op field seconds =>
    match get record field with
    | some (Value.timestamp t) => op.holds t seconds
    | _ => op.holds 0 seconds
  | Expr.has map key => (get (entriesOf record map) key).isSome
  | Expr.inKeys key map => (entriesOf record map).any fun entry => entry.1 = key
  | Expr.contains text substr => hasSubstring substr.data (text.eval record).data
  | Expr.inSplit elem text sep =>
    (splitBy sep.data 0 [] (text.eval record).data).contains elem.data
  | Expr.not e => !e.eval record
  | Expr.and l r => l.eval record && r.eval record
  | Expr.or l r => l.eval record || r.eval record

/-- A compiled filter: the expression and the fields it was checked
against. -/
structure Filter where
  expr : Expr
  fields : List Field
  deriving DecidableEq, Repr

/-- Modelled from the spec: `NewFilter(filter, fields)`, the compilation of
the text of an expression against the declared fields.  A text that is no
expression, a reference to an undeclared field and a type mismatch are
errors. -/
def NewFilter (filter : String) (fields : List Field) : Except String Filter :=
  match parse filter with
  | Except.error err => Except.error err
  | Except.ok expr =>
    if expr.check fields then Except.ok { expr := expr, fields := fields }
    else Except.error "undeclared reference or type mismatch"

/-- Modelled from the spec: `Filter.Matches(record)`.  No error is produced at
match time. -/
def Filter.Matches (f : Filter) (record : List (String × Value)) : Except String Bool :=
  Except.ok (f.expr.eval record)

/-- Whether the filter compiles against the fields, matches the first record
and does not match the second, both without an error: what one row of the
table of `TestFilter_Matches` asks for. -/
def passes (filter : String) (fields : List Field)
    (positive negative : List (String × Value)) : Bool :=
  match NewFilter filter fields with
  | Except.error _ => false
  | Except.ok f =>
    f.Matches positive = Except.ok true && f.Matches negative = Except.ok false

/-- The schema `{labels: StringMap}`. -/
def labelled : List Field := [{ Name := "labels", Typ := FieldType.StringMap }]

/-- A key that a string literal writes as it is: a key without a double
quote, a backslash and a line break. -/
def isPlainKey (key : String) : Bool :=
  key.data.all fun c => c ≠ quote && c ≠ backslash && c ≠ lineFeed && c ≠ carriageReturn

/-- A key that a field selection `map.key` can name: an identifier that is no
keyword. -/
def isSelectableKey (key : String) : Bool :=
  match key.data with
  | [] => false
  | c :: rest =>
    isLetter c && rest.all (fun r => isLetter r || isDigit r) && decide (key ∉ keywords)

end filtering

namespace filtering

/-- The map of the record under `labels` contains the key: the record has a
first entry named `labels`, the value of the entry is a map, and the map has an
entry with the key.  This is said of the record as it is written, without the
lookup of the engine. -/
def labelsContain (record : List (String × Value)) (key : String) : Prop :=
  ∃ pre entries post value,
    record = pre ++ ("labels", Value.stringMap entries) :: post ∧
      (∀ e ∈ pre, e.1 ≠ "labels") ∧ (key, value) ∈ entries

end filtering

/-! ## Calls that run at the same time

A handler that runs next to another one is a sequence of steps.  A step is a
call of the storage layer or the emission of an event, which happens at once on
the store as it is at that moment, or the taking or the release of
`updateDeploymentMutex`; what the handler computes between two steps touches
nothing that is shared.  `Call` is a handler as far as it has still to run;
`Call.run` runs it alone, and a `Config` runs two of them under a schedule. -/

/-- A handler as far as it has still to run: it has returned, or its next step
is a step on the store that emits events and continues as the store at that
moment says, or `Lock()`, or `Unlock()`. -/
inductive Call (Store Model α : Type) where
  | ret (a : α)
  | atomic (act : Store → Store × List (Event Model)) (next : Store → Call Store Model α)
  | lock (next : Call Store Model α)
  | unlock (next : Call Store Model α)

namespace Call

variable {Store Model α β : Type}

/-- A step that records an event and continues as the store says. -/
def read (e : Event Model) (next : Store → Call Store Model α) : Call Store Model α :=
  Call.atomic (fun s => (s, [e])) next

/-- A step that records an event. -/
def emit (e : Event Model) (next : Call Store Model α) : Call Store Model α :=
  Call.atomic (fun s => (s, [e])) fun _ => next

/-- The call, and then what is to be done with what it returns. -/
def bind : Call Store Model α → (α → Call Store Model β) → Call Store Model β
  | Call.ret a, f => f a
  | Call.atomic act next, f => Call.atomic act fun s => (next s).bind f
  | Call.lock next, f => Call.lock (next.bind f)
  | Call.unlock next, f => Call.unlock (next.bind f)

/-- The call run alone on a store: what it returns, the store it leaves and
the events it emits. -/
def eval : Call Store Model α → Store → α × Store × List (Event Model)
  | Call.ret a, s => (a, s, [])
  | Call.atomic act next, s =>
    let r := (next s).eval (act s).1
    (r.1, r.2.1, (act s).2 ++ r.2.2)
  | Call.lock next, s =>
    let r := next.eval s
    (r.1, r.2.1, Event.Lock :: r.2.2)
  | Call.unlock next, s =>
    let r := next.eval s
    (r.1, r.2.1, Event.Unlock :: r.2.2)

/-- The call run alone in a world. -/
def run (c : Call Store Model α) (w : World Store Model) : α × World Store Model :=
  let r := c.eval w.store
  (r.1, { store := r.2.1, trace := w.trace ++ r.2.2 })

/-- The call without its uses of the mutex. -/
def unlocked : Call Store Model α → Call Store Model α
  | Call.ret a => Call.ret a
  | Call.atomic act next => Call.atomic act fun s => (next s).unlocked
  | Call.lock next => next.unlocked
  | Call.unlock next => next.unlocked

/-- What the call has returned, if it has returned. -/
def returned : Call Store Model α → Option α
  | Call.ret a => some a
  | _ => none

/-- A call that takes and releases no mutex and whose steps keep a property
of the store. -/
inductive Section (Good : Store → Prop) : Call Store Model α → Prop where
  | ret (a : α) : Section Good (Call.ret a)
  | atomic (act : Store → Store × List (Event Model)) (next : Store → Call Store Model α)
      (hgood : ∀ s, Good s → Good (act s).1) (hnext : ∀ s, Good s → Section Good (next s)) :
      Section Good (Call.atomic act next)

end Call

section calls

variable {Store Body Model : Type}

/-- The call `s.getStorageClient(ctx)` as a step: it leaves the store as it
is. -/
def clientStep (env : Env Store Body Model) (s : Store) : Store × List (Event Model) :=
  match env.getStorageClient s with
  | Except.error _ => (s, [])
  | Except.ok () => (s, [Event.getStorageClient])

/-- What follows `s.getStorageClient(ctx)`: the return of `Unavailable` when
it has failed, and else the rest of the handler and then the deferred
`db.Close()`. -/
def afterClient {α : Type} (env : Env Store Body Model)
    (rest : Call Store Model (Except status.Status α)) (s : Store) :
    Call Store Model (Except status.Status α) :=
  match env.getStorageClient s with
  | Except.error err => Call.ret (Except.error (status.Error codes.Code.Unavailable err))
  | Except.ok () => rest.bind fun r => Call.emit Event.Close (Call.ret r)

/-- The opening of every handler that uses the store, as `withStorageClient`,
step by step: `getStorageClient` is a step, and so is the deferred
`db.Close()`. -/
def withStorageClientCall {α : Type} (env : Env Store Body Model)
    (rest : Call Store Model (Except status.Status α)) :
    Call Store Model (Except status.Status α) :=
  Call.atomic (clientStep env) (afterClient env rest)

/-- The call `db.SaveDeploymentRevision(ctx, deployment)` as a step. -/
def saveStep (env : Env Store Body Model) (deployment : Model) (s : Store) :
    Store × List (Event Model) :=
  match env.SaveDeploymentRevision s deployment with
  | Except.error _ => (s, [Event.SaveDeploymentRevision deployment false])
  | Except.ok store => (store, [Event.SaveDeploymentRevision deployment true])

/-- The method `createDeployment` of the server, step by step. -/
def createDeploymentCall (env : Env Store Body Model) (name : names.Deployment) (body : Body) :
    Call Store Model (Except status.Status Body) :=
  withStorageClientCall env <|
    Call.read (Event.GetDeployment name) fun s =>
      match env.GetDeployment s name with
      | Except.ok _ =>
        Call.ret (Except.error (status.Errorf codes.Code.AlreadyExists
          "API deployment %q already exists" [FmtArg.str (env.DeploymentString name)]))
      | Except.error err =>
        if !env.isNotFound (some err) then Call.ret (Except.error err)
        else
          match env.Validate name with
          | Except.error err =>
            Call.ret (Except.error (status.Error codes.Code.InvalidArgument err))
          | Except.ok () =>
            -- Creation should only succeed when the parent exists.
            Call.read (Event.GetApi name.Api) fun s =>
              match env.GetApi s name.Api with
              | Except.error err => Call.ret (Except.error err)
              | Except.ok () =>
                match env.NewDeployment name body with
                | Except.error err =>
                  Call.ret (Except.error (status.Error codes.Code.InvalidArgument err))
                | Except.ok deployment =>
                  Call.atomic (saveStep env deployment) fun s =>
                    match env.SaveDeploymentRevision s deployment with
                    | Except.error err => Call.ret (Except.error err)
                    | Except.ok _ =>
                      match env.BasicMessage deployment (env.DeploymentString name) [] with
                      | Except.error err =>
                        Call.ret (Except.error (status.Error codes.Code.Internal err))
                      | Except.ok message =>
                        Call.emit (Event.notify rpc.Notification_ChangeType.CREATED
                          (env.RevisionName deployment)) (Call.ret (Except.ok message))

/-- The function `deploymentRevisionTags`, step by step. -/
def deploymentRevisionTagsCall (env : Env Store Body Model) (name : names.DeploymentRevision) :
    Call Store Model (Except status.Status (List String)) :=
  Call.read (Event.GetDeploymentTags name.Deployment) fun s =>
    match env.GetDeploymentTags s name.Deployment with
    | Except.error err => Call.ret (Except.error err)
    | Except.ok allTags => Call.ret (Except.ok (revisionTagsLoop name.RevisionID allTags []))

/-- The use of `updateDeploymentMutex` in `UpdateApiDeployment`, step by step:
when `allow_missing` is set, `Lock()` before and the deferred `Unlock()` after
the rest of the handler. -/
def withUpdateDeploymentMutexCall {α : Type} (allowMissing : Bool)
    (rest : Call Store Model α) : Call Store Model α :=
  if allowMissing then Call.lock (rest.bind fun r => Call.unlock (Call.ret r))
  else rest

/-- The part of `UpdateApiDeployment` from `db.GetDeployment` on, which runs
with the mutex held when `allow_missing` is set. -/
def updateSection (env : Env Store Body Model) (req : rpc.UpdateApiDeploymentRequest Body)
    (body : Body) (name : names.Deployment) : Call Store Model (Except status.Status Body) :=
  Call.read (Event.GetDeployment name) fun s =>
    let found := env.GetDeployment s name
    let err : Option status.Status :=
      match found with
      | Except.ok _ => none
      | Except.error err => some err
    if req.AllowMissing && env.isNotFound err then createDeploymentCall env name body
    else
      match found with
      | Except.error err => Call.ret (Except.error err)
      | Except.ok deployment =>
        -- Apply the update to the deployment - possibly changing the revision ID.
        match env.Update deployment body (env.ExpandMask body req.UpdateMask) with
        | Except.error err => Call.ret (Except.error (status.Error codes.Code.Internal err))
        | Except.ok deployment =>
          -- Save the updated/current deployment.
          Call.atomic (saveStep env deployment) fun s =>
            match env.SaveDeploymentRevision s deployment with
            | Except.error err => Call.ret (Except.error err)
            | Except.ok _ =>
              (deploymentRevisionTagsCall env (name.Revision (env.RevisionID deployment))).bind
                fun
                | Except.error err => Call.ret (Except.error err)
                | Except.ok tags =>
                  match env.BasicMessage deployment (env.DeploymentString name) tags with
                  | Except.error err =>
                    Call.ret (Except.error (status.Error codes.Code.Internal err))
                  | Except.ok message =>
                    Call.emit (Event.notify rpc.Notification_ChangeType.UPDATED
                      (env.RevisionName deployment)) (Call.ret (Except.ok message))

/-- The part of `UpdateApiDeployment` between `defer db.Close()` and its
return: the checks of the request, and the rest with the mutex. -/
def updateBody (env : Env Store Body Model) (req : rpc.UpdateApiDeploymentRequest Body) :
    Call Store Model (Except status.Status Body) :=
  match req.ApiDeployment with
  | none =>
    Call.ret (Except.error (status.Errorf codes.Code.InvalidArgument
      "invalid api_deployment %+v: body must be provided" [FmtArg.nil]))
  | some body =>
    match env.ValidateMask body req.UpdateMask with
    | Except.error err =>
      Call.ret (Except.error (status.Errorf codes.Code.InvalidArgument
        "invalid update_mask %v: %s"
        [FmtArg.paths (req.UpdateMask.map fun m => m.Paths), FmtArg.str err]))
    | Except.ok () =>
      match env.ParseDeployment (env.GetName body) with
      | Except.error err =>
        Call.ret (Except.error (status.Error codes.Code.InvalidArgument err))
      | Except.ok name =>
        withUpdateDeploymentMutexCall req.AllowMissing (updateSection env req body name)

/-- UpdateApiDeployment, step by step. -/
def UpdateApiDeploymentCall (env : Env Store Body Model)
    (req : rpc.UpdateApiDeploymentRequest Body) : Call Store Model (Except status.Status Body) :=
  withStorageClientCall env (updateBody env req)

end calls

/-- Two calls that run at the same time: the world they share, whether the
mutex is held, and the two calls as far as they have still to run. -/
structure Config (Store Model α : Type) where
  world : World Store Model
  held : Bool
  calls : Bool → Call Store Model α

namespace Config

variable {Store Model α : Type}

/-- The two calls before their first step, in a world where the mutex is
free. -/
def start (store : Store) (calls : Bool → Call Store Model α) : Config Store Model α :=
  { world := World.start store, held := false, calls := calls }

/-- The configuration after the call `i` has continued as `next`. -/
def advance (c : Config Store Model α) (i : Bool) (world : World Store Model) (held : Bool)
    (next : Call Store Model α) : Config Store Model α :=
  { world := world, held := held, calls := fun j => if j = i then next else c.calls j }

/-- The next step of the call `i`, if it can take one: a call that has
returned takes none, and `Lock()` waits while the mutex is held. -/
def move (c : Config Store Model α) (i : Bool) : Option (Config Store Model α) :=
  match c.calls i with
  | Call.ret _ => none
  | Call.atomic act next =>
    some (c.advance i
      { store := (act c.world.store).1, trace := c.world.trace ++ (act c.world.store).2 }
      c.held (next c.world.store))
  | Call.lock next =>
    if c.held then none else some (c.advance i (c.world.emit Event.Lock) true next)
  | Call.unlock next => some (c.advance i (c.world.emit Event.Unlock) false next)

/-- The configuration after a schedule, which names the call that is to move
next; a call that cannot move is passed over. -/
def exec : List Bool → Config Store Model α → Config Store Model α
  | [], c => c
  | i :: schedule, c =>
    match c.move i with
    | none => exec schedule c
    | some c2 => exec schedule c2

/-- What the two calls have returned, if both have returned. -/
def results (c : Config Store Model α) : Option (α × α) :=
  match (c.calls false).returned, (c.calls true).returned with
  | some a, some b => some (a, b)
  | _, _ => none

end Config

/-- Whether the event changes the registry or tells of a change: a call of
`SaveDeploymentRevision` or of `DeleteDeployment`, or a notification. -/
def Event.isChange {Model : Type} : Event Model → Bool
  | Event.SaveDeploymentRevision _ _ => true
  | Event.DeleteDeployment _ _ => true
  | Event.notify _ _ => true
  | _ => false

namespace Call

variable {Store Model α : Type}

/-- A call that holds the mutex: what it still does with the mutex held, the
deferred `Unlock()` and the deferred `db.Close()`. -/
def inside (X : Call Store Model α) : Call Store Model α :=
  (X.bind fun r => Call.unlock (Call.ret r)).bind fun r => Call.emit Event.Close (Call.ret r)

end Call

/-- Two calls that take the same mutex: the store they start on, the calls,
the first step of either and how it continues, what either does with the mutex
held, a property of the store that these steps rely on, and the events that are
looked at. -/
structure Race (Store Model α : Type) where
  store : Store
  enter : Bool → Call Store Model α
  pre : Bool → Store → Store × List (Event Model)
  after : Bool → Store → Call Store Model α
  critical : Bool → Call Store Model α
  good : Store → Prop
  relevant : Event Model → Bool

namespace Race

variable {Store Model α : Type}

/-- The call `i` run alone, with the mutex held, on the store at the start. -/
def first (R : Race Store Model α) (i : Bool) : α × Store × List (Event Model) :=
  (R.critical i).eval R.store

/-- The other call run alone, with the mutex held, on the store that the call
`i` has left. -/
def second (R : Race Store Model α) (i : Bool) : α × Store × List (Event Model) :=
  (R.critical (!i)).eval (R.first i).2.1

/-- Each of the two calls begins with a step that leaves the store as it is
and emits no event that is looked at, then takes the mutex, does what it does
with the mutex held, releases the mutex and closes its storage client; and the
mutex and the client are not looked at. -/
structure Lawful (R : Race Store Model α) : Prop where
  good_store : R.good R.store
  enter_eq : ∀ i, R.enter i = Call.atomic (R.pre i) (R.after i)
  pre_store : ∀ i s, R.good s → (R.pre i s).1 = s
  pre_quiet : ∀ i s, R.good s → (R.pre i s).2.filter R.relevant = []
  after_eq : ∀ i s, R.good s → R.after i s = Call.lock (R.critical i).inside
  critical_section : ∀ i, Call.Section R.good (R.critical i)
  lock_quiet : R.relevant Event.Lock = false
  unlock_quiet : R.relevant Event.Unlock = false
  close_quiet : R.relevant Event.Close = false

/-- The call `i` has not yet taken the mutex. -/
def Waiting (R : Race Store Model α) (i : Bool) (c : Call Store Model α) : Prop :=
  c = R.enter i ∨ c = Call.lock (R.critical i).inside

/-- The call has released the mutex and returns `r`. -/
def Leaving (r : α) (c : Call Store Model α) : Prop :=
  c = Call.emit Event.Close (Call.ret r) ∨ c = Call.ret r

/-- How far the two calls have come: none has taken the mutex; the call `i`
holds it as the first; the call `i` has released it and the other has not yet
taken it; the other holds it; both have released it. -/
inductive Stage (R : Race Store Model α) : Config Store Model α → Prop where
  | waiting (c : Config Store Model α) (hheld : c.held = false)
      (hcalls : ∀ i, R.Waiting i (c.calls i)) (hstore : c.world.store = R.store)
      (htrace : c.world.trace.filter R.relevant = []) : Stage R c
  | first (c : Config Store Model α) (i : Bool) (X : Call Store Model α)
      (hheld : c.held = true) (hX : Call.Section R.good X) (hcall : c.calls i = X.inside)
      (hother : R.Waiting (!i) (c.calls (!i)))
      (hresult : (X.eval c.world.store).1 = (R.first i).1)
      (hstore : (X.eval c.world.store).2.1 = (R.first i).2.1)
      (htrace : c.world.trace.filter R.relevant ++ (X.eval c.world.store).2.2.filter R.relevant
        = (R.first i).2.2.filter R.relevant) : Stage R c
  | between (c : Config Store Model α) (i : Bool) (hheld : c.held = false)
      (hcall : Leaving (R.first i).1 (c.calls i)) (hother : R.Waiting (!i) (c.calls (!i)))
      (hstore : c.world.store = (R.first i).2.1)
      (htrace : c.world.trace.filter R.relevant = (R.first i).2.2.filter R.relevant) :
      Stage R c
  | second (c : Config Store Model α) (i : Bool) (X : Call Store Model α)
      (hheld : c.held = true) (hcall : Leaving (R.first i).1 (c.calls i))
      (hX : Call.Section R.good X) (hother : c.calls (!i) = X.inside)
      (hresult : (X.eval c.world.store).1 = (R.second i).1)
      (hstore : (X.eval c.world.store).2.1 = (R.second i).2.1)
      (htrace : c.world.trace.filter R.relevant ++ (X.eval c.world.store).2.2.filter R.relevant
        = (R.first i).2.2.filter R.relevant ++ (R.second i).2.2.filter R.relevant) : Stage R c
  | finished (c : Config Store Model α) (i : Bool) (hheld : c.held = false)
      (hcall : Leaving (R.first i).1 (c.calls i))
      (hother : Leaving (R.second i).1 (c.calls (!i)))
      (hstore : c.world.store = (R.second i).2.1)
      (htrace : c.world.trace.filter R.relevant
        = (R.first i).2.2.filter R.relevant ++ (R.second i).2.2.filter R.relevant) : Stage R c

end Race

/-- Two calls of `UpdateApiDeployment` that run at the same time on a store:
the call `false` has the first request and the call `true` the second. -/
def concurrentUpdates {Store Body Model : Type} (env : Env Store Body Model) (store : Store)
    (first second : rpc.UpdateApiDeploymentRequest Body) :
    Config Store Model (Except status.Status Body) :=
  Config.start store fun i => UpdateApiDeploymentCall env (if i then second else first)

/-- The same two calls without their uses of the mutex. -/
def concurrentUpdatesUnlocked {Store Body Model : Type} (env : Env Store Body Model)
    (store : Store) (first second : rpc.UpdateApiDeploymentRequest Body) :
    Config Store Model (Except status.Status Body) :=
  Config.start store fun i =>
    (UpdateApiDeploymentCall env (if i then second else first)).unlocked

/-- Two calls of `UpdateApiDeployment` with `allow_missing` for the name
`name`, as two calls that take the same mutex: the first step is
`getStorageClient`, and what runs with the mutex held is `updateSection`.  The
events that are looked at are the changes of the registry. -/
def updateRace {Store Body Model : Type} (env : Env Store Body Model) (store : Store)
    (first second : rpc.UpdateApiDeploymentRequest Body) (body₁ body₂ : Body)
    (name : names.Deployment) : Race Store Model (Except status.Status Body) where
  store := store
  enter := fun i => UpdateApiDeploymentCall env (if i then second else first)
  pre := fun _ => clientStep env
  after := fun i => afterClient env (updateBody env (if i then second else first))
  critical := fun i =>
    updateSection env (if i then second else first) (if i then body₂ else body₁) name
  good := fun s => env.getStorageClient s = Except.ok ()
  relevant := Event.isChange

namespace memory

/-- One deployment was created and then updated: the call with the body
`creating` has created the deployment `name` on the store and has returned its
message; the call with the body `updating` has found that deployment, has saved
its update and has returned its message; the store holds the updated revision
and no revision of the deployment but those that the two calls have saved, and
the changes of the registry were the save of the new deployment, the
notification `CREATED`, the save of the update and the notification `UPDATED`,
in this order. -/
def CreatedThenUpdated (store : Store) (name : names.Deployment)
    (creating updating : ApiDeployment) (mask : Option fieldmaskpb.FieldMask)
    (created updated : Except status.Status ApiDeployment) (w : World Store Deployment) : Prop :=
  ∃ new saved changed final tags message₁ message₂,
    env.NewDeployment name creating = Except.ok new ∧
    env.SaveDeploymentRevision store new = Except.ok saved ∧
    env.GetDeployment saved name = Except.ok new ∧
    env.Update new updating (env.ExpandMask updating mask) = Except.ok changed ∧
    env.SaveDeploymentRevision saved changed = Except.ok final ∧
    env.GetDeploymentTags final name = Except.ok tags ∧
    env.BasicMessage new (DeploymentString name) [] = Except.ok message₁ ∧
    env.BasicMessage changed (DeploymentString name)
      (revisionTagsLoop changed.RevisionID tags []) = Except.ok message₂ ∧
    created = Except.ok message₁ ∧
    updated = Except.ok message₂ ∧
    w.store = final ∧
    changed ∈ final.deployments ∧
    (∀ e ∈ final.deployments, sameDeployment name e = true → e = new ∨ e = changed) ∧
    w.trace.filter Event.isChange =
      [Event.SaveDeploymentRevision new true,
        Event.notify rpc.Notification_ChangeType.CREATED (env.RevisionName new),
        Event.SaveDeploymentRevision changed true,
        Event.notify rpc.Notification_ChangeType.UPDATED (env.RevisionName changed)]

end memory

/-! ## Facts about runes, classes and the matcher -/

theorem char_le_iff_toNat (a b : Char) : a ≤ b ↔ a.toNat ≤ b.toNat := Iff.rfl

theorem char_eq_of_toNat_eq {a b : Char} (h : a.toNat = b.toNat) : a = b := by
  rw [← Char.ofNat_toNat a, ← Char.ofNat_toNat b, h]

theorem char_eq_iff_toNat (a b : Char) : a = b ↔ a.toNat = b.toNat :=
  ⟨fun h => by rw [h], char_eq_of_toNat_eq⟩

/-- Membership in the class of `customIdentifier`, rune by rune. -/
theorem inClass_customIdentifierClass (c : Char) :
    regexp.inClass names.customIdentifierClass c = true ↔
      (('a' ≤ c ∧ c ≤ 'z') ∨ ('0' ≤ c ∧ c ≤ '9') ∨ c = '-' ∨ c = '.') := by
  simp only [regexp.inClass, names.customIdentifierClass, List.any_cons, List.any_nil,
    Bool.or_false, Bool.or_eq_true, Bool.and_eq_true, decide_eq_true_eq, char_le_iff_toNat,
    char_eq_iff_toNat]
  have h1 : ('-' : Char).toNat = 45 := by decide
  have h2 : ('.' : Char).toNat = 46 := by decide
  rw [h1, h2]
  omega

theorem matchHere_endText (b : Bool) (s : List Char) :
    regexp.matchHere [regexp.Op.endText] b s = true ↔ s = [] := by
  simp [regexp.matchHere]

/-- A repeated class followed by the end of the text matches exactly the
non-empty inputs made of runes of the class. -/
theorem matchPlus_endText (ranges : List (Char × Char)) (b : Bool) (s : List Char) :
    regexp.matchPlus ranges (regexp.matchHere [regexp.Op.endText] b) s = true ↔
      s ≠ [] ∧ ∀ c ∈ s, regexp.inClass ranges c = true := by
  induction s with
  | nil => simp [regexp.matchPlus]
  | cons c s ih =>
    rw [regexp.matchPlus, Bool.and_eq_true, Bool.or_eq_true, ih, matchHere_endText]
    constructor
    · rintro ⟨hc, h | ⟨_, h⟩⟩
      · subst h; exact ⟨by simp, by simpa using hc⟩
      · refine ⟨by simp, ?_⟩
        intro x hx
        rcases List.mem_cons.mp hx with rfl | hx
        · exact hc
        · exact h x hx
    · rintro ⟨_, h⟩
      refine ⟨h c (List.mem_cons_self _ _), ?_⟩
      by_cases hs : s = []
      · exact Or.inl hs
      · exact Or.inr ⟨hs, fun x hx => h x (List.mem_cons_of_mem _ hx)⟩

/-- A pattern that starts with `^` matches nowhere but at the start. -/
theorem search_beginText_false (re : List regexp.Op) (s : List Char) :
    regexp.search (regexp.Op.beginText :: re) false s = false := by
  induction s with
  | nil => simp [regexp.search, regexp.matchHere]
  | cons c s ih => simp [regexp.search, regexp.matchHere, ih]

/-- What `customIdentifier.MatchString` decides. -/
theorem customIdentifier_MatchString (id : String) :
    names.customIdentifier.MatchString id = true ↔
      id.data ≠ [] ∧ ∀ c ∈ id.data, regexp.inClass names.customIdentifierClass c = true := by
  have h : regexp.search names.customIdentifier.prog true id.data =
      regexp.matchPlus names.customIdentifierClass
        (regexp.matchHere [regexp.Op.endText] false) id.data := by
    cases hd : id.data with
    | nil => simp [regexp.search, regexp.matchHere, names.customIdentifier]
    | cons c s =>
      simp [regexp.search, regexp.matchHere, names.customIdentifier, search_beginText_false]
  rw [regexp.Regexp.MatchString, h, matchPlus_endText]

theorem isPrefixOf_singleton (c : Char) (l : List Char) :
    [c].isPrefixOf l = true ↔ l.head? = some c := by
  cases l with
  | nil => simp
  | cons a l =>
    rw [List.isPrefixOf_cons₂, List.isPrefixOf_nil_left, Bool.and_true, List.head?_cons,
      beq_iff_eq, Option.some.injEq]
    exact eq_comm

theorem HasPrefix_singleton (s : String) (c : Char) :
    strings.HasPrefix s (String.mk [c]) = true ↔ s.data.head? = some c :=
  isPrefixOf_singleton c s.data

theorem HasSuffix_singleton (s : String) (c : Char) :
    strings.HasSuffix s (String.mk [c]) = true ↔ s.data.getLast? = some c := by
  unfold strings.HasSuffix List.isSuffixOf
  rw [← List.head?_reverse]
  exact isPrefixOf_singleton c s.data.reverse

/-! ## Identifiers -/

/-- C1: `validateID` returns no error exactly for the identifiers that are
non-empty, consist only of the runes `a`-`z`, `0`-`9`, `-` and `.`, are not
accepted by `uuid.Parse`, are at most 80 bytes long, and neither begin nor end
with `-` or `.`. -/
theorem validateID_ok_iff (uuidParses : String → Bool) (id : String) :
    names.validateID uuidParses id = Except.ok () ↔
      (id ≠ "" ∧
        ∀ c ∈ id.data, ('a' ≤ c ∧ c ≤ 'z') ∨ ('0' ≤ c ∧ c ≤ '9') ∨ c = '-' ∨ c = '.') ∧
      uuidParses id = false ∧
      id.utf8ByteSize ≤ 80 ∧
      (id.data.head? ≠ some '-' ∧ id.data.head? ≠ some '.') ∧
      (id.data.getLast? ≠ some '-' ∧ id.data.getLast? ≠ some '.') := by
  have hne : id ≠ "" ↔ id.data ≠ [] := by
    constructor
    · intro h hd; exact h (String.ext hd)
    · intro h hd; exact h (by rw [hd])
  have hp1 : strings.HasPrefix id "-" = true ↔ id.data.head? = some '-' :=
    HasPrefix_singleton id '-'
  have hp2 : strings.HasPrefix id "." = true ↔ id.data.head? = some '.' :=
    HasPrefix_singleton id '.'
  have hs1 : strings.HasSuffix id "-" = true ↔ id.data.getLast? = some '-' :=
    HasSuffix_singleton id '-'
  have hs2 : strings.HasSuffix id "." = true ↔ id.data.getLast? = some '.' :=
    HasSuffix_singleton id '.'
  have hm := customIdentifier_MatchString id
  simp only [inClass_customIdentifierClass] at hm
  unfold names.validateID
  by_cases h1 : names.customIdentifier.MatchString id = true
  · by_cases h2 : uuidParses id = true
    · simp [h1, h2]
    · by_cases h3 : strings.len id > 80
      · have h3' : ¬ id.utf8ByteSize ≤ 80 := by unfold strings.len at h3; omega
        simp [h1, h2, h3, h3']
      · have h3' : id.utf8ByteSize ≤ 80 := by unfold strings.len at h3; omega
        have hm' := hm.mp h1
        rw [← hne] at hm'
        have e2 : uuidParses id = false := by simpa using h2
        simp only [h1, e2, h3, Bool.not_true, Bool.false_eq_true, if_false, Bool.or_eq_true,
          hp1, hp2, hs1, hs2, hm', h3', true_and]
        by_cases p1 : id.data.head? = some '-'
        · simp [p1]
        · by_cases p2 : id.data.head? = some '.'
          · simp [p2]
          · by_cases s1 : id.data.getLast? = some '-'
            · simp [p1, p2, s1]
            · by_cases s2 : id.data.getLast? = some '.'
              · simp [p1, p2, s1, s2]
              · simp only [p1, p2, s1, s2, or_self, if_false, not_false_eq_true, and_self,
                  and_true, true_iff]
                exact ⟨hm', ⟨p1, p2⟩, s1, s2⟩
  · have : ¬ (id ≠ "" ∧
        ∀ c ∈ id.data, ('a' ≤ c ∧ c ≤ 'z') ∨ ('0' ≤ c ∧ c ≤ '9') ∨ c = '-' ∨ c = '.') := by
      rw [hne]; exact fun h => h1 (hm.mpr h)
    simp [h1, this]

theorem toNat_ofNat_of_lt {n : Nat} (h : n < 0xD800) : (Char.ofNat n).toNat = n := by
  have hv : n.isValidChar := Or.inl h
  have h32 : n < 4294967296 := by omega
  simp [Char.ofNat, hv, Char.ofNatAux, Char.toNat, UInt32.toNat, h32]

/-- On ASCII runes `unicode.ToLower` does not consult the table, and its
result is a rune it leaves alone. -/
theorem ToLower_ascii_fixed (caseRanges : Char → Char) (r : Char)
    (h : r.toNat ≤ unicode.MaxASCII) :
    unicode.ToLower caseRanges (unicode.ToLower caseRanges r) =
      unicode.ToLower caseRanges r := by
  have hA : ('A' : Char).toNat = 65 := by decide
  have hZ : ('Z' : Char).toNat = 90 := by decide
  have ha : ('a' : Char).toNat = 97 := by decide
  unfold unicode.MaxASCII at h
  by_cases hu : 'A'.toNat ≤ r.toNat ∧ r.toNat ≤ 'Z'.toNat
  · have e : unicode.ToLower caseRanges r = Char.ofNat (r.toNat + 32) := by
      unfold unicode.ToLower unicode.MaxASCII
      rw [if_pos h, if_pos hu, ha, hA]
    have ht : (Char.ofNat (r.toNat + 32)).toNat = r.toNat + 32 :=
      toNat_ofNat_of_lt (by omega)
    rw [e]
    rw [hA, hZ] at hu
    have h1 : (Char.ofNat (r.toNat + 32)).toNat ≤ 127 := by omega
    have h2 : ¬ (65 ≤ (Char.ofNat (r.toNat + 32)).toNat ∧
        (Char.ofNat (r.toNat + 32)).toNat ≤ 90) := by omega
    simp only [unicode.ToLower, unicode.MaxASCII, h1, hA, hZ, h2, if_true, if_false]
  · have e : unicode.ToLower caseRanges r = r := by
      simp only [unicode.ToLower, unicode.MaxASCII, h, hu, if_true, if_false]
    rw [e, e]

/-- A rune of the class of `customIdentifier` is its own lower case. -/
theorem ToLower_of_inClass (caseRanges : Char → Char) (c : Char)
    (h : regexp.inClass names.customIdentifierClass c = true) :
    unicode.ToLower caseRanges c = c := by
  have hA : ('A' : Char).toNat = 65 := by decide
  have hZ : ('Z' : Char).toNat = 90 := by decide
  have h' : (97 ≤ c.toNat ∧ c.toNat ≤ 122) ∨ (48 ≤ c.toNat ∧ c.toNat ≤ 57) ∨
      c.toNat = 45 ∨ c.toNat = 46 := by
    have := (inClass_customIdentifierClass c).mp h
    simp only [char_le_iff_toNat, char_eq_iff_toNat] at this
    have h1 : ('-' : Char).toNat = 45 := by decide
    have h2 : ('.' : Char).toNat = 46 := by decide
    have h3 : ('a' : Char).toNat = 97 := by decide
    have h4 : ('z' : Char).toNat = 122 := by decide
    have h5 : ('0' : Char).toNat = 48 := by decide
    have h6 : ('9' : Char).toNat = 57 := by decide
    rw [h1, h2, h3, h4, h5, h6] at this
    exact this
  have h1 : c.toNat ≤ 127 := by omega
  have h2 : ¬ (65 ≤ c.toNat ∧ c.toNat ≤ 90) := by omega
  simp only [unicode.ToLower, unicode.MaxASCII, h1, hA, hZ, h2, if_true, if_false]

/-- An identifier that `validateID` accepts consists of runes of the class
of `customIdentifier`. -/
theorem validateID_ok_inClass (uuidParses : String → Bool) (x : String)
    (h : names.validateID uuidParses x = Except.ok ()) :
    ∀ c ∈ x.data, regexp.inClass names.customIdentifierClass c = true := by
  have hm : names.customIdentifier.MatchString x = true := by
    by_contra hn
    simp [names.validateID, hn] at h
  exact ((customIdentifier_MatchString x).mp hm).2

/-- An identifier that `validateID` accepts is left unchanged by `normalize`. -/
theorem normalize_eq_self_of_valid (uuidParses : String → Bool) (caseRanges : Char → Char)
    (x : String) (h : names.validateID uuidParses x = Except.ok ()) :
    names.normalize caseRanges x = x := by
  have hall := validateID_ok_inClass uuidParses x h
  unfold names.normalize strings.ToLower
  have : x.data.map (unicode.ToLower caseRanges) = x.data := by
    conv_rhs => rw [← List.map_id x.data]
    exact List.map_congr_left (fun c hc => ToLower_of_inClass caseRanges c (hall c hc))
  rw [this]

/-- C2, the claim as stated fails: `IDentifier` is rejected although its
normal form `identifier` is accepted. -/
theorem validateID_case_counterexample :
    names.validateID uuidRejectsAll "IDentifier" =
        Except.error (fmt.Errorf "invalid identifier %q: must match %q"
          [FmtArg.str "IDentifier", FmtArg.str "^[a-z0-9-.]+$"]) ∧
      names.normalize (fun r => r) "IDentifier" = "identifier" ∧
      names.validateID uuidRejectsAll (names.normalize (fun r => r) "IDentifier") =
        Except.ok () := by
  decide

/-- C2, amended: validation is case-sensitive.  An identifier that
`validateID` accepts contains no upper-case letter, and its normal form is
accepted as well. -/
theorem validateID_normalize (uuidParses : String → Bool) (caseRanges : Char → Char)
    (x : String) (h : names.validateID uuidParses x = Except.ok ()) :
    (∀ c ∈ x.data, ¬ ('A' ≤ c ∧ c ≤ 'Z')) ∧
      names.validateID uuidParses (names.normalize caseRanges x) = Except.ok () := by
  refine ⟨?_, ?_⟩
  · intro c hc
    have hcls := (inClass_customIdentifierClass c).mp (validateID_ok_inClass uuidParses x h c hc)
    simp only [char_le_iff_toNat, char_eq_iff_toNat] at hcls ⊢
    have h1 : ('-' : Char).toNat = 45 := by decide
    have h2 : ('.' : Char).toNat = 46 := by decide
    have h3 : ('a' : Char).toNat = 97 := by decide
    have h4 : ('z' : Char).toNat = 122 := by decide
    have h5 : ('0' : Char).toNat = 48 := by decide
    have h6 : ('9' : Char).toNat = 57 := by decide
    have h7 : ('A' : Char).toNat = 65 := by decide
    have h8 : ('Z' : Char).toNat = 90 := by decide
    rw [h1, h2, h3, h4, h5, h6] at hcls
    rw [h7, h8]
    omega
  · rw [normalize_eq_self_of_valid uuidParses caseRanges x h]
    exact h

theorem validateID_normalize_witness :
    (∀ c ∈ "my-deployment".data, ¬ ('A' ≤ c ∧ c ≤ 'Z')) ∧
      names.validateID uuidRejectsAll (names.normalize (fun r => r) "my-deployment") =
        Except.ok () :=
  validateID_normalize uuidRejectsAll (fun r => r) "my-deployment" (by decide)

/-- C3: `normalize` is idempotent on every string, for every case table of
the library whose lower-case images of non-ASCII runes are themselves in
lower case. -/
theorem normalize_idempotent (caseRanges : Char → Char)
    (hTable : ∀ r : Char, unicode.MaxASCII < r.toNat →
      unicode.ToLower caseRanges (caseRanges r) = caseRanges r)
    (x : String) :
    names.normalize caseRanges (names.normalize caseRanges x) =
      names.normalize caseRanges x := by
  have hr : ∀ r : Char, unicode.ToLower caseRanges (unicode.ToLower caseRanges r) =
      unicode.ToLower caseRanges r := by
    intro r
    by_cases h : r.toNat ≤ unicode.MaxASCII
    · exact ToLower_ascii_fixed caseRanges r h
    · have e : unicode.ToLower caseRanges r = caseRanges r := by
        simp only [unicode.ToLower, h, if_false]
      rw [e]
      exact hTable r (by omega)
  unfold names.normalize strings.ToLower
  simp only [List.map_map]
  congr 1
  exact List.map_congr_left (fun c _ => hr c)

theorem latin1CaseRanges_lower (r : Char) (_ : unicode.MaxASCII < r.toNat) :
    unicode.ToLower latin1CaseRanges (latin1CaseRanges r) = latin1CaseRanges r := by
  by_cases h : (0xC0 ≤ r.toNat ∧ r.toNat ≤ 0xD6) ∨ (0xD8 ≤ r.toNat ∧ r.toNat ≤ 0xDE)
  · have e : latin1CaseRanges r = Char.ofNat (r.toNat + 32) := by
      unfold latin1CaseRanges
      rw [if_pos h]
    have ht : (Char.ofNat (r.toNat + 32)).toNat = r.toNat + 32 :=
      toNat_ofNat_of_lt (by omega)
    have h1 : ¬ (Char.ofNat (r.toNat + 32)).toNat ≤ unicode.MaxASCII := by
      unfold unicode.MaxASCII; omega
    have h2 : ¬ ((0xC0 ≤ (Char.ofNat (r.toNat + 32)).toNat ∧
        (Char.ofNat (r.toNat + 32)).toNat ≤ 0xD6) ∨
        (0xD8 ≤ (Char.ofNat (r.toNat + 32)).toNat ∧
          (Char.ofNat (r.toNat + 32)).toNat ≤ 0xDE)) := by omega
    rw [e, unicode.ToLower, if_neg h1, latin1CaseRanges, if_neg h2]
  · have e : latin1CaseRanges r = r := by
      unfold latin1CaseRanges
      rw [if_neg h]
    have h1 : ¬ r.toNat ≤ unicode.MaxASCII := by omega
    rw [e, unicode.ToLower, if_neg h1, e]

theorem normalize_idempotent_witness :
    names.normalize latin1CaseRanges (names.normalize latin1CaseRanges "École-API.v1") =
      names.normalize latin1CaseRanges "École-API.v1" :=
  normalize_idempotent latin1CaseRanges latin1CaseRanges_lower "École-API.v1"

/-! ## Traces -/

section traces

variable {Store Body Model : Type}

@[simp] theorem World.start_store (store : Store) :
    (World.start store : World Store Model).store = store := rfl

@[simp] theorem World.start_trace (store : Store) :
    (World.start store : World Store Model).trace = [] := rfl

@[simp] theorem World.emit_store (w : World Store Model) (e : Event Model) :
    (w.emit e).store = w.store := rfl

@[simp] theorem World.emit_trace (w : World Store Model) (e : Event Model) :
    (w.emit e).trace = w.trace ++ [e] := rfl

@[simp] theorem savedRevisions_append (s t : List (Event Model)) :
    savedRevisions (s ++ t) = savedRevisions s ++ savedRevisions t := by
  induction s with
  | nil => rfl
  | cons e s ih =>
    cases e with
    | SaveDeploymentRevision d ok => cases ok <;> simp [savedRevisions, ih]
    | _ => simp [savedRevisions, ih]

@[simp] theorem notifications_append (s t : List (Event Model)) :
    notifications (s ++ t) = notifications s ++ notifications t := by
  induction s with
  | nil => rfl
  | cons e s ih => cases e <;> simp [notifications, ih]

@[simp] theorem listingCalls_append (s t : List (Event Model)) :
    listingCalls (s ++ t) = listingCalls s ++ listingCalls t := by
  induction s with
  | nil => rfl
  | cons e s ih => cases e <;> simp [listingCalls, ih]

end traces

/-! ## Listing -/

section listing

variable {Store Body Model : Type}

theorem withStorageClient_error {α : Type} (env : Env Store Body Model) (w : World Store Model)
    (rest : World Store Model → Except status.Status α × World Store Model) (e : String)
    (h : env.getStorageClient w.store = Except.error e) :
    withStorageClient env w rest = (Except.error (status.Error codes.Code.Unavailable e), w) := by
  unfold withStorageClient
  rw [h]

theorem withStorageClient_ok {α : Type} (env : Env Store Body Model) (w : World Store Model)
    (rest : World Store Model → Except status.Status α × World Store Model)
    (h : env.getStorageClient w.store = Except.ok ()) :
    withStorageClient env w rest =
      ((rest (w.emit Event.getStorageClient)).1,
        (rest (w.emit Event.getStorageClient)).2.emit Event.Close) := by
  unfold withStorageClient
  rw [h]

/-- C4: for a request whose `page_size` is not negative and whose parent
parses, the size handed to `ListDeployments` is 50 for 0, 1000 for a size above
1000 and the requested size otherwise, hence between 1 and 1000; the listing is
called once with it when a storage client is acquired, and not at all
otherwise. -/
theorem ListApiDeployments_page_size (env : Env Store Body Model) (store : Store)
    (req : rpc.ListApiDeploymentsRequest) (parent : names.Api)
    (hsize : 0 ≤ req.PageSize) (hparent : env.ParseApi req.Parent = Except.ok parent) :
    ∃ size : Int,
      size = (if req.PageSize = 0 then 50 else if req.PageSize > 1000 then 1000
        else req.PageSize) ∧
      1 ≤ size ∧ size ≤ 1000 ∧
      listingCalls (ListApiDeployments env (World.start store) req).2.trace =
        if (env.getStorageClient store).isOk then
          [(parent, { Size := size, Filter := req.Filter, Token := req.PageToken })]
        else [] := by
  refine ⟨_, rfl, ?_, ?_, ?_⟩
  · split <;> [skip; split] <;> omega
  · split <;> [skip; split] <;> omega
  · cases hc : env.getStorageClient store with
    | error e =>
      rw [ListApiDeployments, withStorageClient_error env _ _ e hc]
      simp [Except.isOk, Except.toBool, listingCalls]
    | ok u =>
      rw [ListApiDeployments, withStorageClient_ok env _ _ hc]
      have hn : ¬ req.PageSize < 0 := by omega
      simp only [hn, if_false, Except.isOk, Except.toBool, if_true]
      rw [hparent]
      have hs : (if req.PageSize > 1000 then (1000 : Int) else if req.PageSize = 0 then 50
          else req.PageSize) = (if req.PageSize = 0 then 50 else if req.PageSize > 1000 then 1000
          else req.PageSize) := by
        split <;> split <;> first | rfl | omega
      rw [hs]
      simp only []
      repeat' split
      all_goals simp [listingCalls]

theorem ListApiDeployments_page_size_witness :
    ∃ size : Int,
      size = (if (5000 : Int) = 0 then 50 else if (5000 : Int) > 1000 then 1000 else 5000) ∧
      1 ≤ size ∧ size ≤ 1000 ∧
      listingCalls (ListApiDeployments memory.env (World.start memory.seeded)
          { Parent := memory.apiA, PageSize := 5000, PageToken := "", Filter := "" }).2.trace =
        if (memory.env.getStorageClient memory.seeded).isOk then
          [({ ProjectID := "my-project", ApiID := "a" },
            { Size := size, Filter := "", Token := "" })]
        else [] :=
  ListApiDeployments_page_size memory.env memory.seeded
    { Parent := memory.apiA, PageSize := 5000, PageToken := "", Filter := "" }
    { ProjectID := "my-project", ApiID := "a" } (by decide) (by decide)

/-- C5, the claim as stated fails: with a store that cannot be reached the
request with `page_size = -1` fails with `Unavailable`, and with a store that
can be reached a storage client has been acquired by the time the request fails
with `InvalidArgument`. -/
theorem ListApiDeployments_negative_counterexample :
    (ListApiDeployments memory.env (World.start memory.unreachable)
        { Parent := memory.apiA, PageSize := -1, PageToken := "", Filter := "" }).1 =
      Except.error (status.Error codes.Code.Unavailable "the database cannot be reached") ∧
    (ListApiDeployments memory.env (World.start memory.seeded)
        { Parent := memory.apiA, PageSize := -1, PageToken := "", Filter := "" }) =
      (Except.error (status.Errorf codes.Code.InvalidArgument
          "invalid page_size %d: must not be negative" [FmtArg.int (-1)]),
        { store := memory.seeded, trace := [Event.getStorageClient, Event.Close] }) := by
  decide

/-- C5, amended: a request with a negative `page_size` fails without any
storage call and leaves the store as it was.  When a storage client can be
acquired the handler acquires it, fails with `InvalidArgument` and closes it;
when none can be acquired the handler fails with `Unavailable`. -/
theorem ListApiDeployments_negative_page_size (env : Env Store Body Model) (store : Store)
    (req : rpc.ListApiDeploymentsRequest) (hneg : req.PageSize < 0) :
    (ListApiDeployments env (World.start store) req).2.store = store ∧
    (∀ e ∈ (ListApiDeployments env (World.start store) req).2.trace,
      e.isStorageCall = false) ∧
    (env.getStorageClient store = Except.ok () →
      (ListApiDeployments env (World.start store) req).1 =
          Except.error (status.Errorf codes.Code.InvalidArgument
            "invalid page_size %d: must not be negative" [FmtArg.int req.PageSize]) ∧
        (ListApiDeployments env (World.start store) req).2.trace =
          [Event.getStorageClient, Event.Close]) ∧
    (∀ err, env.getStorageClient store = Except.error err →
      (ListApiDeployments env (World.start store) req).1 =
          Except.error (status.Error codes.Code.Unavailable err) ∧
        (ListApiDeployments env (World.start store) req).2.trace = []) := by
  cases hc : env.getStorageClient store with
  | error e =>
    rw [ListApiDeployments, withStorageClient_error env _ _ e hc]
    simp
  | ok u =>
    rw [ListApiDeployments, withStorageClient_ok env _ _ hc]
    simp [hneg, Event.isStorageCall]

theorem ListApiDeployments_negative_page_size_witness :
    (ListApiDeployments memory.env (World.start memory.seeded)
        { Parent := "", PageSize := -1, PageToken := "", Filter := "" }).2.store =
      memory.seeded ∧
    (∀ e ∈ (ListApiDeployments memory.env (World.start memory.seeded)
        { Parent := "", PageSize := -1, PageToken := "", Filter := "" }).2.trace,
      e.isStorageCall = false) ∧
    (ListApiDeployments memory.env (World.start memory.seeded)
        { Parent := "", PageSize := -1, PageToken := "", Filter := "" }).1 =
      Except.error (status.Errorf codes.Code.InvalidArgument
        "invalid page_size %d: must not be negative" [FmtArg.int (-1)]) ∧
    (ListApiDeployments memory.env (World.start memory.seeded)
        { Parent := "", PageSize := -1, PageToken := "", Filter := "" }).2.trace =
      [Event.getStorageClient, Event.Close] :=
  have h := ListApiDeployments_negative_page_size memory.env memory.seeded
    { Parent := "", PageSize := -1, PageToken := "", Filter := "" } (by decide)
  ⟨h.1, h.2.1, (h.2.2.1 (by decide)).1, (h.2.2.1 (by decide)).2⟩

end listing

/-! ## Creating and deleting -/

section creating

variable {Store Body Model : Type}

/-- C6: a `CreateApiDeployment` request with a parseable parent and a body,
on a store whose `GetDeployment` finds a deployment under the requested name,
fails with `AlreadyExists`, saves no revision, emits no notification and leaves
the store as it was. -/
theorem CreateApiDeployment_already_exists (env : Env Store Body Model) (store : Store)
    (req : rpc.CreateApiDeploymentRequest Body) (parent : names.Api) (body : Body)
    (existing : Model)
    (hparent : env.ParseApi req.Parent = Except.ok parent)
    (hbody : req.ApiDeployment = some body)
    (hclient : env.getStorageClient store = Except.ok ())
    (hfound : env.GetDeployment store (parent.Deployment req.ApiDeploymentId) =
      Except.ok existing) :
    (CreateApiDeployment env (World.start store) req).1 =
        Except.error (status.Errorf codes.Code.AlreadyExists "API deployment %q already exists"
          [FmtArg.str (env.DeploymentString (parent.Deployment req.ApiDeploymentId))]) ∧
      savedRevisions (CreateApiDeployment env (World.start store) req).2.trace = [] ∧
      notifications (CreateApiDeployment env (World.start store) req).2.trace = [] ∧
      (CreateApiDeployment env (World.start store) req).2.store = store := by
  unfold CreateApiDeployment
  rw [hparent, hbody]
  simp only []
  rw [createDeployment, withStorageClient_ok env _ _ hclient]
  simp only [World.emit_store, World.start_store, hfound]
  simp [savedRevisions, notifications]

theorem CreateApiDeployment_already_exists_witness :
    (CreateApiDeployment memory.env (World.start memory.seeded)
        { Parent := memory.apiA, ApiDeploymentId := "My-Deployment",
          ApiDeployment := some ⟨"", "", "", []⟩ }).1 =
        Except.error (status.Errorf codes.Code.AlreadyExists "API deployment %q already exists"
          [FmtArg.str (memory.env.DeploymentString
            (names.Api.Deployment ⟨"my-project", "a"⟩ "My-Deployment"))]) ∧
      savedRevisions (CreateApiDeployment memory.env (World.start memory.seeded)
        { Parent := memory.apiA, ApiDeploymentId := "My-Deployment",
          ApiDeployment := some ⟨"", "", "", []⟩ }).2.trace = [] ∧
      notifications (CreateApiDeployment memory.env (World.start memory.seeded)
        { Parent := memory.apiA, ApiDeploymentId := "My-Deployment",
          ApiDeployment := some ⟨"", "", "", []⟩ }).2.trace = [] ∧
      (CreateApiDeployment memory.env (World.start memory.seeded)
        { Parent := memory.apiA, ApiDeploymentId := "My-Deployment",
          ApiDeployment := some ⟨"", "", "", []⟩ }).2.store = memory.seeded :=
  CreateApiDeployment_already_exists memory.env memory.seeded
    { Parent := memory.apiA, ApiDeploymentId := "My-Deployment",
      ApiDeployment := some ⟨"", "", "", []⟩ }
    ⟨"my-project", "a"⟩ ⟨"", "", "", []⟩ memory.seed (by decide) rfl (by decide) (by decide)

/-- C7: a create of a name that the store does not hold yet (`GetDeployment`
fails with a not-found error) and that is valid, when the lookup of the parent
API fails with `NotFound`, returns that error and saves no revision; and every
create that succeeds found its parent API in the store. -/
theorem createDeployment_requires_parent (env : Env Store Body Model) (store : Store)
    (name : names.Deployment) (body : Body) :
    (∀ missing noParent,
      env.getStorageClient store = Except.ok () →
      env.GetDeployment store name = Except.error missing →
      env.isNotFound (some missing) = true →
      env.Validate name = Except.ok () →
      env.GetApi store name.Api = Except.error noParent →
      status.Code noParent = codes.Code.NotFound →
        (∃ err, (createDeployment env (World.start store) name body).1 = Except.error err ∧
          status.Code err = codes.Code.NotFound) ∧
        savedRevisions (createDeployment env (World.start store) name body).2.trace = [] ∧
        (createDeployment env (World.start store) name body).2.store = store) ∧
    (∀ message,
      (createDeployment env (World.start store) name body).1 = Except.ok message →
        env.GetApi store name.Api = Except.ok ()) := by
  constructor
  · intro missing noParent hclient hmissing hnf hvalid hapi hcode
    rw [createDeployment, withStorageClient_ok env _ _ hclient]
    simp only [World.emit_store, World.start_store, hmissing, hnf, hvalid, hapi]
    refine ⟨⟨noParent, ?_, hcode⟩, ?_, ?_⟩ <;> simp [savedRevisions]
  · intro message
    unfold createDeployment withStorageClient
    simp only [World.emit_store, World.start_store]
    repeat' split
    all_goals simp_all

theorem createDeployment_requires_parent_witness :
    ((∃ err, (createDeployment memory.env (World.start memory.seededApi)
        ⟨"my-project", "a2", "valid-id"⟩ ⟨"", "", "", []⟩).1 = Except.error err ∧
        status.Code err = codes.Code.NotFound) ∧
      savedRevisions (createDeployment memory.env (World.start memory.seededApi)
        ⟨"my-project", "a2", "valid-id"⟩ ⟨"", "", "", []⟩).2.trace = [] ∧
      (createDeployment memory.env (World.start memory.seededApi)
        ⟨"my-project", "a2", "valid-id"⟩ ⟨"", "", "", []⟩).2.store = memory.seededApi) ∧
    memory.env.GetApi memory.seededApi
      (names.Deployment.Api ⟨"my-project", "a", "valid-id"⟩) = Except.ok () :=
  ⟨(createDeployment_requires_parent memory.env memory.seededApi
      ⟨"my-project", "a2", "valid-id"⟩ ⟨"", "", "", []⟩).1
      (memory.notFound "projects/my-project/locations/global/apis/a2/deployments/valid-id")
      (memory.notFound "projects/my-project/locations/global/apis/a2")
      (by decide) (by decide) (by decide) (by decide) (by decide) (by decide),
    (createDeployment_requires_parent memory.env memory.seededApi
      ⟨"my-project", "a", "valid-id"⟩ ⟨"", "", "", []⟩).2
      ⟨"projects/my-project/locations/global/apis/a/deployments/valid-id", "", "1a2b3c4d", []⟩
      (by decide)⟩

/-- A call of `createDeployment` that fails with `InvalidArgument` saves no
revision, emits no notification and leaves the store as it was. -/
theorem createDeployment_invalid (env : Env Store Body Model) (w : World Store Model)
    (name : names.Deployment) (body : Body) (e : status.Status)
    (h : (createDeployment env w name body).1 = Except.error e)
    (hcode : status.Code e = codes.Code.InvalidArgument) :
    (createDeployment env w name body).2.store = w.store ∧
      savedRevisions (createDeployment env w name body).2.trace = savedRevisions w.trace ∧
      notifications (createDeployment env w name body).2.trace = notifications w.trace := by
  revert h
  unfold createDeployment withStorageClient
  simp only [World.emit_store]
  repeat' split
  all_goals intro h
  all_goals first
    | (simp_all [savedRevisions, notifications, status.Code, status.Error, status.Errorf]; done)
    | (cases h; simp [status.Code, status.Error] at hcode)

/-- C8: validation errors precede any mutation.  Whenever `CreateApiDeployment`
or `UpdateApiDeployment` returns `InvalidArgument`, no revision has been saved,
no notification has been emitted and the store is as it was before the call,
provided the tag lookup of the storage layer, which `UpdateApiDeployment`
performs after it has saved, does not itself fail with `InvalidArgument`. -/
theorem invalid_argument_precedes_mutation (env : Env Store Body Model) (store : Store)
    (hTags : ∀ s name e, env.GetDeploymentTags s name = Except.error e →
      status.Code e ≠ codes.Code.InvalidArgument) :
    (∀ req e, (CreateApiDeployment env (World.start store) req).1 = Except.error e →
      status.Code e = codes.Code.InvalidArgument →
        (CreateApiDeployment env (World.start store) req).2.store = store ∧
        savedRevisions (CreateApiDeployment env (World.start store) req).2.trace = [] ∧
        notifications (CreateApiDeployment env (World.start store) req).2.trace = []) ∧
    (∀ req e, (UpdateApiDeployment env (World.start store) req).1 = Except.error e →
      status.Code e = codes.Code.InvalidArgument →
        (UpdateApiDeployment env (World.start store) req).2.store = store ∧
        savedRevisions (UpdateApiDeployment env (World.start store) req).2.trace = [] ∧
        notifications (UpdateApiDeployment env (World.start store) req).2.trace = []) := by
  constructor
  · intro req e
    unfold CreateApiDeployment
    split
    · intro _ _; simp [savedRevisions, notifications]
    · split
      · intro _ _; simp [savedRevisions, notifications]
      · intro h hcode
        have := createDeployment_invalid env _ _ _ e h hcode
        simpa [savedRevisions, notifications] using this
  · intro req e
    unfold UpdateApiDeployment withStorageClient withUpdateDeploymentMutex
      deploymentRevisionTags
    simp only [World.start_store, World.emit_store]
    repeat' split
    all_goals intro h hcode
    all_goals first
      | (simp_all [savedRevisions, notifications, status.Code, status.Error, status.Errorf]; done)
      | (cases h; simp [status.Code, status.Error] at hcode; done)
      | (simp only [] at h ⊢
         have := createDeployment_invalid env _ _ _ e h hcode
         simpa [savedRevisions, notifications] using this)
      | (rename_i _ _ _ heq
         split at heq
         · rename_i err htag
           have hne := hTags _ _ _ htag
           simp only [Prod.mk.injEq, Except.error.injEq] at heq h
           obtain ⟨h1, _⟩ := heq
           subst h1
           subst h
           exact absurd hcode hne
         · simp at heq)

theorem invalid_argument_precedes_mutation_witness :
    ((CreateApiDeployment memory.env (World.start memory.seededApi)
          { Parent := memory.apiA, ApiDeploymentId := "IDentifier",
            ApiDeployment := some ⟨"", "", "", []⟩ }).2.store = memory.seededApi ∧
      savedRevisions (CreateApiDeployment memory.env (World.start memory.seededApi)
          { Parent := memory.apiA, ApiDeploymentId := "IDentifier",
            ApiDeployment := some ⟨"", "", "", []⟩ }).2.trace = [] ∧
      notifications (CreateApiDeployment memory.env (World.start memory.seededApi)
          { Parent := memory.apiA, ApiDeploymentId := "IDentifier",
            ApiDeployment := some ⟨"", "", "", []⟩ }).2.trace = []) ∧
    ((UpdateApiDeployment memory.env (World.start memory.seededApi)
          { ApiDeployment := some ⟨memory.myDeployment, "", "", []⟩,
            UpdateMask := some ⟨["this field does not exist"]⟩,
            AllowMissing := true }).2.store = memory.seededApi ∧
      savedRevisions (UpdateApiDeployment memory.env (World.start memory.seededApi)
          { ApiDeployment := some ⟨memory.myDeployment, "", "", []⟩,
            UpdateMask := some ⟨["this field does not exist"]⟩,
            AllowMissing := true }).2.trace = [] ∧
      notifications (UpdateApiDeployment memory.env (World.start memory.seededApi)
          { ApiDeployment := some ⟨memory.myDeployment, "", "", []⟩,
            UpdateMask := some ⟨["this field does not exist"]⟩,
            AllowMissing := true }).2.trace = []) :=
  have h := invalid_argument_precedes_mutation memory.env memory.seededApi
    (fun _ _ _ hfail => by cases hfail)
  ⟨h.1 { Parent := memory.apiA, ApiDeploymentId := "IDentifier",
          ApiDeployment := some ⟨"", "", "", []⟩ }
      (status.Error codes.Code.InvalidArgument "invalid identifier") (by decide) (by decide),
    h.2 { ApiDeployment := some ⟨memory.myDeployment, "", "", []⟩,
          UpdateMask := some ⟨["this field does not exist"]⟩, AllowMissing := true }
      (status.Errorf codes.Code.InvalidArgument "invalid update_mask %v: %s"
        [FmtArg.paths (some ["this field does not exist"]), FmtArg.str "unknown field"])
      (by decide) (by decide)⟩

/-- C9: a `CreateApiDeployment` that succeeds has saved exactly one revision,
the deployment that `models.NewDeployment` made of the request, and has emitted
exactly one notification, of kind `CREATED` and addressed to the revision name
of that deployment. -/
theorem CreateApiDeployment_success (env : Env Store Body Model) (store : Store)
    (req : rpc.CreateApiDeploymentRequest Body) (message : Body)
    (h : (CreateApiDeployment env (World.start store) req).1 = Except.ok message) :
    ∃ parent body deployment,
      env.ParseApi req.Parent = Except.ok parent ∧
      req.ApiDeployment = some body ∧
      env.NewDeployment (parent.Deployment req.ApiDeploymentId) body = Except.ok deployment ∧
      env.SaveDeploymentRevision store deployment =
        Except.ok (CreateApiDeployment env (World.start store) req).2.store ∧
      savedRevisions (CreateApiDeployment env (World.start store) req).2.trace = [deployment] ∧
      notifications (CreateApiDeployment env (World.start store) req).2.trace =
        [(rpc.Notification_ChangeType.CREATED, env.RevisionName deployment)] := by
  revert h
  unfold CreateApiDeployment createDeployment withStorageClient
  simp only [World.start_store, World.emit_store]
  repeat' split
  all_goals intro h
  all_goals first
    | (simp at h; done)
    | (refine ⟨_, _, _, ‹env.ParseApi req.Parent = _›, ‹req.ApiDeployment = _›,
         ‹env.NewDeployment _ _ = _›, ?_, ?_, ?_⟩
       · simpa using ‹env.SaveDeploymentRevision _ _ = _›
       · simp [savedRevisions]
       · simp [notifications])

theorem CreateApiDeployment_success_witness :
    ∃ parent body deployment,
      memory.env.ParseApi memory.apiA = Except.ok parent ∧
      some (⟨"", "My Description", "", []⟩ : memory.ApiDeployment) = some body ∧
      memory.env.NewDeployment (parent.Deployment "my-deployment") body = Except.ok deployment ∧
      memory.env.SaveDeploymentRevision memory.seededApi deployment =
        Except.ok (CreateApiDeployment memory.env (World.start memory.seededApi)
          { Parent := memory.apiA, ApiDeploymentId := "my-deployment",
            ApiDeployment := some ⟨"", "My Description", "", []⟩ }).2.store ∧
      savedRevisions (CreateApiDeployment memory.env (World.start memory.seededApi)
          { Parent := memory.apiA, ApiDeploymentId := "my-deployment",
            ApiDeployment := some ⟨"", "My Description", "", []⟩ }).2.trace = [deployment] ∧
      notifications (CreateApiDeployment memory.env (World.start memory.seededApi)
          { Parent := memory.apiA, ApiDeploymentId := "my-deployment",
            ApiDeployment := some ⟨"", "My Description", "", []⟩ }).2.trace =
        [(rpc.Notification_ChangeType.CREATED, memory.env.RevisionName deployment)] :=
  CreateApiDeployment_success memory.env memory.seededApi
    { Parent := memory.apiA, ApiDeploymentId := "my-deployment",
      ApiDeployment := some ⟨"", "My Description", "", []⟩ }
    ⟨memory.myDeployment, "My Description", "1a2b3c4d", []⟩ (by decide)

/-- C10, the claim as stated fails: the deletion of the deployment
`my-deployment`, whose stored revision is `9f8e7d6c`, succeeds and notifies the
name of the deployment, not the name of its revision. -/
theorem DeleteApiDeployment_counterexample :
    (DeleteApiDeployment memory.env (World.start memory.seeded)
        { Name := memory.myDeployment }).1 = Except.ok () ∧
    notifications (DeleteApiDeployment memory.env (World.start memory.seeded)
        { Name := memory.myDeployment }).2.trace =
      [(rpc.Notification_ChangeType.DELETED,
        "projects/my-project/locations/global/apis/a/deployments/my-deployment")] ∧
    memory.env.GetDeployment memory.seeded ⟨"my-project", "a", "my-deployment"⟩ =
      Except.ok memory.seed ∧
    memory.env.RevisionName memory.seed =
      "projects/my-project/locations/global/apis/a/deployments/my-deployment@9f8e7d6c" := by
  decide

/-- C10, amended: a `DeleteApiDeployment` that succeeds has emitted exactly
one notification, of kind `DELETED`, and that notification is addressed to the
name of the deleted deployment, `name.String()`, which names no revision. -/
theorem DeleteApiDeployment_success (env : Env Store Body Model) (store : Store)
    (req : rpc.DeleteApiDeploymentRequest)
    (h : (DeleteApiDeployment env (World.start store) req).1 = Except.ok ()) :
    ∃ name,
      env.ParseDeployment req.Name = Except.ok name ∧
      env.DeleteDeployment store name =
        Except.ok (DeleteApiDeployment env (World.start store) req).2.store ∧
      notifications (DeleteApiDeployment env (World.start store) req).2.trace =
        [(rpc.Notification_ChangeType.DELETED, env.DeploymentString name)] := by
  revert h
  unfold DeleteApiDeployment withStorageClient
  simp only [World.start_store, World.emit_store]
  repeat' split
  all_goals intro h
  all_goals first
    | (simp at h; done)
    | (refine ⟨_, ‹env.ParseDeployment req.Name = _›, ?_, ?_⟩
       · simpa using ‹env.DeleteDeployment _ _ = _›
       · simp [notifications])

theorem DeleteApiDeployment_success_witness :
    ∃ name,
      memory.env.ParseDeployment memory.myDeployment = Except.ok name ∧
      memory.env.DeleteDeployment memory.seeded name =
        Except.ok (DeleteApiDeployment memory.env (World.start memory.seeded)
          { Name := memory.myDeployment }).2.store ∧
      notifications (DeleteApiDeployment memory.env (World.start memory.seeded)
          { Name := memory.myDeployment }).2.trace =
        [(rpc.Notification_ChangeType.DELETED, memory.env.DeploymentString name)] :=
  DeleteApiDeployment_success memory.env memory.seeded { Name := memory.myDeployment }
    (by decide)

end creating

/-! ## Not-found errors of update and delete -/

section notFound

variable {Store Body Model : Type}

/-- C12: a valid `UpdateApiDeployment` request without `allow_missing` whose
name the store does not hold returns the error of `GetDeployment`, saves no
revision, emits no notification and leaves the store as it was. -/
theorem UpdateApiDeployment_not_found (env : Env Store Body Model) (store : Store)
    (req : rpc.UpdateApiDeploymentRequest Body) (body : Body) (name : names.Deployment)
    (missing : status.Status)
    (hclient : env.getStorageClient store = Except.ok ())
    (hbody : req.ApiDeployment = some body)
    (hmask : env.ValidateMask body req.UpdateMask = Except.ok ())
    (hname : env.ParseDeployment (env.GetName body) = Except.ok name)
    (hallow : req.AllowMissing = false)
    (hmissing : env.GetDeployment store name = Except.error missing) :
    (UpdateApiDeployment env (World.start store) req).1 = Except.error missing ∧
      savedRevisions (UpdateApiDeployment env (World.start store) req).2.trace = [] ∧
      notifications (UpdateApiDeployment env (World.start store) req).2.trace = [] ∧
      (UpdateApiDeployment env (World.start store) req).2.store = store := by
  rw [UpdateApiDeployment, withStorageClient_ok env _ _ hclient]
  simp only [hbody, hmask, hname, withUpdateDeploymentMutex, hallow, World.emit_store,
    World.start_store, hmissing]
  simp [savedRevisions, notifications]

theorem UpdateApiDeployment_not_found_witness :
    (UpdateApiDeployment memory.env (World.start memory.seeded)
        { ApiDeployment := some
            ⟨"projects/my-project/locations/global/apis/a/deployments/doesnt-exist", "", "", []⟩,
          UpdateMask := none, AllowMissing := false }).1 =
        Except.error (memory.notFound
          "projects/my-project/locations/global/apis/a/deployments/doesnt-exist") ∧
      savedRevisions (UpdateApiDeployment memory.env (World.start memory.seeded)
        { ApiDeployment := some
            ⟨"projects/my-project/locations/global/apis/a/deployments/doesnt-exist", "", "", []⟩,
          UpdateMask := none, AllowMissing := false }).2.trace = [] ∧
      notifications (UpdateApiDeployment memory.env (World.start memory.seeded)
        { ApiDeployment := some
            ⟨"projects/my-project/locations/global/apis/a/deployments/doesnt-exist", "", "", []⟩,
          UpdateMask := none, AllowMissing := false }).2.trace = [] ∧
      (UpdateApiDeployment memory.env (World.start memory.seeded)
        { ApiDeployment := some
            ⟨"projects/my-project/locations/global/apis/a/deployments/doesnt-exist", "", "", []⟩,
          UpdateMask := none, AllowMissing := false }).2.store = memory.seeded :=
  UpdateApiDeployment_not_found memory.env memory.seeded
    { ApiDeployment := some
        ⟨"projects/my-project/locations/global/apis/a/deployments/doesnt-exist", "", "", []⟩,
      UpdateMask := none, AllowMissing := false }
    ⟨"projects/my-project/locations/global/apis/a/deployments/doesnt-exist", "", "", []⟩
    ⟨"my-project", "a", "doesnt-exist"⟩
    (memory.notFound "projects/my-project/locations/global/apis/a/deployments/doesnt-exist")
    (by decide) rfl (by decide) (by decide) rfl (by decide)

/-- C16: a `DeleteApiDeployment` request whose name parses but that the
store does not hold returns the error of `GetDeployment`; `DeleteDeployment` is
not called, the store is left as it was and no notification is emitted. -/
theorem DeleteApiDeployment_not_found (env : Env Store Body Model) (store : Store)
    (req : rpc.DeleteApiDeploymentRequest) (name : names.Deployment)
    (missing : status.Status)
    (hclient : env.getStorageClient store = Except.ok ())
    (hname : env.ParseDeployment req.Name = Except.ok name)
    (hmissing : env.GetDeployment store name = Except.error missing) :
    (DeleteApiDeployment env (World.start store) req).1 = Except.error missing ∧
      (∀ n ok, Event.DeleteDeployment n ok ∉
        (DeleteApiDeployment env (World.start store) req).2.trace) ∧
      (DeleteApiDeployment env (World.start store) req).2.store = store ∧
      notifications (DeleteApiDeployment env (World.start store) req).2.trace = [] := by
  rw [DeleteApiDeployment, withStorageClient_ok env _ _ hclient]
  simp only [hname, World.emit_store, World.start_store, hmissing]
  simp [notifications]

theorem DeleteApiDeployment_not_found_witness :
    (DeleteApiDeployment memory.env (World.start memory.seeded)
        { Name := "projects/my-project/locations/global/apis/a/deployments/doesnt-exist" }).1 =
        Except.error (memory.notFound
          "projects/my-project/locations/global/apis/a/deployments/doesnt-exist") ∧
      (∀ n ok, Event.DeleteDeployment n ok ∉
        (DeleteApiDeployment memory.env (World.start memory.seeded)
          { Name := "projects/my-project/locations/global/apis/a/deployments/doesnt-exist"
          }).2.trace) ∧
      (DeleteApiDeployment memory.env (World.start memory.seeded)
        { Name := "projects/my-project/locations/global/apis/a/deployments/doesnt-exist"
        }).2.store = memory.seeded ∧
      notifications (DeleteApiDeployment memory.env (World.start memory.seeded)
        { Name := "projects/my-project/locations/global/apis/a/deployments/doesnt-exist"
        }).2.trace = [] :=
  DeleteApiDeployment_not_found memory.env memory.seeded
    { Name := "projects/my-project/locations/global/apis/a/deployments/doesnt-exist" }
    ⟨"my-project", "a", "doesnt-exist"⟩
    (memory.notFound "projects/my-project/locations/global/apis/a/deployments/doesnt-exist")
    (by decide) (by decide) (by decide)

end notFound

/-! ## Tags of a revision -/

section tags

variable {Store Body Model : Type}

/-- The loop of `deploymentRevisionTags` appends, to what it was given, the
tag strings of the tags of the revision, in the order of the tags. -/
theorem revisionTagsLoop_eq (revisionID : String) (allTags : List models.DeploymentRevisionTag)
    (tags : List String) :
    revisionTagsLoop revisionID allTags tags =
      tags ++ (allTags.filter (fun tag => tag.RevisionID = revisionID)).map (fun tag => tag.Tag) := by
  induction allTags generalizing tags with
  | nil => simp [revisionTagsLoop]
  | cons tag rest ih =>
    by_cases h : tag.RevisionID = revisionID
    · simp [revisionTagsLoop, h, ih]
    · simp [revisionTagsLoop, h, ih]

/-- C17: when the store holds the tags `allTags` for the deployment of the
revision name `R`, `deploymentRevisionTags` returns the tag strings of exactly
the tags whose `RevisionID` is that of `R`, in the stored order and with
multiplicity.  Hence every string it returns is the string of a tag bound to
`R`, and it returns the empty list when no tag is bound to `R`. -/
theorem deploymentRevisionTags_scoped (env : Env Store Body Model) (w : World Store Model)
    (R : names.DeploymentRevision) (allTags : List models.DeploymentRevisionTag)
    (hstored : env.GetDeploymentTags w.store R.Deployment = Except.ok allTags) :
    (deploymentRevisionTags env w R).1 =
        Except.ok ((allTags.filter (fun tag => tag.RevisionID = R.RevisionID)).map
          (fun tag => tag.Tag)) ∧
      (∀ tags, (deploymentRevisionTags env w R).1 = Except.ok tags →
        (∀ t ∈ tags, ∃ tag ∈ allTags, tag.RevisionID = R.RevisionID ∧ tag.Tag = t) ∧
        ((∀ tag ∈ allTags, tag.RevisionID ≠ R.RevisionID) → tags = [])) := by
  have hmain : (deploymentRevisionTags env w R).1 =
      Except.ok ((allTags.filter (fun tag => tag.RevisionID = R.RevisionID)).map
        (fun tag => tag.Tag)) := by
    unfold deploymentRevisionTags
    simp only [World.emit_store, hstored, revisionTagsLoop_eq, List.nil_append]
  refine ⟨hmain, ?_⟩
  intro tags htags
  rw [hmain] at htags
  cases htags
  constructor
  · intro t ht
    obtain ⟨tag, htag, rfl⟩ := List.mem_map.mp ht
    obtain ⟨hmem, hrev⟩ := List.mem_filter.mp htag
    exact ⟨tag, hmem, by simpa using hrev, rfl⟩
  · intro hnone
    have : allTags.filter (fun tag => decide (tag.RevisionID = R.RevisionID)) = [] := by
      apply List.filter_eq_nil_iff.mpr
      intro tag htag
      simpa using hnone tag htag
    rw [this]
    rfl

end tags

theorem deploymentRevisionTags_scoped_witness :
    (deploymentRevisionTags memory.env (World.start memory.tagged)
        ⟨"my-project", "a", "my-deployment", "9f8e7d6c"⟩).1 = Except.ok ["prod", "stable"] ∧
      (∀ tags, (deploymentRevisionTags memory.env (World.start memory.tagged)
          ⟨"my-project", "a", "my-deployment", "9f8e7d6c"⟩).1 = Except.ok tags →
        (∀ t ∈ tags, ∃ tag ∈ memory.tagged.tags,
          tag.RevisionID = "9f8e7d6c" ∧ tag.Tag = t) ∧
        ((∀ tag ∈ memory.tagged.tags, tag.RevisionID ≠ "9f8e7d6c") → tags = [])) :=
  deploymentRevisionTags_scoped memory.env (World.start memory.tagged)
    ⟨"my-project", "a", "my-deployment", "9f8e7d6c"⟩ memory.tagged.tags (by decide)

/-! ## Updates with `allow_missing` -/

section allowMissing

variable {Store Body Model : Type}

/-- What `createDeployment` returns and does depends on the store it starts
from only; its events are appended to the events so far. -/
theorem createDeployment_frame (env : Env Store Body Model) (w : World Store Model)
    (name : names.Deployment) (body : Body) :
    createDeployment env w name body =
      ((createDeployment env (World.start w.store) name body).1,
        { store := (createDeployment env (World.start w.store) name body).2.store
          trace := w.trace ++ (createDeployment env (World.start w.store) name body).2.trace }) := by
  unfold createDeployment withStorageClient
  simp only [World.emit_store, World.start_store]
  repeat' split
  all_goals simp_all [World.emit, World.start]

/-- Every notification that `createDeployment` emits is of kind `CREATED`. -/
theorem createDeployment_notifies_created (env : Env Store Body Model) (store : Store)
    (name : names.Deployment) (body : Body) :
    ∀ n ∈ notifications (createDeployment env (World.start store) name body).2.trace,
      n.1 = rpc.Notification_ChangeType.CREATED := by
  unfold createDeployment withStorageClient
  simp only [World.emit_store, World.start_store]
  repeat' split
  all_goals simp [notifications]

/-- The run of a valid `UpdateApiDeployment` request with `allow_missing`
whose name the store does not hold: the run of `createDeployment`, between the
acquisition of the client and of the mutex and their release. -/
theorem UpdateApiDeployment_allow_missing_run (env : Env Store Body Model) (store : Store)
    (req : rpc.UpdateApiDeploymentRequest Body) (body : Body) (name : names.Deployment)
    (missing : status.Status)
    (hclient : env.getStorageClient store = Except.ok ())
    (hbody : req.ApiDeployment = some body)
    (hmask : env.ValidateMask body req.UpdateMask = Except.ok ())
    (hname : env.ParseDeployment (env.GetName body) = Except.ok name)
    (hallow : req.AllowMissing = true)
    (hmissing : env.GetDeployment store name = Except.error missing)
    (hnotFound : env.isNotFound (some missing) = true) :
    UpdateApiDeployment env (World.start store) req =
      ((createDeployment env (World.start store) name body).1,
        { store := (createDeployment env (World.start store) name body).2.store
          trace := [Event.getStorageClient, Event.Lock, Event.GetDeployment name] ++
            (createDeployment env (World.start store) name body).2.trace ++
            [Event.Unlock, Event.Close] }) := by
  rw [UpdateApiDeployment, withStorageClient_ok env _ _ hclient]
  simp only [hbody, hmask, hname, withUpdateDeploymentMutex, hallow, World.emit_store,
    World.start_store, hmissing, hnotFound, Bool.and_self, if_true]
  rw [createDeployment_frame]
  simp [World.emit, World.start]

/-- The run of `createDeployment` when every step succeeds. -/
theorem createDeployment_run (env : Env Store Body Model) (store saved : Store)
    (name : names.Deployment) (body message : Body) (missing : status.Status)
    (created : Model)
    (hclient : env.getStorageClient store = Except.ok ())
    (hmissing : env.GetDeployment store name = Except.error missing)
    (hnotFound : env.isNotFound (some missing) = true)
    (hvalid : env.Validate name = Except.ok ())
    (hparent : env.GetApi store name.Api = Except.ok ())
    (hnew : env.NewDeployment name body = Except.ok created)
    (hsave : env.SaveDeploymentRevision store created = Except.ok saved)
    (hmessage : env.BasicMessage created (env.DeploymentString name) [] = Except.ok message) :
    createDeployment env (World.start store) name body =
      (Except.ok message,
        { store := saved
          trace := [Event.getStorageClient, Event.GetDeployment name, Event.GetApi name.Api,
            Event.SaveDeploymentRevision created true,
            Event.notify rpc.Notification_ChangeType.CREATED (env.RevisionName created),
            Event.Close] }) := by
  rw [createDeployment, withStorageClient_ok env _ _ hclient]
  simp only [World.emit_store, World.start_store, hmissing, hnotFound, hvalid, hparent, hnew,
    hsave, hmessage]
  simp [World.emit, World.start]

/-- The run of `UpdateApiDeployment` on a deployment that the store holds,
when every step succeeds. -/
theorem UpdateApiDeployment_run (env : Env Store Body Model) (store saved : Store)
    (req : rpc.UpdateApiDeploymentRequest Body) (body message : Body)
    (name : names.Deployment) (existing updated : Model)
    (allTags : List models.DeploymentRevisionTag)
    (hnil : env.isNotFound none = false)
    (hclient : env.getStorageClient store = Except.ok ())
    (hbody : req.ApiDeployment = some body)
    (hmask : env.ValidateMask body req.UpdateMask = Except.ok ())
    (hname : env.ParseDeployment (env.GetName body) = Except.ok name)
    (hfound : env.GetDeployment store name = Except.ok existing)
    (hupdate : env.Update existing body (env.ExpandMask body req.UpdateMask) = Except.ok updated)
    (hsave : env.SaveDeploymentRevision store updated = Except.ok saved)
    (htags : env.GetDeploymentTags saved (name.Revision (env.RevisionID updated)).Deployment =
      Except.ok allTags)
    (hmessage : env.BasicMessage updated (env.DeploymentString name)
      (revisionTagsLoop (env.RevisionID updated) allTags []) = Except.ok message) :
    (UpdateApiDeployment env (World.start store) req).1 = Except.ok message ∧
      (UpdateApiDeployment env (World.start store) req).2.store = saved ∧
      savedRevisions (UpdateApiDeployment env (World.start store) req).2.trace = [updated] ∧
      notifications (UpdateApiDeployment env (World.start store) req).2.trace =
        [(rpc.Notification_ChangeType.UPDATED, env.RevisionName updated)] := by
  have hrev : (name.Revision (env.RevisionID updated)).RevisionID = env.RevisionID updated := rfl
  rw [UpdateApiDeployment, withStorageClient_ok env _ _ hclient]
  simp only [hbody, hmask, hname, withUpdateDeploymentMutex, deploymentRevisionTags]
  cases req.AllowMissing <;>
    simp [hfound, hnil, hupdate, hsave, htags, hrev, hmessage, savedRevisions, notifications]

/-- C13: a valid `UpdateApiDeployment` request with `allow_missing` whose name
the store does not hold does what `createDeployment(name, body)` does on the
same store: the same result, the same resulting store, the same saved revision
and the same notification, which is of kind `CREATED`; the update mask plays no
part. -/
theorem UpdateApiDeployment_allow_missing_creates (env : Env Store Body Model) (store : Store)
    (req : rpc.UpdateApiDeploymentRequest Body) (body : Body) (name : names.Deployment)
    (missing : status.Status)
    (hclient : env.getStorageClient store = Except.ok ())
    (hbody : req.ApiDeployment = some body)
    (hmask : env.ValidateMask body req.UpdateMask = Except.ok ())
    (hname : env.ParseDeployment (env.GetName body) = Except.ok name)
    (hallow : req.AllowMissing = true)
    (hmissing : env.GetDeployment store name = Except.error missing)
    (hnotFound : env.isNotFound (some missing) = true) :
    (UpdateApiDeployment env (World.start store) req).1 =
        (createDeployment env (World.start store) name body).1 ∧
      (UpdateApiDeployment env (World.start store) req).2.store =
        (createDeployment env (World.start store) name body).2.store ∧
      savedRevisions (UpdateApiDeployment env (World.start store) req).2.trace =
        savedRevisions (createDeployment env (World.start store) name body).2.trace ∧
      notifications (UpdateApiDeployment env (World.start store) req).2.trace =
        notifications (createDeployment env (World.start store) name body).2.trace ∧
      (∀ n ∈ notifications (UpdateApiDeployment env (World.start store) req).2.trace,
        n.1 = rpc.Notification_ChangeType.CREATED) := by
  have hrun := UpdateApiDeployment_allow_missing_run env store req body name missing hclient
    hbody hmask hname hallow hmissing hnotFound
  have hcreated := createDeployment_notifies_created env store name body
  rw [hrun]
  refine ⟨rfl, rfl, ?_, ?_, ?_⟩
  · simp [savedRevisions]
  · simp [notifications]
  · simpa [notifications] using hcreated

theorem UpdateApiDeployment_allow_missing_creates_witness :
    (UpdateApiDeployment memory.env (World.start memory.seededApi)
        { ApiDeployment := some ⟨memory.myDeployment, "new", "", []⟩,
          UpdateMask := some ⟨["description"]⟩, AllowMissing := true }).1 =
        (createDeployment memory.env (World.start memory.seededApi)
          ⟨"my-project", "a", "my-deployment"⟩ ⟨memory.myDeployment, "new", "", []⟩).1 ∧
      (UpdateApiDeployment memory.env (World.start memory.seededApi)
        { ApiDeployment := some ⟨memory.myDeployment, "new", "", []⟩,
          UpdateMask := some ⟨["description"]⟩, AllowMissing := true }).2.store =
        (createDeployment memory.env (World.start memory.seededApi)
          ⟨"my-project", "a", "my-deployment"⟩ ⟨memory.myDeployment, "new", "", []⟩).2.store ∧
      savedRevisions (UpdateApiDeployment memory.env (World.start memory.seededApi)
        { ApiDeployment := some ⟨memory.myDeployment, "new", "", []⟩,
          UpdateMask := some ⟨["description"]⟩, AllowMissing := true }).2.trace =
        savedRevisions (createDeployment memory.env (World.start memory.seededApi)
          ⟨"my-project", "a", "my-deployment"⟩ ⟨memory.myDeployment, "new", "", []⟩).2.trace ∧
      notifications (UpdateApiDeployment memory.env (World.start memory.seededApi)
        { ApiDeployment := some ⟨memory.myDeployment, "new", "", []⟩,
          UpdateMask := some ⟨["description"]⟩, AllowMissing := true }).2.trace =
        notifications (createDeployment memory.env (World.start memory.seededApi)
          ⟨"my-project", "a", "my-deployment"⟩ ⟨memory.myDeployment, "new", "", []⟩).2.trace ∧
      (∀ n ∈ notifications (UpdateApiDeployment memory.env (World.start memory.seededApi)
        { ApiDeployment := some ⟨memory.myDeployment, "new", "", []⟩,
          UpdateMask := some ⟨["description"]⟩, AllowMissing := true }).2.trace,
        n.1 = rpc.Notification_ChangeType.CREATED) :=
  UpdateApiDeployment_allow_missing_creates memory.env memory.seededApi
    { ApiDeployment := some ⟨memory.myDeployment, "new", "", []⟩,
      UpdateMask := some ⟨["description"]⟩, AllowMissing := true }
    ⟨memory.myDeployment, "new", "", []⟩ ⟨"my-project", "a", "my-deployment"⟩
    (memory.notFound memory.myDeployment)
    (by decide) rfl (by decide) (by decide) rfl (by decide) (by decide)

/-- C15: for a request whose name the store holds, `UpdateApiDeployment` does
the same with `allow_missing` set as without it: the same result, the same
resulting store, the same saved revision and the same notification, which is of
kind `UPDATED`.  A nil error is taken not to be a not-found error. -/
theorem UpdateApiDeployment_allow_missing_existing (env : Env Store Body Model) (store : Store)
    (req : rpc.UpdateApiDeploymentRequest Body) (body : Body) (name : names.Deployment)
    (existing : Model)
    (hnil : env.isNotFound none = false)
    (hbody : req.ApiDeployment = some body)
    (hname : env.ParseDeployment (env.GetName body) = Except.ok name)
    (hfound : env.GetDeployment store name = Except.ok existing) :
    (UpdateApiDeployment env (World.start store) { req with AllowMissing := true }).1 =
        (UpdateApiDeployment env (World.start store) { req with AllowMissing := false }).1 ∧
      (UpdateApiDeployment env (World.start store) { req with AllowMissing := true }).2.store =
        (UpdateApiDeployment env (World.start store) { req with AllowMissing := false }).2.store ∧
      savedRevisions
          (UpdateApiDeployment env (World.start store) { req with AllowMissing := true }).2.trace =
        savedRevisions
          (UpdateApiDeployment env (World.start store) { req with AllowMissing := false }).2.trace ∧
      notifications
          (UpdateApiDeployment env (World.start store) { req with AllowMissing := true }).2.trace =
        notifications
          (UpdateApiDeployment env (World.start store) { req with AllowMissing := false }).2.trace ∧
      (∀ n ∈ notifications
          (UpdateApiDeployment env (World.start store) { req with AllowMissing := true }).2.trace,
        n.1 = rpc.Notification_ChangeType.UPDATED) := by
  unfold UpdateApiDeployment withStorageClient withUpdateDeploymentMutex deploymentRevisionTags
  simp only [World.emit_store, World.start_store, hbody, hname, hfound, hnil]
  cases env.getStorageClient store with
  | error e => simp [savedRevisions, notifications]
  | ok u =>
    simp only [World.emit_store, World.start_store]
    cases env.ValidateMask body req.UpdateMask with
    | error e => simp [savedRevisions, notifications]
    | ok u =>
      simp only [World.emit_store, World.start_store, hfound, hnil]
      cases env.Update existing body (env.ExpandMask body req.UpdateMask) with
      | error e => simp [savedRevisions, notifications]
      | ok updated =>
        simp only [World.emit_store, World.start_store]
        cases env.SaveDeploymentRevision store updated with
        | error e => simp [savedRevisions, notifications]
        | ok saved =>
          simp only [World.emit_store, World.start_store]
          cases env.GetDeploymentTags saved
              (name.Revision (env.RevisionID updated)).Deployment with
          | error e => simp [savedRevisions, notifications]
          | ok allTags =>
            simp only [World.emit_store, World.start_store]
            cases env.BasicMessage updated (env.DeploymentString name)
                (revisionTagsLoop (name.Revision (env.RevisionID updated)).RevisionID
                  allTags []) with
            | error e => simp [savedRevisions, notifications]
            | ok message => simp [savedRevisions, notifications]

theorem UpdateApiDeployment_allow_missing_existing_witness :
    (UpdateApiDeployment memory.env (World.start memory.tagged)
        { ApiDeployment := some ⟨memory.myDeployment, "new", "", []⟩, UpdateMask := none,
          AllowMissing := true }).1 =
        (UpdateApiDeployment memory.env (World.start memory.tagged)
          { ApiDeployment := some ⟨memory.myDeployment, "new", "", []⟩, UpdateMask := none,
            AllowMissing := false }).1 ∧
      (UpdateApiDeployment memory.env (World.start memory.tagged)
        { ApiDeployment := some ⟨memory.myDeployment, "new", "", []⟩, UpdateMask := none,
          AllowMissing := true }).2.store =
        (UpdateApiDeployment memory.env (World.start memory.tagged)
          { ApiDeployment := some ⟨memory.myDeployment, "new", "", []⟩, UpdateMask := none,
            AllowMissing := false }).2.store ∧
      savedRevisions (UpdateApiDeployment memory.env (World.start memory.tagged)
        { ApiDeployment := some ⟨memory.myDeployment, "new", "", []⟩, UpdateMask := none,
          AllowMissing := true }).2.trace =
        savedRevisions (UpdateApiDeployment memory.env (World.start memory.tagged)
          { ApiDeployment := some ⟨memory.myDeployment, "new", "", []⟩, UpdateMask := none,
            AllowMissing := false }).2.trace ∧
      notifications (UpdateApiDeployment memory.env (World.start memory.tagged)
        { ApiDeployment := some ⟨memory.myDeployment, "new", "", []⟩, UpdateMask := none,
          AllowMissing := true }).2.trace =
        notifications (UpdateApiDeployment memory.env (World.start memory.tagged)
          { ApiDeployment := some ⟨memory.myDeployment, "new", "", []⟩, UpdateMask := none,
            AllowMissing := false }).2.trace ∧
      (∀ n ∈ notifications (UpdateApiDeployment memory.env (World.start memory.tagged)
        { ApiDeployment := some ⟨memory.myDeployment, "new", "", []⟩, UpdateMask := none,
          AllowMissing := true }).2.trace,
        n.1 = rpc.Notification_ChangeType.UPDATED) :=
  UpdateApiDeployment_allow_missing_existing memory.env memory.tagged
    { ApiDeployment := some ⟨memory.myDeployment, "new", "", []⟩, UpdateMask := none,
      AllowMissing := true }
    ⟨memory.myDeployment, "new", "", []⟩ ⟨"my-project", "a", "my-deployment"⟩ memory.seed
    (by decide) rfl (by decide) (by decide)

end allowMissing

/-! ## The worker -/

section worker

variable {Result : Type}

/-- While the context is not done and the channel of results is open and has
room, the loop of `worker` runs the tasks at the head of the queue one after
the other, sends their results and logs their failures, and goes on with the
rest of the queue. -/
theorem workerLoop_append (ctxDone : Nat → Bool) (closed : Bool)
    (pre rest : List (core.Task Result)) :
    ∀ (i : Nat) (run : core.WorkerRun Result),
      (∀ j, i ≤ j → j < i + pre.length → ctxDone j = false) →
      run.results.closed = false →
      run.results.buf.length + (core.delivered pre).length ≤ run.results.cap →
      core.workerLoop ctxDone closed i (pre ++ rest) run =
        core.workerLoop ctxDone closed (i + pre.length) rest
          { ran := run.ran ++ pre
            logged := run.logged ++ core.failures pre
            results := { run.results with buf := run.results.buf ++ core.delivered pre }
            exit := run.exit } := by
  induction pre with
  | nil =>
    intro i run _ _ _
    simp [core.delivered, core.failures]
  | cons task pre ih =>
    intro i run hnot hopen hroom
    have hi : ctxDone i = false := hnot i (Nat.le_refl i) (by simp)
    have hnot' : ∀ j, i + 1 ≤ j → j < i + 1 + pre.length → ctxDone j = false := by
      intro j h1 h2
      exact hnot j (by omega) (by simp only [List.length_cons]; omega)
    have hlen : i + (task :: pre).length = i + 1 + pre.length := by
      simp only [List.length_cons]; omega
    rw [List.cons_append, core.workerLoop, hlen]
    rcases hrun : task.Run with ⟨_ | r, _ | err⟩
    · have hd : core.delivered (task :: pre) = core.delivered pre := by
        simp [core.delivered, hrun]
      have hf : core.failures (task :: pre) = core.failures pre := by
        simp [core.failures, hrun]
      rw [hd] at hroom
      simp only [core.handle, hi, hrun, Bool.false_eq_true, if_false]
      rw [ih (i + 1) { run with ran := run.ran ++ [task] } hnot' hopen hroom, hd, hf]
      simp
    · have hd : core.delivered (task :: pre) = core.delivered pre := by
        simp [core.delivered, hrun]
      have hf : core.failures (task :: pre) = (err, task.String) :: core.failures pre := by
        simp [core.failures, hrun]
      rw [hd] at hroom
      simp only [core.handle, hi, hrun, Bool.false_eq_true, if_false]
      rw [ih (i + 1)
        { run with ran := run.ran ++ [task], logged := run.logged ++ [(err, task.String)] }
        hnot' hopen hroom, hd, hf]
      simp
    · have hd : core.delivered (task :: pre) = r :: core.delivered pre := by
        simp [core.delivered, hrun]
      have hf : core.failures (task :: pre) = core.failures pre := by
        simp [core.failures, hrun]
      rw [hd] at hroom
      simp only [List.length_cons] at hroom
      have hsend : run.results.send r =
          core.Sent.ok { run.results with buf := run.results.buf ++ [r] } := by
        have : run.results.buf.length < run.results.cap := by omega
        simp [core.Chan.send, hopen, this]
      simp only [core.handle, hi, hrun, hsend, Bool.false_eq_true, if_false]
      rw [ih (i + 1)
        { run with ran := run.ran ++ [task],
                   results := { run.results with buf := run.results.buf ++ [r] } }
        hnot' hopen
        (by simp only [List.length_append, List.length_singleton]; omega), hd, hf]
      simp
    · have hd : core.delivered (task :: pre) = core.delivered pre := by
        simp [core.delivered, hrun]
      have hf : core.failures (task :: pre) = (err, task.String) :: core.failures pre := by
        simp [core.failures, hrun]
      rw [hd] at hroom
      simp only [core.handle, hi, hrun, Bool.false_eq_true, if_false]
      rw [ih (i + 1)
        { run with ran := run.ran ++ [task], logged := run.logged ++ [(err, task.String)] }
        hnot' hopen hroom, hd, hf]
      simp

/-- What the tasks have for the channel of results, said with the two
values that `Run` returns. -/
theorem delivered_eq (tasks : List (core.Task Result)) :
    core.delivered tasks =
      tasks.filterMap (fun task => if task.Run.2 = none then task.Run.1 else none) := by
  unfold core.delivered
  congr 1
  funext task
  rcases task.Run with ⟨_ | r, _ | err⟩ <;> simp

/-- While the channel of results is open and has room for what is sent, a
single worker whose context is not done, on a closed queue that holds the tasks
`tasks`, returns after it has run every task once, in the order of the queue,
whatever tasks failed; what it has sent to the channel is exactly the non-nil
results of the tasks that returned no error, in that order. -/
theorem worker_runs_every_task (tasks : List (core.Task Result)) (cap : Nat)
    (results : core.Chan Result)
    (hopen : results.closed = false)
    (hroom : results.buf.length + (core.delivered tasks).length ≤ results.cap) :
    (core.worker (fun _ => false) { buf := tasks, cap := cap, closed := true } results).exit =
        core.Exit.returned ∧
      (core.worker (fun _ => false) { buf := tasks, cap := cap, closed := true } results).ran =
        tasks ∧
      (core.worker (fun _ => false) { buf := tasks, cap := cap, closed := true }
          results).results.buf =
        results.buf ++
          tasks.filterMap (fun task => if task.Run.2 = none then task.Run.1 else none) ∧
      (core.worker (fun _ => false) { buf := tasks, cap := cap, closed := true }
          results).results.closed = false := by
  have h := workerLoop_append (fun _ => false) true tasks [] 0
    { ran := [], logged := [], results := results, exit := core.Exit.returned }
    (fun _ _ _ => rfl) hopen hroom
  rw [List.append_nil] at h
  unfold core.worker
  simp only
  rw [h, ← delivered_eq]
  simp [core.workerLoop, hopen]

theorem worker_runs_every_task_witness :
    (core.worker (fun _ => false)
        { buf := [core.counts "a" 3, core.fails "b", core.failsWith "c" 5, core.deletes "d",
                  core.counts "e" 0],
          cap := 1024, closed := true } { buf := [], cap := 1024, closed := false }).exit =
        core.Exit.returned ∧
      (core.worker (fun _ => false)
        { buf := [core.counts "a" 3, core.fails "b", core.failsWith "c" 5, core.deletes "d",
                  core.counts "e" 0],
          cap := 1024, closed := true } { buf := [], cap := 1024, closed := false }).ran =
        [core.counts "a" 3, core.fails "b", core.failsWith "c" 5, core.deletes "d",
          core.counts "e" 0] ∧
      (core.worker (fun _ => false)
        { buf := [core.counts "a" 3, core.fails "b", core.failsWith "c" 5, core.deletes "d",
                  core.counts "e" 0],
          cap := 1024, closed := true }
          { buf := [], cap := 1024, closed := false }).results.buf =
        [] ++ [core.counts "a" 3, core.fails "b", core.failsWith "c" 5, core.deletes "d",
          core.counts "e" 0].filterMap
            (fun task => if task.Run.2 = none then task.Run.1 else none) ∧
      (core.worker (fun _ => false)
        { buf := [core.counts "a" 3, core.fails "b", core.failsWith "c" 5, core.deletes "d",
                  core.counts "e" 0],
          cap := 1024, closed := true }
          { buf := [], cap := 1024, closed := false }).results.closed = false :=
  worker_runs_every_task
    [core.counts "a" 3, core.fails "b", core.failsWith "c" 5, core.deletes "d",
      core.counts "e" 0]
    1024 { buf := [], cap := 1024, closed := false } rfl (by decide)

/-- C20: when the context is done as the worker takes the task `task` from
the queue, and was not done when it took the tasks `pre` before it, the worker
returns having run the tasks `pre` and no other: neither `task` nor any task of
`post`.  Every task of `pre` is run to its end and its result sent, also the
last one, during whose run the context was cancelled. -/
theorem worker_stops_when_cancelled (ctxDone : Nat → Bool)
    (pre post : List (core.Task Result)) (task : core.Task Result) (cap : Nat) (closed : Bool)
    (results : core.Chan Result)
    (hbefore : ∀ j, j < pre.length → ctxDone j = false)
    (hcancelled : ctxDone pre.length = true)
    (hopen : results.closed = false)
    (hroom : results.buf.length + (core.delivered pre).length ≤ results.cap) :
    (core.worker ctxDone { buf := pre ++ task :: post, cap := cap, closed := closed }
        results).exit = core.Exit.returned ∧
      (core.worker ctxDone { buf := pre ++ task :: post, cap := cap, closed := closed }
        results).ran = pre ∧
      (core.worker ctxDone { buf := pre ++ task :: post, cap := cap, closed := closed }
        results).results.buf =
        results.buf ++
          pre.filterMap (fun task => if task.Run.2 = none then task.Run.1 else none) := by
  have h := workerLoop_append ctxDone closed pre (task :: post) 0
    { ran := [], logged := [], results := results, exit := core.Exit.returned }
    (fun j _ hj => hbefore j (by omega)) hopen hroom
  unfold core.worker
  simp only
  rw [h, ← delivered_eq]
  simp [core.workerLoop, core.handle, hcancelled]

theorem worker_stops_when_cancelled_witness :
    (core.worker (fun j => decide (2 ≤ j))
        { buf := [core.counts "a" 3, core.counts "b" 4] ++
            core.counts "c" 5 :: [core.counts "d" 6],
          cap := 1024, closed := false } { buf := [], cap := 1024, closed := false }).exit =
        core.Exit.returned ∧
      (core.worker (fun j => decide (2 ≤ j))
        { buf := [core.counts "a" 3, core.counts "b" 4] ++
            core.counts "c" 5 :: [core.counts "d" 6],
          cap := 1024, closed := false } { buf := [], cap := 1024, closed := false }).ran =
        [core.counts "a" 3, core.counts "b" 4] ∧
      (core.worker (fun j => decide (2 ≤ j))
        { buf := [core.counts "a" 3, core.counts "b" 4] ++
            core.counts "c" 5 :: [core.counts "d" 6],
          cap := 1024, closed := false }
          { buf := [], cap := 1024, closed := false }).results.buf =
        [] ++ [core.counts "a" 3, core.counts "b" 4].filterMap
          (fun task => if task.Run.2 = none then task.Run.1 else none) :=
  worker_stops_when_cancelled (fun j => decide (2 ≤ j))
    [core.counts "a" 3, core.counts "b" 4] [core.counts "d" 6] (core.counts "c" 5) 1024 false
    { buf := [], cap := 1024, closed := false }
    (by decide) (by decide) rfl (by decide)

end worker

/-! ## Executions that the specification excludes -/

/-- C11, evaluated where it fails.  An update of `my-deployment` on a store
whose query for tags fails after the save: the call returns the error of the
query, the revision with the new description has been saved, and no
notification has been emitted.  A create on a registry whose `BasicMessage`
fails: the call returns `Internal`, the new revision has been saved, and no
notification has been emitted. -/
theorem saved_without_notification :
    ((UpdateApiDeployment memory.envTagsFail (World.start memory.seeded)
          { ApiDeployment := some ⟨memory.myDeployment, "new", "", []⟩, UpdateMask := none,
            AllowMissing := false }).1 =
        Except.error (status.Error codes.Code.Internal "the connection was lost") ∧
      savedRevisions (UpdateApiDeployment memory.envTagsFail (World.start memory.seeded)
          { ApiDeployment := some ⟨memory.myDeployment, "new", "", []⟩, UpdateMask := none,
            AllowMissing := false }).2.trace = [{ memory.seed with Description := "new" }] ∧
      (UpdateApiDeployment memory.envTagsFail (World.start memory.seeded)
          { ApiDeployment := some ⟨memory.myDeployment, "new", "", []⟩, UpdateMask := none,
            AllowMissing := false }).2.store =
        { memory.seeded with deployments := [{ memory.seed with Description := "new" }] } ∧
      notifications (UpdateApiDeployment memory.envTagsFail (World.start memory.seeded)
          { ApiDeployment := some ⟨memory.myDeployment, "new", "", []⟩, UpdateMask := none,
            AllowMissing := false }).2.trace = []) ∧
    ((CreateApiDeployment memory.envMessageFails (World.start memory.seededApi)
          { Parent := memory.apiA, ApiDeploymentId := "my-deployment",
            ApiDeployment := some ⟨"", "one", "", []⟩ }).1 =
        Except.error (status.Error codes.Code.Internal "the labels cannot be decoded") ∧
      savedRevisions (CreateApiDeployment memory.envMessageFails (World.start memory.seededApi)
          { Parent := memory.apiA, ApiDeploymentId := "my-deployment",
            ApiDeployment := some ⟨"", "one", "", []⟩ }).2.trace = [memory.revision "one"] ∧
      (CreateApiDeployment memory.envMessageFails (World.start memory.seededApi)
          { Parent := memory.apiA, ApiDeploymentId := "my-deployment",
            ApiDeployment := some ⟨"", "one", "", []⟩ }).2.store =
        memory.holding [memory.revision "one"] ∧
      notifications (CreateApiDeployment memory.envMessageFails (World.start memory.seededApi)
          { Parent := memory.apiA, ApiDeployment := some ⟨"", "one", "", []⟩,
            ApiDeploymentId := "my-deployment" }).2.trace = []) := by
  decide

/-- C18, evaluated where it fails.  A pool of one worker and two tasks that
return results.  When the wait function is called before the worker has taken
the first task, `close(results)` precedes the send of the first result: the
worker panics on the closed channel, `wg.Wait()` has not returned, and the
second task is still in the queue, never run.  When the wait function is
called after both results were sent, the pool drains and `wg.Wait()` returns. -/
theorem WorkerPool_wait_closes_results_early :
    (core.WorkerPool Nat 1).run
        [core.Move.submit (core.counts "a" 3), core.Move.submit (core.counts "b" 4),
          core.Move.wait, core.Move.wait, core.Move.worker 0, core.Move.worker 0] =
      some
        { taskQueue := { buf := [core.counts "b" 4], cap := 1024, closed := true }
          results := { buf := [], cap := 1024, closed := true }
          workers := [core.WorkerAt.returned]
          wg := 0
          ran := [core.counts "a" 3]
          ctxDone := false
          waited := 2
          panicked := true } ∧
    (core.WorkerPool Nat 1).run
        [core.Move.submit (core.counts "a" 3), core.Move.submit (core.counts "b" 4),
          core.Move.worker 0, core.Move.worker 0, core.Move.worker 0, core.Move.worker 0,
          core.Move.wait, core.Move.wait, core.Move.worker 0, core.Move.wait] =
      some
        { taskQueue := { buf := [], cap := 1024, closed := true }
          results := { buf := [3, 4], cap := 1024, closed := true }
          workers := [core.WorkerAt.returned]
          wg := 0
          ran := [core.counts "a" 3, core.counts "b" 4]
          ctxDone := false
          waited := 3
          panicked := false } := by
  decide

/-! ## Validated identifiers and the order of the checks of a create -/

/-- C28: an identifier that `validateID` accepts is its own normal form,
`normalize id = id`, whatever the case table; hence two accepted identifiers
have the same normal form only if they are the same string, so that storing or
comparing a validated identifier in normal form never changes it. -/
theorem validateID_normalized (uuidParses : String → Bool) (caseRanges : Char → Char)
    (id : String) (h : names.validateID uuidParses id = Except.ok ()) :
    names.normalize caseRanges id = id ∧
      ∀ other, names.validateID uuidParses other = Except.ok () →
        (names.normalize caseRanges id = names.normalize caseRanges other ↔ id = other) := by
  have hid := normalize_eq_self_of_valid uuidParses caseRanges id h
  refine ⟨hid, fun other hother => ?_⟩
  rw [hid, normalize_eq_self_of_valid uuidParses caseRanges other hother]

theorem validateID_normalized_witness :
    names.normalize latin1CaseRanges "my-deployment" = "my-deployment" ∧
      ∀ other, names.validateID uuidRejectsAll other = Except.ok () →
        (names.normalize latin1CaseRanges "my-deployment" =
          names.normalize latin1CaseRanges other ↔ "my-deployment" = other) :=
  validateID_normalized uuidRejectsAll latin1CaseRanges "my-deployment" (by decide)

section createOrder

variable {Store Body Model : Type}

/-- C24: in `createDeployment` the lookup of the name comes before the
validation of the identifier.  When the store holds a deployment under the
name, the result is `AlreadyExists`, whatever `Validate` says of the name;
when the lookup fails with a not-found error and `Validate` rejects the name,
the result is `InvalidArgument` with the text of `Validate`; and whenever the
result has the code `InvalidArgument`, the store holds no deployment under the
name. -/
theorem createDeployment_exists_before_validate (env : Env Store Body Model) (store : Store)
    (name : names.Deployment) (body : Body)
    (hclient : env.getStorageClient store = Except.ok ()) :
    (∀ existing, env.GetDeployment store name = Except.ok existing →
      (createDeployment env (World.start store) name body).1 =
        Except.error (status.Errorf codes.Code.AlreadyExists "API deployment %q already exists"
          [FmtArg.str (env.DeploymentString name)])) ∧
    (∀ missing invalid, env.GetDeployment store name = Except.error missing →
      env.isNotFound (some missing) = true → env.Validate name = Except.error invalid →
      (createDeployment env (World.start store) name body).1 =
        Except.error (status.Error codes.Code.InvalidArgument invalid)) ∧
    (∀ err, (createDeployment env (World.start store) name body).1 = Except.error err →
      status.Code err = codes.Code.InvalidArgument →
      ∀ existing, env.GetDeployment store name ≠ Except.ok existing) := by
  refine ⟨?_, ?_, ?_⟩
  · intro existing hfound
    rw [createDeployment, withStorageClient_ok env _ _ hclient]
    simp only [World.emit_store, World.start_store, hfound]
  · intro missing invalid hmissing hnf hinvalid
    rw [createDeployment, withStorageClient_ok env _ _ hclient]
    simp only [World.emit_store, World.start_store, hmissing, hnf, hinvalid]
    simp
  · intro err herr hcode existing hfound
    rw [createDeployment, withStorageClient_ok env _ _ hclient] at herr
    simp only [World.emit_store, World.start_store, hfound] at herr
    injection herr with herr
    rw [← herr] at hcode
    simp [status.Code, status.Errorf] at hcode

theorem createDeployment_exists_before_validate_witness :
    memory.env.Validate ⟨"my-project", "a", "My-Deployment"⟩ = Except.error "invalid identifier" ∧
    (createDeployment memory.env (World.start memory.seeded)
        ⟨"my-project", "a", "My-Deployment"⟩ ⟨"", "", "", []⟩).1 =
      Except.error (status.Errorf codes.Code.AlreadyExists "API deployment %q already exists"
        [FmtArg.str (memory.env.DeploymentString ⟨"my-project", "a", "My-Deployment"⟩)]) ∧
    (createDeployment memory.env (World.start memory.seededApi)
        ⟨"my-project", "a", "My-Deployment"⟩ ⟨"", "", "", []⟩).1 =
      Except.error (status.Error codes.Code.InvalidArgument "invalid identifier") :=
  ⟨by decide,
    (createDeployment_exists_before_validate memory.env memory.seeded
      ⟨"my-project", "a", "My-Deployment"⟩ ⟨"", "", "", []⟩ (by decide)).1 memory.seed
      (by decide),
    (createDeployment_exists_before_validate memory.env memory.seededApi
      ⟨"my-project", "a", "My-Deployment"⟩ ⟨"", "", "", []⟩ (by decide)).2.1
      (memory.notFound "projects/my-project/locations/global/apis/a/deployments/my-deployment")
      "invalid identifier" (by decide) (by decide) (by decide)⟩

end createOrder

/-! ## Listing and getting the tags of a revision -/

section groups

variable {Store Body Model : Type}

/-- Reading a map after an assignment. -/
theorem mapIndex_mapAssign (m : List (String × List String)) (k key : String)
    (v : List String) :
    mapIndex (mapAssign m k v) key = if k = key then v else mapIndex m key := by
  induction m with
  | nil => simp [mapAssign, mapIndex]
  | cons entry rest ih =>
    obtain ⟨k', v'⟩ := entry
    by_cases h : k' = k
    · subst h
      by_cases h' : k' = key <;> simp [mapAssign, mapIndex, h']
    · by_cases h' : k' = key
      · subst h'
        have hne : ¬ k = k' := fun e => h e.symm
        simp [mapAssign, mapIndex, h, hne]
      · simp [mapAssign, mapIndex, h, h', ih]

/-- Appending one string to the group of a key adds one to the sizes. -/
theorem groupSizes_mapAssign (m : List (String × List String)) (k x : String) :
    groupSizes (mapAssign m k (mapIndex m k ++ [x])) = groupSizes m + 1 := by
  induction m with
  | nil => simp [mapAssign, mapIndex, groupSizes]
  | cons entry rest ih =>
    obtain ⟨k', v'⟩ := entry
    by_cases h : k' = k
    · simp [mapAssign, mapIndex, groupSizes, h]
      omega
    · simp only [mapAssign, mapIndex, h, if_false]
      simp only [groupSizes, List.map_cons, List.sum_cons] at ih ⊢
      omega

/-- The group of a key after the loop of `deploymentTagsByRevision`: what it
held before, then the strings of the tags whose revision name is the key, in
the order of the tags. -/
theorem tagsByRevisionLoop_index (env : Env Store Body Model)
    (tags : List models.DeploymentRevisionTag) (revTags : List (String × List String))
    (key : String) :
    mapIndex (tagsByRevisionLoop env tags revTags) key =
      mapIndex revTags key ++
        (tags.filter fun tag => env.DeploymentRevisionString (revisionOfTag tag) = key).map
          (fun tag => tag.Tag) := by
  induction tags generalizing revTags with
  | nil => simp [tagsByRevisionLoop]
  | cons tag rest ih =>
    simp only [tagsByRevisionLoop]
    rw [ih, mapIndex_mapAssign]
    by_cases h : env.DeploymentRevisionString (revisionOfTag tag) = key
    · have h' : env.DeploymentRevisionString
          { ProjectID := tag.ProjectID, ApiID := tag.ApiID, DeploymentID := tag.DeploymentID,
            RevisionID := tag.RevisionID } = key := h
      simp [h, h']
    · have h' : ¬ env.DeploymentRevisionString
          { ProjectID := tag.ProjectID, ApiID := tag.ApiID, DeploymentID := tag.DeploymentID,
            RevisionID := tag.RevisionID } = key := h
      simp [h, h']

/-- The loop of `deploymentTagsByRevision` adds one string per tag. -/
theorem tagsByRevisionLoop_sizes (env : Env Store Body Model)
    (tags : List models.DeploymentRevisionTag) (revTags : List (String × List String)) :
    groupSizes (tagsByRevisionLoop env tags revTags) = groupSizes revTags + tags.length := by
  induction tags generalizing revTags with
  | nil => simp [tagsByRevisionLoop]
  | cons tag rest ih =>
    simp only [tagsByRevisionLoop]
    rw [ih, groupSizes_mapAssign, List.length_cons]
    omega

/-- C27: for a list of stored tags and a revision name `R` such that no tag of
another revision has the same `String()` form as `R`, when the store returns
for the deployment of `R` the tags of the list that are attached to that
deployment, `deploymentRevisionTags` computes for `R` the list that
`deploymentTagsByRevision` holds at the key `R.String()`: the strings of the
tags of `R`, in the stored order.  The sizes of the groups of
`deploymentTagsByRevision` sum to the number of tags. -/
theorem tags_listed_as_got (env : Env Store Body Model) (w : World Store Model)
    (tags : List models.DeploymentRevisionTag) (R : names.DeploymentRevision)
    (hdistinct : ∀ tag ∈ tags,
      env.DeploymentRevisionString (revisionOfTag tag) = env.DeploymentRevisionString R →
        revisionOfTag tag = R)
    (hstored : env.GetDeploymentTags w.store R.Deployment =
      Except.ok (tags.filter fun tag => (revisionOfTag tag).Deployment = R.Deployment)) :
    (deploymentRevisionTags env w R).1 =
        Except.ok (mapIndex (deploymentTagsByRevision env tags)
          (env.DeploymentRevisionString R)) ∧
      mapIndex (deploymentTagsByRevision env tags) (env.DeploymentRevisionString R) =
        (tags.filter fun tag => revisionOfTag tag = R).map (fun tag => tag.Tag) ∧
      groupSizes (deploymentTagsByRevision env tags) = tags.length := by
  have hkey : mapIndex (deploymentTagsByRevision env tags) (env.DeploymentRevisionString R) =
      (tags.filter fun tag => revisionOfTag tag = R).map (fun tag => tag.Tag) := by
    unfold deploymentTagsByRevision
    rw [tagsByRevisionLoop_index]
    simp only [mapIndex, List.nil_append]
    congr 1
    apply List.filter_congr
    intro tag htag
    by_cases h : revisionOfTag tag = R
    · simp [h]
    · have : ¬ env.DeploymentRevisionString (revisionOfTag tag) =
          env.DeploymentRevisionString R := fun e => h (hdistinct tag htag e)
      simp [h, this]
  refine ⟨?_, hkey, ?_⟩
  · rw [hkey]
    unfold deploymentRevisionTags
    simp only [World.emit_store, hstored, revisionTagsLoop_eq, List.nil_append, List.filter_filter]
    congr 2
    apply List.filter_congr
    intro tag _
    obtain ⟨p, a, d, r⟩ := R
    simp only [revisionOfTag, names.DeploymentRevision.Deployment,
      names.DeploymentRevision.mk.injEq, names.Deployment.mk.injEq]
    by_cases h1 : tag.ProjectID = p <;> by_cases h2 : tag.ApiID = a <;>
      by_cases h3 : tag.DeploymentID = d <;> by_cases h4 : tag.RevisionID = r <;>
      simp [h1, h2, h3, h4]
  · unfold deploymentTagsByRevision
    rw [tagsByRevisionLoop_sizes]
    simp [groupSizes]

end groups

theorem tags_listed_as_got_witness :
    (deploymentRevisionTags memory.env (World.start memory.tagged)
        ⟨"my-project", "a", "my-deployment", "9f8e7d6c"⟩).1 =
        Except.ok (mapIndex (deploymentTagsByRevision memory.env memory.tagged.tags)
          (memory.env.DeploymentRevisionString
            ⟨"my-project", "a", "my-deployment", "9f8e7d6c"⟩)) ∧
      mapIndex (deploymentTagsByRevision memory.env memory.tagged.tags)
          (memory.env.DeploymentRevisionString
            ⟨"my-project", "a", "my-deployment", "9f8e7d6c"⟩) =
        (memory.tagged.tags.filter fun tag =>
          revisionOfTag tag = ⟨"my-project", "a", "my-deployment", "9f8e7d6c"⟩).map
            (fun tag => tag.Tag) ∧
      groupSizes (deploymentTagsByRevision memory.env memory.tagged.tags) =
        memory.tagged.tags.length :=
  tags_listed_as_got memory.env (World.start memory.tagged) memory.tagged.tags
    ⟨"my-project", "a", "my-deployment", "9f8e7d6c"⟩ (by decide) (by decide)

/-! ## Generated identifiers -/

/-- The runes that `hex.Encode` writes are runes of `hextable`. -/
theorem hex_Encode_mem (src : List (Fin 256)) : ∀ c ∈ hex.Encode src, c ∈ hex.hextable := by
  have hdigit : ∀ n : Fin 16, hex.hextable.getD n.val '0' ∈ hex.hextable := by decide
  intro c hc
  unfold hex.Encode at hc
  obtain ⟨v, _, hv⟩ := List.mem_flatMap.mp hc
  rcases List.mem_cons.mp hv with rfl | hv
  · exact hdigit ⟨v.val / 16, by omega⟩
  · rcases List.mem_cons.mp hv with rfl | hv
    · exact hdigit ⟨v.val % 16, by omega⟩
    · simp at hv

theorem hex_Encode_length (src : List (Fin 256)) : (hex.Encode src).length = 2 * src.length := by
  induction src with
  | nil => rfl
  | cons v rest ih =>
    simp only [hex.Encode, List.flatMap_cons, List.length_append, List.length_cons,
      List.length_nil] at ih ⊢
    omega

/-- The generated ID is the hexadecimal form of the first four bytes. -/
theorem GenerateID_data (u : uuid.UUID) :
    (names.GenerateID u).data = hex.Encode (u.bytes.take 4) := by
  have hlen : (hex.Encode (u.bytes.take 4)).length = 8 := by
    rw [hex_Encode_length, List.length_take, u.size]
    rfl
  unfold names.GenerateID uuid.UUID.String
  simp only [List.append_assoc]
  exact List.take_left' hlen

/-- The number of bytes of a string of runes of `hextable`. -/
theorem utf8ByteSize_hex (l : List Char) (h : ∀ c ∈ l, c ∈ hex.hextable) :
    (String.mk l).utf8ByteSize = l.length := by
  have hsize : ∀ c ∈ hex.hextable, c.utf8Size = 1 := by decide
  change String.utf8ByteSize.go l = l.length
  induction l with
  | nil => rfl
  | cons c rest ih =>
    change String.utf8ByteSize.go rest + c.utf8Size = (c :: rest).length
    rw [ih (fun x hx => h x (List.mem_cons_of_mem _ hx)),
      hsize c (h c (List.mem_cons_self _ _)), List.length_cons]

/-- C29: for every UUID `u`, the ID that `GenerateID` cuts from the string of
`u` consists of 8 runes, each one of `0123456789abcdef`, and `validateID`
accepts it; `uuid.Parse`, which rejects every string of 8 bytes for its length,
does not accept it. -/
theorem GenerateID_valid (uuidParses : String → Bool)
    (hparse : ∀ s, strings.len s = 8 → uuidParses s = false) (u : uuid.UUID) :
    (names.GenerateID u).data = u.String.data.take 8 ∧
      (names.GenerateID u).data.length = 8 ∧
      (∀ c ∈ (names.GenerateID u).data, c ∈ "0123456789abcdef".data) ∧
      uuidParses (names.GenerateID u) = false ∧
      names.validateID uuidParses (names.GenerateID u) = Except.ok () := by
  have hdata := GenerateID_data u
  have hlen : (names.GenerateID u).data.length = 8 := by
    rw [hdata, hex_Encode_length, List.length_take, u.size]
    rfl
  have hmem : ∀ c ∈ (names.GenerateID u).data, c ∈ hex.hextable := by
    rw [hdata]
    exact hex_Encode_mem _
  have hbytes : strings.len (names.GenerateID u) = 8 := by
    have := utf8ByteSize_hex (names.GenerateID u).data hmem
    unfold strings.len
    rw [← hlen, ← this]
  have hrejected := hparse _ hbytes
  have hclass : ∀ c ∈ hex.hextable, regexp.inClass names.customIdentifierClass c = true ∧
      c ≠ '-' ∧ c ≠ '.' := by decide
  have hmatch : names.customIdentifier.MatchString (names.GenerateID u) = true := by
    rw [customIdentifier_MatchString]
    refine ⟨?_, fun c hc => (hclass c (hmem c hc)).1⟩
    intro hnil
    rw [hnil] at hlen
    simp at hlen
  have hp : ∀ c, c = '-' ∨ c = '.' →
      strings.HasPrefix (names.GenerateID u) (String.mk [c]) = false := by
    intro c hc
    rw [Bool.eq_false_iff, Ne, HasPrefix_singleton]
    intro hhead
    have hin := hmem c (List.mem_of_mem_head? hhead)
    rcases hc with rfl | rfl
    · exact (hclass _ hin).2.1 rfl
    · exact (hclass _ hin).2.2 rfl
  have hs : ∀ c, c = '-' ∨ c = '.' →
      strings.HasSuffix (names.GenerateID u) (String.mk [c]) = false := by
    intro c hc
    rw [Bool.eq_false_iff, Ne, HasSuffix_singleton]
    intro hlast
    have hin := hmem c (List.mem_of_mem_getLast? hlast)
    rcases hc with rfl | rfl
    · exact (hclass _ hin).2.1 rfl
    · exact (hclass _ hin).2.2 rfl
  refine ⟨rfl, hlen, hmem, hrejected, ?_⟩
  unfold names.validateID
  have hp1 := hp '-' (Or.inl rfl)
  have hp2 := hp '.' (Or.inr rfl)
  have hs1 := hs '-' (Or.inl rfl)
  have hs2 := hs '.' (Or.inr rfl)
  change strings.HasPrefix _ "-" = false at hp1
  change strings.HasPrefix _ "." = false at hp2
  change strings.HasSuffix _ "-" = false at hs1
  change strings.HasSuffix _ "." = false at hs2
  simp [hmatch, hrejected, hbytes, hp1, hp2, hs1, hs2]

theorem GenerateID_valid_witness :
    (names.GenerateID uuidOfDNS).data = uuidOfDNS.String.data.take 8 ∧
      (names.GenerateID uuidOfDNS).data.length = 8 ∧
      (∀ c ∈ (names.GenerateID uuidOfDNS).data, c ∈ "0123456789abcdef".data) ∧
      uuidRejectsAll (names.GenerateID uuidOfDNS) = false ∧
      names.validateID uuidRejectsAll (names.GenerateID uuidOfDNS) = Except.ok () :=
  GenerateID_valid uuidRejectsAll (fun _ _ => rfl) uuidOfDNS

/-! ## The rules of the sample linter -/

/-- The number of bytes of a string that repeats one rune. -/
theorem len_replicate (n : Nat) (c : Char) :
    strings.len (String.mk (List.replicate n c)) = n * c.utf8Size := by
  change String.utf8ByteSize.go (List.replicate n c) = n * c.utf8Size
  induction n with
  | zero => simp [String.utf8ByteSize.go]
  | succ n ih =>
    change String.utf8ByteSize.go (List.replicate n c) + c.utf8Size = (n + 1) * c.utf8Size
    rw [ih, Nat.succ_mul]

/-- The length rule keeps the descriptions of 1000 bytes or more, in order. -/
theorem enforceDescriptionLessThan1000Chars_eq (descriptions : List lint.DescriptionField) :
    lint.enforceDescriptionLessThan1000Chars descriptions =
      (descriptions.filter fun d => decide (strings.len d.Description ≥ 1000)).map fun d =>
        { Message := "Description field should be less than 1000 chars."
          RuleId := "description-less-than-1000-chars"
          Suggestion := "Ensure that your description field is less than 1000 chars in length."
          Location := lint.location d } := by
  induction descriptions with
  | nil => rfl
  | cons d rest ih =>
    by_cases h : strings.len d.Description ≥ 1000
    · simp only [lint.enforceDescriptionLessThan1000Chars, h, if_true, List.filter_cons,
        decide_True, List.map_cons, ih]
      rfl
    · simp only [lint.enforceDescriptionLessThan1000Chars, h, if_false, List.filter_cons,
        decide_False, ih]
      simp

/-- C25, the rule counts bytes: a description of 500 runes `é` has 500
characters and 1000 bytes, and `enforceDescriptionLessThan1000Chars` reports
it, with the message that it should be less than 1000 chars. -/
theorem enforceDescriptionLessThan1000Chars_counts_bytes :
    lint.accented.Description.length = 500 ∧
      strings.len lint.accented.Description = 1000 ∧
      lint.enforceDescriptionLessThan1000Chars [lint.accented] =
        [{ Message := "Description field should be less than 1000 chars."
           RuleId := "description-less-than-1000-chars"
           Suggestion := "Ensure that your description field is less than 1000 chars in length."
           Location := { StartPosition := { LineNumber := 3, ColumnNumber := 16 }
                         EndPosition := { LineNumber := 4, ColumnNumber := 0 } } }] := by
  have hlen : strings.len lint.accented.Description = 1000 := by
    rw [lint.accented, len_replicate]
    decide
  refine ⟨?_, hlen, ?_⟩
  · rw [lint.accented, String.length, List.length_replicate]
  · rw [enforceDescriptionLessThan1000Chars_eq, List.filter_cons, hlen]
    decide

/-- When the rest of the pattern matches, so does the repetition before it. -/
theorem matchStar_of_rest (ranges : List (Char × Char)) (k : Bool → List Char → Bool)
    (b : Bool) (s : List Char) (h : k b s = true) : regexp.matchStar ranges k b s = true := by
  cases s with
  | nil => simpa [regexp.matchStar] using h
  | cons c s => simp [regexp.matchStar, h]

/-- A repetition consumes runes of its class. -/
theorem matchStar_append (ranges : List (Char × Char)) (k : Bool → List Char → Bool)
    (p t : List Char) (b : Bool) (hp : ∀ c ∈ p, regexp.inClass ranges c = true)
    (hk : ∀ b, k b t = true) : regexp.matchStar ranges k b (p ++ t) = true := by
  induction p generalizing b with
  | nil => exact matchStar_of_rest ranges k b t (hk b)
  | cons c p ih =>
    have hc := hp c (List.mem_cons_self _ _)
    have := ih false (fun x hx => hp x (List.mem_cons_of_mem _ hx))
    simp [regexp.matchStar, hc, this]

/-- A repetition that matches splits the input into what it consumed and an
input that the rest of the pattern matches. -/
theorem matchStar_split (ranges : List (Char × Char)) (k : Bool → List Char → Bool)
    (b : Bool) (s : List Char) (h : regexp.matchStar ranges k b s = true) :
    ∃ p t b', s = p ++ t ∧ k b' t = true := by
  induction s generalizing b with
  | nil => exact ⟨[], [], b, rfl, by simpa [regexp.matchStar] using h⟩
  | cons c s ih =>
    rw [regexp.matchStar, Bool.or_eq_true, Bool.and_eq_true] at h
    rcases h with h | ⟨_, h⟩
    · exact ⟨[], c :: s, b, rfl, h⟩
    · obtain ⟨p, t, b', hs, hk⟩ := ih false h
      exact ⟨c :: p, t, b', by rw [hs]; rfl, hk⟩

/-- The search finds a match exactly when the pattern matches at the head of
some suffix of the input. -/
theorem search_iff (re : List regexp.Op) (b : Bool) (s : List Char) :
    regexp.search re b s = true ↔
      ∃ pre t, s = pre ++ t ∧ regexp.matchHere re (b && pre.isEmpty) t = true := by
  induction s generalizing b with
  | nil =>
    rw [regexp.search]
    constructor
    · intro h
      exact ⟨[], [], rfl, by simpa using h⟩
    · rintro ⟨pre, t, hs, h⟩
      obtain ⟨rfl, rfl⟩ := List.append_eq_nil.mp hs.symm
      simpa using h
  | cons c s ih =>
    rw [regexp.search, Bool.or_eq_true, ih]
    constructor
    · rintro (h | ⟨pre, t, hs, h⟩)
      · exact ⟨[], c :: s, rfl, by simpa using h⟩
      · exact ⟨c :: pre, t, by rw [hs]; rfl, by simpa using h⟩
    · rintro ⟨pre, t, hs, h⟩
      cases pre with
      | nil =>
        left
        rw [List.nil_append] at hs
        rw [hs]
        simpa using h
      | cons x pre =>
        right
        rw [List.cons_append, List.cons.injEq] at hs
        exact ⟨pre, t, hs.2, by simpa using h⟩

theorem char_toNat_le_max (c : Char) : c.toNat ≤ 0x10FFFF := by
  have h := c.valid
  simp only [UInt32.isValidChar, Nat.isValidChar] at h
  have : c.toNat = c.val.toNat := rfl
  omega

/-- The class `[^>]` holds every rune but `>`. -/
theorem inClass_notGreaterThan (c : Char) (h : c ≠ '>') :
    regexp.inClass lint.notGreaterThan c = true := by
  have hne : c.toNat ≠ 62 := fun e => h (char_eq_of_toNat_eq (by rw [e]; rfl))
  have hmax := char_toNat_le_max c
  have h1 : (Char.ofNat 0).toNat = 0 := by decide
  have h2 : ('=' : Char).toNat = 61 := by decide
  have h3 : ('?' : Char).toNat = 63 := by decide
  have h4 : (Char.ofNat 0x10FFFF).toNat = 0x10FFFF := by decide
  simp only [regexp.inClass, lint.notGreaterThan, List.any_cons, List.any_nil, Bool.or_false,
    Bool.or_eq_true, Bool.and_eq_true, decide_eq_true_eq, h1, h2, h3, h4]
  omega

/-- The class of a literal rune holds that rune only. -/
theorem inClass_literal (a c : Char) : regexp.inClass [(a, a)] c = true ↔ c = a := by
  simp only [regexp.inClass, List.any_cons, List.any_nil, Bool.or_false, Bool.and_eq_true,
    decide_eq_true_eq, char_eq_iff_toNat]
  omega

/-- The pattern of the rule matches at the head of an input that starts with
`<` and reaches a `>` over runes other than `>`. -/
theorem tagPattern_matchHere (b : Bool) (mid post : List Char) (hmid : ∀ c ∈ mid, c ≠ '>') :
    regexp.matchHere lint.tagPattern.prog b ('<' :: (mid ++ '>' :: post)) = true := by
  simp only [lint.tagPattern, regexp.matchHere]
  apply matchStar_of_rest
  simp only [regexp.matchHere, (inClass_literal '<' '<').mpr rfl, Bool.true_and]
  apply matchStar_append _ _ _ _ _ (fun c hc => inClass_notGreaterThan c (hmid c hc))
  intro b'
  simp only [regexp.matchHere, (inClass_literal '>' '>').mpr rfl, Bool.true_and]
  apply matchStar_of_rest
  rfl

/-- Where the pattern of the rule matches, a `<` is followed by a `>`. -/
theorem tagPattern_matchHere_split (b : Bool) (s : List Char)
    (h : regexp.matchHere lint.tagPattern.prog b s = true) :
    ∃ pre mid post, s = pre ++ '<' :: (mid ++ '>' :: post) := by
  simp only [lint.tagPattern, regexp.matchHere] at h
  obtain ⟨p, t, b1, hs, h1⟩ := matchStar_split _ _ _ _ h
  cases t with
  | nil => simp [regexp.matchHere] at h1
  | cons x t =>
    simp only [regexp.matchHere, Bool.and_eq_true, inClass_literal] at h1
    obtain ⟨rfl, h2⟩ := h1
    obtain ⟨mid, u, b2, ht, h3⟩ := matchStar_split _ _ _ _ h2
    cases u with
    | nil => simp [regexp.matchHere] at h3
    | cons y u =>
      simp only [regexp.matchHere, Bool.and_eq_true, inClass_literal] at h3
      obtain ⟨rfl, _⟩ := h3
      exact ⟨p, mid, u, by rw [hs, ht]⟩

/-- What the pattern of the no-tags rule decides: whether some `<` of the
string is followed, at a later position, by a `>`. -/
theorem tagPattern_MatchString (s : String) :
    lint.tagPattern.MatchString s = true ↔
      ∃ pre mid post, s.data = pre ++ '<' :: (mid ++ '>' :: post) := by
  rw [regexp.Regexp.MatchString, search_iff]
  constructor
  · rintro ⟨pre, t, hs, h⟩
    obtain ⟨p, mid, post, ht⟩ := tagPattern_matchHere_split _ t h
    exact ⟨pre ++ p, mid, post, by rw [hs, ht, List.append_assoc]⟩
  · rintro ⟨pre, mid, post, hs⟩
    have hsplit := List.takeWhile_append_dropWhile (fun c => decide (c ≠ '>')) mid
    have htake : ∀ c ∈ mid.takeWhile (fun c => decide (c ≠ '>')), c ≠ '>' := by
      intro c hc
      simpa using List.mem_takeWhile_imp hc
    cases hdrop : mid.dropWhile (fun c => decide (c ≠ '>')) with
    | nil =>
      rw [hdrop, List.append_nil] at hsplit
      refine ⟨pre, '<' :: (mid ++ '>' :: post), hs, ?_⟩
      apply tagPattern_matchHere
      rw [← hsplit]
      exact htake
    | cons x rest =>
      have hx : x = '>' := by
        have := List.head_dropWhile_not (fun c => decide (c ≠ '>')) mid
          (by rw [hdrop]; simp)
        simp only [hdrop, List.head_cons] at this
        simpa using this
      subst hx
      refine ⟨pre, '<' :: (mid.takeWhile (fun c => decide (c ≠ '>')) ++ '>' :: (rest ++ '>' :: post)),
        ?_, tagPattern_matchHere _ _ _ htake⟩
      rw [hs]
      congr 2
      rw [← List.cons_append, ← List.append_assoc, ← hdrop, hsplit]

/-- C26: the pattern of the no-tags rule matches a description exactly when
some `<` of the description is followed at a later position by a `>`, whatever
runes, newlines included, lie between them; and
`enforceDescriptionContainsNoTagsRuleId` returns one problem, with the ID of
the rule and the location of the description, for every description that the
pattern matches, in the order of the input, and none for the others. -/
theorem enforceDescriptionContainsNoTagsRuleId_reports (descriptions : List lint.DescriptionField) :
    (∀ d : lint.DescriptionField, lint.tagPattern.MatchString d.Description = true ↔
      ∃ pre mid post, d.Description.data = pre ++ '<' :: (mid ++ '>' :: post)) ∧
    lint.enforceDescriptionContainsNoTagsRuleId descriptions =
      (descriptions.filter fun d => lint.tagPattern.MatchString d.Description).map fun d =>
        { Message := "Description field should not contain any tags."
          RuleId := "description-contains-no-tags"
          Suggestion :=
            "Ensure that your description field does not contain any tags (regex <[^>]*>)"
          Location := lint.location d } := by
  refine ⟨fun d => tagPattern_MatchString d.Description, ?_⟩
  induction descriptions with
  | nil => rfl
  | cons d rest ih =>
    by_cases h : lint.tagPattern.MatchString d.Description = true
    · simp only [lint.enforceDescriptionContainsNoTagsRuleId, h, if_true, List.filter_cons,
        List.map_cons, ih]
      rfl
    · simp only [lint.enforceDescriptionContainsNoTagsRuleId, h, if_false, List.filter_cons,
        ih]
      simp

/-- The no-tags rule on three descriptions: the tag that spans two lines and
the closing tag are reported, the description `a > b and b < c` is not. -/
theorem enforceDescriptionContainsNoTagsRuleId_example :
    (lint.enforceDescriptionContainsNoTagsRuleId lint.descriptions).map
        (fun problem => (problem.RuleId, problem.Location)) =
      [("description-contains-no-tags", ⟨⟨3, 16⟩, ⟨5, 2⟩⟩),
        ("description-contains-no-tags", ⟨⟨9, 16⟩, ⟨10, 0⟩⟩)] := by
  decide

/-! ## The summaries of documents -/

theorem iterate_iterate_add {α : Type} (f : α → α) (m n : Nat) (x : α) :
    f^[n] (f^[m] x) = f^[m + n] x := by
  rw [Nat.add_comm, Function.iterate_add_apply]

/-- The conversion to `int32` keeps a number that fits. -/
theorem int32_of_fits (n : Int) (h0 : -2 ^ 31 ≤ n) (h1 : n < 2 ^ 31) : int32 n = n := by
  unfold int32
  rw [Int.emod_eq_of_lt (by omega) (by omega)]
  omega

/-- A counter that starts at 0 and is incremented fewer than `2 ^ 31` times
holds the number of the increments. -/
theorem iterate_increment (n : Nat) (h : n < 2 ^ 31) : core.increment^[n] 0 = (n : Int) := by
  induction n with
  | zero => rfl
  | succ n ih =>
    rw [Function.iterate_succ_apply', ih (by omega), core.increment, int32_of_fits] <;>
      push_cast <;> omega

/-- The loop over paths counts the paths and, for each operation, the paths
that have it. -/
theorem foldl_summarizePathItem {α : Type} (get post put delete : α → Bool) (l : List α)
    (summary : metrics.Complexity) :
    l.foldl (fun summary x => core.summarizePathItem summary (get x) (post x) (put x) (delete x))
        summary =
      { summary with
        PathCount := core.increment^[l.length] summary.PathCount
        GetCount := core.increment^[l.countP get] summary.GetCount
        PostCount := core.increment^[l.countP post] summary.PostCount
        PutCount := core.increment^[l.countP put] summary.PutCount
        DeleteCount := core.increment^[l.countP delete] summary.DeleteCount } := by
  induction l generalizing summary with
  | nil => rfl
  | cons x rest ih =>
    rw [List.foldl_cons, ih]
    cases hg : get x <;> cases hp : post x <;> cases hu : put x <;> cases hd : delete x <;>
      simp [core.summarizePathItem, List.countP_cons, hg, hp, hu, hd,
        Function.iterate_succ_apply]

mutual

theorem openapi_v2_nodes_eq : ∀ schema : openapi_v2.Schema, schema.nodes = schema.entries + 1
  | .mk none => rfl
  | .mk (some properties) => by
    rw [openapi_v2.Schema.nodes, openapi_v2.Schema.entries, openapi_v2_nodesOf_eq properties]
    omega

theorem openapi_v2_nodesOf_eq :
    ∀ properties : List (String × openapi_v2.Schema),
      openapi_v2.nodesOf properties = openapi_v2.entriesOf properties
  | [] => rfl
  | (_, value) :: rest => by
    rw [openapi_v2.nodesOf, openapi_v2.entriesOf, openapi_v2_nodes_eq value,
      openapi_v2_nodesOf_eq rest]
    omega

end

mutual

/-- The walk of a schema adds the number of its schemas to `SchemaCount` and
the number of its property entries to `SchemaPropertyCount`. -/
theorem summarizeOpenAPIv2Schema_eq :
    ∀ (schema : openapi_v2.Schema) (summary : metrics.Complexity),
      core.summarizeOpenAPIv2Schema summary schema =
        { summary with
          SchemaCount := core.increment^[schema.nodes] summary.SchemaCount
          SchemaPropertyCount := core.increment^[schema.entries] summary.SchemaPropertyCount }
  | .mk none, summary => by
    simp [core.summarizeOpenAPIv2Schema, openapi_v2.Schema.nodes, openapi_v2.Schema.entries]
  | .mk (some properties), summary => by
    rw [core.summarizeOpenAPIv2Schema, summarizeOpenAPIv2Properties_eq properties,
      openapi_v2.Schema.nodes, openapi_v2.Schema.entries]
    simp only [← Function.iterate_succ_apply, Nat.succ_eq_add_one, Nat.add_comm]

theorem summarizeOpenAPIv2Properties_eq :
    ∀ (properties : List (String × openapi_v2.Schema)) (summary : metrics.Complexity),
      core.summarizeOpenAPIv2Properties summary properties =
        { summary with
          SchemaCount := core.increment^[openapi_v2.nodesOf properties] summary.SchemaCount
          SchemaPropertyCount :=
            core.increment^[openapi_v2.entriesOf properties] summary.SchemaPropertyCount }
  | [], summary => by
    simp [core.summarizeOpenAPIv2Properties, openapi_v2.nodesOf, openapi_v2.entriesOf]
  | (_, value) :: rest, summary => by
    rw [core.summarizeOpenAPIv2Properties, summarizeOpenAPIv2Schema_eq value,
      summarizeOpenAPIv2Properties_eq rest, openapi_v2.nodesOf, openapi_v2.entriesOf]
    simp only [← Function.iterate_succ_apply, iterate_iterate_add, Nat.succ_eq_add_one,
      Nat.add_comm, Nat.add_left_comm]

end

/-- The loop over the definitions of an OpenAPI v2 document. -/
theorem foldl_summarizeOpenAPIv2Schema (definitions : List (String × openapi_v2.Schema))
    (summary : metrics.Complexity) :
    definitions.foldl (fun summary pair => core.summarizeOpenAPIv2Schema summary pair.2)
        summary =
      { summary with
        SchemaCount :=
          core.increment^[(definitions.map fun pair => pair.2.nodes).sum] summary.SchemaCount
        SchemaPropertyCount :=
          core.increment^[(definitions.map fun pair => pair.2.entries).sum]
            summary.SchemaPropertyCount } := by
  induction definitions generalizing summary with
  | nil => rfl
  | cons pair rest ih =>
    rw [List.foldl_cons, ih, summarizeOpenAPIv2Schema_eq]
    simp only [List.map_cons, List.sum_cons, iterate_iterate_add]

/-- The schemas of a list of definitions are their property entries and the
definitions themselves. -/
theorem openapi_v2_sum_nodes (definitions : List (String × openapi_v2.Schema)) :
    (definitions.map fun pair => pair.2.nodes).sum =
      (definitions.map fun pair => pair.2.entries).sum + definitions.length := by
  induction definitions with
  | nil => rfl
  | cons pair rest ih =>
    rw [List.map_cons, List.sum_cons, List.map_cons, List.sum_cons, List.length_cons, ih,
      openapi_v2_nodes_eq]
    omega

/-- The summary of an OpenAPI v2 document, counter by counter. -/
theorem SummarizeOpenAPIv2Document_eq (document : openapi_v2.Document) :
    core.SummarizeOpenAPIv2Document document =
      { PathCount := core.increment^[document.Paths.length] 0
        GetCount := core.increment^[document.Paths.countP fun pair => pair.2.Get] 0
        PostCount := core.increment^[document.Paths.countP fun pair => pair.2.Post] 0
        PutCount := core.increment^[document.Paths.countP fun pair => pair.2.Put] 0
        DeleteCount := core.increment^[document.Paths.countP fun pair => pair.2.Delete] 0
        SchemaCount := core.increment^[document.schemaNodes] 0
        SchemaPropertyCount := core.increment^[document.propertyEntries] 0 } := by
  unfold core.SummarizeOpenAPIv2Document
  simp only []
  rw [foldl_summarizePathItem (fun pair : String × openapi_v2.PathItem => pair.2.Get)
    (fun pair => pair.2.Post) (fun pair => pair.2.Put) (fun pair => pair.2.Delete)]
  unfold openapi_v2.Document.schemaNodes openapi_v2.Document.propertyEntries
    openapi_v2.Document.definitions
  cases document.Definitions with
  | none => rfl
  | some definitions =>
    simp only [foldl_summarizeOpenAPIv2Schema, Option.getD_some]

mutual

theorem openapi_v3_nodes_eq : ∀ schema : openapi_v3.SchemaOrReference, schema.nodes = schema.entries + 1
  | .reference => rfl
  | .schema none => rfl
  | .schema (some properties) => by
    rw [openapi_v3.SchemaOrReference.nodes, openapi_v3.SchemaOrReference.entries, openapi_v3_nodesOf_eq properties]
    omega

theorem openapi_v3_nodesOf_eq :
    ∀ properties : List (String × openapi_v3.SchemaOrReference),
      openapi_v3.nodesOf properties = openapi_v3.entriesOf properties
  | [] => rfl
  | (_, value) :: rest => by
    rw [openapi_v3.nodesOf, openapi_v3.entriesOf, openapi_v3_nodes_eq value,
      openapi_v3_nodesOf_eq rest]
    omega

end

mutual

/-- The walk of a schema adds the number of its schemas to `SchemaCount` and
the number of its property entries to `SchemaPropertyCount`. -/
theorem summarizeOpenAPIv3Schema_eq :
    ∀ (schema : openapi_v3.SchemaOrReference) (summary : metrics.Complexity),
      core.summarizeOpenAPIv3Schema summary schema =
        { summary with
          SchemaCount := core.increment^[schema.nodes] summary.SchemaCount
          SchemaPropertyCount := core.increment^[schema.entries] summary.SchemaPropertyCount }
  | .reference, summary => by
    simp [core.summarizeOpenAPIv3Schema, openapi_v3.SchemaOrReference.nodes,
      openapi_v3.SchemaOrReference.entries]
  | .schema none, summary => by
    simp [core.summarizeOpenAPIv3Schema, openapi_v3.SchemaOrReference.nodes,
      openapi_v3.SchemaOrReference.entries]
  | .schema (some properties), summary => by
    rw [core.summarizeOpenAPIv3Schema, summarizeOpenAPIv3Properties_eq properties,
      openapi_v3.SchemaOrReference.nodes, openapi_v3.SchemaOrReference.entries]
    simp only [← Function.iterate_succ_apply, Nat.succ_eq_add_one, Nat.add_comm]

theorem summarizeOpenAPIv3Properties_eq :
    ∀ (properties : List (String × openapi_v3.SchemaOrReference)) (summary : metrics.Complexity),
      core.summarizeOpenAPIv3Properties summary properties =
        { summary with
          SchemaCount := core.increment^[openapi_v3.nodesOf properties] summary.SchemaCount
          SchemaPropertyCount :=
            core.increment^[openapi_v3.entriesOf properties] summary.SchemaPropertyCount }
  | [], summary => by
    simp [core.summarizeOpenAPIv3Properties, openapi_v3.nodesOf, openapi_v3.entriesOf]
  | (_, value) :: rest, summary => by
    rw [core.summarizeOpenAPIv3Properties, summarizeOpenAPIv3Schema_eq value,
      summarizeOpenAPIv3Properties_eq rest, openapi_v3.nodesOf, openapi_v3.entriesOf]
    simp only [← Function.iterate_succ_apply, iterate_iterate_add, Nat.succ_eq_add_one,
      Nat.add_comm, Nat.add_left_comm]

end

/-- The loop over the definitions of an OpenAPI v3 document. -/
theorem foldl_summarizeOpenAPIv3Schema (definitions : List (String × openapi_v3.SchemaOrReference))
    (summary : metrics.Complexity) :
    definitions.foldl (fun summary pair => core.summarizeOpenAPIv3Schema summary pair.2)
        summary =
      { summary with
        SchemaCount :=
          core.increment^[(definitions.map fun pair => pair.2.nodes).sum] summary.SchemaCount
        SchemaPropertyCount :=
          core.increment^[(definitions.map fun pair => pair.2.entries).sum]
            summary.SchemaPropertyCount } := by
  induction definitions generalizing summary with
  | nil => rfl
  | cons pair rest ih =>
    rw [List.foldl_cons, ih, summarizeOpenAPIv3Schema_eq]
    simp only [List.map_cons, List.sum_cons, iterate_iterate_add]

/-- The schemas of a list of definitions are their property entries and the
definitions themselves. -/
theorem openapi_v3_sum_nodes (definitions : List (String × openapi_v3.SchemaOrReference)) :
    (definitions.map fun pair => pair.2.nodes).sum =
      (definitions.map fun pair => pair.2.entries).sum + definitions.length := by
  induction definitions with
  | nil => rfl
  | cons pair rest ih =>
    rw [List.map_cons, List.sum_cons, List.map_cons, List.sum_cons, List.length_cons, ih,
      openapi_v3_nodes_eq]
    omega

/-- The summary of an OpenAPI v3 document, counter by counter. -/
theorem SummarizeOpenAPIv3Document_eq (document : openapi_v3.Document) :
    core.SummarizeOpenAPIv3Document document =
      { PathCount := core.increment^[document.Paths.length] 0
        GetCount := core.increment^[document.Paths.countP fun pair => pair.2.Get] 0
        PostCount := core.increment^[document.Paths.countP fun pair => pair.2.Post] 0
        PutCount := core.increment^[document.Paths.countP fun pair => pair.2.Put] 0
        DeleteCount := core.increment^[document.Paths.countP fun pair => pair.2.Delete] 0
        SchemaCount := core.increment^[document.schemaNodes] 0
        SchemaPropertyCount := core.increment^[document.propertyEntries] 0 } := by
  unfold core.SummarizeOpenAPIv3Document
  simp only []
  rw [foldl_summarizePathItem (fun pair : String × openapi_v3.PathItem => pair.2.Get)
    (fun pair => pair.2.Post) (fun pair => pair.2.Put) (fun pair => pair.2.Delete)]
  unfold openapi_v3.Document.schemaNodes openapi_v3.Document.propertyEntries
    openapi_v3.Document.definitions
  cases document.Components with
  | none => rfl
  | some components =>
    obtain ⟨schemas⟩ := components
    cases schemas with
    | none => rfl
    | some schemas => simp only [foldl_summarizeOpenAPIv3Schema, Option.getD_some]

mutual

theorem discovery_nodes_eq : ∀ schema : discovery.Schema, schema.nodes = schema.entries + 1
  | .nil => rfl
  | .mk none => rfl
  | .mk (some properties) => by
    rw [discovery.Schema.nodes, discovery.Schema.entries, discovery_nodesOf_eq properties]
    omega

theorem discovery_nodesOf_eq :
    ∀ properties : List (String × discovery.Schema),
      discovery.nodesOf properties = discovery.entriesOf properties
  | [] => rfl
  | (_, value) :: rest => by
    rw [discovery.nodesOf, discovery.entriesOf, discovery_nodes_eq value,
      discovery_nodesOf_eq rest]
    omega

end

mutual

/-- The walk of a schema adds the number of its schemas to `SchemaCount` and
the number of its property entries to `SchemaPropertyCount`. -/
theorem summarizeDiscoverySchema_eq :
    ∀ (schema : discovery.Schema) (summary : metrics.Complexity),
      core.summarizeDiscoverySchema summary schema =
        { summary with
          SchemaCount := core.increment^[schema.nodes] summary.SchemaCount
          SchemaPropertyCount := core.increment^[schema.entries] summary.SchemaPropertyCount }
  | .nil, summary => by
    simp [core.summarizeDiscoverySchema, discovery.Schema.nodes, discovery.Schema.entries]
  | .mk none, summary => by
    simp [core.summarizeDiscoverySchema, discovery.Schema.nodes, discovery.Schema.entries]
  | .mk (some properties), summary => by
    rw [core.summarizeDiscoverySchema, summarizeDiscoveryProperties_eq properties,
      discovery.Schema.nodes, discovery.Schema.entries]
    simp only [← Function.iterate_succ_apply, Nat.succ_eq_add_one, Nat.add_comm]

theorem summarizeDiscoveryProperties_eq :
    ∀ (properties : List (String × discovery.Schema)) (summary : metrics.Complexity),
      core.summarizeDiscoveryProperties summary properties =
        { summary with
          SchemaCount := core.increment^[discovery.nodesOf properties] summary.SchemaCount
          SchemaPropertyCount :=
            core.increment^[discovery.entriesOf properties] summary.SchemaPropertyCount }
  | [], summary => by
    simp [core.summarizeDiscoveryProperties, discovery.nodesOf, discovery.entriesOf]
  | (_, value) :: rest, summary => by
    rw [core.summarizeDiscoveryProperties, summarizeDiscoverySchema_eq value,
      summarizeDiscoveryProperties_eq rest, discovery.nodesOf, discovery.entriesOf]
    simp only [← Function.iterate_succ_apply, iterate_iterate_add, Nat.succ_eq_add_one,
      Nat.add_comm, Nat.add_left_comm]

end

/-- The loop over the definitions of an Discovery document. -/
theorem foldl_summarizeDiscoverySchema (definitions : List (String × discovery.Schema))
    (summary : metrics.Complexity) :
    definitions.foldl (fun summary pair => core.summarizeDiscoverySchema summary pair.2)
        summary =
      { summary with
        SchemaCount :=
          core.increment^[(definitions.map fun pair => pair.2.nodes).sum] summary.SchemaCount
        SchemaPropertyCount :=
          core.increment^[(definitions.map fun pair => pair.2.entries).sum]
            summary.SchemaPropertyCount } := by
  induction definitions generalizing summary with
  | nil => rfl
  | cons pair rest ih =>
    rw [List.foldl_cons, ih, summarizeDiscoverySchema_eq]
    simp only [List.map_cons, List.sum_cons, iterate_iterate_add]

/-- The schemas of a list of definitions are their property entries and the
definitions themselves. -/
theorem discovery_sum_nodes (definitions : List (String × discovery.Schema)) :
    (definitions.map fun pair => pair.2.nodes).sum =
      (definitions.map fun pair => pair.2.entries).sum + definitions.length := by
  induction definitions with
  | nil => rfl
  | cons pair rest ih =>
    rw [List.map_cons, List.sum_cons, List.map_cons, List.sum_cons, List.length_cons, ih,
      discovery_nodes_eq]
    omega


/-- The loop over methods counts the methods and, for each of the four HTTP
methods, the methods that have it. -/
theorem summarizeMethods_eq (methods : List (String × discovery.Method))
    (summary : metrics.Complexity) :
    core.summarizeMethods summary methods =
      { summary with
        PathCount := core.increment^[methods.length] summary.PathCount
        GetCount := core.increment^[discovery.withMethod "GET" methods] summary.GetCount
        PostCount := core.increment^[discovery.withMethod "POST" methods] summary.PostCount
        PutCount := core.increment^[discovery.withMethod "PUT" methods] summary.PutCount
        DeleteCount :=
          core.increment^[discovery.withMethod "DELETE" methods] summary.DeleteCount } := by
  unfold core.summarizeMethods discovery.withMethod
  induction methods generalizing summary with
  | nil => rfl
  | cons pair rest ih =>
    rw [List.foldl_cons, ih]
    by_cases h1 : pair.2.HttpMethod = "GET"
    · simp [core.summarizeMethod, List.countP_cons, h1, Function.iterate_succ_apply]
    · by_cases h2 : pair.2.HttpMethod = "POST"
      · simp [core.summarizeMethod, List.countP_cons, h2, Function.iterate_succ_apply]
      · by_cases h3 : pair.2.HttpMethod = "PUT"
        · simp [core.summarizeMethod, List.countP_cons, h3, Function.iterate_succ_apply]
        · by_cases h4 : pair.2.HttpMethod = "DELETE"
          · simp [core.summarizeMethod, List.countP_cons, h4, Function.iterate_succ_apply]
          · simp [core.summarizeMethod, List.countP_cons, h1, h2, h3, h4,
              Function.iterate_succ_apply]

mutual

/-- The walk of a resource counts the methods in its tree. -/
theorem summarizeDiscoveryResource_eq :
    ∀ (resource : discovery.Resource) (summary : metrics.Complexity),
      core.summarizeDiscoveryResource summary resource =
        { summary with
          PathCount := core.increment^[resource.methods List.length] summary.PathCount
          GetCount :=
            core.increment^[resource.methods (discovery.withMethod "GET")] summary.GetCount
          PostCount :=
            core.increment^[resource.methods (discovery.withMethod "POST")] summary.PostCount
          PutCount :=
            core.increment^[resource.methods (discovery.withMethod "PUT")] summary.PutCount
          DeleteCount :=
            core.increment^[resource.methods (discovery.withMethod "DELETE")]
              summary.DeleteCount }
  | .mk none none, summary => by
    simp [core.summarizeDiscoveryResource, discovery.Resource.methods]
  | .mk none (some methods), summary => by
    simp [core.summarizeDiscoveryResource, discovery.Resource.methods, summarizeMethods_eq]
  | .mk (some resources) none, summary => by
    simp [core.summarizeDiscoveryResource, discovery.Resource.methods,
      summarizeDiscoveryResources_eq resources]
  | .mk (some resources) (some methods), summary => by
    simp [core.summarizeDiscoveryResource, discovery.Resource.methods,
      summarizeDiscoveryResources_eq resources, summarizeMethods_eq, iterate_iterate_add]

theorem summarizeDiscoveryResources_eq :
    ∀ (resources : List (String × discovery.Resource)) (summary : metrics.Complexity),
      core.summarizeDiscoveryResources summary resources =
        { summary with
          PathCount :=
            core.increment^[discovery.methodsOf List.length resources] summary.PathCount
          GetCount :=
            core.increment^[discovery.methodsOf (discovery.withMethod "GET") resources]
              summary.GetCount
          PostCount :=
            core.increment^[discovery.methodsOf (discovery.withMethod "POST") resources]
              summary.PostCount
          PutCount :=
            core.increment^[discovery.methodsOf (discovery.withMethod "PUT") resources]
              summary.PutCount
          DeleteCount :=
            core.increment^[discovery.methodsOf (discovery.withMethod "DELETE") resources]
              summary.DeleteCount }
  | [], summary => by
    simp [core.summarizeDiscoveryResources, discovery.methodsOf]
  | (_, value) :: rest, summary => by
    rw [core.summarizeDiscoveryResources, summarizeDiscoveryResource_eq value,
      summarizeDiscoveryResources_eq rest]
    simp [discovery.methodsOf, iterate_iterate_add]

end

/-- The loop over the resources of a document is the loop over the resources
of a resource. -/
theorem foldl_summarizeDiscoveryResource (resources : List (String × discovery.Resource))
    (summary : metrics.Complexity) :
    resources.foldl (fun summary pair => core.summarizeDiscoveryResource summary pair.2)
        summary =
      core.summarizeDiscoveryResources summary resources := by
  induction resources generalizing summary with
  | nil => simp [core.summarizeDiscoveryResources]
  | cons pair rest ih =>
    obtain ⟨name, value⟩ := pair
    rw [List.foldl_cons, ih, core.summarizeDiscoveryResources]

mutual

/-- A number of each list of methods that is at most another one sums, over
the tree of a resource, to at most the sum of the other one. -/
theorem discovery_methods_le (f g : List (String × discovery.Method) → Nat)
    (h : ∀ methods, f methods ≤ g methods) :
    ∀ resource : discovery.Resource, resource.methods f ≤ resource.methods g
  | .mk none none => by simp [discovery.Resource.methods]
  | .mk none (some methods) => by simpa [discovery.Resource.methods] using h methods
  | .mk (some resources) none => by
    simpa [discovery.Resource.methods] using discovery_methodsOf_le f g h resources
  | .mk (some resources) (some methods) => by
    have h1 := discovery_methodsOf_le f g h resources
    have h2 := h methods
    simp only [discovery.Resource.methods]
    omega

theorem discovery_methodsOf_le (f g : List (String × discovery.Method) → Nat)
    (h : ∀ methods, f methods ≤ g methods) :
    ∀ resources : List (String × discovery.Resource),
      discovery.methodsOf f resources ≤ discovery.methodsOf g resources
  | [] => by simp [discovery.methodsOf]
  | (_, value) :: rest => by
    have h1 := discovery_methods_le f g h value
    have h2 := discovery_methodsOf_le f g h rest
    simp only [discovery.methodsOf]
    omega

end

/-- The methods of a document with a given HTTP method are among its
methods. -/
theorem discovery_withMethod_le (httpMethod : String) (document : discovery.Document) :
    document.methods (discovery.withMethod httpMethod) ≤ document.methods List.length := by
  have h : ∀ methods, discovery.withMethod httpMethod methods ≤ methods.length :=
    fun methods => List.countP_le_length _
  have h1 := discovery_methodsOf_le _ _ h (document.Resources.getD [])
  have h2 := h (document.Methods.getD [])
  unfold discovery.Document.methods
  omega

/-- The summary of a Discovery document, counter by counter. -/
theorem SummarizeDiscoveryDocument_eq (document : discovery.Document) :
    core.SummarizeDiscoveryDocument document =
      { PathCount := core.increment^[document.methods List.length] 0
        GetCount := core.increment^[document.methods (discovery.withMethod "GET")] 0
        PostCount := core.increment^[document.methods (discovery.withMethod "POST")] 0
        PutCount := core.increment^[document.methods (discovery.withMethod "PUT")] 0
        DeleteCount := core.increment^[document.methods (discovery.withMethod "DELETE")] 0
        SchemaCount := core.increment^[document.schemaNodes] 0
        SchemaPropertyCount := core.increment^[document.propertyEntries] 0 } := by
  obtain ⟨schemas, resources, methods⟩ := document
  unfold core.SummarizeDiscoveryDocument discovery.Document.schemaNodes
    discovery.Document.propertyEntries discovery.Document.definitions discovery.Document.methods
  cases schemas <;> cases resources <;> cases methods <;>
    simp [foldl_summarizeDiscoverySchema, foldl_summarizeDiscoveryResource,
      summarizeDiscoveryResources_eq, summarizeMethods_eq, iterate_iterate_add,
      discovery.methodsOf, discovery.withMethod]

/-- Counters that were incremented from 0, fewer than `2 ^ 31` times, count
the schemas consistently. -/
theorem countsSchemas_of_iterate (summary : metrics.Complexity) (nodes entries definitions : Nat)
    (hcount : summary.SchemaCount = core.increment^[nodes] 0)
    (hentries : summary.SchemaPropertyCount = core.increment^[entries] 0)
    (hsum : nodes = entries + definitions) (hfits : nodes < 2 ^ 31) :
    summary.countsSchemas nodes entries definitions := by
  unfold metrics.Complexity.countsSchemas
  rw [hcount, hentries, iterate_increment nodes hfits, iterate_increment entries (by omega)]
  refine ⟨rfl, rfl, ?_⟩
  rw [hsum]
  push_cast
  rfl

/-- Counters that were incremented from 0, the one of the paths fewer than
`2 ^ 31` times and no other one more often, count the paths consistently. -/
theorem countsPaths_of_iterate (summary : metrics.Complexity) (paths get post put delete : Nat)
    (hpaths : summary.PathCount = core.increment^[paths] 0)
    (hget : summary.GetCount = core.increment^[get] 0)
    (hpost : summary.PostCount = core.increment^[post] 0)
    (hput : summary.PutCount = core.increment^[put] 0)
    (hdelete : summary.DeleteCount = core.increment^[delete] 0)
    (h1 : get ≤ paths) (h2 : post ≤ paths) (h3 : put ≤ paths) (h4 : delete ≤ paths)
    (hfits : paths < 2 ^ 31) :
    summary.countsPaths paths := by
  unfold metrics.Complexity.countsPaths
  rw [hpaths, hget, hpost, hput, hdelete, iterate_increment paths hfits,
    iterate_increment get (by omega), iterate_increment post (by omega),
    iterate_increment put (by omega), iterate_increment delete (by omega)]
  refine ⟨rfl, ?_, ?_, ?_, ?_⟩ <;> exact_mod_cast ‹_›

/-- C30: the summarizers are total functions of the document, and they count
consistently.  For an OpenAPI v2 document, an OpenAPI v3 document and a
Discovery document with fewer than `2 ^ 31` schemas, `SchemaCount` is the number
of the schemas reachable from the top-level definitions through properties,
`SchemaPropertyCount` is the number of property entries, and `SchemaCount` is
`SchemaPropertyCount` plus the number of top-level definitions.  With fewer than
`2 ^ 31` paths (methods, in a Discovery document), `PathCount` is their number
and each of `GetCount`, `PostCount`, `PutCount` and `DeleteCount` is at most
`PathCount`.  The bounds say that no `int32` counter overflows. -/
theorem summaries_count_consistently (v2 : openapi_v2.Document) (v3 : openapi_v3.Document)
    (d : discovery.Document) :
    ((v2.schemaNodes < 2 ^ 31 →
        (core.SummarizeOpenAPIv2Document v2).countsSchemas v2.schemaNodes v2.propertyEntries
          v2.definitions.length) ∧
      (v2.Paths.length < 2 ^ 31 →
        (core.SummarizeOpenAPIv2Document v2).countsPaths v2.Paths.length)) ∧
    ((v3.schemaNodes < 2 ^ 31 →
        (core.SummarizeOpenAPIv3Document v3).countsSchemas v3.schemaNodes v3.propertyEntries
          v3.definitions.length) ∧
      (v3.Paths.length < 2 ^ 31 →
        (core.SummarizeOpenAPIv3Document v3).countsPaths v3.Paths.length)) ∧
    ((d.schemaNodes < 2 ^ 31 →
        (core.SummarizeDiscoveryDocument d).countsSchemas d.schemaNodes d.propertyEntries
          d.definitions.length) ∧
      (d.methods List.length < 2 ^ 31 →
        (core.SummarizeDiscoveryDocument d).countsPaths (d.methods List.length))) := by
  have e2 := SummarizeOpenAPIv2Document_eq v2
  have e3 := SummarizeOpenAPIv3Document_eq v3
  have ed := SummarizeDiscoveryDocument_eq d
  refine ⟨⟨fun h => ?_, fun h => ?_⟩, ⟨fun h => ?_, fun h => ?_⟩, ⟨fun h => ?_, fun h => ?_⟩⟩
  · exact countsSchemas_of_iterate _ v2.schemaNodes v2.propertyEntries v2.definitions.length
      (by rw [e2]) (by rw [e2]) (openapi_v2_sum_nodes v2.definitions) h
  · exact countsPaths_of_iterate _ v2.Paths.length (v2.Paths.countP fun pair => pair.2.Get)
      (v2.Paths.countP fun pair => pair.2.Post) (v2.Paths.countP fun pair => pair.2.Put)
      (v2.Paths.countP fun pair => pair.2.Delete)
      (by rw [e2]) (by rw [e2]) (by rw [e2]) (by rw [e2]) (by rw [e2])
      (List.countP_le_length _) (List.countP_le_length _) (List.countP_le_length _)
      (List.countP_le_length _) h
  · exact countsSchemas_of_iterate _ v3.schemaNodes v3.propertyEntries v3.definitions.length
      (by rw [e3]) (by rw [e3]) (openapi_v3_sum_nodes v3.definitions) h
  · exact countsPaths_of_iterate _ v3.Paths.length (v3.Paths.countP fun pair => pair.2.Get)
      (v3.Paths.countP fun pair => pair.2.Post) (v3.Paths.countP fun pair => pair.2.Put)
      (v3.Paths.countP fun pair => pair.2.Delete)
      (by rw [e3]) (by rw [e3]) (by rw [e3]) (by rw [e3]) (by rw [e3])
      (List.countP_le_length _) (List.countP_le_length _) (List.countP_le_length _)
      (List.countP_le_length _) h
  · exact countsSchemas_of_iterate _ d.schemaNodes d.propertyEntries d.definitions.length
      (by rw [ed]) (by rw [ed]) (discovery_sum_nodes d.definitions) h
  · exact countsPaths_of_iterate _ (d.methods List.length)
      (d.methods (discovery.withMethod "GET")) (d.methods (discovery.withMethod "POST"))
      (d.methods (discovery.withMethod "PUT")) (d.methods (discovery.withMethod "DELETE"))
      (by rw [ed]) (by rw [ed]) (by rw [ed]) (by rw [ed]) (by rw [ed])
      (discovery_withMethod_le "GET" d) (discovery_withMethod_le "POST" d)
      (discovery_withMethod_le "PUT" d) (discovery_withMethod_le "DELETE" d) h

theorem summaries_count_consistently_witness :
    ((core.SummarizeOpenAPIv2Document petstoreV2).countsSchemas 5 3 2 ∧
      (core.SummarizeOpenAPIv2Document petstoreV2).countsPaths 2) ∧
    ((core.SummarizeOpenAPIv3Document petstoreV3).countsSchemas 4 2 2 ∧
      (core.SummarizeOpenAPIv3Document petstoreV3).countsPaths 1) ∧
    ((core.SummarizeDiscoveryDocument petstoreDiscovery).countsSchemas 4 2 2 ∧
      (core.SummarizeDiscoveryDocument petstoreDiscovery).countsPaths 4) :=
  ⟨⟨(summaries_count_consistently petstoreV2 petstoreV3 petstoreDiscovery).1.1 (by decide),
      (summaries_count_consistently petstoreV2 petstoreV3 petstoreDiscovery).1.2 (by decide)⟩,
    ⟨(summaries_count_consistently petstoreV2 petstoreV3 petstoreDiscovery).2.1.1 (by decide),
      (summaries_count_consistently petstoreV2 petstoreV3 petstoreDiscovery).2.1.2 (by decide)⟩,
    ⟨(summaries_count_consistently petstoreV2 petstoreV3 petstoreDiscovery).2.2.1 (by decide),
      (summaries_count_consistently petstoreV2 petstoreV3 petstoreDiscovery).2.2.2 (by decide)⟩⟩

/-! ## Listing page by page -/

/-- The page of a fetch holds the first `size` matches from the cursor on. -/
theorem scanPage_page {α : Type} (isMatch : α → Bool) (size : Nat) (records : List α)
    (offset : Nat) :
    (storage.scanPage isMatch size records offset).1 = (records.filter isMatch).take size := by
  induction records generalizing size offset with
  | nil => simp [storage.scanPage]
  | cons record rest ih =>
    by_cases h : isMatch record = true
    · cases size with
      | zero => simp [storage.scanPage, h]
      | succ size => simp [storage.scanPage, h, ih]
    · simp [storage.scanPage, h, ih]

/-- A fetch that returns no cursor has put every match from its cursor on on
the page. -/
theorem scanPage_none {α : Type} (isMatch : α → Bool) (size : Nat) (records : List α)
    (offset : Nat) (h : (storage.scanPage isMatch size records offset).2 = none) :
    (records.filter isMatch).length ≤ size := by
  induction records generalizing size offset with
  | nil => simp
  | cons record rest ih =>
    by_cases hm : isMatch record = true
    · cases size with
      | zero => simp [storage.scanPage, hm] at h
      | succ size =>
        simp only [storage.scanPage, hm, Bool.not_true, Bool.false_eq_true, if_false] at h
        have := ih size (offset + 1) h
        simp [hm]
        omega
    · simp only [storage.scanPage, hm, Bool.not_false, if_true] at h
      have := ih size (offset + 1) h
      simpa [hm] using this

/-- A fetch that returns a cursor has moved on by at least `size` records, and
the matches from the new cursor on are the matches that the page has no room
for. -/
theorem scanPage_some {α : Type} (isMatch : α → Bool) (size : Nat) (records : List α)
    (offset next : Nat) (h : (storage.scanPage isMatch size records offset).2 = some next) :
    ∃ k, next = offset + k ∧ size ≤ k ∧ k < records.length ∧
      (records.drop k).filter isMatch = (records.filter isMatch).drop size := by
  induction records generalizing size offset with
  | nil => simp [storage.scanPage] at h
  | cons record rest ih =>
    by_cases hm : isMatch record = true
    · cases size with
      | zero =>
        simp only [storage.scanPage, hm, Bool.not_true, Bool.false_eq_true, if_false,
          Option.some.injEq] at h
        exact ⟨0, by omega, le_refl 0, by simp, by simp⟩
      | succ size =>
        simp only [storage.scanPage, hm, Bool.not_true, Bool.false_eq_true, if_false] at h
        obtain ⟨k, hk, hle, hlt, hdrop⟩ := ih size (offset + 1) h
        refine ⟨k + 1, by omega, by omega, by simp; omega, ?_⟩
        simp [hm, hdrop]
    · simp only [storage.scanPage, hm, Bool.not_false, if_true] at h
      obtain ⟨k, hk, hle, hlt, hdrop⟩ := ih size (offset + 1) h
      refine ⟨k + 1, by omega, by omega, by simp; omega, ?_⟩
      simp [hm, hdrop]

/-- A token is decoded to the cursor it encodes, and it is not empty. -/
theorem decodeToken_encodeToken (offset : Nat) :
    storage.decodeToken (storage.encodeToken offset) = some offset ∧
      storage.encodeToken offset ≠ "" := by
  constructor
  · simp [storage.decodeToken, storage.encodeToken]
  · intro h
    have := congrArg String.data h
    simp [storage.encodeToken] at this

/-- The map from revision names to tags depends on the environment through
`DeploymentRevisionString` only. -/
theorem tagsByRevisionLoop_congr {Store Body Model : Type} (env env' : Env Store Body Model)
    (h : env.DeploymentRevisionString = env'.DeploymentRevisionString)
    (tags : List models.DeploymentRevisionTag) (revTags : List (String × List String)) :
    tagsByRevisionLoop env tags revTags = tagsByRevisionLoop env' tags revTags := by
  induction tags generalizing revTags with
  | nil => rfl
  | cons tag rest ih => simp only [tagsByRevisionLoop, h, ih]

/-- The messages of a listing of the registry in memory. -/
theorem listMessages_envPaged (compile : String → Except String (memory.Deployment → Bool))
    (tagsByRev : List (String × List String)) (deployments : List memory.Deployment) :
    listMessages (memory.envPaged compile) tagsByRev deployments =
      Except.ok (deployments.map fun d =>
        { Name := memory.DeploymentString d.name
          Description := d.Description
          RevisionId := d.RevisionID
          RevisionTags :=
            mapIndex tagsByRev (memory.DeploymentRevisionString (d.name.Revision d.RevisionID)) }) := by
  induction deployments with
  | nil => rfl
  | cons d rest ih =>
    rw [listMessages, ih]
    rfl

/-- One call of `ListApiDeployments` on the registry in memory with the
paginated listing: the page of the fetch from the cursor of the token, and the
token of the cursor that the fetch returns. -/
theorem ListApiDeployments_envPaged (compile : String → Except String (memory.Deployment → Bool))
    (store : memory.Store) (parent filter pageToken : String) (api : names.Api)
    (isMatch : memory.Deployment → Bool) (offset : Nat)
    (havailable : store.available = true)
    (hparent : memory.ParseApi parent = Except.ok api)
    (hexists : memory.parentExists store api = true)
    (hfilter : compile filter = Except.ok isMatch)
    (htoken : storage.decodeToken pageToken = some offset) :
    (ListApiDeployments (memory.envPaged compile) (World.start store)
        { Parent := parent, PageSize := 1, PageToken := pageToken, Filter := filter }).1 =
      Except.ok
        { ApiDeployments :=
            (storage.scanPage isMatch 1 ((memory.collection store api).drop offset) offset).1.map
              (memory.listed store api)
          NextPageToken :=
            match (storage.scanPage isMatch 1 ((memory.collection store api).drop offset)
              offset).2 with
            | none => ""
            | some next => storage.encodeToken next } := by
  have hclient : (memory.envPaged compile).getStorageClient store = Except.ok () := by
    simp [memory.envPaged, memory.env, havailable]
  have hparse : (memory.envPaged compile).ParseApi parent = Except.ok api := hparent
  have hlist : (memory.envPaged compile).ListDeployments store api
      { Size := 1, Filter := filter, Token := pageToken } =
      Except.ok
        { Deployments :=
            (storage.scanPage isMatch 1 ((memory.collection store api).drop offset) offset).1
          Token :=
            match (storage.scanPage isMatch 1 ((memory.collection store api).drop offset)
              offset).2 with
            | none => ""
            | some next => storage.encodeToken next } := by
    simp [memory.envPaged, storage.listPage, hfilter, htoken, hexists]
  have htags : (memory.envPaged compile).GetDeploymentTags store (api.Deployment "-") =
      Except.ok (store.tags.filter fun t =>
        memory.inScope api.ProjectID t.ProjectID && memory.inScope api.ApiID t.ApiID
          && memory.inScope "-" t.DeploymentID) := rfl
  have hloop : ∀ tags, deploymentTagsByRevision (memory.envPaged compile) tags =
      deploymentTagsByRevision memory.env tags := fun tags =>
    tagsByRevisionLoop_congr (memory.envPaged compile) memory.env rfl tags []
  have hsize : ¬ ((1 : Int) < 0) ∧ ¬ ((1 : Int) > 1000) ∧ ¬ ((1 : Int) = 0) := by decide
  unfold ListApiDeployments
  rw [withStorageClient_ok _ _ _ hclient]
  simp only [World.emit_store, World.start_store, hparse, hsize, if_false]
  rw [hlist]
  simp only [World.emit_store, World.start_store, htags, hloop, listMessages_envPaged]
  rfl

/-- The client, started at a cursor of the collection with more calls than
there are records from the cursor on, returns the matches from the cursor
on. -/
theorem listToTheEnd_envPaged (compile : String → Except String (memory.Deployment → Bool))
    (store : memory.Store) (parent filter : String) (api : names.Api)
    (isMatch : memory.Deployment → Bool)
    (havailable : store.available = true)
    (hparent : memory.ParseApi parent = Except.ok api)
    (hexists : memory.parentExists store api = true)
    (hfilter : compile filter = Except.ok isMatch) :
    ∀ (fuel offset : Nat) (pageToken : String),
      storage.decodeToken pageToken = some offset →
      (memory.collection store api).length - offset < fuel →
      listToTheEnd (memory.envPaged compile) store parent filter 1 fuel pageToken =
        some ((((memory.collection store api).drop offset).filter isMatch).map
          (memory.listed store api)) := by
  intro fuel
  induction fuel with
  | zero =>
    intro offset pageToken _ hfuel
    exfalso
    omega
  | succ fuel ih =>
    intro offset pageToken htoken hfuel
    have hcall := ListApiDeployments_envPaged compile store parent filter pageToken api isMatch
      offset havailable hparent hexists hfilter htoken
    rw [listToTheEnd, hcall]
    simp only []
    have hpage := scanPage_page isMatch 1 ((memory.collection store api).drop offset) offset
    cases hnext : (storage.scanPage isMatch 1 ((memory.collection store api).drop offset)
        offset).2 with
    | none =>
      have hall := scanPage_none isMatch 1 _ offset hnext
      simp only [if_true]
      rw [hpage, List.take_of_length_le hall]
    | some next =>
      obtain ⟨k, hk, hle, hlt, hrest⟩ := scanPage_some isMatch 1 _ offset next hnext
      have hne := (decodeToken_encodeToken next).2
      simp only [hne, if_false]
      rw [List.length_drop] at hlt
      rw [ih next (storage.encodeToken next) (decodeToken_encodeToken next).1 (by omega), hpage]
      have hdrop : (memory.collection store api).drop next =
          ((memory.collection store api).drop offset).drop k := by
        rw [List.drop_drop, hk, Nat.add_comm]
      rw [hdrop, hrest, Option.map_some', ← List.map_append, List.take_append_drop]

/-- A revision that is kept is one of the revisions, and no revision seen
before is of its deployment. -/
theorem currentRevisions_mem (seen l : List memory.Deployment) (d : memory.Deployment)
    (h : d ∈ memory.currentRevisions seen l) :
    d ∈ l ∧ ∀ s ∈ seen, memory.sameResource s d = false := by
  induction l generalizing seen with
  | nil => simp [memory.currentRevisions] at h
  | cons e rest ih =>
    rw [memory.currentRevisions] at h
    by_cases hseen : (seen.any fun s => memory.sameResource s e) = true
    · rw [if_pos hseen] at h
      obtain ⟨hmem, hnot⟩ := ih seen h
      exact ⟨List.mem_cons_of_mem _ hmem, hnot⟩
    · rw [if_neg hseen] at h
      rcases List.mem_cons.mp h with rfl | h
      · refine ⟨List.mem_cons_self _ _, fun s hs => ?_⟩
        have := hseen
        simp only [List.any_eq_true, not_exists, not_and, Bool.not_eq_true] at this
        exact this s hs
      · obtain ⟨hmem, hnot⟩ := ih (e :: seen) h
        exact ⟨List.mem_cons_of_mem _ hmem, fun s hs => hnot s (List.mem_cons_of_mem _ hs)⟩

/-- No two of the revisions that are kept are of the same deployment. -/
theorem currentRevisions_pairwise (seen l : List memory.Deployment) :
    (memory.currentRevisions seen l).Pairwise fun a b => memory.sameResource a b = false := by
  induction l generalizing seen with
  | nil => simp [memory.currentRevisions]
  | cons e rest ih =>
    rw [memory.currentRevisions]
    by_cases hseen : (seen.any fun s => memory.sameResource s e) = true
    · rw [if_pos hseen]
      exact ih seen
    · rw [if_neg hseen]
      refine List.Pairwise.cons (fun d hd => ?_) (ih (e :: seen))
      exact (currentRevisions_mem (e :: seen) rest d hd).2 e (List.mem_cons_self _ _)

theorem sameResource_refl (d : memory.Deployment) : memory.sameResource d d = true := by
  simp [memory.sameResource]

/-- Every revision has a revision of its deployment among those seen before
or among those kept. -/
theorem currentRevisions_covers (seen l : List memory.Deployment) (e : memory.Deployment)
    (h : e ∈ l) :
    (∃ s ∈ seen, memory.sameResource s e = true) ∨
      ∃ d ∈ memory.currentRevisions seen l, memory.sameResource d e = true := by
  induction l generalizing seen with
  | nil => simp at h
  | cons x rest ih =>
    rw [memory.currentRevisions]
    by_cases hseen : (seen.any fun s => memory.sameResource s x) = true
    · rw [if_pos hseen]
      rcases List.mem_cons.mp h with rfl | h
      · left
        simpa [List.any_eq_true] using hseen
      · exact ih seen h
    · rw [if_neg hseen]
      rcases List.mem_cons.mp h with rfl | h
      · right
        exact ⟨e, List.mem_cons_self _ _, sameResource_refl e⟩
      · rcases ih (x :: seen) h with ⟨s, hs, hsame⟩ | ⟨d, hd, hsame⟩
        · rcases List.mem_cons.mp hs with rfl | hs
          · right
            exact ⟨s, List.mem_cons_self _ _, hsame⟩
          · left
            exact ⟨s, hs, hsame⟩
        · right
          exact ⟨d, List.mem_cons_of_mem _ hd, hsame⟩

theorem sameResource_trans (a b c : memory.Deployment) (hab : memory.sameResource a b = true)
    (hbc : memory.sameResource b c = true) : memory.sameResource a c = true := by
  simp only [memory.sameResource, Bool.and_eq_true, decide_eq_true_eq] at *
  exact ⟨⟨hab.1.1.trans hbc.1.1, hab.1.2.trans hbc.1.2⟩, hab.2.trans hbc.2⟩

/-- A revision that is kept is the current one of its deployment: no revision
of the same deployment stands before it. -/
theorem currentRevisions_first (seen l : List memory.Deployment) (d : memory.Deployment)
    (h : d ∈ memory.currentRevisions seen l) :
    ∃ pre post, l = pre ++ d :: post ∧ ∀ e ∈ pre, memory.sameResource e d = false := by
  induction l generalizing seen with
  | nil => simp [memory.currentRevisions] at h
  | cons x rest ih =>
    rw [memory.currentRevisions] at h
    by_cases hseen : (seen.any fun s => memory.sameResource s x) = true
    · rw [if_pos hseen] at h
      obtain ⟨pre, post, hl, hpre⟩ := ih seen h
      refine ⟨x :: pre, post, by rw [hl]; rfl, fun e he => ?_⟩
      rcases List.mem_cons.mp he with rfl | he
      · obtain ⟨s, hs, hsx⟩ := List.any_eq_true.mp hseen
        have hsd := (currentRevisions_mem seen rest d h).2 s hs
        cases hxd : memory.sameResource e d with
        | false => rfl
        | true => rw [sameResource_trans s e d hsx hxd] at hsd; exact absurd hsd (by simp)
      · exact hpre e he
    · rw [if_neg hseen] at h
      rcases List.mem_cons.mp h with rfl | h
      · exact ⟨[], rest, rfl, by simp⟩
      · obtain ⟨pre, post, hl, hpre⟩ := ih (x :: seen) h
        refine ⟨x :: pre, post, by rw [hl]; rfl, fun e he => ?_⟩
        rcases List.mem_cons.mp he with rfl | he
        · exact (currentRevisions_mem (e :: seen) rest d h).2 e (List.mem_cons_self _ _)
        · exact hpre e he

/-- The collection of a parent: its members are stored revisions in the scope
of the parent, each the first and so the current one of its deployment; no two
of them are of the same deployment; and every stored revision in the scope of
the parent has its deployment in the collection. -/
theorem collection_one_per_deployment (store : memory.Store) (parent : names.Api) :
    (∀ d ∈ memory.collection store parent,
      d ∈ store.deployments ∧ memory.sameDeployment (parent.Deployment "-") d = true ∧
        ∃ pre post,
          store.deployments.filter (memory.sameDeployment (parent.Deployment "-")) =
            pre ++ d :: post ∧
          ∀ e ∈ pre, memory.sameResource e d = false) ∧
    (memory.collection store parent).Pairwise (fun a b => memory.sameResource a b = false) ∧
    (∀ e ∈ store.deployments, memory.sameDeployment (parent.Deployment "-") e = true →
      ∃ d ∈ memory.collection store parent, memory.sameResource d e = true) := by
  refine ⟨?_, currentRevisions_pairwise _ _, ?_⟩
  · intro d hd
    have := List.mem_filter.mp (currentRevisions_mem _ _ d hd).1
    exact ⟨this.1, this.2, currentRevisions_first [] _ d hd⟩
  · intro e he hscope
    rcases currentRevisions_covers [] _ e (List.mem_filter.mpr ⟨he, hscope⟩) with
      ⟨s, hs, _⟩ | h
    · simp at hs
    · exact h

/-- C21: on the registry in memory with the paginated listing of the
specification, for every store that can be reached, every parent that exists
and every filter that compiles, a client that calls `ListApiDeployments` with
`page_size = 1` and goes on with each returned `next_page_token` until the
token is empty comes to an end within one call more than there are deployments
under the parent, and it has then received the messages of exactly the
deployments that the filter matches, each with its current revision, in the
order of the store.  Each is received once: no two of the deployments received
are the same deployment, the collection under the parent holds the current
revision of every stored deployment and no other revision.  A response with an
empty `next_page_token` holds every match from its cursor on; hence no response
has zero items and an empty token while a match is still to be listed. -/
theorem ListApiDeployments_lists_every_match
    (compile : String → Except String (memory.Deployment → Bool))
    (store : memory.Store) (parent filter : String) (api : names.Api)
    (isMatch : memory.Deployment → Bool)
    (havailable : store.available = true)
    (hparent : memory.ParseApi parent = Except.ok api)
    (hexists : memory.parentExists store api = true)
    (hfilter : compile filter = Except.ok isMatch) :
    (∀ fuel, (memory.collection store api).length < fuel →
      listToTheEnd (memory.envPaged compile) store parent filter 1 fuel "" =
        some (((memory.collection store api).filter isMatch).map (memory.listed store api))) ∧
    ((memory.collection store api).filter isMatch).Pairwise
      (fun a b => memory.sameResource a b = false) ∧
    (∀ d ∈ memory.collection store api,
      d ∈ store.deployments ∧ memory.sameDeployment (api.Deployment "-") d = true ∧
        ∃ pre post,
          store.deployments.filter (memory.sameDeployment (api.Deployment "-")) =
            pre ++ d :: post ∧
          ∀ e ∈ pre, memory.sameResource e d = false) ∧
    (∀ e ∈ store.deployments, memory.sameDeployment (api.Deployment "-") e = true →
      ∃ d ∈ memory.collection store api, memory.sameResource d e = true) ∧
    (∀ pageToken offset response, storage.decodeToken pageToken = some offset →
      (ListApiDeployments (memory.envPaged compile) (World.start store)
        { Parent := parent, PageSize := 1, PageToken := pageToken, Filter := filter }).1 =
          Except.ok response →
      response.NextPageToken = "" →
      response.ApiDeployments =
          (((memory.collection store api).drop offset).filter isMatch).map
            (memory.listed store api) ∧
        (response.ApiDeployments = [] →
          ∀ d ∈ (memory.collection store api).drop offset, isMatch d = false)) := by
  refine ⟨?_, ?_, (collection_one_per_deployment store api).1,
    (collection_one_per_deployment store api).2.2, ?_⟩
  · intro fuel hfuel
    have := listToTheEnd_envPaged compile store parent filter api isMatch havailable hparent
      hexists hfilter fuel 0 "" rfl (by omega)
    simpa using this
  · exact ((collection_one_per_deployment store api).2.1).sublist (List.filter_sublist _)
  · intro pageToken offset response htoken hcall hfinal
    rw [ListApiDeployments_envPaged compile store parent filter pageToken api isMatch offset
      havailable hparent hexists hfilter htoken] at hcall
    injection hcall with hcall
    subst hcall
    simp only at hfinal ⊢
    have hpage := scanPage_page isMatch 1 ((memory.collection store api).drop offset) offset
    cases hnext : (storage.scanPage isMatch 1 ((memory.collection store api).drop offset)
        offset).2 with
    | some next =>
      rw [hnext] at hfinal
      exact absurd hfinal (decodeToken_encodeToken next).2
    | none =>
      have hall := scanPage_none isMatch 1 _ offset hnext
      rw [hpage, List.take_of_length_le hall]
      refine ⟨rfl, ?_⟩
      intro hempty d hd
      have hnil : ((memory.collection store api).drop offset).filter isMatch = [] :=
        List.map_eq_nil_iff.mp hempty
      by_contra hmatch
      have : d ∈ ((memory.collection store api).drop offset).filter isMatch :=
        List.mem_filter.mpr ⟨hd, by simpa using hmatch⟩
      rw [hnil] at this
      simp at this

theorem ListApiDeployments_lists_every_match_witness :
    (∀ fuel, (memory.collection memory.five ⟨"my-project", "a"⟩).length < fuel →
      listToTheEnd (memory.envPaged memory.byDescription) memory.five memory.apiA "match" 1
          fuel "" =
        some (((memory.collection memory.five ⟨"my-project", "a"⟩).filter
          fun d => "match" = "" || d.Description = "match").map
            (memory.listed memory.five ⟨"my-project", "a"⟩))) ∧
    listToTheEnd (memory.envPaged memory.byDescription) memory.five memory.apiA "match" 1 6 "" =
      some [memory.listed memory.five ⟨"my-project", "a"⟩
          { memory.seed with DeploymentID := "d2", Description := "match" },
        memory.listed memory.five ⟨"my-project", "a"⟩
          { memory.seed with DeploymentID := "d4", Description := "match" }] ∧
    (ListApiDeployments (memory.envPaged memory.byDescription) (World.start memory.five)
        { Parent := "projects/my-project/locations/global/apis/b", PageSize := 1,
          PageToken := "", Filter := "match" }).1 =
      Except.error (memory.notFound "projects/my-project/locations/global/apis/b") :=
  ⟨(ListApiDeployments_lists_every_match memory.byDescription memory.five memory.apiA "match"
      ⟨"my-project", "a"⟩ (fun d => "match" = "" || d.Description = "match")
      rfl (by decide) (by decide) rfl).1,
    by decide, by decide⟩

/-! ## The shapes of resource names exclude one another -/

/-- What the pattern `identifier` decides. -/
theorem isIdentifier_iff (s : String) :
    memory.isIdentifier s = true ↔
      s.data ≠ [] ∧ ∀ c ∈ s.data, regexp.inClass
        [('A', 'Z'), ('a', 'z'), ('0', '9'), ('-', '-'), ('.', '.')] c = true := by
  have h : memory.isIdentifier s =
      regexp.matchPlus [('A', 'Z'), ('a', 'z'), ('0', '9'), ('-', '-'), ('.', '.')]
        (regexp.matchHere [regexp.Op.endText] false) s.data := by
    unfold memory.isIdentifier
    cases hd : s.data with
    | nil => simp [regexp.search, regexp.matchHere]
    | cons c cs => simp [regexp.search, regexp.matchHere, search_beginText_false]
  rw [h, matchPlus_endText]

/-- An identifier holds no `@`. -/
theorem isIdentifier_no_at (s : String) (h : memory.isIdentifier s = true) : '@' ∉ s.data := by
  intro hmem
  have hc := ((isIdentifier_iff s).mp h).2 '@' hmem
  exact absurd hc (by decide)

/-- A text without the separator is one piece. -/
theorem splitOn_not_mem (sep : Char) (l : List Char) (h : sep ∉ l) :
    memory.splitOn sep l = [l] := by
  induction l with
  | nil => rfl
  | cons c cs ih =>
    have hc : c ≠ sep := fun e => h (e ▸ List.mem_cons_self _ _)
    have hcs : sep ∉ cs := fun e => h (List.mem_cons_of_mem _ e)
    rw [memory.splitOn, ih hcs]
    simp [hc]

/-- The name of a deployment is not the name of a revision of a deployment. -/
theorem ParseDeployment_excludes_revision (name : String) (d : names.Deployment)
    (h : memory.ParseDeployment name = Except.ok d) :
    memory.ParseDeploymentRevision name = Except.error "invalid deployment revision name" := by
  unfold memory.ParseDeployment at h
  split at h
  · rename_i p a dep heq
    split at h
    · rename_i hid
      simp only [Bool.and_eq_true] at hid
      unfold memory.ParseDeploymentRevision
      rw [heq]
      simp only
      rw [splitOn_not_mem '@' dep.data (isIdentifier_no_at dep hid.2)]
      rfl
    · exact absurd h (by simp)
  · exact absurd h (by simp)

/-- Where the bare name and the revision-qualified name exclude one another,
the order in which `GetApiDeployment` tries them is not observable: the handler
does what the dispatch with the revision-qualified name first does. -/
theorem GetApiDeployment_order {Store Body Model : Type} (env : Env Store Body Model)
    (w : World Store Model) (req : rpc.GetApiDeploymentRequest)
    (hdisjoint : ∀ d, env.ParseDeployment req.Name = Except.ok d →
      ∃ e, env.ParseDeploymentRevision req.Name = Except.error e) :
    GetApiDeployment env w req = GetApiDeployment_mostSpecificFirst env w req := by
  unfold GetApiDeployment GetApiDeployment_mostSpecificFirst
  cases hd : env.ParseDeployment req.Name with
  | ok d =>
    obtain ⟨e, he⟩ := hdisjoint d hd
    rw [he]
  | error e1 =>
    cases hr : env.ParseDeploymentRevision req.Name with
    | ok r => rfl
    | error e2 => rfl

/-- A name that has a shape has as many segments as the shape. -/
theorem matchSegments_length (shape : List (Option String)) (l ids : List String)
    (h : memory.matchSegments shape l = some ids) : l.length = shape.length := by
  induction shape generalizing l ids with
  | nil =>
    cases l with
    | nil => rfl
    | cons s rest => simp [memory.matchSegments] at h
  | cons k shape ih =>
    cases l with
    | nil => cases k <;> simp [memory.matchSegments] at h
    | cons s rest =>
      cases k with
      | none =>
        rw [memory.matchSegments] at h
        split at h
        · cases hm : memory.matchSegments shape rest with
          | none => rw [hm] at h; simp at h
          | some ids2 => simp [ih rest ids2 hm]
        · exact absurd h (by simp)
      | some keyword =>
        rw [memory.matchSegments] at h
        split at h
        · simp [ih rest ids h]
        · exact absurd h (by simp)

/-- A name that has a shape has the keywords of the shape at their places. -/
theorem matchSegments_keyword (shape : List (Option String)) (l ids : List String)
    (h : memory.matchSegments shape l = some ids) (i : Nat) (keyword : String)
    (hk : shape.get? i = some (some keyword)) : l.get? i = some keyword := by
  induction shape generalizing l ids i with
  | nil => simp at hk
  | cons k shape ih =>
    cases l with
    | nil => cases k <;> simp [memory.matchSegments] at h
    | cons s rest =>
      cases k with
      | none =>
        rw [memory.matchSegments] at h
        split at h
        · cases hm : memory.matchSegments shape rest with
          | none => rw [hm] at h; simp at h
          | some ids2 =>
            cases i with
            | zero => simp at hk
            | succ j =>
              rw [List.get?_cons_succ] at hk ⊢
              exact ih rest ids2 hm j hk
        · exact absurd h (by simp)
      | some kw =>
        rw [memory.matchSegments] at h
        split at h
        · rename_i hs
          cases i with
          | zero =>
            simp only [List.get?_cons_zero, Option.some.injEq] at hk ⊢
            rw [hs, hk]
          | succ j =>
            rw [List.get?_cons_succ] at hk ⊢
            exact ih rest ids h j hk
        · exact absurd h (by simp)

/-- Two shapes of different lengths are shapes of no common name. -/
theorem shapes_disjoint_length (t1 t2 : List (Option String)) (l ids1 ids2 : List String)
    (hlen : t1.length ≠ t2.length) (h1 : memory.matchSegments t1 l = some ids1)
    (h2 : memory.matchSegments t2 l = some ids2) : False :=
  hlen ((matchSegments_length t1 l ids1 h1).symm.trans (matchSegments_length t2 l ids2 h2))

/-- Two shapes with different keywords at one place are shapes of no common
name. -/
theorem shapes_disjoint_keyword (t1 t2 : List (Option String)) (l ids1 ids2 : List String)
    (i : Nat) (k1 k2 : String) (hk1 : t1.get? i = some (some k1))
    (hk2 : t2.get? i = some (some k2)) (hne : k1 ≠ k2)
    (h1 : memory.matchSegments t1 l = some ids1)
    (h2 : memory.matchSegments t2 l = some ids2) : False := by
  have e1 := matchSegments_keyword t1 l ids1 h1 i k1 hk1
  have e2 := matchSegments_keyword t2 l ids2 h2 i k2 hk2
  rw [e1, Option.some.injEq] at e2
  exact hne e2

/-- The name of an API has the shape of an API. -/
theorem ParseApi_shape (name : String) (api : names.Api)
    (h : memory.ParseApi name = Except.ok api) :
    ∃ ids, memory.matchSegments memory.apiShape (memory.segments name) = some ids := by
  unfold memory.ParseApi at h
  split at h
  · rename_i p a heq
    split at h
    · rename_i hid
      simp only [Bool.and_eq_true] at hid
      rw [heq]
      exact ⟨[p, a], by simp [memory.matchSegments, memory.apiShape, hid.1, hid.2]⟩
    · exact absurd h (by simp)
  · exact absurd h (by simp)

/-- The name of a version has the shape of a version. -/
theorem ParseVersion_shape (name : String) (version : names.Version)
    (h : memory.ParseVersion name = Except.ok version) :
    ∃ ids, memory.matchSegments memory.versionShape (memory.segments name) = some ids := by
  unfold memory.ParseVersion at h
  split at h
  · rename_i p a v heq
    exact ⟨_, heq⟩
  · exact absurd h (by simp)

/-- The name of a spec has the shape of a spec. -/
theorem ParseSpec_shape (name : String) (spec : names.Spec)
    (h : memory.ParseSpec name = Except.ok spec) :
    ∃ ids, memory.matchSegments memory.specShape (memory.segments name) = some ids := by
  unfold memory.ParseSpec at h
  split at h
  · rename_i p a v s heq
    exact ⟨_, heq⟩
  · exact absurd h (by simp)

/-- The name of an artifact has one of the four shapes of an artifact. -/
theorem ParseArtifact_shape (name : String) (artifact : names.Artifact)
    (h : memory.ParseArtifact name = Except.ok artifact) :
    ∃ parent ∈ [memory.projectShape, memory.apiShape, memory.versionShape, memory.specShape],
      ∃ ids, memory.matchSegments (parent ++ [some "artifacts", none]) (memory.segments name)
        = some ids := by
  unfold memory.ParseArtifact at h
  split at h
  · rename_i heq
    exact ⟨memory.projectShape, by simp, _, heq⟩
  · split at h
    · rename_i heq
      exact ⟨memory.apiShape, by simp, _, heq⟩
    · split at h
      · rename_i heq
        exact ⟨memory.versionShape, by simp, _, heq⟩
      · split at h
        · rename_i heq
          exact ⟨memory.specShape, by simp, _, heq⟩
        · exact absurd h (by simp)

/-- No name is the name of an API and of a version. -/
theorem ParseApi_excludes_version (name : String) (api : names.Api) (version : names.Version)
    (h1 : memory.ParseApi name = Except.ok api)
    (h2 : memory.ParseVersion name = Except.ok version) : False := by
  obtain ⟨ids1, e1⟩ := ParseApi_shape name api h1
  obtain ⟨ids2, e2⟩ := ParseVersion_shape name version h2
  exact shapes_disjoint_length _ _ _ _ _ (by decide) e1 e2

/-- No name is the name of an API and of a spec. -/
theorem ParseApi_excludes_spec (name : String) (api : names.Api) (spec : names.Spec)
    (h1 : memory.ParseApi name = Except.ok api)
    (h2 : memory.ParseSpec name = Except.ok spec) : False := by
  obtain ⟨ids1, e1⟩ := ParseApi_shape name api h1
  obtain ⟨ids2, e2⟩ := ParseSpec_shape name spec h2
  exact shapes_disjoint_length _ _ _ _ _ (by decide) e1 e2

/-- No name is the name of a version and of a spec. -/
theorem ParseVersion_excludes_spec (name : String) (version : names.Version)
    (spec : names.Spec) (h1 : memory.ParseVersion name = Except.ok version)
    (h2 : memory.ParseSpec name = Except.ok spec) : False := by
  obtain ⟨ids1, e1⟩ := ParseVersion_shape name version h1
  obtain ⟨ids2, e2⟩ := ParseSpec_shape name spec h2
  exact shapes_disjoint_length _ _ _ _ _ (by decide) e1 e2

/-- No name is the name of an artifact and of an API: a name of six segments
that is an artifact has `artifacts` where the API has `apis`. -/
theorem ParseArtifact_excludes_api (name : String) (artifact : names.Artifact)
    (api : names.Api) (h1 : memory.ParseArtifact name = Except.ok artifact)
    (h2 : memory.ParseApi name = Except.ok api) : False := by
  obtain ⟨parent, hp, ids1, e1⟩ := ParseArtifact_shape name artifact h1
  obtain ⟨ids2, e2⟩ := ParseApi_shape name api h2
  simp only [List.mem_cons, List.mem_singleton, List.not_mem_nil, or_false] at hp
  rcases hp with rfl | rfl | rfl | rfl
  · exact shapes_disjoint_keyword _ _ _ _ _ 4 "artifacts" "apis" (by decide) (by decide)
      (by decide) e1 e2
  · exact shapes_disjoint_length _ _ _ _ _ (by decide) e1 e2
  · exact shapes_disjoint_length _ _ _ _ _ (by decide) e1 e2
  · exact shapes_disjoint_length _ _ _ _ _ (by decide) e1 e2

/-- No name is the name of an artifact and of a version. -/
theorem ParseArtifact_excludes_version (name : String) (artifact : names.Artifact)
    (version : names.Version) (h1 : memory.ParseArtifact name = Except.ok artifact)
    (h2 : memory.ParseVersion name = Except.ok version) : False := by
  obtain ⟨parent, hp, ids1, e1⟩ := ParseArtifact_shape name artifact h1
  obtain ⟨ids2, e2⟩ := ParseVersion_shape name version h2
  simp only [List.mem_cons, List.mem_singleton, List.not_mem_nil, or_false] at hp
  rcases hp with rfl | rfl | rfl | rfl
  · exact shapes_disjoint_length _ _ _ _ _ (by decide) e1 e2
  · exact shapes_disjoint_keyword _ _ _ _ _ 6 "artifacts" "versions" (by decide) (by decide)
      (by decide) e1 e2
  · exact shapes_disjoint_length _ _ _ _ _ (by decide) e1 e2
  · exact shapes_disjoint_length _ _ _ _ _ (by decide) e1 e2

/-- No name is the name of an artifact and of a spec. -/
theorem ParseArtifact_excludes_spec (name : String) (artifact : names.Artifact)
    (spec : names.Spec) (h1 : memory.ParseArtifact name = Except.ok artifact)
    (h2 : memory.ParseSpec name = Except.ok spec) : False := by
  obtain ⟨parent, hp, ids1, e1⟩ := ParseArtifact_shape name artifact h1
  obtain ⟨ids2, e2⟩ := ParseSpec_shape name spec h2
  simp only [List.mem_cons, List.mem_singleton, List.not_mem_nil, or_false] at hp
  rcases hp with rfl | rfl | rfl | rfl
  · exact shapes_disjoint_length _ _ _ _ _ (by decide) e1 e2
  · exact shapes_disjoint_length _ _ _ _ _ (by decide) e1 e2
  · exact shapes_disjoint_keyword _ _ _ _ _ 8 "artifacts" "specs" (by decide) (by decide)
      (by decide) e1 e2
  · exact shapes_disjoint_length _ _ _ _ _ (by decide) e1 e2

/-- Where no name has two of the four shapes, the order in which
`matchAndHandleDeleteCmd` tries them is not observable: the command does what
the dispatch with the most specific shape first does. -/
theorem matchAndHandleDeleteCmd_order {Version Spec Artifact : Type}
    (env : delete.Env Version Spec Artifact) (name filter : String)
    (hav : ∀ a v, env.ParseApi name = Except.ok a → env.ParseVersion name = Except.ok v → False)
    (has : ∀ a s, env.ParseApi name = Except.ok a → env.ParseSpec name = Except.ok s → False)
    (hvs : ∀ v s, env.ParseVersion name = Except.ok v → env.ParseSpec name = Except.ok s → False)
    (hxa : ∀ x a, env.ParseArtifact name = Except.ok x → env.ParseApi name = Except.ok a → False)
    (hxv : ∀ x v, env.ParseArtifact name = Except.ok x → env.ParseVersion name = Except.ok v →
      False)
    (hxs : ∀ x s, env.ParseArtifact name = Except.ok x → env.ParseSpec name = Except.ok s →
      False) :
    delete.matchAndHandleDeleteCmd env name filter =
      delete.matchAndHandleDeleteCmd_mostSpecificFirst env name filter := by
  unfold delete.matchAndHandleDeleteCmd delete.matchAndHandleDeleteCmd_mostSpecificFirst
  cases ha : env.ParseApi name with
  | ok a =>
    cases hx : env.ParseArtifact name with
    | ok x => exact (hxa x a hx ha).elim
    | error e1 =>
      cases hs : env.ParseSpec name with
      | ok s => exact (has a s ha hs).elim
      | error e2 =>
        cases hv : env.ParseVersion name with
        | ok v => exact (hav a v ha hv).elim
        | error e3 => rfl
  | error e0 =>
    cases hv : env.ParseVersion name with
    | ok v =>
      cases hx : env.ParseArtifact name with
      | ok x => exact (hxv x v hx hv).elim
      | error e1 =>
        cases hs : env.ParseSpec name with
        | ok s => exact (hvs v s hv hs).elim
        | error e2 => rfl
    | error e1 =>
      cases hs : env.ParseSpec name with
      | ok s =>
        cases hx : env.ParseArtifact name with
        | ok x => exact (hxs x s hx hs).elim
        | error e2 => rfl
      | error e2 =>
        cases hx : env.ParseArtifact name with
        | ok x => rfl
        | error e3 => rfl

/-! ## A name is handled as its most specific shape -/

/-- C23: A name is handled as the most specific shape that it has.  With the
parsers of names that parse a name whole against one shape and fail closed,
`GetApiDeployment` does on every request what the dispatch that tries the
revision-qualified name before the bare name does, and
`matchAndHandleDeleteCmd` does on every name what the dispatch that tries
artifact, spec, version and API in this order does: the source tries the shapes
in the opposite order, which no caller can observe, because no name has two of
the shapes.  A name that parses as none of the shapes is rejected with an
error, and nothing is read or enqueued. -/
theorem names_handled_as_most_specific_shape {Store Body Model : Type}
    (env : Env Store Body Model) (w : World Store Model) (req : rpc.GetApiDeploymentRequest)
    (cmd : delete.Env names.Version names.Spec names.Artifact) (name filter : String) :
    GetApiDeployment (memory.withNames env) w req =
        GetApiDeployment_mostSpecificFirst (memory.withNames env) w req ∧
      delete.matchAndHandleDeleteCmd (memory.withDeleteNames cmd) name filter =
        delete.matchAndHandleDeleteCmd_mostSpecificFirst (memory.withDeleteNames cmd) name
          filter ∧
      (∀ d, memory.ParseDeployment req.Name = Except.ok d →
        GetApiDeployment (memory.withNames env) w req =
            getApiDeployment (memory.withNames env) w d ∧
          ∃ e, memory.ParseDeploymentRevision req.Name = Except.error e) ∧
      (∀ r, memory.ParseDeploymentRevision req.Name = Except.ok r →
        GetApiDeployment (memory.withNames env) w req =
            getApiDeploymentRevision (memory.withNames env) w r ∧
          ∃ e, memory.ParseDeployment req.Name = Except.error e) ∧
      (∀ e1 e2, memory.ParseDeployment req.Name = Except.error e1 →
        memory.ParseDeploymentRevision req.Name = Except.error e2 →
        GetApiDeployment (memory.withNames env) w req =
          (Except.error (status.Errorf codes.Code.InvalidArgument
            "invalid resource name %q, must be an API deployment or revision"
            [FmtArg.str req.Name]), w)) ∧
      (∀ e1 e2 e3 e4, memory.ParseApi name = Except.error e1 →
        memory.ParseVersion name = Except.error e2 →
        memory.ParseSpec name = Except.error e3 →
        memory.ParseArtifact name = Except.error e4 →
        (delete.matchAndHandleDeleteCmd (memory.withDeleteNames cmd) name filter).err ≠ none ∧
          (delete.matchAndHandleDeleteCmd (memory.withDeleteNames cmd) name filter).reads = [] ∧
          (delete.matchAndHandleDeleteCmd (memory.withDeleteNames cmd) name filter).taskQueue
            = []) := by
  have hdis : ∀ d, memory.ParseDeployment req.Name = Except.ok d →
      ∃ e, memory.ParseDeploymentRevision req.Name = Except.error e :=
    fun d hd => ⟨_, ParseDeployment_excludes_revision req.Name d hd⟩
  refine ⟨GetApiDeployment_order _ w req hdis,
    matchAndHandleDeleteCmd_order _ name filter
      (ParseApi_excludes_version name) (ParseApi_excludes_spec name)
      (ParseVersion_excludes_spec name) (ParseArtifact_excludes_api name)
      (ParseArtifact_excludes_version name) (ParseArtifact_excludes_spec name), ?_, ?_, ?_, ?_⟩
  · intro d hd
    refine ⟨?_, hdis d hd⟩
    unfold GetApiDeployment
    simp only [memory.withNames, hd]
  · intro r hr
    cases hd : memory.ParseDeployment req.Name with
    | ok d =>
      obtain ⟨e, he⟩ := hdis d hd
      rw [he] at hr
      exact absurd hr (by simp)
    | error e =>
      refine ⟨?_, e, rfl⟩
      unfold GetApiDeployment
      simp only [memory.withNames, hd, hr]
  · intro e1 e2 hd2 hr2
    unfold GetApiDeployment
    simp only [memory.withNames, hd2, hr2]
  · intro e1 e2 e3 e4 ha2 hv2 hs2 hx2
    unfold delete.matchAndHandleDeleteCmd
    simp only [memory.withDeleteNames, ha2, hv2, hs2, hx2]
    exact ⟨by simp, trivial, trivial⟩

theorem names_handled_as_most_specific_shape_witness :
    (GetApiDeployment (memory.withNames memory.env) (World.start memory.revised)
          { Name := memory.myDeploymentRevision } =
        GetApiDeployment_mostSpecificFirst (memory.withNames memory.env)
          (World.start memory.revised) { Name := memory.myDeploymentRevision } ∧
      GetApiDeployment (memory.withNames memory.env) (World.start memory.revised)
          { Name := memory.myDeploymentRevision } =
        (Except.ok { Name := memory.myDeploymentRevision, Description := "",
                     RevisionId := "9f8e7d6c", RevisionTags := [] },
          { store := memory.revised
            trace := [Event.getStorageClient,
              Event.GetDeploymentRevision ⟨"my-project", "a", "my-deployment", "9f8e7d6c"⟩,
              Event.GetDeploymentTags ⟨"my-project", "a", "my-deployment"⟩,
              Event.Close] })) ∧
    (delete.matchAndHandleDeleteCmd (memory.withDeleteNames memory.deleteEnv)
          memory.myArtifact "" =
        delete.matchAndHandleDeleteCmd_mostSpecificFirst
          (memory.withDeleteNames memory.deleteEnv) memory.myArtifact "" ∧
      delete.matchAndHandleDeleteCmd (memory.withDeleteNames memory.deleteEnv)
          memory.myArtifact "" =
        { err := none
          reads := [delete.Read.ListArtifacts ⟨"my-project", "a", "v1", "", "complexity"⟩ ""
            false]
          taskQueue := [{ resourceName := "artifacts/complexity", resourceKind := "artifact" }] }) ∧
    (GetApiDeployment (memory.withNames memory.env) (World.start memory.revised)
          { Name := memory.myDeployment } =
        getApiDeployment (memory.withNames memory.env) (World.start memory.revised)
          ⟨"my-project", "a", "my-deployment"⟩ ∧
      ∃ e, memory.ParseDeploymentRevision memory.myDeployment = Except.error e) ∧
    (GetApiDeployment (memory.withNames memory.env) (World.start memory.revised)
          { Name := memory.myDeploymentRevision } =
        getApiDeploymentRevision (memory.withNames memory.env) (World.start memory.revised)
          ⟨"my-project", "a", "my-deployment", "9f8e7d6c"⟩ ∧
      ∃ e, memory.ParseDeployment memory.myDeploymentRevision = Except.error e) ∧
    GetApiDeployment (memory.withNames memory.env) (World.start memory.revised)
        { Name := "my-deployment" } =
      (Except.error (status.Errorf codes.Code.InvalidArgument
        "invalid resource name %q, must be an API deployment or revision"
        [FmtArg.str "my-deployment"]), World.start memory.revised) ∧
    ((delete.matchAndHandleDeleteCmd (memory.withDeleteNames memory.deleteEnv)
          "my-deployment" "").err ≠ none ∧
      (delete.matchAndHandleDeleteCmd (memory.withDeleteNames memory.deleteEnv)
          "my-deployment" "").reads = [] ∧
      (delete.matchAndHandleDeleteCmd (memory.withDeleteNames memory.deleteEnv)
          "my-deployment" "").taskQueue = []) :=
  ⟨⟨(names_handled_as_most_specific_shape memory.env (World.start memory.revised)
        { Name := memory.myDeploymentRevision } memory.deleteEnv memory.myArtifact "").1,
      by decide⟩,
    ⟨(names_handled_as_most_specific_shape memory.env (World.start memory.revised)
        { Name := memory.myDeploymentRevision } memory.deleteEnv memory.myArtifact "").2.1,
      by decide⟩,
    (names_handled_as_most_specific_shape memory.env (World.start memory.revised)
      { Name := memory.myDeployment } memory.deleteEnv memory.myArtifact "").2.2.1 _
      (by decide),
    (names_handled_as_most_specific_shape memory.env (World.start memory.revised)
      { Name := memory.myDeploymentRevision } memory.deleteEnv memory.myArtifact "").2.2.2.1 _
      (by decide),
    (names_handled_as_most_specific_shape memory.env (World.start memory.revised)
      { Name := "my-deployment" } memory.deleteEnv "my-deployment" "").2.2.2.2.1
      "invalid deployment name" "invalid deployment revision name" (by decide) (by decide),
    (names_handled_as_most_specific_shape memory.env (World.start memory.revised)
      { Name := "my-deployment" } memory.deleteEnv "my-deployment" "").2.2.2.2.2
      "invalid API name" "invalid version name" "invalid spec name" "invalid artifact name"
      (by decide) (by decide) (by decide) (by decide)⟩

/-! ## The worker on the channels that the wait function leaves -/

/-- C19, the claim fails on the closed queue that the program produces.  The
queue is closed by the wait function, whose next statement closes the channel
of results: after three tasks were submitted and the wait function has executed
`close(taskQueue)` and `close(results)`, the worker of the pool has a closed
queue with the tasks `a`, which fails, and `b` and `c`, which return the
results 3 and 4.  The worker on these channels runs `a` and `b` and panics at
the send of the result of `b`: `c` is never run and no result is sent, where
the results 3 and 4 were to be sent. -/
theorem worker_panics_on_closed_results :
    (core.WorkerPool Nat 1).run
        [core.Move.submit (core.fails "a"), core.Move.submit (core.counts "b" 3),
          core.Move.submit (core.counts "c" 4), core.Move.wait, core.Move.wait] =
      some
        { taskQueue :=
            { buf := [core.fails "a", core.counts "b" 3, core.counts "c" 4], cap := 1024,
              closed := true }
          results := { buf := [], cap := 1024, closed := true }
          workers := [core.WorkerAt.receive]
          wg := 1
          ran := []
          ctxDone := false
          waited := 2
          panicked := false } ∧
    core.worker (fun _ => false)
        { buf := [core.fails "a", core.counts "b" 3, core.counts "c" 4], cap := 1024,
          closed := true }
        { buf := [], cap := 1024, closed := true } =
      { ran := [core.fails "a", core.counts "b" 3]
        logged := [("rpc error", "count versions a")]
        results := { buf := [], cap := 1024, closed := true }
        exit := core.Exit.panicked } ∧
    core.delivered [core.fails "a", core.counts "b" 3, core.counts "c" 4] = [3, 4] := by
  decide

/-! ## Filters that test the presence of a key -/

/-- A key has a value in a map exactly when an entry of the map has the
key. -/
theorem get_isSome_eq_any (entries : List (String × String)) (key : String) :
    (filtering.get entries key).isSome = entries.any fun entry => entry.1 = key := by
  induction entries with
  | nil => rfl
  | cons entry rest ih =>
    obtain ⟨k, v⟩ := entry
    by_cases h : k = key
    · simp [filtering.get, h]
    · simp [filtering.get, h, ih]

/-- The lookup finds the value of the first entry with the key. -/
theorem get_eq_some_iff {β : Type} (m : List (String × β)) (key : String) (v : β) :
    filtering.get m key = some v ↔
      ∃ pre post, m = pre ++ (key, v) :: post ∧ ∀ e ∈ pre, e.1 ≠ key := by
  induction m with
  | nil => simp [filtering.get]
  | cons entry rest ih =>
    obtain ⟨k, w⟩ := entry
    by_cases h : k = key
    · subst h
      simp only [filtering.get, if_true, Option.some.injEq]
      constructor
      · rintro rfl
        exact ⟨[], rest, rfl, by simp⟩
      · rintro ⟨pre, post, heq, hpre⟩
        cases pre with
        | nil =>
          simp only [List.nil_append, List.cons.injEq, Prod.mk.injEq] at heq
          exact heq.1.2
        | cons e pre2 =>
          simp only [List.cons_append, List.cons.injEq] at heq
          exact absurd (by rw [← heq.1]) (hpre e (List.mem_cons_self _ _))
    · simp only [filtering.get, h, if_false, ih]
      constructor
      · rintro ⟨pre, post, heq, hpre⟩
        refine ⟨(k, w) :: pre, post, by rw [heq]; rfl, ?_⟩
        intro e he
        rcases List.mem_cons.mp he with rfl | he
        · exact h
        · exact hpre e he
      · rintro ⟨pre, post, heq, hpre⟩
        cases pre with
        | nil =>
          simp only [List.nil_append, List.cons.injEq, Prod.mk.injEq] at heq
          exact absurd heq.1.1 h
        | cons e pre2 =>
          simp only [List.cons_append, List.cons.injEq] at heq
          exact ⟨pre2, post, heq.2, fun x hx => hpre x (List.mem_cons_of_mem _ hx)⟩

/-- What the engine finds under `labels` has the key exactly when the map of
the record under `labels` contains the key. -/
theorem entriesOf_any_iff (record : List (String × filtering.Value)) (K : String) :
    ((filtering.entriesOf record "labels").any fun entry => entry.1 = K) = true ↔
      filtering.labelsContain record K := by
  rw [List.any_eq_true]
  constructor
  · rintro ⟨⟨k, v⟩, hmem, hk⟩
    have hk2 : k = K := by simpa using hk
    subst hk2
    unfold filtering.entriesOf at hmem
    cases hget : filtering.get record "labels" with
    | none => simp [hget] at hmem
    | some value =>
      cases value with
      | stringMap entries =>
        simp only [hget] at hmem
        obtain ⟨pre, post, heq, hpre⟩ := (get_eq_some_iff record "labels" _).mp hget
        exact ⟨pre, entries, post, v, heq, hpre, hmem⟩
      | string s => simp [hget] at hmem
      | int n => simp [hget] at hmem
      | timestamp t => simp [hget] at hmem
  · rintro ⟨pre, entries, post, value, heq, hpre, hmem⟩
    have hget : filtering.get record "labels" = some (filtering.Value.stringMap entries) :=
      (get_eq_some_iff record "labels" _).mpr ⟨pre, post, heq, hpre⟩
    refine ⟨(K, value), ?_, by simp⟩
    simp only [filtering.entriesOf, hget]
    exact hmem

/-- The tokenizer reads the runes of an identifier. -/
theorem foldl_step_ident (cs : List Char) (tokens : List filtering.Token) (runes : List Char)
    (h : ∀ c ∈ cs, (filtering.isLetter c || filtering.isDigit c) = true) :
    cs.foldl filtering.Lexer.step { tokens := tokens, mode := filtering.Mode.ident runes } =
      { tokens := tokens, mode := filtering.Mode.ident (runes ++ cs) } := by
  induction cs generalizing runes with
  | nil => simp
  | cons c cs ih =>
    have hc := h c (List.mem_cons_self _ _)
    rw [List.foldl_cons]
    have hstep : filtering.Lexer.step
        { tokens := tokens, mode := filtering.Mode.ident runes } c =
        { tokens := tokens, mode := filtering.Mode.ident (runes ++ [c]) } := by
      simp only [filtering.Lexer.step, hc, if_true]
    rw [hstep, ih _ (fun x hx => h x (List.mem_cons_of_mem _ hx))]
    simp

/-- The tokenizer reads the runes of a string literal. -/
theorem foldl_step_string (cs : List Char) (tokens : List filtering.Token) (runes : List Char)
    (h : ∀ c ∈ cs, (c ≠ filtering.quote && c ≠ filtering.backslash && c ≠ filtering.lineFeed
      && c ≠ filtering.carriageReturn) = true) :
    cs.foldl filtering.Lexer.step { tokens := tokens, mode := filtering.Mode.string runes } =
      { tokens := tokens, mode := filtering.Mode.string (runes ++ cs) } := by
  induction cs generalizing runes with
  | nil => simp
  | cons c cs ih =>
    have hc := h c (List.mem_cons_self _ _)
    simp only [Bool.and_eq_true, decide_eq_true_eq] at hc
    obtain ⟨⟨⟨h1, h2⟩, h3⟩, h4⟩ := hc
    rw [List.foldl_cons]
    have hstep : filtering.Lexer.step
        { tokens := tokens, mode := filtering.Mode.string runes } c =
        { tokens := tokens, mode := filtering.Mode.string (runes ++ [c]) } := by
      simp [filtering.Lexer.step, h1, h2, h3, h4]
    rw [hstep, ih _ (fun x hx => h x (List.mem_cons_of_mem _ hx))]
    simp

/-- A letter is no white space. -/
theorem isSpace_of_isLetter (c : Char) (h : filtering.isLetter c = true) :
    filtering.isSpace c = false := by
  simp only [filtering.isLetter, Bool.or_eq_true, Bool.and_eq_true, decide_eq_true_eq,
    char_le_iff_toNat, char_eq_iff_toNat] at h
  simp only [filtering.isSpace, filtering.lineFeed, filtering.carriageReturn, Bool.or_eq_false_iff,
    decide_eq_false_iff_not, char_eq_iff_toNat]
  have h1 : ('a' : Char).toNat = 97 := by decide
  have h2 : ('z' : Char).toNat = 122 := by decide
  have h3 : ('A' : Char).toNat = 65 := by decide
  have h4 : ('Z' : Char).toNat = 90 := by decide
  have h5 : ('_' : Char).toNat = 95 := by decide
  have h6 : (' ' : Char).toNat = 32 := by decide
  have h7 : (Char.ofNat 9).toNat = 9 := by decide
  have h8 : (Char.ofNat 10).toNat = 10 := by decide
  have h9 : (Char.ofNat 13).toNat = 13 := by decide
  rw [h1, h2, h3, h4, h5] at h
  rw [h6, h7, h8, h9]
  omega

/-- The tokens of `has(labels.K)`, for a key that a field selection can
name. -/
theorem lex_has (K : String) (hK : filtering.isSelectableKey K = true) :
    filtering.lex ("has(labels." ++ K ++ ")") =
      some [filtering.Token.ident "has", filtering.Token.lparen, filtering.Token.ident "labels",
        filtering.Token.dot, filtering.Token.ident K, filtering.Token.rparen] := by
  obtain ⟨runes⟩ := K
  cases runes with
  | nil => simp [filtering.isSelectableKey] at hK
  | cons c rest =>
    simp only [filtering.isSelectableKey, Bool.and_eq_true, List.all_eq_true,
      decide_eq_true_eq] at hK
    obtain ⟨⟨hc, hrest⟩, hkey⟩ := hK
    have hpre : "has(labels.".data.foldl filtering.Lexer.step
        { tokens := [], mode := filtering.Mode.start } =
        { tokens := [filtering.Token.ident "has", filtering.Token.lparen,
            filtering.Token.ident "labels", filtering.Token.dot],
          mode := filtering.Mode.start } := by decide
    have hword : filtering.word (c :: rest) = filtering.Token.ident (String.mk (c :: rest)) := by
      unfold filtering.word
      rw [if_neg hkey]
    unfold filtering.lex
    rw [String.data_append, String.data_append, List.foldl_append, List.foldl_append, hpre]
    change (")".data.foldl filtering.Lexer.step (rest.foldl filtering.Lexer.step
      (filtering.Lexer.step _ c))).finish = _
    have hstart : filtering.Lexer.step
        { tokens := [filtering.Token.ident "has", filtering.Token.lparen,
            filtering.Token.ident "labels", filtering.Token.dot],
          mode := filtering.Mode.start } c =
        { tokens := [filtering.Token.ident "has", filtering.Token.lparen,
            filtering.Token.ident "labels", filtering.Token.dot],
          mode := filtering.Mode.ident [c] } := by
      simp [filtering.Lexer.step, filtering.Lexer.startRune, isSpace_of_isLetter c hc, hc]
    rw [hstart, foldl_step_ident rest _ _ hrest]
    have hend : filtering.Lexer.step
        { tokens := [filtering.Token.ident "has", filtering.Token.lparen,
            filtering.Token.ident "labels", filtering.Token.dot],
          mode := filtering.Mode.ident ([c] ++ rest) } ')' =
        { tokens := [filtering.Token.ident "has", filtering.Token.lparen,
            filtering.Token.ident "labels", filtering.Token.dot,
            filtering.word (c :: rest), filtering.Token.rparen],
          mode := filtering.Mode.start } := by
      have e1 : (filtering.isLetter ')' || filtering.isDigit ')') = false := by decide
      have e2 : ∀ tokens, filtering.Lexer.startRune tokens ')' =
          { tokens := tokens ++ [filtering.Token.rparen], mode := filtering.Mode.start } := by
        intro tokens
        have s1 : filtering.isSpace ')' = false := by decide
        have s2 : filtering.isLetter ')' = false := by decide
        have s3 : filtering.isDigit ')' = false := by decide
        have s4 : (')' = filtering.quote) = False := by simp; decide
        simp [filtering.Lexer.startRune, s1, s2, s3, s4]
      simp only [filtering.Lexer.step, e1, e2]
      simp
    have hd : ")".data = [')'] := rfl
    rw [hd, List.foldl_cons, List.foldl_nil, hend, hword]
    rfl

/-- The tokens of `"K" in labels`, for a key that a string literal writes as
it is. -/
theorem lex_in (K : String) (hK : filtering.isPlainKey K = true) :
    filtering.lex ("\"" ++ K ++ "\" in labels") =
      some [filtering.Token.string K, filtering.Token.keyword "in",
        filtering.Token.ident "labels"] := by
  obtain ⟨runes⟩ := K
  simp only [filtering.isPlainKey, List.all_eq_true] at hK
  unfold filtering.lex
  rw [String.data_append, String.data_append, List.foldl_append, List.foldl_append]
  have hpre : "\"".data.foldl filtering.Lexer.step
      { tokens := [], mode := filtering.Mode.start } =
      { tokens := [], mode := filtering.Mode.string [] } := by decide
  rw [hpre, foldl_step_string runes _ _ hK]
  have hd : "\" in labels".data = filtering.quote :: " in labels".data := by decide
  rw [hd, List.foldl_cons]
  have hquote : filtering.Lexer.step
      { tokens := [], mode := filtering.Mode.string ([] ++ runes) } filtering.quote =
      { tokens := [filtering.Token.string (String.mk runes)], mode := filtering.Mode.start } := by
    simp [filtering.Lexer.step]
  rw [hquote]
  rfl

/-- The text `has(labels.K)` compiles, for a key that a field selection can
name, to the test of the key in the field `labels`. -/
theorem NewFilter_has (K : String) (hK : filtering.isSelectableKey K = true) :
    filtering.NewFilter ("has(labels." ++ K ++ ")") filtering.labelled =
      Except.ok { expr := filtering.Expr.has "labels" K, fields := filtering.labelled } := by
  unfold filtering.NewFilter filtering.parse
  rw [lex_has K hK]
  rfl

/-- The text `"K" in labels` compiles, for a key that a string literal writes
as it is, to the test of the key in the field `labels`. -/
theorem NewFilter_in (K : String) (hK : filtering.isPlainKey K = true) :
    filtering.NewFilter ("\"" ++ K ++ "\" in labels") filtering.labelled =
      Except.ok { expr := filtering.Expr.inKeys K "labels", fields := filtering.labelled } := by
  unfold filtering.NewFilter filtering.parse
  rw [lex_in K hK]
  rfl

/-- The rows of the table of `TestFilter_Matches` pass on the engine. -/
theorem TestFilter_Matches_passes :
    filtering.passes "k == \"match\"" [⟨"k", filtering.FieldType.String⟩]
        [("k", filtering.Value.string "match")] [("k", filtering.Value.string "mismatch")] = true ∧
      filtering.passes "k == 123" [⟨"k", filtering.FieldType.Int⟩]
        [("k", filtering.Value.int 123)] [("k", filtering.Value.int 321)] = true ∧
      filtering.passes "k < timestamp(\"2021-01-01T00:00:00Z\")"
        [⟨"k", filtering.FieldType.Timestamp⟩]
        [("k", filtering.Value.timestamp (time.Date 2020 1 1 0 0 0))]
        [("k", filtering.Value.timestamp (time.Date 2022 1 1 0 0 0))] = true ∧
      filtering.passes "k > timestamp(\"2021-01-01T00:00:00Z\")"
        [⟨"k", filtering.FieldType.Timestamp⟩]
        [("k", filtering.Value.timestamp (time.Date 2022 1 1 0 0 0))]
        [("k", filtering.Value.timestamp (time.Date 2020 1 1 0 0 0))] = true ∧
      filtering.passes "has(labels.match)" filtering.labelled
        [("labels", filtering.Value.stringMap [("match", "v")])]
        [("labels", filtering.Value.stringMap [("mismatch", "v")])] = true ∧
      filtering.passes "\"match\" in labels" filtering.labelled
        [("labels", filtering.Value.stringMap [("match", "v")])]
        [("labels", filtering.Value.stringMap [("mismatch", "v")])] = true ∧
      filtering.passes "labels[\"k\"] == \"match\"" filtering.labelled
        [("labels", filtering.Value.stringMap [("k", "match")])]
        [("labels", filtering.Value.stringMap [("k", "mismatch")])] = true ∧
      filtering.passes "labels.k.contains(\"substring\")" filtering.labelled
        [("labels", filtering.Value.stringMap [("k", "substring_match")])]
        [("labels", filtering.Value.stringMap [("k", "substr_mismatch")])] = true ∧
      filtering.passes "\"match\" in labels.k.split(\"_\")" filtering.labelled
        [("labels", filtering.Value.stringMap [("k", "split_match")])]
        [("labels", filtering.Value.stringMap [("k", "split_mismatch")])] = true := by
  decide

/-- C22, the claim fails for the key `my-key`.  The record
`{labels: {"my-key": "v"}}` has the key, and the filter `"my-key" in labels`
compiles and matches it; but the text `has(labels.my-key)` is no expression of
the grammar (it reads as the selection `labels.my`, a minus sign and the name
`key`, which is no argument of `has`), so it does not compile and matches no
record.  Likewise `has(labels.in)` does not compile, and for the key `a"b` the
text `"a"b" in labels` does not compile. -/
theorem key_presence_fails_for_hyphenated_key :
    filtering.labelsContain [("labels", filtering.Value.stringMap [("my-key", "v")])] "my-key" ∧
      filtering.NewFilter ("has(labels." ++ "my-key" ++ ")") filtering.labelled =
        Except.error "syntax error" ∧
      filtering.NewFilter ("\"" ++ "my-key" ++ "\" in labels") filtering.labelled =
        Except.ok { expr := filtering.Expr.inKeys "my-key" "labels",
                    fields := filtering.labelled } ∧
      filtering.Filter.Matches
          { expr := filtering.Expr.inKeys "my-key" "labels", fields := filtering.labelled }
          [("labels", filtering.Value.stringMap [("my-key", "v")])] = Except.ok true ∧
      filtering.NewFilter ("has(labels." ++ "in" ++ ")") filtering.labelled =
        Except.error "syntax error" ∧
      filtering.NewFilter ("\"" ++ "a\"b" ++ "\" in labels") filtering.labelled =
        Except.error "syntax error" :=
  ⟨⟨[], [("my-key", "v")], [], "v", rfl, by simp, by simp⟩, by decide, by decide, by decide,
    by decide, by decide⟩

/-- C22, amended: against the schema `{labels: StringMap}`, for every key `K`
that holds no double quote, backslash or line break, the text `"K" in labels`
compiles, and for every key `K` that is an identifier and no keyword, the text
`has(labels.K)` compiles; the compiled filter matches every record without an
error, and it matches the record exactly when the map of the record under
`labels` contains the key `K`. -/
theorem key_presence_filters (K : String) :
    (filtering.isPlainKey K = true →
      ∃ f, filtering.NewFilter ("\"" ++ K ++ "\" in labels") filtering.labelled = Except.ok f ∧
        ∀ record,
          (f.Matches record = Except.ok true ∧ filtering.labelsContain record K) ∨
            (f.Matches record = Except.ok false ∧ ¬ filtering.labelsContain record K)) ∧
    (filtering.isSelectableKey K = true →
      ∃ g, filtering.NewFilter ("has(labels." ++ K ++ ")") filtering.labelled = Except.ok g ∧
        ∀ record,
          (g.Matches record = Except.ok true ∧ filtering.labelsContain record K) ∨
            (g.Matches record = Except.ok false ∧ ¬ filtering.labelsContain record K)) := by
  have hmain : ∀ record : List (String × filtering.Value),
      (((filtering.entriesOf record "labels").any fun entry => entry.1 = K) = true ∧
          filtering.labelsContain record K) ∨
        (((filtering.entriesOf record "labels").any fun entry => entry.1 = K) = false ∧
          ¬ filtering.labelsContain record K) := by
    intro record
    cases hb : (filtering.entriesOf record "labels").any fun entry => entry.1 = K with
    | true => exact Or.inl ⟨rfl, (entriesOf_any_iff record K).mp hb⟩
    | false =>
      refine Or.inr ⟨rfl, fun hc => ?_⟩
      rw [(entriesOf_any_iff record K).mpr hc] at hb
      exact absurd hb (by simp)
  constructor
  · intro hK
    refine ⟨_, NewFilter_in K hK, fun record => ?_⟩
    rcases hmain record with ⟨hb, hc⟩ | ⟨hb, hc⟩
    · exact Or.inl ⟨by simp only [filtering.Filter.Matches, filtering.Expr.eval, hb], hc⟩
    · exact Or.inr ⟨by simp only [filtering.Filter.Matches, filtering.Expr.eval, hb], hc⟩
  · intro hK
    refine ⟨_, NewFilter_has K hK, fun record => ?_⟩
    rcases hmain record with ⟨hb, hc⟩ | ⟨hb, hc⟩
    · exact Or.inl ⟨by
        simp only [filtering.Filter.Matches, filtering.Expr.eval, get_isSome_eq_any, hb], hc⟩
    · exact Or.inr ⟨by
        simp only [filtering.Filter.Matches, filtering.Expr.eval, get_isSome_eq_any, hb], hc⟩

theorem key_presence_filters_witness :
    (∃ f, filtering.NewFilter ("\"" ++ "match" ++ "\" in labels") filtering.labelled
          = Except.ok f ∧
        f.Matches [("labels", filtering.Value.stringMap [("match", "v")])] = Except.ok true ∧
        f.Matches [("labels", filtering.Value.stringMap [("other", "v")])] = Except.ok false) ∧
      (∃ g, filtering.NewFilter ("has(labels." ++ "match" ++ ")") filtering.labelled
          = Except.ok g ∧
        g.Matches [("labels", filtering.Value.stringMap [("match", "v")])] = Except.ok true ∧
        g.Matches [("labels", filtering.Value.stringMap [("other", "v")])] = Except.ok false) := by
  have hpos : filtering.labelsContain
      [("labels", filtering.Value.stringMap [("match", "v")])] "match" :=
    ⟨[], [("match", "v")], [], "v", rfl, by simp, by simp⟩
  have hneg : ¬ filtering.labelsContain
      [("labels", filtering.Value.stringMap [("other", "v")])] "match" := by
    rintro ⟨pre, entries, post, value, heq, hpre, hmem⟩
    cases pre with
    | nil =>
      simp only [List.nil_append, List.cons.injEq, Prod.mk.injEq, true_and] at heq
      have he : entries = [("other", "v")] := by
        have h1 := heq.1
        injection h1 with h2
        exact h2.symm
      rw [he] at hmem
      simp only [List.mem_singleton, Prod.mk.injEq] at hmem
      exact absurd hmem.1 (by decide)
    | cons e pre2 =>
      simp only [List.cons_append, List.cons.injEq] at heq
      exact hpre e (List.mem_cons_self _ _) (by rw [← heq.1])
  obtain ⟨f, hf, hm⟩ := (key_presence_filters "match").1 (by decide)
  obtain ⟨g, hg, hn⟩ := (key_presence_filters "match").2 (by decide)
  refine ⟨⟨f, hf, ?_, ?_⟩, ⟨g, hg, ?_, ?_⟩⟩
  · rcases hm [("labels", filtering.Value.stringMap [("match", "v")])] with h | h
    · exact h.1
    · exact absurd hpos h.2
  · rcases hm [("labels", filtering.Value.stringMap [("other", "v")])] with h | h
    · exact absurd h.2 hneg
    · exact h.1
  · rcases hn [("labels", filtering.Value.stringMap [("match", "v")])] with h | h
    · exact h.1
    · exact absurd hpos h.2
  · rcases hn [("labels", filtering.Value.stringMap [("other", "v")])] with h | h
    · exact absurd h.2 hneg
    · exact h.1

/-! ## Two calls that take the same mutex run one after the other -/

section exclusion

variable {Store Model α β : Type}

theorem Call.eval_bind (c : Call Store Model α) (f : α → Call Store Model β) (s : Store) :
    (c.bind f).eval s =
      (((f (c.eval s).1).eval (c.eval s).2.1).1, ((f (c.eval s).1).eval (c.eval s).2.1).2.1,
        (c.eval s).2.2 ++ ((f (c.eval s).1).eval (c.eval s).2.1).2.2) := by
  induction c generalizing s with
  | ret a => simp [Call.bind, Call.eval]
  | atomic act next ih => simp [Call.bind, Call.eval, ih]
  | lock next ih => simp [Call.bind, Call.eval, ih]
  | unlock next ih => simp [Call.bind, Call.eval, ih]

theorem Call.inside_ret (r : α) :
    (Call.ret r : Call Store Model α).inside =
      Call.unlock (Call.emit Event.Close (Call.ret r)) := rfl

theorem Call.inside_atomic (act : Store → Store × List (Event Model))
    (next : Store → Call Store Model α) :
    (Call.atomic act next).inside = Call.atomic act fun s => (next s).inside := rfl

theorem Config.advance_world (c : Config Store Model α) (i : Bool)
    (world : World Store Model) (held : Bool) (next : Call Store Model α) :
    (c.advance i world held next).world = world := rfl

theorem Config.advance_held (c : Config Store Model α) (i : Bool)
    (world : World Store Model) (held : Bool) (next : Call Store Model α) :
    (c.advance i world held next).held = held := rfl

theorem Config.advance_calls_self (c : Config Store Model α) (i : Bool)
    (world : World Store Model) (held : Bool) (next : Call Store Model α) :
    (c.advance i world held next).calls i = next := by
  simp [Config.advance]

theorem Config.advance_calls_not (c : Config Store Model α) (i : Bool)
    (world : World Store Model) (held : Bool) (next : Call Store Model α) :
    (c.advance i world held next).calls (!i) = c.calls (!i) := by
  cases i <;> simp [Config.advance]

theorem Config.advance_calls_of_not (c : Config Store Model α) (i : Bool)
    (world : World Store Model) (held : Bool) (next : Call Store Model α) :
    (c.advance (!i) world held next).calls i = c.calls i := by
  cases i <;> simp [Config.advance]

/-- The step of a call that has released the mutex. -/
theorem Config.move_leaving (c c2 : Config Store Model α) (j : Bool) (r : α)
    (h : Race.Leaving r (c.calls j)) (hmove : c.move j = some c2) :
    c2 = c.advance j (c.world.emit Event.Close) c.held (Call.ret r) := by
  rcases h with h | h
  · simp only [Config.move, h, Call.emit, Option.some.injEq] at hmove
    rw [← hmove]
    rfl
  · simp [Config.move, h] at hmove

/-- The step of a call that has not yet taken the mutex: its first step, or
`Lock()` when the mutex is free. -/
theorem Config.move_waiting (R : Race Store Model α) (hR : R.Lawful)
    (c c2 : Config Store Model α) (j : Bool) (hgood : R.good c.world.store)
    (h : R.Waiting j (c.calls j)) (hmove : c.move j = some c2) :
    (c2 = c.advance j
        { store := c.world.store, trace := c.world.trace ++ (R.pre j c.world.store).2 }
        c.held (Call.lock (R.critical j).inside)) ∨
      (c.held = false ∧
        c2 = c.advance j (c.world.emit Event.Lock) true (R.critical j).inside) := by
  rcases h with h | h
  · left
    rw [hR.enter_eq j] at h
    simp only [Config.move, h, Option.some.injEq] at hmove
    rw [← hmove, hR.pre_store j _ hgood, hR.after_eq j _ hgood]
  · right
    simp only [Config.move, h] at hmove
    cases hheld : c.held with
    | true => simp [hheld] at hmove
    | false =>
      simp only [hheld, Bool.false_eq_true, if_false, Option.some.injEq] at hmove
      exact ⟨rfl, hmove.symm⟩

/-- The step of a call that holds the mutex: `Unlock()` when it has done what
it does with the mutex held, and the next step on the store before. -/
theorem Config.move_inside (good : Store → Prop) (c c2 : Config Store Model α) (j : Bool)
    (X : Call Store Model α) (hX : Call.Section good X) (h : c.calls j = X.inside)
    (hmove : c.move j = some c2) :
    (∃ r, X = Call.ret r ∧
        c2 = c.advance j (c.world.emit Event.Unlock) false
          (Call.emit Event.Close (Call.ret r))) ∨
      (∃ act next, X = Call.atomic act next ∧
        c2 = c.advance j
          { store := (act c.world.store).1, trace := c.world.trace ++ (act c.world.store).2 }
          c.held (next c.world.store).inside) := by
  cases hX with
  | ret r =>
    left
    rw [Call.inside_ret] at h
    simp only [Config.move, h, Option.some.injEq] at hmove
    exact ⟨r, rfl, hmove.symm⟩
  | atomic act next hgood hnext =>
    right
    rw [Call.inside_atomic] at h
    simp only [Config.move, h, Option.some.injEq] at hmove
    exact ⟨act, next, rfl, hmove.symm⟩

theorem Bool.eq_not_of_ne_self {i j : Bool} (h : j ≠ i) : j = !i := by
  cases i <;> cases j <;> simp at h ⊢

/-- Every step of a call keeps the stages, and keeps the property of the
store. -/
theorem Race.Stage.move (R : Race Store Model α) (hR : R.Lawful)
    (c c2 : Config Store Model α) (j : Bool) (hgood : R.good c.world.store)
    (hstage : R.Stage c) (hmove : c.move j = some c2) :
    R.good c2.world.store ∧ R.Stage c2 := by
  have hfilter : ∀ (t : List (Event Model)) (e : Event Model), R.relevant e = false →
      (t ++ [e]).filter R.relevant = t.filter R.relevant := by
    intro t e he
    simp [List.filter_append, he]
  cases hstage with
  | waiting hheld hcalls hstore htrace =>
    rcases Config.move_waiting R hR c c2 j hgood (hcalls j) hmove with h | ⟨_, h⟩
    · subst h
      refine ⟨hgood, Race.Stage.waiting _ hheld ?_ hstore ?_⟩
      · intro i
        by_cases hi : i = j
        · subst hi
          rw [Config.advance_calls_self]
          exact Or.inr rfl
        · have hc : (c.advance j
              { store := c.world.store, trace := c.world.trace ++ (R.pre j c.world.store).2 }
              c.held (Call.lock (R.critical j).inside)).calls i = c.calls i := by
            simp [Config.advance, hi]
          rw [hc]
          exact hcalls i
      · change (c.world.trace ++ (R.pre j c.world.store).2).filter R.relevant = []
        rw [List.filter_append, htrace, hR.pre_quiet j _ hgood]
        rfl
    · subst h
      refine ⟨hgood, Race.Stage.first _ j (R.critical j) rfl (hR.critical_section j)
        (Config.advance_calls_self _ _ _ _ _) ?_ ?_ ?_ ?_⟩
      · rw [Config.advance_calls_not]
        exact hcalls (!j)
      · change ((R.critical j).eval c.world.store).1 = _
        rw [hstore]
        rfl
      · change ((R.critical j).eval c.world.store).2.1 = _
        rw [hstore]
        rfl
      · change (c.world.trace ++ [Event.Lock]).filter R.relevant
          ++ ((R.critical j).eval c.world.store).2.2.filter R.relevant = _
        rw [hfilter _ _ hR.lock_quiet, htrace, hstore]
        rfl
  | first i X hheld hX hcall hother hresult hstore htrace =>
    by_cases hj : j = i
    · subst hj
      rcases Config.move_inside R.good c c2 j X hX hcall hmove with
        ⟨r, rfl, h⟩ | ⟨act, next, rfl, h⟩
      · subst h
        refine ⟨hgood, Race.Stage.between _ j rfl ?_ ?_ ?_ ?_⟩
        · rw [Config.advance_calls_self]
          left
          simp only [Call.eval] at hresult
          rw [hresult]
        · rw [Config.advance_calls_not]
          exact hother
        · simpa [Call.eval] using hstore
        · change (c.world.trace ++ [Event.Unlock]).filter R.relevant = _
          rw [hfilter _ _ hR.unlock_quiet]
          simpa [Call.eval] using htrace
      · subst h
        cases hX with
        | atomic _ _ hg hn =>
          refine ⟨hg _ hgood, Race.Stage.first _ j (next c.world.store) hheld
            (hn _ hgood) (Config.advance_calls_self _ _ _ _ _) ?_ ?_ ?_ ?_⟩
          · rw [Config.advance_calls_not]
            exact hother
          · simpa [Call.eval] using hresult
          · simpa [Call.eval] using hstore
          · change (c.world.trace ++ (act c.world.store).2).filter R.relevant
              ++ (((next c.world.store).eval (act c.world.store).1).2.2).filter R.relevant = _
            rw [← htrace]
            simp [Call.eval, List.filter_append]
    · have hj2 : j = !i := Bool.eq_not_of_ne_self hj
      subst hj2
      rcases Config.move_waiting R hR c c2 (!i) hgood hother hmove with h | ⟨h0, _⟩
      · subst h
        refine ⟨hgood, Race.Stage.first _ i X hheld hX ?_ ?_ hresult hstore ?_⟩
        · rw [Config.advance_calls_of_not]
          exact hcall
        · rw [Config.advance_calls_self]
          exact Or.inr rfl
        · change (c.world.trace ++ (R.pre (!i) c.world.store).2).filter R.relevant ++ _ = _
          rw [List.filter_append, hR.pre_quiet (!i) _ hgood, List.append_nil]
          exact htrace
      · rw [hheld] at h0
        exact absurd h0 (by simp)
  | between i hheld hcall hother hstore htrace =>
    by_cases hj : j = i
    · subst hj
      have h := Config.move_leaving c c2 j _ hcall hmove
      subst h
      refine ⟨hgood, Race.Stage.between _ j hheld ?_ ?_ hstore ?_⟩
      · rw [Config.advance_calls_self]
        exact Or.inr rfl
      · rw [Config.advance_calls_not]
        exact hother
      · change (c.world.trace ++ [Event.Close]).filter R.relevant = _
        rw [hfilter _ _ hR.close_quiet]
        exact htrace
    · have hj2 : j = !i := Bool.eq_not_of_ne_self hj
      subst hj2
      rcases Config.move_waiting R hR c c2 (!i) hgood hother hmove with h | ⟨_, h⟩
      · subst h
        refine ⟨hgood, Race.Stage.between _ i hheld ?_ ?_ hstore ?_⟩
        · rw [Config.advance_calls_of_not]
          exact hcall
        · rw [Config.advance_calls_self]
          exact Or.inr rfl
        · change (c.world.trace ++ (R.pre (!i) c.world.store).2).filter R.relevant = _
          rw [List.filter_append, hR.pre_quiet (!i) _ hgood, List.append_nil]
          exact htrace
      · subst h
        refine ⟨hgood, Race.Stage.second _ i (R.critical (!i)) rfl ?_
          (hR.critical_section (!i)) (Config.advance_calls_self _ _ _ _ _) ?_ ?_ ?_⟩
        · rw [Config.advance_calls_of_not]
          exact hcall
        · change ((R.critical (!i)).eval c.world.store).1 = _
          rw [hstore]
          rfl
        · change ((R.critical (!i)).eval c.world.store).2.1 = _
          rw [hstore]
          rfl
        · change (c.world.trace ++ [Event.Lock]).filter R.relevant
            ++ ((R.critical (!i)).eval c.world.store).2.2.filter R.relevant = _
          rw [hfilter _ _ hR.lock_quiet, htrace, hstore]
          rfl
  | second i X hheld hcall hX hother hresult hstore htrace =>
    by_cases hj : j = i
    · subst hj
      have h := Config.move_leaving c c2 j _ hcall hmove
      subst h
      refine ⟨hgood, Race.Stage.second _ j X hheld ?_ hX ?_ hresult hstore ?_⟩
      · rw [Config.advance_calls_self]
        exact Or.inr rfl
      · rw [Config.advance_calls_not]
        exact hother
      · change (c.world.trace ++ [Event.Close]).filter R.relevant ++ _ = _
        rw [hfilter _ _ hR.close_quiet]
        exact htrace
    · have hj2 : j = !i := Bool.eq_not_of_ne_self hj
      subst hj2
      rcases Config.move_inside R.good c c2 (!i) X hX hother hmove with
        ⟨r, rfl, h⟩ | ⟨act, next, rfl, h⟩
      · subst h
        refine ⟨hgood, Race.Stage.finished _ i rfl ?_ ?_ ?_ ?_⟩
        · rw [Config.advance_calls_of_not]
          exact hcall
        · rw [Config.advance_calls_self]
          left
          simp only [Call.eval] at hresult
          rw [hresult]
        · simpa [Call.eval] using hstore
        · change (c.world.trace ++ [Event.Unlock]).filter R.relevant = _
          rw [hfilter _ _ hR.unlock_quiet]
          simpa [Call.eval] using htrace
      · subst h
        cases hX with
        | atomic _ _ hg hn =>
          refine ⟨hg _ hgood, Race.Stage.second _ i (next c.world.store) hheld ?_
            (hn _ hgood) (Config.advance_calls_self _ _ _ _ _) ?_ ?_ ?_⟩
          · rw [Config.advance_calls_of_not]
            exact hcall
          · simpa [Call.eval] using hresult
          · simpa [Call.eval] using hstore
          · change (c.world.trace ++ (act c.world.store).2).filter R.relevant
              ++ (((next c.world.store).eval (act c.world.store).1).2.2).filter R.relevant = _
            rw [← htrace]
            simp [Call.eval, List.filter_append]
  | finished i hheld hcall hother hstore htrace =>
    by_cases hj : j = i
    · subst hj
      have h := Config.move_leaving c c2 j _ hcall hmove
      subst h
      refine ⟨hgood, Race.Stage.finished _ j hheld ?_ ?_ hstore ?_⟩
      · rw [Config.advance_calls_self]
        exact Or.inr rfl
      · rw [Config.advance_calls_not]
        exact hother
      · change (c.world.trace ++ [Event.Close]).filter R.relevant = _
        rw [hfilter _ _ hR.close_quiet]
        exact htrace
    · have hj2 : j = !i := Bool.eq_not_of_ne_self hj
      subst hj2
      have h := Config.move_leaving c c2 (!i) _ hother hmove
      subst h
      refine ⟨hgood, Race.Stage.finished _ i hheld ?_ ?_ hstore ?_⟩
      · rw [Config.advance_calls_of_not]
        exact hcall
      · rw [Config.advance_calls_self]
        exact Or.inr rfl
      · change (c.world.trace ++ [Event.Close]).filter R.relevant = _
        rw [hfilter _ _ hR.close_quiet]
        exact htrace

/-- Every schedule keeps the stages. -/
theorem Race.Stage.exec (R : Race Store Model α) (hR : R.Lawful) (schedule : List Bool)
    (c : Config Store Model α) (hgood : R.good c.world.store) (hstage : R.Stage c) :
    R.good (Config.exec schedule c).world.store ∧ R.Stage (Config.exec schedule c) := by
  induction schedule generalizing c with
  | nil => exact ⟨hgood, hstage⟩
  | cons j schedule ih =>
    rw [Config.exec]
    cases hmove : c.move j with
    | none => exact ih c hgood hstage
    | some c2 =>
      obtain ⟨hg, hs⟩ := Race.Stage.move R hR c c2 j hgood hstage hmove
      exact ih c2 hg hs

theorem Call.inside_returned (good : Store → Prop) (X : Call Store Model α)
    (hX : Call.Section good X) : X.inside.returned = none := by
  cases hX with
  | ret r => rfl
  | atomic act next hg hn => rfl

theorem Race.Waiting.not_returned (R : Race Store Model α) (hR : R.Lawful) (i : Bool)
    (c : Call Store Model α) (h : R.Waiting i c) : c.returned = none := by
  rcases h with h | h
  · rw [h, hR.enter_eq i]
    rfl
  · rw [h]
    rfl

theorem Race.Leaving.of_returned (r a : α) (c : Call Store Model α) (h : Race.Leaving r c)
    (hc : c.returned = some a) : c = Call.ret r ∧ a = r := by
  rcases h with h | h
  · rw [h] at hc
    simp [Call.emit, Call.returned] at hc
  · rw [h] at hc ⊢
    simp only [Call.returned, Option.some.injEq] at hc
    exact ⟨rfl, hc.symm⟩

/-- Two calls that take the same mutex run one after the other: under every
schedule after which both calls have returned, one of the calls was the first
to take the mutex; it has returned what it returns when it runs alone on the
store at the start, the other has returned what it returns when it runs alone
on the store that the first has left, the store is the one that the other has
left, and the events that are looked at are those of the first call followed by
those of the other. -/
theorem Race.serial (R : Race Store Model α) (hR : R.Lawful) (schedule : List Bool)
    (r₁ r₂ : α)
    (hdone : (Config.exec schedule (Config.start R.store R.enter)).results = some (r₁, r₂)) :
    (r₁ = (R.first false).1 ∧ r₂ = (R.second false).1 ∧
        (Config.exec schedule (Config.start R.store R.enter)).world.store
          = (R.second false).2.1 ∧
        (Config.exec schedule (Config.start R.store R.enter)).world.trace.filter R.relevant
          = (R.first false).2.2.filter R.relevant ++ (R.second false).2.2.filter R.relevant) ∨
      (r₂ = (R.first true).1 ∧ r₁ = (R.second true).1 ∧
        (Config.exec schedule (Config.start R.store R.enter)).world.store
          = (R.second true).2.1 ∧
        (Config.exec schedule (Config.start R.store R.enter)).world.trace.filter R.relevant
          = (R.first true).2.2.filter R.relevant ++ (R.second true).2.2.filter R.relevant) := by
  have hstart : R.Stage (Config.start R.store R.enter) :=
    Race.Stage.waiting _ rfl (fun i => Or.inl rfl) rfl rfl
  obtain ⟨_, hstage⟩ := Race.Stage.exec R hR schedule _ hR.good_store hstart
  generalize Config.exec schedule (Config.start R.store R.enter) = c at hdone hstage
  have hboth : (c.calls false).returned = some r₁ ∧ (c.calls true).returned = some r₂ := by
    unfold Config.results at hdone
    cases h0 : (c.calls false).returned with
    | none => simp [h0] at hdone
    | some a =>
      cases h1 : (c.calls true).returned with
      | none => simp [h0, h1] at hdone
      | some b =>
        simp only [h0, h1, Option.some.injEq, Prod.mk.injEq] at hdone
        rw [hdone.1, hdone.2]
        exact ⟨rfl, rfl⟩
  have hret : ∀ i, (c.calls i).returned ≠ none := by
    intro i
    cases i
    · rw [hboth.1]; simp
    · rw [hboth.2]; simp
  cases hstage with
  | waiting hheld hcalls hstore htrace =>
    exact absurd (Race.Waiting.not_returned R hR _ _ (hcalls false)) (hret false)
  | first i X hheld hX hcall hother hresult hstore htrace =>
    exact absurd (Race.Waiting.not_returned R hR _ _ hother) (hret (!i))
  | between i hheld hcall hother hstore htrace =>
    exact absurd (Race.Waiting.not_returned R hR _ _ hother) (hret (!i))
  | second i X hheld hcall hX hother hresult hstore htrace =>
    exact absurd (by rw [hother]; exact Call.inside_returned R.good X hX) (hret (!i))
  | finished i hheld hcall hother hstore htrace =>
    cases i with
    | false =>
      left
      exact ⟨(Race.Leaving.of_returned _ _ _ hcall hboth.1).2,
        (Race.Leaving.of_returned _ _ _ hother hboth.2).2, hstore, htrace⟩
    | true =>
      right
      exact ⟨(Race.Leaving.of_returned _ _ _ hcall hboth.2).2,
        (Race.Leaving.of_returned _ _ _ hother hboth.1).2, hstore, htrace⟩

theorem Config.exec_append (a b : List Bool) (c : Config Store Model α) :
    Config.exec (a ++ b) c = Config.exec b (Config.exec a c) := by
  induction a generalizing c with
  | nil => rfl
  | cons j a ih =>
    simp only [List.cons_append, Config.exec]
    cases c.move j with
    | none => exact ih c
    | some c2 => exact ih c2

/-- A call that holds the mutex and moves alone does what it does when it runs
alone, and releases the mutex. -/
theorem Config.exec_inside (good : Store → Prop) (relevant : Event Model → Bool)
    (hquiet : relevant Event.Unlock = false) (j : Bool) (X : Call Store Model α)
    (hX : Call.Section good X) (c : Config Store Model α) (hgood : good c.world.store)
    (hcall : c.calls j = X.inside) :
    ∃ n, (Config.exec (List.replicate n j) c).calls j
          = Call.emit Event.Close (Call.ret (X.eval c.world.store).1) ∧
        (Config.exec (List.replicate n j) c).calls (!j) = c.calls (!j) ∧
        (Config.exec (List.replicate n j) c).held = false ∧
        (Config.exec (List.replicate n j) c).world.store = (X.eval c.world.store).2.1 ∧
        good (Config.exec (List.replicate n j) c).world.store ∧
        (Config.exec (List.replicate n j) c).world.trace.filter relevant
          = c.world.trace.filter relevant ++ (X.eval c.world.store).2.2.filter relevant := by
  induction hX generalizing c with
  | ret r =>
    refine ⟨1, ?_⟩
    rw [Call.inside_ret] at hcall
    have hmove : c.move j = some (c.advance j (c.world.emit Event.Unlock) false
        (Call.emit Event.Close (Call.ret r))) := by
      simp only [Config.move, hcall]
    simp only [List.replicate, Config.exec, hmove]
    refine ⟨Config.advance_calls_self _ _ _ _ _, Config.advance_calls_not _ _ _ _ _, rfl, rfl,
      hgood, ?_⟩
    change (c.world.trace ++ [Event.Unlock]).filter relevant = _
    simp [List.filter_append, hquiet, Call.eval]
  | atomic act next hg hn ih =>
    rw [Call.inside_atomic] at hcall
    have hmove : c.move j = some (c.advance j
        { store := (act c.world.store).1, trace := c.world.trace ++ (act c.world.store).2 }
        c.held (next c.world.store).inside) := by
      simp only [Config.move, hcall]
    obtain ⟨n, h1, h2, h3, h4, h5, h6⟩ := ih c.world.store hgood
      (c.advance j
        { store := (act c.world.store).1, trace := c.world.trace ++ (act c.world.store).2 }
        c.held (next c.world.store).inside) (hg _ hgood) (Config.advance_calls_self _ _ _ _ _)
    simp only [Config.advance_world] at h1 h4 h6
    refine ⟨n + 1, ?_⟩
    simp only [List.replicate, Config.exec, hmove]
    refine ⟨h1, ?_, h3, h4, h5, ?_⟩
    · rw [h2, Config.advance_calls_not]
    · rw [h6]
      simp [Call.eval, List.filter_append]

/-- A call that has not yet taken the mutex and moves alone while the mutex is
free runs from its first step to its return as it does when it runs alone. -/
theorem Config.exec_alone (R : Race Store Model α) (hR : R.Lawful) (j : Bool)
    (c : Config Store Model α) (hgood : R.good c.world.store) (hheld : c.held = false)
    (hcall : c.calls j = R.enter j) :
    ∃ schedule, (Config.exec schedule c).calls j
          = Call.ret ((R.critical j).eval c.world.store).1 ∧
        (Config.exec schedule c).calls (!j) = c.calls (!j) ∧
        (Config.exec schedule c).held = false ∧
        (Config.exec schedule c).world.store
          = ((R.critical j).eval c.world.store).2.1 ∧
        R.good (Config.exec schedule c).world.store ∧
        (Config.exec schedule c).world.trace.filter R.relevant
          = c.world.trace.filter R.relevant
            ++ ((R.critical j).eval c.world.store).2.2.filter R.relevant := by
  -- the first step
  have hmove1 : c.move j = some (c.advance j
      { store := c.world.store, trace := c.world.trace ++ (R.pre j c.world.store).2 }
      c.held (Call.lock (R.critical j).inside)) := by
    rw [hR.enter_eq j] at hcall
    simp only [Config.move, hcall]
    rw [hR.pre_store j _ hgood, hR.after_eq j _ hgood]
  -- `Lock()`
  have hmove2 : (c.advance j
      { store := c.world.store, trace := c.world.trace ++ (R.pre j c.world.store).2 }
      c.held (Call.lock (R.critical j).inside)).move j =
      some ((c.advance j
        { store := c.world.store, trace := c.world.trace ++ (R.pre j c.world.store).2 }
        c.held (Call.lock (R.critical j).inside)).advance j
          (World.emit { store := c.world.store,
                        trace := c.world.trace ++ (R.pre j c.world.store).2 } Event.Lock)
          true (R.critical j).inside) := by
    simp only [Config.move, Config.advance_calls_self]
    simp [Config.advance, hheld]
  have hexec2 : ∃ c2, Config.exec [j, j] c = c2 ∧ c2.calls j = (R.critical j).inside ∧
      c2.calls (!j) = c.calls (!j) ∧ c2.world.store = c.world.store ∧
      c2.world.trace.filter R.relevant = c.world.trace.filter R.relevant := by
    refine ⟨(c.advance j
        { store := c.world.store, trace := c.world.trace ++ (R.pre j c.world.store).2 }
        c.held (Call.lock (R.critical j).inside)).advance j
          (World.emit { store := c.world.store,
                        trace := c.world.trace ++ (R.pre j c.world.store).2 } Event.Lock)
          true (R.critical j).inside,
      by simp only [Config.exec, hmove1, hmove2], Config.advance_calls_self _ _ _ _ _,
      ?_, rfl, ?_⟩
    · rw [Config.advance_calls_not, Config.advance_calls_not]
    · change ((c.world.trace ++ (R.pre j c.world.store).2) ++ [Event.Lock]).filter R.relevant
        = _
      simp [List.filter_append, hR.pre_quiet j _ hgood, hR.lock_quiet]
  obtain ⟨c2, he, q1, q2, q3, q4⟩ := hexec2
  obtain ⟨n, h1, h2, h3, h4, h5, h6⟩ := Config.exec_inside R.good R.relevant hR.unlock_quiet j
    (R.critical j) (hR.critical_section j) c2 (by rw [q3]; exact hgood) q1
  rw [q3] at h1 h4 h6
  refine ⟨[j, j] ++ (List.replicate n j ++ [j]), ?_⟩
  rw [Config.exec_append, Config.exec_append, he]
  generalize Config.exec (List.replicate n j) c2 = c3 at h1 h2 h3 h4 h5 h6
  have hmove3 : c3.move j = some (c3.advance j (c3.world.emit Event.Close) c3.held
      (Call.ret ((R.critical j).eval c.world.store).1)) := by
    simp only [Config.move, h1, Call.emit]
    rfl
  simp only [Config.exec, hmove3]
  refine ⟨Config.advance_calls_self _ _ _ _ _, ?_, h3, h4, h5, ?_⟩
  · rw [Config.advance_calls_not, h2, q2]
  · change (c3.world.trace ++ [Event.Close]).filter R.relevant = _
    rw [List.filter_append, h6, q4]
    simp [hR.close_quiet]

/-- Either call can be the first: there is a schedule under which the call
`i` takes the mutex first and both calls return, one after the other. -/
theorem Race.either (R : Race Store Model α) (hR : R.Lawful) (i : Bool) :
    ∃ schedule,
      ((Config.exec schedule (Config.start R.store R.enter)).calls i).returned
          = some (R.first i).1 ∧
        ((Config.exec schedule (Config.start R.store R.enter)).calls (!i)).returned
          = some (R.second i).1 ∧
        (Config.exec schedule (Config.start R.store R.enter)).world.store = (R.second i).2.1 ∧
        (Config.exec schedule (Config.start R.store R.enter)).world.trace.filter R.relevant
          = (R.first i).2.2.filter R.relevant ++ (R.second i).2.2.filter R.relevant := by
  obtain ⟨n, h1, h2, h3, h4, h5, h6⟩ := Config.exec_alone R hR i
    (Config.start R.store R.enter) hR.good_store rfl rfl
  obtain ⟨m, k1, k2, _, k4, _, k6⟩ := Config.exec_alone R hR (!i)
    (Config.exec n (Config.start R.store R.enter)) h5 h3
    (by rw [h2]; rfl)
  refine ⟨n ++ m, ?_⟩
  rw [Config.exec_append]
  rw [h4] at k1 k4 k6
  rw [h6] at k6
  refine ⟨?_, ?_, k4, ?_⟩
  · rw [Bool.not_not] at k2
    rw [k2, h1]
    rfl
  · rw [k1]
    rfl
  · rw [k6]
    rfl

end exclusion
/-! ## The handlers step by step do what the handlers do -/

section steps

variable {Store Body Model α : Type}

/-- The opening of a handler, step by step, run alone. -/
theorem withStorageClientCall_run (env : Env Store Body Model)
    (call : Call Store Model (Except status.Status α))
    (rest : World Store Model → Except status.Status α × World Store Model)
    (h : ∀ w, call.run w = rest w) (w : World Store Model) :
    (withStorageClientCall env call).run w = withStorageClient env w rest := by
  unfold withStorageClientCall withStorageClient
  cases hc : env.getStorageClient w.store with
  | error err => simp [Call.run, Call.eval, clientStep, afterClient, hc]
  | ok u =>
    have hr := h (w.emit Event.getStorageClient)
    simp only [Call.run, World.emit] at hr
    simp only [Call.run, Call.eval, clientStep, afterClient, hc, Call.eval_bind, Call.emit,
      World.emit]
    rw [← hr]
    simp

/-- The method `createDeployment`, step by step, run alone. -/
theorem createDeploymentCall_run (env : Env Store Body Model) (name : names.Deployment)
    (body : Body) (w : World Store Model) :
    (createDeploymentCall env name body).run w = createDeployment env w name body := by
  unfold createDeploymentCall createDeployment
  apply withStorageClientCall_run
  intro w
  simp only [Call.run, Call.read, Call.eval, World.emit]
  cases h1 : env.GetDeployment w.store name with
  | ok d => simp [Call.eval]
  | error err =>
    try simp only []
    by_cases h2 : env.isNotFound (some err) = true
    · simp only [h2, Bool.not_true, Bool.false_eq_true, if_false]
      cases h3 : env.Validate name with
      | error e => simp [Call.eval]
      | ok u =>
        simp only [Call.eval]
        cases h4 : env.GetApi w.store name.Api with
        | error e => simp [Call.eval]
        | ok u2 =>
          cases h5 : env.NewDeployment name body with
          | error e => simp [Call.eval]
          | ok deployment =>
            simp only [Call.eval, saveStep]
            cases h6 : env.SaveDeploymentRevision w.store deployment with
            | error e => simp [Call.eval]
            | ok store =>
              cases h7 : env.BasicMessage deployment (env.DeploymentString name) [] with
              | error e => simp [Call.eval]
              | ok message => simp [Call.eval, Call.emit]
    · simp [h2, Call.eval]

/-- The function `deploymentRevisionTags`, step by step, run alone. -/
theorem deploymentRevisionTagsCall_run (env : Env Store Body Model)
    (name : names.DeploymentRevision) (w : World Store Model) :
    (deploymentRevisionTagsCall env name).run w = deploymentRevisionTags env w name := by
  unfold deploymentRevisionTagsCall deploymentRevisionTags
  simp only [Call.run, Call.read, Call.eval, World.emit]
  cases h : env.GetDeploymentTags w.store name.Deployment with
  | error e => simp [Call.eval]
  | ok tags => simp [Call.eval]

/-- The use of the mutex, step by step, run alone. -/
theorem withUpdateDeploymentMutexCall_run (allowMissing : Bool)
    (call : Call Store Model (Except status.Status α))
    (rest : World Store Model → Except status.Status α × World Store Model)
    (h : ∀ w, call.run w = rest w) (w : World Store Model) :
    (withUpdateDeploymentMutexCall allowMissing call).run w =
      withUpdateDeploymentMutex allowMissing w rest := by
  unfold withUpdateDeploymentMutexCall withUpdateDeploymentMutex
  cases allowMissing with
  | false => simpa using h w
  | true =>
    have hr := h (w.emit Event.Lock)
    simp only [Call.run, World.emit] at hr
    simp only [if_true, Call.run, Call.eval, Call.eval_bind, World.emit]
    rw [← hr]
    simp

/-- UpdateApiDeployment, step by step and run alone, is UpdateApiDeployment. -/
theorem UpdateApiDeploymentCall_run (env : Env Store Body Model)
    (req : rpc.UpdateApiDeploymentRequest Body) (w : World Store Model) :
    (UpdateApiDeploymentCall env req).run w = UpdateApiDeployment env w req := by
  unfold UpdateApiDeploymentCall UpdateApiDeployment
  apply withStorageClientCall_run
  intro w
  unfold updateBody
  cases hb : req.ApiDeployment with
  | none => simp [Call.run, Call.eval]
  | some body =>
    try simp only []
    cases hm : env.ValidateMask body req.UpdateMask with
    | error e => simp [Call.run, Call.eval]
    | ok u =>
      try simp only []
      cases hn : env.ParseDeployment (env.GetName body) with
      | error e => simp [Call.run, Call.eval]
      | ok name =>
        try simp only []
        apply withUpdateDeploymentMutexCall_run
        intro w
        unfold updateSection
        simp only [Call.run, Call.read, Call.eval, World.emit]
        have hcreate := createDeploymentCall_run env name body
          { store := w.store, trace := w.trace ++ [Event.GetDeployment name] }
        simp only [Call.run] at hcreate
        cases h1 : env.GetDeployment w.store name with
        | error e =>
          by_cases hc : (req.AllowMissing && env.isNotFound (some e)) = true
          · simp only [hc, if_true]
            rw [← hcreate]
            simp
          · simp [hc, Call.eval]
        | ok deployment =>
          by_cases hc : (req.AllowMissing && env.isNotFound none) = true
          · simp only [hc, if_true]
            rw [← hcreate]
            simp
          · simp only [hc, Bool.false_eq_true, if_false]
            cases h2 : env.Update deployment body (env.ExpandMask body req.UpdateMask) with
            | error e => simp [Call.eval]
            | ok updated =>
              simp only [Call.eval, saveStep]
              cases h3 : env.SaveDeploymentRevision w.store updated with
              | error e => simp [Call.eval]
              | ok store =>
                simp only [Call.eval_bind]
                have h := deploymentRevisionTagsCall_run env
                  (name.Revision (env.RevisionID updated))
                  { store := store
                    trace := w.trace ++ [Event.GetDeployment name]
                      ++ [Event.SaveDeploymentRevision updated true] }
                simp only [Call.run] at h
                rw [← h]
                cases h4 : ((deploymentRevisionTagsCall env
                    (name.Revision (env.RevisionID updated))).eval store).1 with
                | error e => simp [Call.eval, h4]
                | ok tags =>
                  simp only [h4]
                  cases h5 : env.BasicMessage updated (env.DeploymentString name) tags with
                  | error e => simp [Call.eval, h4, h5]
                  | ok message => simp [Call.eval, Call.emit, World.emit, h4, h5]

end steps
/-! ## What `UpdateApiDeployment` does with the mutex held -/

section sections

variable {Store Body Model α β : Type}

theorem Call.Section.read (good : Store → Prop) (e : Event Model)
    (next : Store → Call Store Model α) (h : ∀ s, good s → Call.Section good (next s)) :
    Call.Section good (Call.read e next) :=
  Call.Section.atomic _ _ (fun _ hs => hs) h

theorem Call.Section.emit (good : Store → Prop) (e : Event Model)
    (next : Call Store Model α) (h : Call.Section good next) :
    Call.Section good (Call.emit e next) :=
  Call.Section.atomic _ _ (fun _ hs => hs) (fun _ _ => h)

theorem Call.Section.bind (good : Store → Prop) (X : Call Store Model α)
    (f : α → Call Store Model β) (hX : Call.Section good X)
    (hf : ∀ r, Call.Section good (f r)) : Call.Section good (X.bind f) := by
  induction hX with
  | ret a => exact hf a
  | atomic act next hg hn ih => exact Call.Section.atomic _ _ hg ih

theorem clientStep_store (env : Env Store Body Model) (s : Store) :
    (clientStep env s).1 = s := by
  unfold clientStep
  split <;> rfl

theorem clientStep_quiet (env : Env Store Body Model) (s : Store) :
    (clientStep env s).2.filter Event.isChange = [] := by
  unfold clientStep
  split <;> rfl

theorem withStorageClientCall_section (env : Env Store Body Model) (good : Store → Prop)
    (rest : Call Store Model (Except status.Status α)) (h : Call.Section good rest) :
    Call.Section good (withStorageClientCall env rest) := by
  refine Call.Section.atomic _ _ (fun s hs => by rw [clientStep_store]; exact hs) ?_
  intro s _
  unfold afterClient
  split
  · exact Call.Section.ret _
  · exact Call.Section.bind good _ _ h
      (fun r => Call.Section.emit good _ _ (Call.Section.ret _))

theorem createDeploymentCall_section (env : Env Store Body Model) (good : Store → Prop)
    (hsave : ∀ d s, good s → good (saveStep env d s).1) (name : names.Deployment)
    (body : Body) : Call.Section good (createDeploymentCall env name body) := by
  unfold createDeploymentCall
  apply withStorageClientCall_section
  apply Call.Section.read
  intro s _
  split
  · exact Call.Section.ret _
  · split
    · exact Call.Section.ret _
    · split
      · exact Call.Section.ret _
      · apply Call.Section.read
        intro s _
        split
        · exact Call.Section.ret _
        · split
          · exact Call.Section.ret _
          · refine Call.Section.atomic _ _ (fun s hs => hsave _ s hs) ?_
            intro s _
            split
            · exact Call.Section.ret _
            · split
              · exact Call.Section.ret _
              · exact Call.Section.emit good _ _ (Call.Section.ret _)

theorem updateSection_section (env : Env Store Body Model) (good : Store → Prop)
    (hsave : ∀ d s, good s → good (saveStep env d s).1)
    (req : rpc.UpdateApiDeploymentRequest Body) (body : Body) (name : names.Deployment) :
    Call.Section good (updateSection env req body name) := by
  unfold updateSection
  apply Call.Section.read
  intro s _
  simp only []
  split
  · exact createDeploymentCall_section env good hsave name body
  · split
    · exact Call.Section.ret _
    · split
      · exact Call.Section.ret _
      · refine Call.Section.atomic _ _ (fun s hs => hsave _ s hs) ?_
        intro s _
        split
        · exact Call.Section.ret _
        · refine Call.Section.bind good _ _ ?_ ?_
          · unfold deploymentRevisionTagsCall
            apply Call.Section.read
            intro s _
            split <;> exact Call.Section.ret _
          · intro r
            split
            · exact Call.Section.ret _
            · split
              · exact Call.Section.ret _
              · exact Call.Section.emit good _ _ (Call.Section.ret _)

/-- With the mutex held, a call with `allow_missing` for a name that the
store does not hold creates the deployment, when every step succeeds. -/
theorem updateSection_eval_create (env : Env Store Body Model) (store saved : Store)
    (req : rpc.UpdateApiDeploymentRequest Body) (body message : Body)
    (name : names.Deployment) (missing : status.Status) (created : Model)
    (hallow : req.AllowMissing = true)
    (hclient : env.getStorageClient store = Except.ok ())
    (hmissing : env.GetDeployment store name = Except.error missing)
    (hnotFound : env.isNotFound (some missing) = true)
    (hvalid : env.Validate name = Except.ok ())
    (hparent : env.GetApi store name.Api = Except.ok ())
    (hnew : env.NewDeployment name body = Except.ok created)
    (hsave : env.SaveDeploymentRevision store created = Except.ok saved)
    (hmessage : env.BasicMessage created (env.DeploymentString name) [] = Except.ok message) :
    (updateSection env req body name).eval store =
      (Except.ok message, saved,
        [Event.GetDeployment name, Event.getStorageClient, Event.GetDeployment name,
          Event.GetApi name.Api, Event.SaveDeploymentRevision created true,
          Event.notify rpc.Notification_ChangeType.CREATED (env.RevisionName created),
          Event.Close]) := by
  simp [updateSection, Call.read, Call.eval, hmissing, hallow, hnotFound, createDeploymentCall,
    withStorageClientCall, clientStep, afterClient, hclient, Call.eval_bind, hvalid, hparent,
    hnew, saveStep, hsave, hmessage, Call.emit]

/-- With the mutex held, a call for a name that the store holds updates the
deployment, when every step succeeds. -/
theorem updateSection_eval_update (env : Env Store Body Model) (store saved : Store)
    (req : rpc.UpdateApiDeploymentRequest Body) (body message : Body)
    (name : names.Deployment) (existing updated : Model)
    (allTags : List models.DeploymentRevisionTag)
    (hnil : env.isNotFound none = false)
    (hfound : env.GetDeployment store name = Except.ok existing)
    (hupdate : env.Update existing body (env.ExpandMask body req.UpdateMask) = Except.ok updated)
    (hsave : env.SaveDeploymentRevision store updated = Except.ok saved)
    (htags : env.GetDeploymentTags saved (name.Revision (env.RevisionID updated)).Deployment =
      Except.ok allTags)
    (hmessage : env.BasicMessage updated (env.DeploymentString name)
      (revisionTagsLoop (env.RevisionID updated) allTags []) = Except.ok message) :
    (updateSection env req body name).eval store =
      (Except.ok message, saved,
        [Event.GetDeployment name, Event.SaveDeploymentRevision updated true,
          Event.GetDeploymentTags (name.Revision (env.RevisionID updated)).Deployment,
          Event.notify rpc.Notification_ChangeType.UPDATED (env.RevisionName updated)]) := by
  have hrev : (name.Revision (env.RevisionID updated)).RevisionID = env.RevisionID updated := rfl
  simp [updateSection, Call.read, Call.eval, hfound, hnil, hupdate, saveStep, hsave,
    Call.eval_bind, deploymentRevisionTagsCall, htags, hrev, hmessage, Call.emit]

/-- Two valid calls with `allow_missing` for the same name are two calls that
take the same mutex. -/
theorem updateRace_lawful (env : Env Store Body Model) (store : Store)
    (first second : rpc.UpdateApiDeploymentRequest Body) (body₁ body₂ : Body)
    (name : names.Deployment)
    (hclient : env.getStorageClient store = Except.ok ())
    (hkeep : ∀ d s, env.getStorageClient s = Except.ok () →
      env.getStorageClient (saveStep env d s).1 = Except.ok ())
    (hbody₁ : first.ApiDeployment = some body₁) (hbody₂ : second.ApiDeployment = some body₂)
    (hallow₁ : first.AllowMissing = true) (hallow₂ : second.AllowMissing = true)
    (hmask₁ : env.ValidateMask body₁ first.UpdateMask = Except.ok ())
    (hmask₂ : env.ValidateMask body₂ second.UpdateMask = Except.ok ())
    (hname₁ : env.ParseDeployment (env.GetName body₁) = Except.ok name)
    (hname₂ : env.ParseDeployment (env.GetName body₂) = Except.ok name) :
    (updateRace env store first second body₁ body₂ name).Lawful where
  good_store := hclient
  enter_eq := fun _ => rfl
  pre_store := fun _ s _ => clientStep_store env s
  pre_quiet := fun _ s _ => clientStep_quiet env s
  after_eq := by
    intro i s hs
    have hs2 : env.getStorageClient s = Except.ok () := hs
    cases i
    · simp [updateRace, afterClient, hs2, updateBody, hbody₁, hmask₁, hname₁, hallow₁,
        withUpdateDeploymentMutexCall, Call.inside, Call.bind]
    · simp [updateRace, afterClient, hs2, updateBody, hbody₂, hmask₂, hname₂, hallow₂,
        withUpdateDeploymentMutexCall, Call.inside, Call.bind]
  critical_section := fun _ => updateSection_section env _ hkeep _ _ _
  lock_quiet := rfl
  unlock_quiet := rfl
  close_quiet := rfl

end sections
/-! ## Updates with `allow_missing` that run at the same time -/

theorem memory_inScope_self (x : String) : memory.inScope x x = true := by
  simp [memory.inScope]

theorem memory_sameDeployment_self (name : names.Deployment) (revision description : String) :
    memory.sameDeployment name
      { ProjectID := name.ProjectID, ApiID := name.ApiID, DeploymentID := name.DeploymentID,
        RevisionID := revision, Description := description } = true := by
  simp [memory.sameDeployment, memory_inScope_self]

/-- The registry in memory stays available when a revision is saved. -/
theorem memory_saveStep_available (d : memory.Deployment) (s : memory.Store)
    (h : memory.env.getStorageClient s = Except.ok ()) :
    memory.env.getStorageClient (saveStep memory.env d s).1 = Except.ok () := by
  simpa [saveStep, memory.env] using h

/-- A name that the registry in memory does not hold is the name of none of
its revisions. -/
theorem memory_missing (store : memory.Store) (name : names.Deployment)
    (h : memory.env.GetDeployment store name =
      Except.error (memory.notFound (memory.DeploymentString name))) :
    ∀ e ∈ store.deployments, memory.sameDeployment name e = false := by
  have hfind : store.deployments.find? (memory.sameDeployment name) = none := by
    cases hf : store.deployments.find? (memory.sameDeployment name) with
    | none => rfl
    | some d =>
      simp only [memory.env, hf] at h
      exact absurd h (by simp)
  intro e he
  have := List.find?_eq_none.mp hfind e he
  simpa using this

/-- What the update of a revision of the registry in memory keeps. -/
theorem memory_Update (d : memory.Deployment) (body : memory.ApiDeployment)
    (paths : List String) :
    ∃ description, memory.env.Update d body paths =
      Except.ok { ProjectID := d.ProjectID, ApiID := d.ApiID, DeploymentID := d.DeploymentID,
                  RevisionID := d.RevisionID, Description := description } := by
  have e : memory.env.Update d body paths =
      Except.ok (if paths.contains "description" then { d with Description := body.Description }
        else d) := rfl
  by_cases h : paths.contains "description" = true
  · exact ⟨body.Description, by rw [e, if_pos h]⟩
  · exact ⟨d.Description, by rw [e, if_neg h]⟩

/-- On the registry in memory, a call with `allow_missing` for a name that the
store does not hold, followed by a call for the same name on the store that it
has left: one deployment is created and then updated. -/
theorem memory_created_then_updated (store : memory.Store) (name : names.Deployment)
    (creating updating : rpc.UpdateApiDeploymentRequest memory.ApiDeployment)
    (body₁ body₂ : memory.ApiDeployment)
    (havailable : store.available = true)
    (hallow₁ : creating.AllowMissing = true)
    (hmissing : memory.env.GetDeployment store name =
      Except.error (memory.notFound (memory.DeploymentString name)))
    (hvalid : memory.env.Validate name = Except.ok ())
    (hparent : memory.env.GetApi store name.Api = Except.ok ())
    (w : World memory.Store memory.Deployment)
    (hstore : w.store =
      ((updateSection memory.env updating body₂ name).eval
        ((updateSection memory.env creating body₁ name).eval store).2.1).2.1)
    (htrace : w.trace.filter Event.isChange =
      ((updateSection memory.env creating body₁ name).eval store).2.2.filter Event.isChange ++
        ((updateSection memory.env updating body₂ name).eval
          ((updateSection memory.env creating body₁ name).eval store).2.1).2.2.filter
            Event.isChange) :
    memory.CreatedThenUpdated store name body₁ body₂ updating.UpdateMask
      ((updateSection memory.env creating body₁ name).eval store).1
      ((updateSection memory.env updating body₂ name).eval
        ((updateSection memory.env creating body₁ name).eval store).2.1).1 w := by
  have hclient : memory.env.getStorageClient store = Except.ok () := by
    simp [memory.env, havailable]
  obtain ⟨new, hnew⟩ : ∃ new : memory.Deployment, new =
      { ProjectID := name.ProjectID, ApiID := name.ApiID, DeploymentID := name.DeploymentID,
        RevisionID := "1a2b3c4d", Description := body₁.Description } := ⟨_, rfl⟩
  obtain ⟨saved, hsaved⟩ : ∃ saved : memory.Store, saved =
      { store with
        deployments := new :: store.deployments.filter
          (fun e => !(memory.sameDeployment new.name e && e.RevisionID = new.RevisionID)) } :=
    ⟨_, rfl⟩
  have hN : memory.env.NewDeployment name body₁ = Except.ok new := by rw [hnew]; rfl
  have hS : memory.env.SaveDeploymentRevision store new = Except.ok saved := by rw [hsaved]; rfl
  have hsame : memory.sameDeployment name new = true := by
    rw [hnew]
    exact memory_sameDeployment_self name _ _
  have hG : memory.env.GetDeployment saved name = Except.ok new := by
    simp [memory.env, hsaved, List.find?, hsame]
  obtain ⟨description, hU⟩ := memory_Update new body₂
    (memory.env.ExpandMask body₂ updating.UpdateMask)
  obtain ⟨changed, hchanged⟩ : ∃ changed : memory.Deployment, changed =
      { ProjectID := new.ProjectID, ApiID := new.ApiID, DeploymentID := new.DeploymentID,
        RevisionID := new.RevisionID, Description := description } := ⟨_, rfl⟩
  rw [← hchanged] at hU
  obtain ⟨final, hfinal⟩ : ∃ final : memory.Store, final =
      { saved with
        deployments := changed :: saved.deployments.filter
          (fun e => !(memory.sameDeployment changed.name e
            && e.RevisionID = changed.RevisionID)) } := ⟨_, rfl⟩
  have hS2 : memory.env.SaveDeploymentRevision saved changed = Except.ok final := by
    rw [hfinal]; rfl
  obtain ⟨tags, hT⟩ : ∃ tags, memory.env.GetDeploymentTags final name = Except.ok tags :=
    ⟨_, rfl⟩
  have hM1 : memory.env.BasicMessage new (memory.DeploymentString name) [] =
      Except.ok { Name := memory.DeploymentString name, Description := new.Description,
                  RevisionId := new.RevisionID, RevisionTags := [] } := rfl
  have hM2 : memory.env.BasicMessage changed (memory.DeploymentString name)
      (revisionTagsLoop changed.RevisionID tags []) =
      Except.ok { Name := memory.DeploymentString name, Description := changed.Description,
                  RevisionId := changed.RevisionID,
                  RevisionTags := revisionTagsLoop changed.RevisionID tags [] } := rfl
  have e1 := updateSection_eval_create memory.env store saved creating body₁ _ name _ new
    hallow₁ hclient hmissing rfl hvalid hparent hN hS hM1
  have e2 := updateSection_eval_update memory.env saved final updating body₂ _ name new changed
    tags rfl hG hU hS2 hT hM2
  rw [e1] at hstore htrace ⊢
  simp only [] at hstore htrace ⊢
  rw [e2] at hstore htrace ⊢
  have honly : final.deployments.filter (memory.sameDeployment name) = [changed] := by
    have hmiss := memory_missing store name hmissing
    have hsame2 : memory.sameDeployment name changed = true := by
      rw [hchanged, hnew]
      exact memory_sameDeployment_self name _ _
    have hnewname : memory.sameDeployment changed.name new = true := by
      rw [hchanged, hnew]
      simp [memory.Deployment.name, memory.sameDeployment, memory_inScope_self]
    have hrev : new.RevisionID = changed.RevisionID := by rw [hchanged]
    rw [hfinal, hsaved]
    simp only [List.filter_cons, hsame2, if_true, hnewname, hrev, decide_True, Bool.and_self,
      Bool.not_true, Bool.false_eq_true, if_false, List.cons.injEq, true_and,
      List.filter_eq_nil_iff]
    intro e he
    have he2 := List.mem_of_mem_filter (List.mem_of_mem_filter he)
    simp [hmiss e he2]
  refine ⟨new, saved, changed, final, tags, _, _, hN, hS, hG, hU, hS2, hT, hM1, hM2, rfl, rfl,
    hstore, ?_, ?_, ?_⟩
  · rw [hfinal]
    exact List.mem_cons_self _ _
  · intro e he hsame3
    have hmem : e ∈ final.deployments.filter (memory.sameDeployment name) :=
      List.mem_filter.mpr ⟨he, hsame3⟩
    rw [honly] at hmem
    exact Or.inr (List.mem_singleton.mp hmem)
  · rw [htrace]
    rfl

/-- C14: two valid calls of `UpdateApiDeployment` with `allow_missing` for the
same name, which the store does not hold while the ID is valid and the parent
exists, run at the same time on the registry in memory, the steps of the two
calls in any order that `updateDeploymentMutex` admits.  Under every schedule
after which both calls have returned, one call has created the deployment and
the other has found the deployment that the first has created and has updated
it: both return a message, so neither returns `AlreadyExists`, exactly one
deployment is created and one notification `CREATED` is emitted, and the store
holds no revision of the deployment but those that the two calls have saved.
Either call can be the one that creates: for each of the two there is such a
schedule. -/
theorem allow_missing_updates_create_once (store : memory.Store) (name : names.Deployment)
    (first second : rpc.UpdateApiDeploymentRequest memory.ApiDeployment)
    (body₁ body₂ : memory.ApiDeployment)
    (havailable : store.available = true)
    (hbody₁ : first.ApiDeployment = some body₁) (hbody₂ : second.ApiDeployment = some body₂)
    (hallow₁ : first.AllowMissing = true) (hallow₂ : second.AllowMissing = true)
    (hmask₁ : memory.env.ValidateMask body₁ first.UpdateMask = Except.ok ())
    (hmask₂ : memory.env.ValidateMask body₂ second.UpdateMask = Except.ok ())
    (hname₁ : memory.ParseDeployment body₁.Name = Except.ok name)
    (hname₂ : memory.ParseDeployment body₂.Name = Except.ok name)
    (hmissing : memory.env.GetDeployment store name =
      Except.error (memory.notFound (memory.DeploymentString name)))
    (hvalid : memory.env.Validate name = Except.ok ())
    (hparent : memory.env.GetApi store name.Api = Except.ok ()) :
    (∀ schedule r₁ r₂,
      (Config.exec schedule (concurrentUpdates memory.env store first second)).results
          = some (r₁, r₂) →
        memory.CreatedThenUpdated store name body₁ body₂ second.UpdateMask r₁ r₂
            (Config.exec schedule (concurrentUpdates memory.env store first second)).world ∨
          memory.CreatedThenUpdated store name body₂ body₁ first.UpdateMask r₂ r₁
            (Config.exec schedule (concurrentUpdates memory.env store first second)).world) ∧
      (∃ schedule r₁ r₂,
        (Config.exec schedule (concurrentUpdates memory.env store first second)).results
            = some (r₁, r₂) ∧
          memory.CreatedThenUpdated store name body₁ body₂ second.UpdateMask r₁ r₂
            (Config.exec schedule (concurrentUpdates memory.env store first second)).world) ∧
      (∃ schedule r₁ r₂,
        (Config.exec schedule (concurrentUpdates memory.env store first second)).results
            = some (r₁, r₂) ∧
          memory.CreatedThenUpdated store name body₂ body₁ first.UpdateMask r₂ r₁
            (Config.exec schedule (concurrentUpdates memory.env store first second)).world) := by
  have hclient : memory.env.getStorageClient store = Except.ok () := by
    simp [memory.env, havailable]
  have hR := updateRace_lawful memory.env store first second body₁ body₂ name hclient
    memory_saveStep_available hbody₁ hbody₂ hallow₁ hallow₂ hmask₁ hmask₂ hname₁ hname₂
  have hfirst : ∀ w : World memory.Store memory.Deployment,
      w.store = ((updateRace memory.env store first second body₁ body₂ name).second false).2.1 →
      w.trace.filter Event.isChange =
        ((updateRace memory.env store first second body₁ body₂ name).first false).2.2.filter
            Event.isChange ++
          ((updateRace memory.env store first second body₁ body₂ name).second false).2.2.filter
            Event.isChange →
      memory.CreatedThenUpdated store name body₁ body₂ second.UpdateMask
        ((updateRace memory.env store first second body₁ body₂ name).first false).1
        ((updateRace memory.env store first second body₁ body₂ name).second false).1 w :=
    fun w hs ht => memory_created_then_updated store name first second body₁ body₂ havailable
      hallow₁ hmissing hvalid hparent w hs ht
  have hsecond : ∀ w : World memory.Store memory.Deployment,
      w.store = ((updateRace memory.env store first second body₁ body₂ name).second true).2.1 →
      w.trace.filter Event.isChange =
        ((updateRace memory.env store first second body₁ body₂ name).first true).2.2.filter
            Event.isChange ++
          ((updateRace memory.env store first second body₁ body₂ name).second true).2.2.filter
            Event.isChange →
      memory.CreatedThenUpdated store name body₂ body₁ first.UpdateMask
        ((updateRace memory.env store first second body₁ body₂ name).first true).1
        ((updateRace memory.env store first second body₁ body₂ name).second true).1 w :=
    fun w hs ht => memory_created_then_updated store name second first body₂ body₁ havailable
      hallow₂ hmissing hvalid hparent w hs ht
  refine ⟨?_, ?_, ?_⟩
  · intro schedule r₁ r₂ hdone
    rcases Race.serial (updateRace memory.env store first second body₁ body₂ name) hR schedule
      r₁ r₂ hdone with ⟨h1, h2, h3, h4⟩ | ⟨h1, h2, h3, h4⟩
    · left
      rw [h1, h2]
      exact hfirst _ h3 h4
    · right
      rw [h1, h2]
      exact hsecond _ h3 h4
  · obtain ⟨schedule, h1, h2, h3, h4⟩ :=
      Race.either (updateRace memory.env store first second body₁ body₂ name) hR false
    refine ⟨schedule, _, _, ?_, hfirst _ h3 h4⟩
    unfold Config.results
    have h1b : ((Config.exec schedule
        (concurrentUpdates memory.env store first second)).calls false).returned = _ := h1
    have h2b : ((Config.exec schedule
        (concurrentUpdates memory.env store first second)).calls true).returned = _ := h2
    rw [h1b, h2b]
  · obtain ⟨schedule, h1, h2, h3, h4⟩ :=
      Race.either (updateRace memory.env store first second body₁ body₂ name) hR true
    refine ⟨schedule, _, _, ?_, hsecond _ h3 h4⟩
    unfold Config.results
    have h1b : ((Config.exec schedule
        (concurrentUpdates memory.env store first second)).calls true).returned = _ := h1
    have h2b : ((Config.exec schedule
        (concurrentUpdates memory.env store first second)).calls false).returned = _ := h2
    rw [h1b, h2b]

theorem allow_missing_updates_create_once_witness :
    ((Config.exec
          [true, false, false, true, true, false, false, false, false, false, false, true,
            false, false, true, false, true, true, true, true, true, true, true]
          (concurrentUpdates memory.env memory.seededApi (memory.upsert "one")
            (memory.upsert "two"))).results =
        some (Except.ok ⟨memory.myDeployment, "one", "1a2b3c4d", []⟩,
          Except.ok ⟨memory.myDeployment, "two", "1a2b3c4d", []⟩) ∧
      (Config.exec
          [true, false, false, true, true, false, false, false, false, false, false, true,
            false, false, true, false, true, true, true, true, true, true, true]
          (concurrentUpdates memory.env memory.seededApi (memory.upsert "one")
            (memory.upsert "two"))).world.store = memory.holding [memory.revision "two"]) ∧
    (memory.CreatedThenUpdated memory.seededApi ⟨"my-project", "a", "my-deployment"⟩
        ⟨memory.myDeployment, "one", "", []⟩ ⟨memory.myDeployment, "two", "", []⟩ none
        (Except.ok ⟨memory.myDeployment, "one", "1a2b3c4d", []⟩)
        (Except.ok ⟨memory.myDeployment, "two", "1a2b3c4d", []⟩)
        (Config.exec
          [true, false, false, true, true, false, false, false, false, false, false, true,
            false, false, true, false, true, true, true, true, true, true, true]
          (concurrentUpdates memory.env memory.seededApi (memory.upsert "one")
            (memory.upsert "two"))).world ∨
      memory.CreatedThenUpdated memory.seededApi ⟨"my-project", "a", "my-deployment"⟩
        ⟨memory.myDeployment, "two", "", []⟩ ⟨memory.myDeployment, "one", "", []⟩ none
        (Except.ok ⟨memory.myDeployment, "two", "1a2b3c4d", []⟩)
        (Except.ok ⟨memory.myDeployment, "one", "1a2b3c4d", []⟩)
        (Config.exec
          [true, false, false, true, true, false, false, false, false, false, false, true,
            false, false, true, false, true, true, true, true, true, true, true]
          (concurrentUpdates memory.env memory.seededApi (memory.upsert "one")
            (memory.upsert "two"))).world) ∧
    ((Config.exec
          [true, true, false, true, true, true, true, true, true, true, true, true,
            false, false, false, false, false, false, false]
          (concurrentUpdates memory.env memory.seededApi (memory.upsert "one")
            (memory.upsert "two"))).results =
        some (Except.ok ⟨memory.myDeployment, "one", "1a2b3c4d", []⟩,
          Except.ok ⟨memory.myDeployment, "two", "1a2b3c4d", []⟩) ∧
      (Config.exec
          [true, true, false, true, true, true, true, true, true, true, true, true,
            false, false, false, false, false, false, false]
          (concurrentUpdates memory.env memory.seededApi (memory.upsert "one")
            (memory.upsert "two"))).world.store = memory.holding [memory.revision "one"]) :=
  ⟨by decide,
    (allow_missing_updates_create_once memory.seededApi ⟨"my-project", "a", "my-deployment"⟩
      (memory.upsert "one") (memory.upsert "two") ⟨memory.myDeployment, "one", "", []⟩
      ⟨memory.myDeployment, "two", "", []⟩ (by decide) rfl rfl rfl rfl (by decide) (by decide)
      (by decide) (by decide) (by decide) (by decide) (by decide)).1 _ _ _ (by decide),
    by decide⟩

/-- Without the mutex the two calls race: under the schedule in which both
calls read the store before either creates the deployment, the second call goes
on to create the deployment that the first has created in the meantime, and
returns `AlreadyExists`. -/
theorem UpdateApiDeployment_races_without_mutex :
    (Config.exec
        [false, true, false, true, false, false, false, false, false, false, false, false,
          true, true, true, true, true]
        (concurrentUpdatesUnlocked memory.env memory.seededApi (memory.upsert "one")
          (memory.upsert "two"))).results =
      some (Except.ok ⟨memory.myDeployment, "one", "1a2b3c4d", []⟩,
        Except.error (status.Errorf codes.Code.AlreadyExists "API deployment %q already exists"
          [FmtArg.str memory.myDeployment])) := by
  decide
